import Mathlib

/-!
Torque AST generator (`src/torque/ast-generator.cc`).

A shallow embedding of the tree transformation that turns the ANTLR parse tree of
a Torque source file into the Torque AST, together with theorems about it.

Conventions of the embedding.

* `std::string` is `String`; the byte sequence of a string is its `data`.
* A fatal exit of the C++ program (`UNREACHABLE()`, a failed `assert`, a failed
  downcast, a null dereference) is `Except.error` with the `Fault` naming it;
  a normal return is `Except.ok`.
* The parse tree classes (`TorqueParser::...Context`) are generated from the
  grammar and are not part of the translated file.  Each one is modelled by the
  accessors the code calls on it: a child the code tests for null is an `Option`
  (or a `Bool` when only presence is used), a child the code dereferences
  unconditionally is mandatory, and where the code first tests one child and
  then dereferences others, the alternatives are separate constructors.
  A terminal node is represented by the text of its symbol.
-/

namespace Torque

/-! ## Faults -/

/-- The ways the C++ code can leave the normal path. -/
inductive Fault where
  /-- The statement `UNREACHABLE()` was executed. -/
  | unreachable
  /-- An `assert(...)` failed. -/
  | assertion
  /-- A checked AST downcast (`T::cast`) was applied to a node of another kind. -/
  | badCast
  /-- A null or uninitialised pointer was dereferenced. -/
  | nullDereference
  /-- The token stream was indexed outside its bounds. -/
  | indexOutOfBounds
deriving DecidableEq, Repr

/-! ## Literal decoder -/

/-- The backslash character. -/
def backslash : Char := Char.ofNat 92
/-- The double quote character. -/
def dquote : Char := Char.ofNat 34
/-- The single quote character. -/
def squote : Char := Char.ofNat 39
/-- The newline character. -/
def newline : Char := Char.ofNat 10
/-- The carriage return character. -/
def carriageReturn : Char := Char.ofNat 13
/-- The tab character. -/
def tab : Char := Char.ofNat 9

/-- Value of `s[i]` for `std::string`: the character at `i`, and the terminating
NUL at `i = s.length()`. -/
def charAt (s : List Char) (i : Nat) : Char := s.getD i (Char.ofNat 0)

/-- The `for` loop of `StringLiteralUnquote`, lines 41-64: `i` is the loop
variable, `result` the contents of the string stream.  The first argument bounds
the number of iterations; every iteration increases `i`, so `s.length` iterations
always suffice. -/
def StringLiteralUnquote.loop (s : List Char) :
    Nat → Nat → List Char → Except Fault (List Char)
  | 0, _, result => .ok result
  | fuel + 1, i, result =>
    if i < s.length - 1 then
      if charAt s i = backslash then
        -- `switch (s[++i])`
        let c := charAt s (i + 1)
        if c = 'n' then StringLiteralUnquote.loop s fuel (i + 2) (result ++ [newline])
        else if c = 'r' then
          StringLiteralUnquote.loop s fuel (i + 2) (result ++ [carriageReturn])
        else if c = 't' then StringLiteralUnquote.loop s fuel (i + 2) (result ++ [tab])
        else if c = squote ∨ c = dquote ∨ c = backslash then
          StringLiteralUnquote.loop s fuel (i + 2) (result ++ [c])
        else .error .unreachable
      else StringLiteralUnquote.loop s fuel (i + 1) (result ++ [charAt s i])
    else .ok result

/-- Translation of `StringLiteralUnquote` (lines 37-66).  The two `assert`s are
kept as checks; on the empty string (where `front()` has no character to look
at) they count as failed. -/
def StringLiteralUnquote (s : String) : Except Fault String :=
  match s.data.head?, s.data.getLast? with
  | some f, some l =>
    if (f = dquote ∨ f = squote) ∧ (l = dquote ∨ l = squote) then
      (StringLiteralUnquote.loop s.data s.data.length 1 []).map String.mk
    else .error .assertion
  | _, _ => .error .assertion

/-- Suffix view of the loop: the outcome of the loop when the characters from
position `i` on are the given list (whose last element is the closing quote). -/
def unquoteSuffix : List Char → Except Fault (List Char)
  | [] => .ok []
  | [_] => .ok []
  | c :: d :: rest =>
    if c = backslash then
      if d = 'n' then (unquoteSuffix rest).map (newline :: ·)
      else if d = 'r' then (unquoteSuffix rest).map (carriageReturn :: ·)
      else if d = 't' then (unquoteSuffix rest).map (tab :: ·)
      else if d = squote ∨ d = dquote ∨ d = backslash then
        (unquoteSuffix rest).map (d :: ·)
      else .error .unreachable
    else (unquoteSuffix (d :: rest)).map (c :: ·)

/-- The escaping of one character, as the round-trip property states it. -/
def escChar (c : Char) : List Char :=
  if c = newline then [backslash, 'n']
  else if c = carriageReturn then [backslash, 'r']
  else if c = tab then [backslash, 't']
  else if c = squote then [backslash, squote]
  else if c = dquote then [backslash, dquote]
  else if c = backslash then [backslash, backslash]
  else [c]

/-- The escaping `esc` of a payload: every character replaced by `escChar`. -/
def esc (p : List Char) : List Char := p.flatMap escChar

/-- The characters that may follow a backslash in a literal. -/
def recognised (c : Char) : Bool :=
  c = 'n' || c = 'r' || c = 't' || c = squote || c = dquote || c = backslash

/-- The payload of a literal: the text between its first and last character. -/
def payload (s : String) : List Char := (s.data.drop 1).dropLast

/-- A text in which every backslash starts a recognised two-character escape. -/
def wellEscaped : List Char → Bool
  | [] => true
  | [c] => c != backslash
  | c :: d :: rest =>
    if c = backslash then recognised d && wellEscaped rest
    else wellEscaped (d :: rest)

/-- The string is delimited by quote characters: its first and its last
character are each a single or a double quote. -/
def quoteDelimited (s : String) : Prop :=
  (s.data.head? = some squote ∨ s.data.head? = some dquote) ∧
  (s.data.getLast? = some squote ∨ s.data.getLast? = some dquote)

instance (s : String) : Decidable (quoteDelimited s) := by
  unfold quoteDelimited
  infer_instance

/-- Some backslash of the text is immediately followed by a character that is
not one of `n`, `r`, `t`, the quotes and the backslash. -/
def backslashBeforeUnrecognised : List Char → Bool
  | [] => false
  | [_] => false
  | c :: d :: rest =>
    (c = backslash && !recognised d) || backslashBeforeUnrecognised (d :: rest)

/-- The literal made of a double quote, two backslashes, `x` and a double quote. -/
def escapedBackslashLiteral : String :=
  String.mk [dquote, backslash, backslash, 'x', dquote]

/-! ## AST node model

The node types of `ast.h`, which is not part of the translated file.  Their fields
are those the constructor calls of `ast-generator.cc` fill, in the same order. -/

/-- Identifier of a registered source file. -/
abbrev SourceId := Nat

/-- A position in a source file. -/
structure SourcePosition where
  source : SourceId
  line : Int
  column : Int
deriving DecidableEq, Repr

/-- Modelled from the spec: the record ParameterList of section 3, with fields
`names`, `types`, `has_varargs` and the optional name bound to the variadic rest
(`arguments_variable` in the code).  `ast.h`, which declares it, is missing. -/
structure ParameterList where
  names : List String
  types : List String
  has_varargs : Bool
  arguments_variable : Option String
deriving DecidableEq, Repr

/-- The value-initialised `ParameterList()`. -/
def ParameterList.default : ParameterList := ⟨[], [], false, none⟩

/-- A label name with the types of its parameters (`LabelAndTypes`). -/
structure LabelAndTypes where
  name : String
  types : List String
deriving DecidableEq, Repr

/-- The operator of an increment or decrement expression. -/
inductive IncrementDecrementOperator where
  | kIncrement
  | kDecrement
deriving DecidableEq, Repr

/-- Expression nodes. -/
inductive Expression where
  | NumberLiteralExpression (pos : SourcePosition) (number : String)
  | StringLiteralExpression (pos : SourcePosition) (literal : String)
  | CallExpression (pos : SourcePosition) (callee : String) (is_operator : Bool)
      (arguments : List Expression) (labels : List String)
  | ConvertExpression (pos : SourcePosition) (type : String) (value : Expression)
  | CastExpression (pos : SourcePosition) (type : String) (otherwise : String)
      (value : Expression)
  | IdentifierExpression (pos : SourcePosition) (name : String)
  | FieldAccessExpression (pos : SourcePosition) (object : Expression) (field : String)
  | ElementAccessExpression (pos : SourcePosition) (array : Expression)
      (index : Expression)
  | AssignmentExpression (pos : SourcePosition) (location : Expression)
      (op : Option String) (value : Expression)
  | IncrementDecrementExpression (pos : SourcePosition) (location : Expression)
      (op : IncrementDecrementOperator) (postfix_ : Bool)
  | LogicalAndExpression (pos : SourcePosition) (left : Expression) (right : Expression)
  | LogicalOrExpression (pos : SourcePosition) (left : Expression) (right : Expression)
  | ConditionalExpression (pos : SourcePosition) (condition : Expression)
      (if_true : Expression) (if_false : Expression)

/-- The node is of one of the three location kinds: identifier, field access or
element access. -/
def Expression.isLocation : Expression → Bool
  | .IdentifierExpression _ _ => true
  | .FieldAccessExpression _ _ _ => true
  | .ElementAccessExpression _ _ _ => true
  | _ => false

/-- The node is a call. -/
def Expression.isCall : Expression → Bool
  | .CallExpression _ _ _ _ _ => true
  | _ => false

/-- Modelled from the spec: `LocationExpression::cast` of the missing `ast.h`.
Section 3: a value of kind Identifier, FieldAccess or ElementAccess is the only
valid target; downcasting any other expression kind into this role is a contract
violation, which section 7 makes a fatal internal error. -/
def LocationExpression.cast (e : Expression) : Except Fault Expression :=
  if e.isLocation then .ok e else .error .badCast

/-- Modelled from the spec: `CallExpression::cast` of the missing `ast.h`, the
checked downcast to a call node; on any other kind it is the fatal internal
error of section 7. -/
def CallExpression.cast (e : Expression) : Except Fault Expression :=
  if e.isCall then .ok e else .error .badCast

/-- The node `VarDeclarationStatement`: name, type name, optional initializer. -/
structure VarDeclarationStatement where
  pos : SourcePosition
  name : String
  type : String
  initializer : Option Expression

mutual
/-- Statement nodes. -/
inductive Statement where
  | BlockStatement (pos : SourcePosition) (deferred : Bool) (statements : List Statement)
  | ExpressionStatement (pos : SourcePosition) (expression : Expression)
  | VarDeclarationStatement (s : VarDeclarationStatement)
  | ReturnStatement (pos : SourcePosition) (value : Expression)
  | BreakStatement (pos : SourcePosition)
  | ContinueStatement (pos : SourcePosition)
  | GotoStatement (pos : SourcePosition) (label : Option String)
      (arguments : List Expression)
  | IfStatement (pos : SourcePosition) (condition : Expression) (if_true : Statement)
      (if_false : Option Statement)
  | WhileStatement (pos : SourcePosition) (condition : Expression) (body : Statement)
  | ForLoopStatement (pos : SourcePosition)
      (var_declaration : Option VarDeclarationStatement) (test : Expression)
      (action : Expression) (body : Statement)
  | ForOfLoopStatement (pos : SourcePosition) (var_declaration : VarDeclarationStatement)
      (iterable : Expression) (begin_ : Option Expression) (end_ : Option Expression)
      (body : Statement)
  | TryCatchStatement (pos : SourcePosition) (try_block : Statement)
      (catch_blocks : List CatchBlock) (label_blocks : List LabelBlock)
  | TailCallStatement (pos : SourcePosition) (call : Expression)
/-- A `catch` handler of a try statement. -/
inductive CatchBlock where
  | mk (pos : SourcePosition) (caught : String) (block : Statement)
/-- A `label` handler of a try statement. -/
inductive LabelBlock where
  | mk (pos : SourcePosition) (label : String) (parameters : ParameterList)
      (block : Statement)
end

/-- The caught identifier of a catch block. -/
def CatchBlock.caught : CatchBlock → String
  | .mk _ caught _ => caught

/-- The position of a catch block. -/
def CatchBlock.pos : CatchBlock → SourcePosition
  | .mk pos _ _ => pos

/-- The body of a catch block. -/
def CatchBlock.block : CatchBlock → Statement
  | .mk _ _ block => block

/-- The label name of a label block. -/
def LabelBlock.label : LabelBlock → String
  | .mk _ label _ _ => label

/-- The position of a label block. -/
def LabelBlock.pos : LabelBlock → SourcePosition
  | .mk pos _ _ _ => pos

/-- The parameters of a label block. -/
def LabelBlock.parameters : LabelBlock → ParameterList
  | .mk _ _ parameters _ => parameters

/-- The body of a label block. -/
def LabelBlock.block : LabelBlock → Statement
  | .mk _ _ _ block => block

/-- Modelled from the spec: `VarDeclarationStatement::cast` of the missing
`ast.h`, the checked downcast of a statement to a variable declaration; on any
other kind it is the fatal internal error of section 7. -/
def VarDeclarationStatement.cast : Statement → Except Fault VarDeclarationStatement
  | .VarDeclarationStatement s => .ok s
  | _ => .error .badCast

/-- Declaration nodes. -/
inductive Declaration where
  | ExplicitModuleDeclaration (pos : SourcePosition) (name : String)
      (declarations : List Declaration)
  | MacroDeclaration (pos : SourcePosition) (name : String) (parameters : ParameterList)
      (return_type : String) (labels : List LabelAndTypes) (body : Statement)
  | BuiltinDeclaration (pos : SourcePosition) (javascript_linkage : Bool) (name : String)
      (parameters : ParameterList) (return_type : String) (body : Statement)
  | ExternalMacroDeclaration (pos : SourcePosition) (name : String) (implicit : Bool)
      (op : Option String) (parameters : ParameterList) (return_type : String)
      (labels : List LabelAndTypes)
  | ExternalBuiltinDeclaration (pos : SourcePosition) (javascript_linkage : Bool)
      (name : String) (parameters : ParameterList) (return_type : String)
  | ExternalRuntimeDeclaration (pos : SourcePosition) (name : String)
      (parameters : ParameterList) (return_type : String)
  | ConstDeclaration (pos : SourcePosition) (name : String) (type : String)
      (literal : String)
  | TypeDeclaration (pos : SourcePosition) (name : String) (extends_ : Option String)
      (generates : Option String)

/-- Modelled from the spec: the class `Ast` of the missing `ast.h`, holding the
shared ordered collection of declarations and the Source Registry, the
append-only list of source files of section 4.1. -/
structure Ast where
  declarations_ : List Declaration
  sources_ : List String

/-- Modelled from the spec: `Ast::AddSource`, the `register(name) -> file_id` of
section 4.1: appends a new source file and returns a fresh identifier, the index
of the new entry. -/
def Ast.AddSource (ast : Ast) (path : String) : Ast × SourceId :=
  ({ ast with sources_ := ast.sources_ ++ [path] }, ast.sources_.length)

/-! ## Parse tree

The contexts of the generated parser.  The field `a` of a context is the start
`getSourceInterval().a` of its token span; it is kept on the contexts whose
position the code resolves. -/

/-- A token of the token stream: only its line and its column are read. -/
structure Token where
  getLine : Nat
  getCharPositionInLine : Nat
deriving DecidableEq, Repr

/-- Rule `type`: an identifier. -/
structure TypeContext where
  IDENTIFIER : String
deriving DecidableEq, Repr

/-- Rule `typeList`. -/
structure TypeListContext where
  type : List TypeContext
deriving DecidableEq, Repr

/-- Rule `typeListMaybeVarArgs`. -/
structure TypeListMaybeVarArgsContext where
  type : List TypeContext
  VARARGS : Bool
deriving DecidableEq, Repr

/-- Rule `labelParameter`: a label name with an optional type list. -/
structure LabelParameterContext where
  IDENTIFIER : String
  typeList : Option TypeListContext
deriving DecidableEq, Repr

/-- Rule `optionalType`. -/
structure OptionalTypeContext where
  type : Option TypeContext
deriving DecidableEq, Repr

/-- Rule `optionalLabelList`. -/
structure OptionalLabelListContext where
  labelParameter : List LabelParameterContext
deriving DecidableEq, Repr

/-- Rule `optionalOtherwise`: the label names after `otherwise`. -/
structure OptionalOtherwiseContext where
  IDENTIFIER : List String
deriving DecidableEq, Repr

/-- Rule `parameter`: a name and a type. -/
structure ParameterContext where
  IDENTIFIER : String
  type : TypeContext
deriving DecidableEq, Repr

/-- Rule `parameterList`.  `IDENTIFIER()` is dereferenced exactly when `VARARGS()`
is present, so the variadic marker comes with its identifier. -/
inductive ParameterListContext where
  | plain (parameter : List ParameterContext)
  | varargs (parameter : List ParameterContext) (IDENTIFIER : String)
deriving DecidableEq, Repr

/-- Rule `labelDeclaration`. -/
structure LabelDeclarationContext where
  IDENTIFIER : String
  parameterList : Option ParameterListContext
deriving DecidableEq, Repr

/-- Rule `labelReference`. -/
structure LabelReferenceContext where
  IDENTIFIER : String
deriving DecidableEq, Repr

mutual
/-- Rule `expression`. -/
inductive ExpressionContext where
  | mk (conditionalExpression : ConditionalExpressionContext)
/-- Rule `conditionalExpression`. -/
inductive ConditionalExpressionContext where
  | single (logicalORExpression : LogicalORExpressionContext)
  | ternary (a : Nat) (conditionalExpression : ConditionalExpressionContext)
      (logicalORExpression0 : LogicalORExpressionContext)
      (logicalORExpression1 : LogicalORExpressionContext)
/-- Rule `logicalORExpression`. -/
inductive LogicalORExpressionContext where
  | single (logicalANDExpression : LogicalANDExpressionContext)
  | binary (a : Nat) (logicalORExpression : LogicalORExpressionContext)
      (logicalANDExpression : LogicalANDExpressionContext)
/-- Rule `logicalANDExpression`. -/
inductive LogicalANDExpressionContext where
  | single (bitwiseExpression : BitwiseExpressionContext)
  | binary (a : Nat) (logicalANDExpression : LogicalANDExpressionContext)
      (bitwiseExpression : BitwiseExpressionContext)
/-- Rule `bitwiseExpression`. -/
inductive BitwiseExpressionContext where
  | single (equalityExpression : EqualityExpressionContext)
  | binary (a : Nat) (bitwiseExpression : BitwiseExpressionContext) (op : String)
      (equalityExpression : EqualityExpressionContext)
/-- Rule `equalityExpression`. -/
inductive EqualityExpressionContext where
  | single (relationalExpression : RelationalExpressionContext)
  | binary (a : Nat) (equalityExpression : EqualityExpressionContext) (op : String)
      (relationalExpression : RelationalExpressionContext)
/-- Rule `relationalExpression`. -/
inductive RelationalExpressionContext where
  | single (shiftExpression : ShiftExpressionContext)
  | binary (a : Nat) (relationalExpression : RelationalExpressionContext) (op : String)
      (shiftExpression : ShiftExpressionContext)
/-- Rule `shiftExpression`. -/
inductive ShiftExpressionContext where
  | single (additiveExpression : AdditiveExpressionContext)
  | binary (a : Nat) (shiftExpression : ShiftExpressionContext) (op : String)
      (additiveExpression : AdditiveExpressionContext)
/-- Rule `additiveExpression`. -/
inductive AdditiveExpressionContext where
  | single (multiplicativeExpression : MultiplicativeExpressionContext)
  | binary (a : Nat) (additiveExpression : AdditiveExpressionContext) (op : String)
      (multiplicativeExpression : MultiplicativeExpressionContext)
/-- Rule `multiplicativeExpression`. -/
inductive MultiplicativeExpressionContext where
  | single (unaryExpression : UnaryExpressionContext)
  | binary (a : Nat) (multiplicativeExpression : MultiplicativeExpressionContext)
      (op : String) (unaryExpression : UnaryExpressionContext)
/-- Rule `unaryExpression`. -/
inductive UnaryExpressionContext where
  | assignmentExpression (assignmentExpression : AssignmentExpressionContext)
  | unary (a : Nat) (op : String) (unaryExpression : UnaryExpressionContext)
/-- Rule `assignmentExpression`. -/
inductive AssignmentExpressionContext where
  | primaryExpression (primaryExpression : PrimaryExpressionContext)
  | assignment (assignment : AssignmentContext)
/-- Rule `assignment`. -/
inductive AssignmentContext where
  | incrementDecrement (incrementDecrement : IncrementDecrementContext)
  | location (a : Nat) (locationExpression : LocationExpressionContext)
      (ASSIGNMENT_OPERATOR : Option String) (expression : Option ExpressionContext)
/-- Rule `incrementDecrement`; `op` is set on the suffix forms. -/
inductive IncrementDecrementContext where
  | mk (a : Nat) (op : Bool) (INCREMENT : Bool)
      (locationExpression : LocationExpressionContext)
/-- Rule `locationExpression`. -/
inductive LocationExpressionContext where
  | identifier (a : Nat) (IDENTIFIER : String)
  | fieldAccess (a : Nat) (locationExpression : LocationExpressionContext)
      (IDENTIFIER : String)
  | elementAccess (a : Nat) (locationExpression : LocationExpressionContext)
      (expression : ExpressionContext)
/-- Rule `primaryExpression`. -/
inductive PrimaryExpressionContext where
  | helperCall (helperCall : HelperCallContext)
  | decimalLiteral (a : Nat) (DECIMAL_LITERAL : String)
  | stringLiteral (a : Nat) (STRING_LITERAL : String)
  | convert (a : Nat) (type : TypeContext) (expression : ExpressionContext)
  | cast (a : Nat) (type : TypeContext) (IDENTIFIER : String)
      (expression : ExpressionContext)
  | parenthesized (expression : ExpressionContext)
/-- Rule `helperCall`: the callee is `MIN`, `MAX` or `IDENTIFIER`. -/
inductive HelperCallContext where
  | mk (a : Nat) (MIN : Option String) (MAX : Option String) (IDENTIFIER : Option String)
      (argumentList : ArgumentListContext) (optionalOtherwise : OptionalOtherwiseContext)
/-- Rule `argumentList`. -/
inductive ArgumentListContext where
  | mk (argument : List ArgumentContext)
/-- Rule `argument`. -/
inductive ArgumentContext where
  | mk (expression : ExpressionContext)
end

/-- Rule `variableDeclaration`. -/
structure VariableDeclarationContext where
  a : Nat
  IDENTIFIER : String
  type : TypeContext

/-- Rule `variableDeclarationWithInitialization`. -/
structure VariableDeclarationWithInitializationContext where
  a : Nat
  variableDeclaration : VariableDeclarationContext
  expression : Option ExpressionContext

/-- Rule `helperCallStatement`. -/
structure HelperCallStatementContext where
  a : Nat
  TAIL : Bool
  helperCall : HelperCallContext

/-- Rule `expressionStatement`. -/
structure ExpressionStatementContext where
  a : Nat
  assignment : AssignmentContext

/-- Rule `returnStatement`. -/
structure ReturnStatementContext where
  a : Nat
  expression : ExpressionContext

/-- Rule `breakStatement`. -/
structure BreakStatementContext where
  a : Nat

/-- Rule `continueStatement`. -/
structure ContinueStatementContext where
  a : Nat

/-- Rule `gotoStatement`. -/
structure GotoStatementContext where
  a : Nat
  labelReference : Option LabelReferenceContext
  argumentList : Option ArgumentListContext

/-- Rule `forInitialization`. -/
structure ForInitializationContext where
  variableDeclarationWithInitialization :
    Option VariableDeclarationWithInitializationContext

/-- Rule `rangeSpecifier`, with its two labelled optional expressions. -/
structure RangeSpecifierContext where
  begin_ : Option ExpressionContext
  end_ : Option ExpressionContext

/-- Rule `forOfRange`. -/
structure ForOfRangeContext where
  rangeSpecifier : Option RangeSpecifierContext

mutual
/-- Rule `statement`: exactly one child rule. -/
inductive StatementContext where
  | variableDeclarationWithInitialization
      (c : VariableDeclarationWithInitializationContext)
  | helperCallStatement (c : HelperCallStatementContext)
  | expressionStatement (c : ExpressionStatementContext)
  | returnStatement (c : ReturnStatementContext)
  | breakStatement (c : BreakStatementContext)
  | continueStatement (c : ContinueStatementContext)
  | gotoStatement (c : GotoStatementContext)
  | ifStatement (c : IfStatementContext)
  | whileLoop (c : WhileLoopContext)
  | forOfLoop (c : ForOfLoopContext)
  | forLoop (c : ForLoopContext)
  | tryCatch (c : TryCatchContext)
/-- Rule `statementList`. -/
inductive StatementListContext where
  | mk (statement : List StatementContext)
/-- Rule `statementScope`. -/
inductive StatementScopeContext where
  | mk (a : Nat) (DEFERRED : Bool) (statementList : StatementListContext)
/-- Rule `statementBlock`: a statement or a statement scope. -/
inductive StatementBlockContext where
  | statement (a : Nat) (statement : StatementContext)
  | statementScope (a : Nat) (statementScope : StatementScopeContext)
/-- Rule `ifStatement`. -/
inductive IfStatementContext where
  | mk (a : Nat) (expression : ExpressionContext) (statementBlock0 : StatementBlockContext)
      (statementBlock1 : Option StatementBlockContext)
/-- Rule `whileLoop`. -/
inductive WhileLoopContext where
  | mk (a : Nat) (expression : ExpressionContext) (statementBlock : StatementBlockContext)
/-- Rule `forLoop`. -/
inductive ForLoopContext where
  | mk (a : Nat) (forInitialization : ForInitializationContext)
      (expression : ExpressionContext) (assignment : AssignmentContext)
      (statementBlock : StatementBlockContext)
/-- Rule `forOfLoop`. -/
inductive ForOfLoopContext where
  | mk (a : Nat) (variableDeclaration : VariableDeclarationContext)
      (expression : ExpressionContext) (forOfRange : ForOfRangeContext)
      (statementBlock : StatementBlockContext)
/-- Rule `tryCatch`. -/
inductive TryCatchContext where
  | mk (a : Nat) (statementBlock : StatementBlockContext)
      (handlerWithStatement : List HandlerWithStatementContext)
/-- Rule `handlerWithStatement`: a `catch` with its identifier, or a `label` with
its label declaration; either comes with a statement block. -/
inductive HandlerWithStatementContext where
  | catchHandler (IDENTIFIER : String) (statementBlock : StatementBlockContext)
  | labelHandler (labelDeclaration : LabelDeclarationContext)
      (statementBlock : StatementBlockContext)
end

/-- Start of the token span of a statement block. -/
def StatementBlockContext.a : StatementBlockContext → Nat
  | .statement a _ => a
  | .statementScope a _ => a

/-- Rule `helperBody`. -/
structure HelperBodyContext where
  statementScope : StatementScopeContext

/-- Rule `macroDeclaration`. -/
structure MacroDeclarationContext where
  a : Nat
  IDENTIFIER : String
  parameterList : ParameterListContext
  optionalType : OptionalTypeContext
  optionalLabelList : OptionalLabelListContext
  helperBody : HelperBodyContext

/-- Rule `builtinDeclaration`. -/
structure BuiltinDeclarationContext where
  a : Nat
  JAVASCRIPT : Bool
  IDENTIFIER : String
  parameterList : ParameterListContext
  optionalType : OptionalTypeContext
  helperBody : HelperBodyContext

/-- Rule `externalMacro`. -/
structure ExternalMacroContext where
  a : Nat
  IDENTIFIER : String
  IMPLICIT : Bool
  STRING_LITERAL : Option String
  typeListMaybeVarArgs : TypeListMaybeVarArgsContext
  optionalType : OptionalTypeContext
  optionalLabelList : OptionalLabelListContext

/-- Rule `externalBuiltin`. -/
structure ExternalBuiltinContext where
  a : Nat
  JAVASCRIPT : Bool
  IDENTIFIER : String
  typeList : TypeListContext
  optionalType : OptionalTypeContext

/-- Rule `externalRuntime`. -/
structure ExternalRuntimeContext where
  a : Nat
  IDENTIFIER : String
  typeListMaybeVarArgs : TypeListMaybeVarArgsContext
  optionalType : OptionalTypeContext

/-- Rule `constDeclaration`. -/
structure ConstDeclarationContext where
  a : Nat
  IDENTIFIER : String
  type : TypeContext
  STRING_LITERAL : String

/-- Rule `extendsDeclaration`. -/
structure ExtendsDeclarationContext where
  IDENTIFIER : String

/-- Rule `generatesDeclaration`. -/
structure GeneratesDeclarationContext where
  STRING_LITERAL : String

/-- Rule `typeDeclaration`. -/
structure TypeDeclarationContext where
  a : Nat
  IDENTIFIER : String
  extendsDeclaration : Option ExtendsDeclarationContext
  generatesDeclaration : Option GeneratesDeclarationContext

/-- Rule `declaration`: exactly one child rule. -/
inductive DeclarationContext where
  | typeDeclaration (c : TypeDeclarationContext)
  | builtinDeclaration (c : BuiltinDeclarationContext)
  | macroDeclaration (c : MacroDeclarationContext)
  | externalMacro (c : ExternalMacroContext)
  | externalBuiltin (c : ExternalBuiltinContext)
  | externalRuntime (c : ExternalRuntimeContext)
  | constDeclaration (c : ConstDeclarationContext)

/-- Rule `moduleDeclaration`. -/
structure ModuleDeclarationContext where
  a : Nat
  IDENTIFIER : String
  declaration : List DeclarationContext

/-- A child of the rule `file`: a module or a declaration. -/
inductive FileChildContext where
  | moduleDeclaration (c : ModuleDeclarationContext)
  | declaration (c : DeclarationContext)

/-- Rule `file`. -/
structure FileContext where
  children : List FileChildContext

/-- The `SourceFileContext` handed to the file driver: the name of the file, its
parse tree and its token stream. -/
structure SourceFileContext where
  name : String
  file : FileContext
  tokens : List Token

/-- The state of the visitor: the AST under construction, the identifier of the
file being visited and the active source file context (null outside
`visitSourceFile`). -/
structure AstGenerator where
  ast_ : Ast
  current_source_file_ : SourceId
  source_file_context_ : Option SourceFileContext

/-! ## The transformation -/

/-- The conversion `static_cast<int>` of a `size_t`: reduction to 32 bits, read
as a signed number. -/
def static_cast_int (n : Nat) : Int :=
  if n % 2 ^ 32 < 2 ^ 31 then Int.ofNat (n % 2 ^ 32)
  else Int.ofNat (n % 2 ^ 32) - 2 ^ 32

/-- Method `std::string::substr(pos, n)` for `pos` within the string. -/
def substr (s : String) (pos n : Nat) : String :=
  String.mk ((s.data.drop pos).take n)

/-- The `size_t` value of `x - 1`. -/
def size_t_pred (x : Nat) : Nat := (x + 2 ^ 64 - 1) % 2 ^ 64

/-- Translation of `GetOptionalType` (lines 16-19). -/
def GetOptionalType (context : OptionalTypeContext) : String :=
  match context.type with
  | none => "void"
  | some type => type.IDENTIFIER

/-- Translation of `GetOptionalLabelAndTypeList` (lines 21-35). -/
def GetOptionalLabelAndTypeList (context : OptionalLabelListContext) :
    List LabelAndTypes :=
  context.labelParameter.map fun label =>
    { name := label.IDENTIFIER
      types := match label.typeList with
        | some typeList => typeList.type.map (·.IDENTIFIER)
        | none => [] }

namespace AstGenerator

/-- Translation of `AstGenerator::Pos` (lines 595-601); the argument is the start
`a` of the source interval of the context.  Dereferencing a null
`source_file_context_` and indexing the token stream out of range are faults. -/
def Pos (g : AstGenerator) (a : Nat) : Except Fault SourcePosition :=
  match g.source_file_context_ with
  | none => .error .nullDereference
  | some source_file_context =>
    match source_file_context.tokens[a]? with
    | none => .error .indexOutOfBounds
    | some token =>
      .ok { source := g.current_source_file_
            line := static_cast_int token.getLine
            column := static_cast_int token.getCharPositionInLine }

/-- Translation of `visitParameterList` (lines 70-83).  The call
`parameter->accept(this)` of the loop reaches no visitor of the file and its
result is dropped, so it does not appear. -/
def visitParameterList : ParameterListContext → ParameterList
  | .plain parameter =>
    { names := parameter.map (·.IDENTIFIER)
      types := parameter.map (·.type.IDENTIFIER)
      has_varargs := false
      arguments_variable := none }
  | .varargs parameter IDENTIFIER =>
    { names := parameter.map (·.IDENTIFIER)
      types := parameter.map (·.type.IDENTIFIER)
      has_varargs := true
      arguments_variable := some IDENTIFIER }

/-- Translation of `visitTypeList` (lines 85-93). -/
def visitTypeList (context : TypeListContext) : ParameterList :=
  { names := []
    types := context.type.map (·.IDENTIFIER)
    has_varargs := false
    arguments_variable := none }

/-- Translation of `visitTypeListMaybeVarArgs` (lines 95-103). -/
def visitTypeListMaybeVarArgs (context : TypeListMaybeVarArgsContext) : ParameterList :=
  { names := []
    types := context.type.map (·.IDENTIFIER)
    has_varargs := context.VARARGS
    arguments_variable := none }

/-- The callee of a helper call (lines 217-221): the last present one of `MIN`,
`MAX`, `IDENTIFIER`; the pointer stays uninitialised when none is present. -/
def helperCallCallee (MIN MAX IDENTIFIER : Option String) : Option String :=
  let callee : Option String := none
  let callee := if MIN.isSome then MIN else callee
  let callee := if MAX.isSome then MAX else callee
  if IDENTIFIER.isSome then IDENTIFIER else callee

mutual
/-- Rule `expression` has no visitor of its own: the result of its child. -/
def visitExpression (g : AstGenerator) : ExpressionContext → Except Fault Expression
  | .mk c => visitConditionalExpression g c
/-- Translation of `visitConditionalExpression` (lines 573-584). -/
def visitConditionalExpression (g : AstGenerator) :
    ConditionalExpressionContext → Except Fault Expression
  | .single c => visitLogicalORExpression g c
  | .ternary a condition e0 e1 => do
    let pos ← g.Pos a
    let condition ← visitConditionalExpression g condition
    let if_true ← visitLogicalORExpression g e0
    let if_false ← visitLogicalORExpression g e1
    pure (.ConditionalExpression pos condition if_true if_false)
/-- Translation of `visitLogicalORExpression` (lines 562-571). -/
def visitLogicalORExpression (g : AstGenerator) :
    LogicalORExpressionContext → Except Fault Expression
  | .single right => visitLogicalANDExpression g right
  | .binary a left right => do
    let pos ← g.Pos a
    let left ← visitLogicalORExpression g left
    let right ← visitLogicalANDExpression g right
    pure (.LogicalOrExpression pos left right)
/-- Translation of `visitLogicalANDExpression` (lines 551-560). -/
def visitLogicalANDExpression (g : AstGenerator) :
    LogicalANDExpressionContext → Except Fault Expression
  | .single right => visitBitwiseExpression g right
  | .binary a left right => do
    let pos ← g.Pos a
    let left ← visitLogicalANDExpression g left
    let right ← visitBitwiseExpression g right
    pure (.LogicalAndExpression pos left right)
/-- Translation of `visitBitwiseExpression` (lines 536-549). -/
def visitBitwiseExpression (g : AstGenerator) :
    BitwiseExpressionContext → Except Fault Expression
  | .single right => visitEqualityExpression g right
  | .binary a left op right => do
    let pos ← g.Pos a
    let left ← visitBitwiseExpression g left
    let right ← visitEqualityExpression g right
    pure (.CallExpression pos op true [left, right] [])
/-- Translation of `visitEqualityExpression` (lines 521-534). -/
def visitEqualityExpression (g : AstGenerator) :
    EqualityExpressionContext → Except Fault Expression
  | .single right => visitRelationalExpression g right
  | .binary a left op right => do
    let pos ← g.Pos a
    let left ← visitEqualityExpression g left
    let right ← visitRelationalExpression g right
    pure (.CallExpression pos op true [left, right] [])
/-- Translation of `visitRelationalExpression` (lines 506-519). -/
def visitRelationalExpression (g : AstGenerator) :
    RelationalExpressionContext → Except Fault Expression
  | .single right => visitShiftExpression g right
  | .binary a left op right => do
    let pos ← g.Pos a
    let left ← visitRelationalExpression g left
    let right ← visitShiftExpression g right
    pure (.CallExpression pos op true [left, right] [])
/-- Translation of `visitShiftExpression` (lines 491-504). -/
def visitShiftExpression (g : AstGenerator) :
    ShiftExpressionContext → Except Fault Expression
  | .single right => visitAdditiveExpression g right
  | .binary a left op right => do
    let pos ← g.Pos a
    let left ← visitShiftExpression g left
    let right ← visitAdditiveExpression g right
    pure (.CallExpression pos op true [left, right] [])
/-- Translation of `visitAdditiveExpression` (lines 476-489). -/
def visitAdditiveExpression (g : AstGenerator) :
    AdditiveExpressionContext → Except Fault Expression
  | .single right => visitMultiplicativeExpression g right
  | .binary a left op right => do
    let pos ← g.Pos a
    let left ← visitAdditiveExpression g left
    let right ← visitMultiplicativeExpression g right
    pure (.CallExpression pos op true [left, right] [])
/-- Translation of `visitMultiplicativeExpression` (lines 461-474). -/
def visitMultiplicativeExpression (g : AstGenerator) :
    MultiplicativeExpressionContext → Except Fault Expression
  | .single right => visitUnaryExpression g right
  | .binary a left op right => do
    let pos ← g.Pos a
    let left ← visitMultiplicativeExpression g left
    let right ← visitUnaryExpression g right
    pure (.CallExpression pos op true [left, right] [])
/-- Translation of `visitUnaryExpression` (lines 452-459). -/
def visitUnaryExpression (g : AstGenerator) :
    UnaryExpressionContext → Except Fault Expression
  | .assignmentExpression e => visitAssignmentExpression g e
  | .unary a op e => do
    let arg ← visitUnaryExpression g e
    let pos ← g.Pos a
    pure (.CallExpression pos op true [arg] [])
/-- Rule `assignmentExpression` has no visitor of its own: the result of its
child. -/
def visitAssignmentExpression (g : AstGenerator) :
    AssignmentExpressionContext → Except Fault Expression
  | .primaryExpression e => visitPrimaryExpression g e
  | .assignment e => visitAssignment g e
/-- Translation of `visitAssignment` (lines 408-423). -/
def visitAssignment (g : AstGenerator) : AssignmentContext → Except Fault Expression
  | .incrementDecrement e => visitIncrementDecrement g e
  | .location _ locationExpression _ none => do
    let e ← visitLocationExpression g locationExpression
    let location ← LocationExpression.cast e
    pure location
  | .location a locationExpression ASSIGNMENT_OPERATOR (some e) => do
    let l ← visitLocationExpression g locationExpression
    let location ← LocationExpression.cast l
    let pos ← g.Pos a
    let value ← visitExpression g e
    let op := ASSIGNMENT_OPERATOR.map fun op => substr op 0 (size_t_pred op.data.length)
    pure (.AssignmentExpression pos location op value)
/-- Translation of `visitIncrementDecrement` (lines 425-435). -/
def visitIncrementDecrement (g : AstGenerator) :
    IncrementDecrementContext → Except Fault Expression
  | .mk a op INCREMENT locationExpression => do
    let is_postfix := op
    let pos ← g.Pos a
    let e ← visitLocationExpression g locationExpression
    let location ← LocationExpression.cast e
    pure (.IncrementDecrementExpression pos location
      (if INCREMENT then .kIncrement else .kDecrement) is_postfix)
/-- Translation of `visitLocationExpression` (lines 437-450). -/
def visitLocationExpression (g : AstGenerator) :
    LocationExpressionContext → Except Fault Expression
  | .elementAccess a l e => do
    let location ← visitLocationExpression g l
    let pos ← g.Pos a
    let index ← visitExpression g e
    pure (.ElementAccessExpression pos location index)
  | .fieldAccess a l IDENTIFIER => do
    let location ← visitLocationExpression g l
    let pos ← g.Pos a
    pure (.FieldAccessExpression pos location IDENTIFIER)
  | .identifier a IDENTIFIER => do
    let pos ← g.Pos a
    pure (.IdentifierExpression pos IDENTIFIER)
/-- Translation of `visitPrimaryExpression` (lines 387-406). -/
def visitPrimaryExpression (g : AstGenerator) :
    PrimaryExpressionContext → Except Fault Expression
  | .helperCall e => visitHelperCall g e
  | .decimalLiteral a e => do
    let pos ← g.Pos a
    pure (.NumberLiteralExpression pos e)
  | .stringLiteral a e => do
    let pos ← g.Pos a
    pure (.StringLiteralExpression pos e)
  | .convert a type e => do
    let pos ← g.Pos a
    let value ← visitExpression g e
    pure (.ConvertExpression pos type.IDENTIFIER value)
  | .cast a type IDENTIFIER e => do
    let pos ← g.Pos a
    let value ← visitExpression g e
    pure (.CastExpression pos type.IDENTIFIER IDENTIFIER value)
  | .parenthesized e => visitExpression g e
/-- Translation of `visitHelperCall` (lines 215-232). -/
def visitHelperCall (g : AstGenerator) : HelperCallContext → Except Fault Expression
  | .mk a MIN MAX IDENTIFIER (.mk argument) optionalOtherwise => do
    let is_operator := MIN.isSome || MAX.isSome
    let labels := optionalOtherwise.IDENTIFIER
    let pos ← g.Pos a
    let callee ← (match helperCallCallee MIN MAX IDENTIFIER with
      | some callee => .ok callee
      | none => .error .nullDereference : Except Fault String)
    let arguments ← visitArguments g argument
    pure (.CallExpression pos callee is_operator arguments labels)
/-- The loop over the arguments of an argument list (lines 228-230, 288-290). -/
def visitArguments (g : AstGenerator) : List ArgumentContext → Except Fault (List Expression)
  | [] => pure []
  | arg :: rest => do
    let e ← visitArgument g arg
    let es ← visitArguments g rest
    pure (e :: es)
/-- Rule `argument` has no visitor of its own: the result of its child. -/
def visitArgument (g : AstGenerator) : ArgumentContext → Except Fault Expression
  | .mk e => visitExpression g e
end

end AstGenerator

/-- The arguments of an argument list. -/
def ArgumentListContext.argument : ArgumentListContext → List ArgumentContext
  | .mk argument => argument

namespace AstGenerator

/-- Translation of `visitVariableDeclaration` (lines 194-201). -/
def visitVariableDeclaration (g : AstGenerator) (context : VariableDeclarationContext) :
    Except Fault VarDeclarationStatement := do
  let pos ← g.Pos context.a
  pure { pos := pos
         name := context.IDENTIFIER
         type := context.type.IDENTIFIER
         initializer := none }

/-- Translation of `visitVariableDeclarationWithInitialization` (lines 203-213). -/
def visitVariableDeclarationWithInitialization (g : AstGenerator)
    (context : VariableDeclarationWithInitializationContext) : Except Fault Statement := do
  let d ← g.visitVariableDeclaration context.variableDeclaration
  let result ← VarDeclarationStatement.cast (.VarDeclarationStatement d)
  let pos ← g.Pos context.a
  let result := { result with pos := pos }
  match context.expression with
  | some expression => do
    let initializer ← g.visitExpression expression
    pure (.VarDeclarationStatement { result with initializer := some initializer })
  | none => pure (.VarDeclarationStatement result)

/-- Translation of `visitHelperCallStatement` (lines 234-247). -/
def visitHelperCallStatement (g : AstGenerator) (context : HelperCallStatementContext) :
    Except Fault Statement :=
  if context.TAIL then do
    let pos ← g.Pos context.a
    let e ← g.visitHelperCall context.helperCall
    let call ← CallExpression.cast e
    pure (.TailCallStatement pos call)
  else do
    let pos ← g.Pos context.a
    let e ← g.visitHelperCall context.helperCall
    pure (.ExpressionStatement pos e)

/-- Translation of `visitExpressionStatement` (lines 259-263). -/
def visitExpressionStatement (g : AstGenerator) (context : ExpressionStatementContext) :
    Except Fault Statement := do
  let pos ← g.Pos context.a
  let e ← g.visitAssignment context.assignment
  pure (.ExpressionStatement pos e)

/-- Translation of `visitReturnStatement` (lines 265-269). -/
def visitReturnStatement (g : AstGenerator) (context : ReturnStatementContext) :
    Except Fault Statement := do
  let pos ← g.Pos context.a
  let e ← g.visitExpression context.expression
  pure (.ReturnStatement pos e)

/-- Translation of `visitBreakStatement` (lines 271-274). -/
def visitBreakStatement (g : AstGenerator) (context : BreakStatementContext) :
    Except Fault Statement := do
  let pos ← g.Pos context.a
  pure (.BreakStatement pos)

/-- Translation of `visitContinueStatement` (lines 276-279). -/
def visitContinueStatement (g : AstGenerator) (context : ContinueStatementContext) :
    Except Fault Statement := do
  let pos ← g.Pos context.a
  pure (.ContinueStatement pos)

/-- Translation of `visitGotoStatement` (lines 281-293). -/
def visitGotoStatement (g : AstGenerator) (context : GotoStatementContext) :
    Except Fault Statement := do
  let pos ← g.Pos context.a
  let label := context.labelReference.map (·.IDENTIFIER)
  match context.argumentList with
  | some argumentList => do
    let arguments ← g.visitArguments argumentList.argument
    pure (.GotoStatement pos label arguments)
  | none => pure (.GotoStatement pos label [])

/-- The variable declaration of a `for` loop (lines 323-327): present when the
initialization holds one, and then downcast from the statement it yields. -/
def visitForInitialization (g : AstGenerator) (context : ForInitializationContext) :
    Except Fault (Option VarDeclarationStatement) :=
  match context.variableDeclarationWithInitialization with
  | some init => do
    let s ← g.visitVariableDeclarationWithInitialization init
    let d ← VarDeclarationStatement.cast s
    pure (some d)
  | none => pure none

/-- One bound of a range (lines 343-348): absent when its expression is absent. -/
def visitRangeBound (g : AstGenerator) :
    Option ExpressionContext → Except Fault (Option Expression)
  | some e => do
    let bound ← g.visitExpression e
    pure (some bound)
  | none => pure none

/-- The two bounds of a `for`-`of` loop (lines 342-349). -/
def visitForOfRange (g : AstGenerator) (context : ForOfRangeContext) :
    Except Fault (Option Expression × Option Expression) :=
  match context.rangeSpecifier with
  | some range => do
    let begin_ ← g.visitRangeBound range.begin_
    let end_ ← g.visitRangeBound range.end_
    pure (begin_, end_)
  | none => pure (none, none)

/-- The parameters of a label handler (lines 369-375).  The call
`handler->labelDeclaration()->accept(this)` before it (line 368) only visits the
parameter list, whose visitor reads no state, and drops the result. -/
def labelParameters (labelDeclaration : LabelDeclarationContext) : ParameterList :=
  match labelDeclaration.parameterList with
  | none => ParameterList.default
  | some parameterList => visitParameterList parameterList

mutual
/-- Rule `statement` has no visitor of its own: the result of its child. -/
def visitStatement (g : AstGenerator) : StatementContext → Except Fault Statement
  | .variableDeclarationWithInitialization c =>
    g.visitVariableDeclarationWithInitialization c
  | .helperCallStatement c => g.visitHelperCallStatement c
  | .expressionStatement c => g.visitExpressionStatement c
  | .returnStatement c => g.visitReturnStatement c
  | .breakStatement c => g.visitBreakStatement c
  | .continueStatement c => g.visitContinueStatement c
  | .gotoStatement c => g.visitGotoStatement c
  | .ifStatement c => visitIfStatement g c
  | .whileLoop c => visitWhileLoop g c
  | .forOfLoop c => visitForOfLoop g c
  | .forLoop c => visitForLoop g c
  | .tryCatch c => visitTryCatch g c
/-- The loop over the statements of a statement list (lines 253-255). -/
def visitStatements (g : AstGenerator) :
    List StatementContext → Except Fault (List Statement)
  | [] => pure []
  | child :: rest => do
    let s ← visitStatement g child
    let ss ← visitStatements g rest
    pure (s :: ss)
/-- Translation of `visitStatementScope` (lines 249-257). -/
def visitStatementScope (g : AstGenerator) : StatementScopeContext → Except Fault Statement
  | .mk a DEFERRED (.mk statement) => do
    let pos ← g.Pos a
    let statements ← visitStatements g statement
    pure (.BlockStatement pos DEFERRED statements)
/-- Rule `statementBlock` has no visitor of its own: the result of its child. -/
def visitStatementBlock (g : AstGenerator) : StatementBlockContext → Except Fault Statement
  | .statement _ c => visitStatement g c
  | .statementScope _ c => visitStatementScope g c
/-- Translation of `visitIfStatement` (lines 295-306). -/
def visitIfStatement (g : AstGenerator) : IfStatementContext → Except Fault Statement
  | .mk a expression statementBlock0 none => do
    let pos ← g.Pos a
    let condition ← g.visitExpression expression
    let if_true ← visitStatementBlock g statementBlock0
    pure (.IfStatement pos condition if_true none)
  | .mk a expression statementBlock0 (some statementBlock1) => do
    let pos ← g.Pos a
    let condition ← g.visitExpression expression
    let if_true ← visitStatementBlock g statementBlock0
    let if_false ← visitStatementBlock g statementBlock1
    pure (.IfStatement pos condition if_true (some if_false))
/-- Translation of `visitWhileLoop` (lines 308-313). -/
def visitWhileLoop (g : AstGenerator) : WhileLoopContext → Except Fault Statement
  | .mk a expression statementBlock => do
    let pos ← g.Pos a
    let condition ← g.visitExpression expression
    let body ← visitStatementBlock g statementBlock
    pure (.WhileStatement pos condition body)
/-- Translation of `visitForLoop` (lines 315-329). -/
def visitForLoop (g : AstGenerator) : ForLoopContext → Except Fault Statement
  | .mk a forInitialization expression assignment statementBlock => do
    let pos ← g.Pos a
    let test ← g.visitExpression expression
    let action ← g.visitAssignment assignment
    let body ← visitStatementBlock g statementBlock
    let var_declaration ← g.visitForInitialization forInitialization
    pure (.ForLoopStatement pos var_declaration test action body)
/-- Translation of `visitForOfLoop` (lines 331-351). -/
def visitForOfLoop (g : AstGenerator) : ForOfLoopContext → Except Fault Statement
  | .mk a variableDeclaration expression forOfRange statementBlock => do
    let pos ← g.Pos a
    let var_declaration ← g.visitVariableDeclaration variableDeclaration
    let iterable ← g.visitExpression expression
    let body ← visitStatementBlock g statementBlock
    let range ← g.visitForOfRange forOfRange
    pure (.ForOfLoopStatement pos var_declaration iterable range.1 range.2 body)
/-- Translation of `visitTryCatch` (lines 353-385). -/
def visitTryCatch (g : AstGenerator) : TryCatchContext → Except Fault Statement
  | .mk a statementBlock handlerWithStatement => do
    let pos ← g.Pos a
    let try_block ← visitStatementBlock g statementBlock
    let blocks ← visitHandlers g handlerWithStatement
    pure (.TryCatchStatement pos try_block blocks.1 blocks.2)
/-- The loop over the handlers of a try statement (lines 359-383): the catch
blocks and the label blocks, each list in the order of the handlers. -/
def visitHandlers (g : AstGenerator) :
    List HandlerWithStatementContext → Except Fault (List CatchBlock × List LabelBlock)
  | [] => pure ([], [])
  | .catchHandler IDENTIFIER statementBlock :: rest => do
    let pos ← g.Pos statementBlock.a
    let block ← visitStatementBlock g statementBlock
    let blocks ← visitHandlers g rest
    pure (.mk pos IDENTIFIER block :: blocks.1, blocks.2)
  | .labelHandler labelDeclaration statementBlock :: rest => do
    let label_parameters := labelParameters labelDeclaration
    let pos ← g.Pos statementBlock.a
    let block ← visitStatementBlock g statementBlock
    let blocks ← visitHandlers g rest
    pure (blocks.1,
      .mk pos labelDeclaration.IDENTIFIER label_parameters block :: blocks.2)
end

/-- Rule `helperBody` has no visitor of its own: the result of its child. -/
def visitHelperBody (g : AstGenerator) (context : HelperBodyContext) :
    Except Fault Statement :=
  g.visitStatementScope context.statementScope

/-- Translation of `visitMacroDeclaration` (lines 116-124). -/
def visitMacroDeclaration (g : AstGenerator) (context : MacroDeclarationContext) :
    Except Fault Declaration := do
  let pos ← g.Pos context.a
  let body ← g.visitHelperBody context.helperBody
  pure (.MacroDeclaration pos context.IDENTIFIER
    (visitParameterList context.parameterList)
    (GetOptionalType context.optionalType)
    (GetOptionalLabelAndTypeList context.optionalLabelList) body)

/-- Translation of `visitBuiltinDeclaration` (lines 126-134). -/
def visitBuiltinDeclaration (g : AstGenerator) (context : BuiltinDeclarationContext) :
    Except Fault Declaration := do
  let pos ← g.Pos context.a
  let body ← g.visitHelperBody context.helperBody
  pure (.BuiltinDeclaration pos context.JAVASCRIPT context.IDENTIFIER
    (visitParameterList context.parameterList)
    (GetOptionalType context.optionalType) body)

/-- Translation of `visitExternalMacro` (lines 136-150). -/
def visitExternalMacro (g : AstGenerator) (context : ExternalMacroContext) :
    Except Fault Declaration := do
  let pos ← g.Pos context.a
  let parameters := visitTypeListMaybeVarArgs context.typeListMaybeVarArgs
  let return_type := GetOptionalType context.optionalType
  let labels := GetOptionalLabelAndTypeList context.optionalLabelList
  match context.STRING_LITERAL with
  | some op => do
    let op ← StringLiteralUnquote op
    pure (.ExternalMacroDeclaration pos context.IDENTIFIER context.IMPLICIT (some op)
      parameters return_type labels)
  | none =>
    pure (.ExternalMacroDeclaration pos context.IDENTIFIER context.IMPLICIT none
      parameters return_type labels)

/-- Translation of `visitExternalBuiltin` (lines 152-159). -/
def visitExternalBuiltin (g : AstGenerator) (context : ExternalBuiltinContext) :
    Except Fault Declaration := do
  let pos ← g.Pos context.a
  pure (.ExternalBuiltinDeclaration pos context.JAVASCRIPT context.IDENTIFIER
    (visitTypeList context.typeList) (GetOptionalType context.optionalType))

/-- Translation of `visitExternalRuntime` (lines 161-168). -/
def visitExternalRuntime (g : AstGenerator) (context : ExternalRuntimeContext) :
    Except Fault Declaration := do
  let pos ← g.Pos context.a
  pure (.ExternalRuntimeDeclaration pos context.IDENTIFIER
    (visitTypeListMaybeVarArgs context.typeListMaybeVarArgs)
    (GetOptionalType context.optionalType))

/-- Translation of `visitConstDeclaration` (lines 170-176). -/
def visitConstDeclaration (g : AstGenerator) (context : ConstDeclarationContext) :
    Except Fault Declaration := do
  let pos ← g.Pos context.a
  let literal ← StringLiteralUnquote context.STRING_LITERAL
  pure (.ConstDeclaration pos context.IDENTIFIER context.type.IDENTIFIER literal)

/-- Translation of `visitTypeDeclaration` (lines 178-192). -/
def visitTypeDeclaration (g : AstGenerator) (context : TypeDeclarationContext) :
    Except Fault Declaration := do
  let pos ← g.Pos context.a
  let extends_ := context.extendsDeclaration.map (·.IDENTIFIER)
  match context.generatesDeclaration with
  | some generatesDeclaration => do
    let generates ← StringLiteralUnquote generatesDeclaration.STRING_LITERAL
    pure (.TypeDeclaration pos context.IDENTIFIER extends_ (some generates))
  | none => pure (.TypeDeclaration pos context.IDENTIFIER extends_ none)

/-- Rule `declaration` has no visitor of its own: the result of its child. -/
def visitDeclaration (g : AstGenerator) : DeclarationContext → Except Fault Declaration
  | .typeDeclaration c => g.visitTypeDeclaration c
  | .builtinDeclaration c => g.visitBuiltinDeclaration c
  | .macroDeclaration c => g.visitMacroDeclaration c
  | .externalMacro c => g.visitExternalMacro c
  | .externalBuiltin c => g.visitExternalBuiltin c
  | .externalRuntime c => g.visitExternalRuntime c
  | .constDeclaration c => g.visitConstDeclaration c

/-- The loop over the declarations of a module (lines 109-112). -/
def visitDeclarations (g : AstGenerator) :
    List DeclarationContext → Except Fault (List Declaration)
  | [] => pure []
  | declaration :: rest => do
    let d ← g.visitDeclaration declaration
    let ds ← visitDeclarations g rest
    pure (d :: ds)

/-- Translation of `visitModuleDeclaration` (lines 105-114). -/
def visitModuleDeclaration (g : AstGenerator) (context : ModuleDeclarationContext) :
    Except Fault Declaration := do
  let pos ← g.Pos context.a
  let declarations ← g.visitDeclarations context.declaration
  pure (.ExplicitModuleDeclaration pos context.IDENTIFIER declarations)

/-- A child of the file: a module or a declaration, by its own visitor. -/
def visitFileChild (g : AstGenerator) : FileChildContext → Except Fault Declaration
  | .moduleDeclaration c => g.visitModuleDeclaration c
  | .declaration c => g.visitDeclaration c

/-- The loop of `visitSourceFile` (lines 589-591): each child is transformed and
appended to the declarations of the AST. -/
def visitSourceFile.loop (g : AstGenerator) :
    List FileChildContext → Except Fault AstGenerator
  | [] => pure g
  | declaration :: rest => do
    let d ← g.visitFileChild declaration
    visitSourceFile.loop
      { g with ast_ := { g.ast_ with declarations_ := g.ast_.declarations_ ++ [d] } } rest

/-- Translation of `visitSourceFile` (lines 586-593). -/
def visitSourceFile (g : AstGenerator) (context : SourceFileContext) :
    Except Fault AstGenerator := do
  let g := { g with source_file_context_ := some context }
  let added := g.ast_.AddSource context.name
  let g := { g with ast_ := added.1, current_source_file_ := added.2 }
  let g ← visitSourceFile.loop g context.file.children
  pure { g with source_file_context_ := none }

end AstGenerator

/-! ## Properties of the produced AST -/

mutual
/-- Every assignment and every increment or decrement inside the expression has
a target of a location kind. -/
def Expression.locationsOK : Expression → Bool
  | .NumberLiteralExpression _ _ => true
  | .StringLiteralExpression _ _ => true
  | .CallExpression _ _ _ arguments _ => Expression.locationsOKList arguments
  | .ConvertExpression _ _ value => value.locationsOK
  | .CastExpression _ _ _ value => value.locationsOK
  | .IdentifierExpression _ _ => true
  | .FieldAccessExpression _ object _ => object.locationsOK
  | .ElementAccessExpression _ array index => array.locationsOK && index.locationsOK
  | .AssignmentExpression _ location _ value =>
    location.isLocation && location.locationsOK && value.locationsOK
  | .IncrementDecrementExpression _ location _ _ =>
    location.isLocation && location.locationsOK
  | .LogicalAndExpression _ left right => left.locationsOK && right.locationsOK
  | .LogicalOrExpression _ left right => left.locationsOK && right.locationsOK
  | .ConditionalExpression _ condition if_true if_false =>
    condition.locationsOK && if_true.locationsOK && if_false.locationsOK
/-- The property `Expression.locationsOK` for every expression of a list. -/
def Expression.locationsOKList : List Expression → Bool
  | [] => true
  | e :: es => e.locationsOK && Expression.locationsOKList es
end

/-- The property `Expression.locationsOK` for an optional expression. -/
def Expression.locationsOKOption : Option Expression → Bool
  | none => true
  | some e => e.locationsOK

/-- The property `Expression.locationsOK` for the initializer of a declaration. -/
def VarDeclarationStatement.locationsOK (s : VarDeclarationStatement) : Bool :=
  Expression.locationsOKOption s.initializer

mutual
/-- Every assignment and every increment or decrement inside the statement has a
target of a location kind. -/
def Statement.locationsOK : Statement → Bool
  | .BlockStatement _ _ statements => Statement.locationsOKList statements
  | .ExpressionStatement _ expression => expression.locationsOK
  | .VarDeclarationStatement s => s.locationsOK
  | .ReturnStatement _ value => value.locationsOK
  | .BreakStatement _ => true
  | .ContinueStatement _ => true
  | .GotoStatement _ _ arguments => Expression.locationsOKList arguments
  | .IfStatement _ condition if_true none => condition.locationsOK && if_true.locationsOK
  | .IfStatement _ condition if_true (some if_false) =>
    condition.locationsOK && if_true.locationsOK && if_false.locationsOK
  | .WhileStatement _ condition body => condition.locationsOK && body.locationsOK
  | .ForLoopStatement _ none test action body =>
    test.locationsOK && action.locationsOK && body.locationsOK
  | .ForLoopStatement _ (some var_declaration) test action body =>
    var_declaration.locationsOK && test.locationsOK && action.locationsOK &&
      body.locationsOK
  | .ForOfLoopStatement _ var_declaration iterable begin_ end_ body =>
    var_declaration.locationsOK && iterable.locationsOK &&
      Expression.locationsOKOption begin_ && Expression.locationsOKOption end_ &&
      body.locationsOK
  | .TryCatchStatement _ try_block catch_blocks label_blocks =>
    try_block.locationsOK && CatchBlock.locationsOKList catch_blocks &&
      LabelBlock.locationsOKList label_blocks
  | .TailCallStatement _ call => call.locationsOK
/-- The property `Statement.locationsOK` for every statement of a list. -/
def Statement.locationsOKList : List Statement → Bool
  | [] => true
  | s :: ss => s.locationsOK && Statement.locationsOKList ss
/-- The property `Statement.locationsOK` for the body of every catch block. -/
def CatchBlock.locationsOKList : List CatchBlock → Bool
  | [] => true
  | .mk _ _ block :: bs => block.locationsOK && CatchBlock.locationsOKList bs
/-- The property `Statement.locationsOK` for the body of every label block. -/
def LabelBlock.locationsOKList : List LabelBlock → Bool
  | [] => true
  | .mk _ _ _ block :: bs => block.locationsOK && LabelBlock.locationsOKList bs
end

mutual
/-- Every assignment and every increment or decrement inside the declaration has
a target of a location kind. -/
def Declaration.locationsOK : Declaration → Bool
  | .ExplicitModuleDeclaration _ _ declarations => Declaration.locationsOKList declarations
  | .MacroDeclaration _ _ _ _ _ body => body.locationsOK
  | .BuiltinDeclaration _ _ _ _ _ body => body.locationsOK
  | .ExternalMacroDeclaration _ _ _ _ _ _ _ => true
  | .ExternalBuiltinDeclaration _ _ _ _ _ => true
  | .ExternalRuntimeDeclaration _ _ _ _ => true
  | .ConstDeclaration _ _ _ _ => true
  | .TypeDeclaration _ _ _ _ => true
/-- The property `Declaration.locationsOK` for every declaration of a list. -/
def Declaration.locationsOKList : List Declaration → Bool
  | [] => true
  | d :: ds => d.locationsOK && Declaration.locationsOKList ds
end

/-- The invariant of a parameter list: as many names as types, and a name for
the variadic rest exactly when `has_varargs` is set. -/
def ParameterList.invariant (p : ParameterList) : Prop :=
  p.names.length = p.types.length ∧ (p.arguments_variable.isSome = true ↔ p.has_varargs = true)

instance (p : ParameterList) : Decidable p.invariant := by
  unfold ParameterList.invariant
  infer_instance

/-- The handler is a `catch` handler. -/
def HandlerWithStatementContext.isCatch : HandlerWithStatementContext → Bool
  | .catchHandler _ _ => true
  | .labelHandler _ _ => false

/-- The statement block of a handler. -/
def HandlerWithStatementContext.statementBlock :
    HandlerWithStatementContext → StatementBlockContext
  | .catchHandler _ statementBlock => statementBlock
  | .labelHandler _ statementBlock => statementBlock

/-- The caught identifier of a `catch` handler. -/
def HandlerWithStatementContext.caught? : HandlerWithStatementContext → Option String
  | .catchHandler IDENTIFIER _ => some IDENTIFIER
  | .labelHandler _ _ => none

/-- The label declaration of a `label` handler. -/
def HandlerWithStatementContext.labelDeclaration? :
    HandlerWithStatementContext → Option LabelDeclarationContext
  | .catchHandler _ _ => none
  | .labelHandler labelDeclaration _ => some labelDeclaration

/-- The catch block `c` is the transform of the handler `h`. -/
def catchBlockOf (g : AstGenerator) (h : HandlerWithStatementContext) (c : CatchBlock) :
    Prop :=
  h.caught? = some c.caught ∧ g.Pos h.statementBlock.a = .ok c.pos ∧
    g.visitStatementBlock h.statementBlock = .ok c.block

/-- The label block `l` is the transform of the handler `h`. -/
def labelBlockOf (g : AstGenerator) (h : HandlerWithStatementContext) (l : LabelBlock) :
    Prop :=
  (∃ d, h.labelDeclaration? = some d ∧ l.label = d.IDENTIFIER ∧
      l.parameters = AstGenerator.labelParameters d) ∧
    g.Pos h.statementBlock.a = .ok l.pos ∧
    g.visitStatementBlock h.statementBlock = .ok l.block

/-- The begin expression of the range of a `for`-`of` loop, when the loop has a
range specifier and that has one. -/
def ForOfRangeContext.beginExpression (c : ForOfRangeContext) : Option ExpressionContext :=
  c.rangeSpecifier.bind (·.begin_)

/-- The end expression of the range of a `for`-`of` loop, when the loop has a
range specifier and that has one. -/
def ForOfRangeContext.endExpression (c : ForOfRangeContext) : Option ExpressionContext :=
  c.rangeSpecifier.bind (·.end_)

/-- The transform of a binary operator node: `result` is a success exactly when
the position of the node and both operands are, and then it is the operator call
on the two operands, left first, without labels. -/
def isOperatorCall (pos : Except Fault SourcePosition) (op : String)
    (left right result : Except Fault Expression) : Prop :=
  ∀ e, result = .ok e ↔
    ∃ p l r, pos = .ok p ∧ left = .ok l ∧ right = .ok r ∧
      e = .CallExpression p op true [l, r] []

/-- One step of a chain of binary operators of one tier: the start of the span
of the node, its operator token and its right operand, together with the
position and the transform of that operand. -/
structure ChainStep (α : Type) where
  a : Nat
  op : String
  right : α
  pos : SourcePosition
  result : Expression

/-- The left fold of operator calls over the steps of a chain. -/
def leftFold (first : Expression) (steps : List (ChainStep α)) : Expression :=
  steps.foldl (fun acc s => .CallExpression s.pos s.op true [acc, s.result] []) first

/-- The step is consistent: its position is the one resolved for its node and
its result is the transform of its right operand. -/
def ChainStep.resolved (g : AstGenerator) (visit : α → Except Fault Expression)
    (s : ChainStep α) : Prop :=
  g.Pos s.a = .ok s.pos ∧ visit s.right = .ok s.result

/-- The left-recursive parse of `e1 op1 e2 ... en` in the multiplicative tier. -/
def MultiplicativeExpressionContext.chain (first : UnaryExpressionContext)
    (steps : List (ChainStep UnaryExpressionContext)) : MultiplicativeExpressionContext :=
  steps.foldl (fun left s => .binary s.a left s.op s.right) (.single first)

/-- The left-recursive parse of `e1 op1 e2 ... en` in the additive tier. -/
def AdditiveExpressionContext.chain (first : MultiplicativeExpressionContext)
    (steps : List (ChainStep MultiplicativeExpressionContext)) :
    AdditiveExpressionContext :=
  steps.foldl (fun left s => .binary s.a left s.op s.right) (.single first)

/-- The left-recursive parse of `e1 op1 e2 ... en` in the shift tier. -/
def ShiftExpressionContext.chain (first : AdditiveExpressionContext)
    (steps : List (ChainStep AdditiveExpressionContext)) : ShiftExpressionContext :=
  steps.foldl (fun left s => .binary s.a left s.op s.right) (.single first)

/-- The left-recursive parse of `e1 op1 e2 ... en` in the relational tier. -/
def RelationalExpressionContext.chain (first : ShiftExpressionContext)
    (steps : List (ChainStep ShiftExpressionContext)) : RelationalExpressionContext :=
  steps.foldl (fun left s => .binary s.a left s.op s.right) (.single first)

/-- The left-recursive parse of `e1 op1 e2 ... en` in the equality tier. -/
def EqualityExpressionContext.chain (first : RelationalExpressionContext)
    (steps : List (ChainStep RelationalExpressionContext)) : EqualityExpressionContext :=
  steps.foldl (fun left s => .binary s.a left s.op s.right) (.single first)

/-- The left-recursive parse of `e1 op1 e2 ... en` in the bitwise tier. -/
def BitwiseExpressionContext.chain (first : EqualityExpressionContext)
    (steps : List (ChainStep EqualityExpressionContext)) : BitwiseExpressionContext :=
  steps.foldl (fun left s => .binary s.a left s.op s.right) (.single first)

/-! ## Sample inputs -/

/-- A number literal as a unary expression. -/
def numberOperand (a : Nat) (text : String) : UnaryExpressionContext :=
  .assignmentExpression (.primaryExpression (.decimalLiteral a text))

/-- An identifier as a unary expression: an assignment that is a bare location. -/
def identifierOperand (a : Nat) (name : String) : UnaryExpressionContext :=
  .assignmentExpression (.assignment (.location a (.identifier a name) none none))

/-- An additive expression as an expression, through the tiers above it. -/
def ExpressionContext.ofAdditive (e : AdditiveExpressionContext) : ExpressionContext :=
  .mk (.single (.single (.single (.single (.single (.single (.single e)))))))

/-- A number literal as an expression. -/
def numberExpression (a : Nat) (text : String) : ExpressionContext :=
  .ofAdditive (.single (.single (numberOperand a text)))

/-- A visitor in the middle of a file: file 0 is active and its tokens are the
given ones. -/
def generatorWithTokens (tokens : List Token) : AstGenerator :=
  { ast_ := { declarations_ := [], sources_ := ["test.tq"] }
    current_source_file_ := 0
    source_file_context_ := some { name := "test.tq", file := { children := [] },
                                   tokens := tokens } }

/-- Tokens on line 1 at columns 0, 2, 4, ..., as many as asked for. -/
def tokensOnLineOne (n : Nat) : List Token :=
  (List.range n).map fun i => { getLine := 1, getCharPositionInLine := 2 * i }

/-- The position on line 1 of file 0 at the given column. -/
def lineOne (column : Int) : SourcePosition := { source := 0, line := 1, column := column }

/-- The parse tree of `1 + 2 * 3`. -/
def onePlusTwoTimesThree : ExpressionContext :=
  .ofAdditive
    (.binary 0 (.single (.single (numberOperand 0 "1"))) "+"
      (.binary 2 (.single (numberOperand 2 "2")) "*" (numberOperand 4 "3")))

/-- The parse tree of `a - b - c`. -/
def aMinusBMinusC : ExpressionContext :=
  .ofAdditive
    (.binary 0
      (.binary 0 (.single (.single (identifierOperand 0 "a"))) "-"
        (.single (identifierOperand 2 "b")))
      "-" (.single (identifierOperand 4 "c")))

/-- An empty statement block `{ }` starting at token `a`. -/
def emptyBlock (a : Nat) : StatementBlockContext :=
  .statementScope a (.mk a false (.mk []))

/-- The parse tree of `try { } catch (e) { } label L() { } catch (f) { }`, with
the tokens `try { } catch ( e ) { } label L ( ) { } catch ( f ) { }`. -/
def tryCatchLabelCatch : TryCatchContext :=
  .mk 0 (emptyBlock 1)
    [ .catchHandler "e" (emptyBlock 7),
      .labelHandler { IDENTIFIER := "L", parameterList := some (.plain []) } (emptyBlock 13),
      .catchHandler "f" (emptyBlock 19) ]

/-- The parse tree of `for (let x: T of xs [:5]) { }`: the range has no begin and
the end `5`.  The tokens are `for ( let x : T of xs [ : 5 ] ) { }`. -/
def forOfEndOnly : ForOfLoopContext :=
  .mk 0 { a := 2, IDENTIFIER := "x", type := { IDENTIFIER := "T" } }
    (.ofAdditive (.single (.single (identifierOperand 7 "xs"))))
    { rangeSpecifier := some { begin_ := none, end_ := some (numberExpression 10 "5") } }
    (emptyBlock 13)

/-- A parse tree of `let x: T = 1` with the tokens `let x : T = 1`, in which the
wrapper is given the span start 0 and the bare declaration the span start 1, so
that the two positions can be told apart. -/
def letWithInitializer : VariableDeclarationWithInitializationContext :=
  { a := 0
    variableDeclaration := { a := 1, IDENTIFIER := "x", type := { IDENTIFIER := "T" } }
    expression := some (numberExpression 5 "1") }

/-- The parse tree of `x = 1`, with the tokens `x = 1`. -/
def xAssignOne : ExpressionContext :=
  .ofAdditive (.single (.single (.assignmentExpression (.assignment
    (.location 0 (.identifier 0 "x") none (some (numberExpression 2 "1")))))))

/-! ## Span starts of the parse tree -/

mutual
/-- The span starts of the nodes of an expression (of every node of the subtree
that carries one). -/
def ExpressionContext.spans : ExpressionContext → List Nat
  | .mk c => c.spans
/-- The span starts of the nodes of a conditional expression. -/
def ConditionalExpressionContext.spans : ConditionalExpressionContext → List Nat
  | .single c => c.spans
  | .ternary a c e0 e1 => a :: (c.spans ++ (e0.spans ++ e1.spans))
/-- The span starts of the nodes of a logical-or expression. -/
def LogicalORExpressionContext.spans : LogicalORExpressionContext → List Nat
  | .single c => c.spans
  | .binary a l r => a :: (l.spans ++ r.spans)
/-- The span starts of the nodes of a logical-and expression. -/
def LogicalANDExpressionContext.spans : LogicalANDExpressionContext → List Nat
  | .single c => c.spans
  | .binary a l r => a :: (l.spans ++ r.spans)
/-- The span starts of the nodes of a bitwise expression. -/
def BitwiseExpressionContext.spans : BitwiseExpressionContext → List Nat
  | .single c => c.spans
  | .binary a l _ r => a :: (l.spans ++ r.spans)
/-- The span starts of the nodes of an equality expression. -/
def EqualityExpressionContext.spans : EqualityExpressionContext → List Nat
  | .single c => c.spans
  | .binary a l _ r => a :: (l.spans ++ r.spans)
/-- The span starts of the nodes of a relational expression. -/
def RelationalExpressionContext.spans : RelationalExpressionContext → List Nat
  | .single c => c.spans
  | .binary a l _ r => a :: (l.spans ++ r.spans)
/-- The span starts of the nodes of a shift expression. -/
def ShiftExpressionContext.spans : ShiftExpressionContext → List Nat
  | .single c => c.spans
  | .binary a l _ r => a :: (l.spans ++ r.spans)
/-- The span starts of the nodes of an additive expression. -/
def AdditiveExpressionContext.spans : AdditiveExpressionContext → List Nat
  | .single c => c.spans
  | .binary a l _ r => a :: (l.spans ++ r.spans)
/-- The span starts of the nodes of a multiplicative expression. -/
def MultiplicativeExpressionContext.spans : MultiplicativeExpressionContext → List Nat
  | .single c => c.spans
  | .binary a l _ r => a :: (l.spans ++ r.spans)
/-- The span starts of the nodes of a unary expression. -/
def UnaryExpressionContext.spans : UnaryExpressionContext → List Nat
  | .assignmentExpression c => c.spans
  | .unary a _ e => a :: e.spans
/-- The span starts of the nodes of an assignment expression. -/
def AssignmentExpressionContext.spans : AssignmentExpressionContext → List Nat
  | .primaryExpression c => c.spans
  | .assignment c => c.spans
/-- The span starts of the nodes of an assignment. -/
def AssignmentContext.spans : AssignmentContext → List Nat
  | .incrementDecrement c => c.spans
  | .location a l _ none => a :: l.spans
  | .location a l _ (some e) => a :: (l.spans ++ e.spans)
/-- The span starts of the nodes of an increment or decrement. -/
def IncrementDecrementContext.spans : IncrementDecrementContext → List Nat
  | .mk a _ _ l => a :: l.spans
/-- The span starts of the nodes of a location expression. -/
def LocationExpressionContext.spans : LocationExpressionContext → List Nat
  | .identifier a _ => [a]
  | .fieldAccess a l _ => a :: l.spans
  | .elementAccess a l e => a :: (l.spans ++ e.spans)
/-- The span starts of the nodes of a primary expression. -/
def PrimaryExpressionContext.spans : PrimaryExpressionContext → List Nat
  | .helperCall c => c.spans
  | .decimalLiteral a _ => [a]
  | .stringLiteral a _ => [a]
  | .convert a _ e => a :: e.spans
  | .cast a _ _ e => a :: e.spans
  | .parenthesized e => e.spans
/-- The span starts of the nodes of a helper call. -/
def HelperCallContext.spans : HelperCallContext → List Nat
  | .mk a _ _ _ (.mk argument) _ => a :: ArgumentContext.spansList argument
/-- The span starts of the nodes of the arguments of a list. -/
def ArgumentContext.spansList : List ArgumentContext → List Nat
  | [] => []
  | c :: cs => c.spans ++ ArgumentContext.spansList cs
/-- The span starts of the nodes of an argument. -/
def ArgumentContext.spans : ArgumentContext → List Nat
  | .mk e => e.spans
end

/-- The span starts of the nodes of an optional expression. -/
def ExpressionContext.spansOption : Option ExpressionContext → List Nat
  | none => []
  | some e => e.spans

/-- The span starts of the nodes of a variable declaration with initialization. -/
def VariableDeclarationWithInitializationContext.spans
    (c : VariableDeclarationWithInitializationContext) : List Nat :=
  c.a :: c.variableDeclaration.a :: ExpressionContext.spansOption c.expression

/-- The span starts of the nodes of a `goto` statement. -/
def GotoStatementContext.spans (c : GotoStatementContext) : List Nat :=
  c.a :: (match c.argumentList with
    | some argumentList => ArgumentContext.spansList argumentList.argument
    | none => [])

/-- The span starts of the nodes of the initialization of a `for` loop. -/
def ForInitializationContext.spans (c : ForInitializationContext) : List Nat :=
  match c.variableDeclarationWithInitialization with
  | some init => init.spans
  | none => []

/-- The span starts of the nodes of the range of a `for`-`of` loop. -/
def ForOfRangeContext.spans (c : ForOfRangeContext) : List Nat :=
  match c.rangeSpecifier with
  | some range =>
    ExpressionContext.spansOption range.begin_ ++ ExpressionContext.spansOption range.end_
  | none => []

mutual
/-- The span starts of the nodes of a statement. -/
def StatementContext.spans : StatementContext → List Nat
  | .variableDeclarationWithInitialization c => c.spans
  | .helperCallStatement c => c.a :: c.helperCall.spans
  | .expressionStatement c => c.a :: c.assignment.spans
  | .returnStatement c => c.a :: c.expression.spans
  | .breakStatement c => [c.a]
  | .continueStatement c => [c.a]
  | .gotoStatement c => c.spans
  | .ifStatement c => c.spans
  | .whileLoop c => c.spans
  | .forOfLoop c => c.spans
  | .forLoop c => c.spans
  | .tryCatch c => c.spans
/-- The span starts of the nodes of the statements of a list. -/
def StatementContext.spansList : List StatementContext → List Nat
  | [] => []
  | c :: cs => c.spans ++ StatementContext.spansList cs
/-- The span starts of the nodes of a statement scope. -/
def StatementScopeContext.spans : StatementScopeContext → List Nat
  | .mk a _ (.mk statement) => a :: StatementContext.spansList statement
/-- The span starts of the nodes of a statement block. -/
def StatementBlockContext.spans : StatementBlockContext → List Nat
  | .statement a c => a :: c.spans
  | .statementScope a c => a :: c.spans
/-- The span starts of the nodes of an `if` statement. -/
def IfStatementContext.spans : IfStatementContext → List Nat
  | .mk a e b0 none => a :: (e.spans ++ b0.spans)
  | .mk a e b0 (some b1) => a :: (e.spans ++ (b0.spans ++ b1.spans))
/-- The span starts of the nodes of a `while` loop. -/
def WhileLoopContext.spans : WhileLoopContext → List Nat
  | .mk a e b => a :: (e.spans ++ b.spans)
/-- The span starts of the nodes of a `for` loop. -/
def ForLoopContext.spans : ForLoopContext → List Nat
  | .mk a i e s b => a :: (i.spans ++ (e.spans ++ (s.spans ++ b.spans)))
/-- The span starts of the nodes of a `for`-`of` loop. -/
def ForOfLoopContext.spans : ForOfLoopContext → List Nat
  | .mk a v e r b => a :: v.a :: (e.spans ++ (r.spans ++ b.spans))
/-- The span starts of the nodes of a try statement. -/
def TryCatchContext.spans : TryCatchContext → List Nat
  | .mk a b hs => a :: (b.spans ++ HandlerWithStatementContext.spansList hs)
/-- The span starts of the nodes of the handlers of a list. -/
def HandlerWithStatementContext.spansList : List HandlerWithStatementContext → List Nat
  | [] => []
  | .catchHandler _ b :: hs => b.spans ++ HandlerWithStatementContext.spansList hs
  | .labelHandler _ b :: hs => b.spans ++ HandlerWithStatementContext.spansList hs
end

/-- The span starts of the nodes of a declaration. -/
def DeclarationContext.spans : DeclarationContext → List Nat
  | .typeDeclaration c => [c.a]
  | .builtinDeclaration c => c.a :: c.helperBody.statementScope.spans
  | .macroDeclaration c => c.a :: c.helperBody.statementScope.spans
  | .externalMacro c => [c.a]
  | .externalBuiltin c => [c.a]
  | .externalRuntime c => [c.a]
  | .constDeclaration c => [c.a]

/-- The span starts of the nodes of the declarations of a list. -/
def DeclarationContext.spansList : List DeclarationContext → List Nat
  | [] => []
  | c :: cs => c.spans ++ DeclarationContext.spansList cs

/-- The span starts of the nodes of a child of the file. -/
def FileChildContext.spans : FileChildContext → List Nat
  | .moduleDeclaration c => c.a :: DeclarationContext.spansList c.declaration
  | .declaration c => c.spans

/-- The span starts of the nodes of the children of a list. -/
def FileChildContext.spansList : List FileChildContext → List Nat
  | [] => []
  | c :: cs => c.spans ++ FileChildContext.spansList cs

/-- The span starts of the nodes of the parse tree of a file. -/
def FileContext.spans (c : FileContext) : List Nat :=
  FileChildContext.spansList c.children

/-! ## Callees of the helper calls of the parse tree -/

mutual
/-- Every helper call inside the expression has one of its three callee
alternatives. -/
def ExpressionContext.calleesPresent : ExpressionContext → Bool
  | .mk c => c.calleesPresent
/-- Every helper call inside the conditional expression has a callee. -/
def ConditionalExpressionContext.calleesPresent : ConditionalExpressionContext → Bool
  | .single c => c.calleesPresent
  | .ternary _ c e0 e1 => c.calleesPresent && e0.calleesPresent && e1.calleesPresent
/-- Every helper call inside the logical-or expression has a callee. -/
def LogicalORExpressionContext.calleesPresent : LogicalORExpressionContext → Bool
  | .single c => c.calleesPresent
  | .binary _ l r => l.calleesPresent && r.calleesPresent
/-- Every helper call inside the logical-and expression has a callee. -/
def LogicalANDExpressionContext.calleesPresent : LogicalANDExpressionContext → Bool
  | .single c => c.calleesPresent
  | .binary _ l r => l.calleesPresent && r.calleesPresent
/-- Every helper call inside the bitwise expression has a callee. -/
def BitwiseExpressionContext.calleesPresent : BitwiseExpressionContext → Bool
  | .single c => c.calleesPresent
  | .binary _ l _ r => l.calleesPresent && r.calleesPresent
/-- Every helper call inside the equality expression has a callee. -/
def EqualityExpressionContext.calleesPresent : EqualityExpressionContext → Bool
  | .single c => c.calleesPresent
  | .binary _ l _ r => l.calleesPresent && r.calleesPresent
/-- Every helper call inside the relational expression has a callee. -/
def RelationalExpressionContext.calleesPresent : RelationalExpressionContext → Bool
  | .single c => c.calleesPresent
  | .binary _ l _ r => l.calleesPresent && r.calleesPresent
/-- Every helper call inside the shift expression has a callee. -/
def ShiftExpressionContext.calleesPresent : ShiftExpressionContext → Bool
  | .single c => c.calleesPresent
  | .binary _ l _ r => l.calleesPresent && r.calleesPresent
/-- Every helper call inside the additive expression has a callee. -/
def AdditiveExpressionContext.calleesPresent : AdditiveExpressionContext → Bool
  | .single c => c.calleesPresent
  | .binary _ l _ r => l.calleesPresent && r.calleesPresent
/-- Every helper call inside the multiplicative expression has a callee. -/
def MultiplicativeExpressionContext.calleesPresent : MultiplicativeExpressionContext → Bool
  | .single c => c.calleesPresent
  | .binary _ l _ r => l.calleesPresent && r.calleesPresent
/-- Every helper call inside the unary expression has a callee. -/
def UnaryExpressionContext.calleesPresent : UnaryExpressionContext → Bool
  | .assignmentExpression c => c.calleesPresent
  | .unary _ _ e => e.calleesPresent
/-- Every helper call inside the assignment expression has a callee. -/
def AssignmentExpressionContext.calleesPresent : AssignmentExpressionContext → Bool
  | .primaryExpression c => c.calleesPresent
  | .assignment c => c.calleesPresent
/-- Every helper call inside the assignment has a callee. -/
def AssignmentContext.calleesPresent : AssignmentContext → Bool
  | .incrementDecrement c => c.calleesPresent
  | .location _ l _ none => l.calleesPresent
  | .location _ l _ (some e) => l.calleesPresent && e.calleesPresent
/-- Every helper call inside the increment or decrement has a callee. -/
def IncrementDecrementContext.calleesPresent : IncrementDecrementContext → Bool
  | .mk _ _ _ l => l.calleesPresent
/-- Every helper call inside the location expression has a callee. -/
def LocationExpressionContext.calleesPresent : LocationExpressionContext → Bool
  | .identifier _ _ => true
  | .fieldAccess _ l _ => l.calleesPresent
  | .elementAccess _ l e => l.calleesPresent && e.calleesPresent
/-- Every helper call inside the primary expression has a callee. -/
def PrimaryExpressionContext.calleesPresent : PrimaryExpressionContext → Bool
  | .helperCall c => c.calleesPresent
  | .decimalLiteral _ _ => true
  | .stringLiteral _ _ => true
  | .convert _ _ e => e.calleesPresent
  | .cast _ _ _ e => e.calleesPresent
  | .parenthesized e => e.calleesPresent
/-- The helper call has one of the callee alternatives `MIN`, `MAX`, `IDENTIFIER`,
and so has every helper call among its arguments. -/
def HelperCallContext.calleesPresent : HelperCallContext → Bool
  | .mk _ MIN MAX IDENTIFIER (.mk argument) _ =>
    (MIN.isSome || MAX.isSome || IDENTIFIER.isSome) &&
      ArgumentContext.calleesPresentList argument
/-- Every helper call inside the arguments of the list has a callee. -/
def ArgumentContext.calleesPresentList : List ArgumentContext → Bool
  | [] => true
  | c :: cs => c.calleesPresent && ArgumentContext.calleesPresentList cs
/-- Every helper call inside the argument has a callee. -/
def ArgumentContext.calleesPresent : ArgumentContext → Bool
  | .mk e => e.calleesPresent
end

/-- Every helper call inside the optional expression has a callee. -/
def ExpressionContext.calleesPresentOption : Option ExpressionContext → Bool
  | none => true
  | some e => e.calleesPresent

/-- Every helper call inside the `goto` statement has a callee. -/
def GotoStatementContext.calleesPresent (c : GotoStatementContext) : Bool :=
  match c.argumentList with
  | some argumentList => ArgumentContext.calleesPresentList argumentList.argument
  | none => true

/-- Every helper call inside the initialization of the `for` loop has a callee. -/
def ForInitializationContext.calleesPresent (c : ForInitializationContext) : Bool :=
  match c.variableDeclarationWithInitialization with
  | some init => ExpressionContext.calleesPresentOption init.expression
  | none => true

/-- Every helper call inside the range of the `for`-`of` loop has a callee. -/
def ForOfRangeContext.calleesPresent (c : ForOfRangeContext) : Bool :=
  match c.rangeSpecifier with
  | some range =>
    ExpressionContext.calleesPresentOption range.begin_ &&
      ExpressionContext.calleesPresentOption range.end_
  | none => true

mutual
/-- Every helper call inside the statement has a callee. -/
def StatementContext.calleesPresent : StatementContext → Bool
  | .variableDeclarationWithInitialization c =>
    ExpressionContext.calleesPresentOption c.expression
  | .helperCallStatement c => c.helperCall.calleesPresent
  | .expressionStatement c => c.assignment.calleesPresent
  | .returnStatement c => c.expression.calleesPresent
  | .breakStatement _ => true
  | .continueStatement _ => true
  | .gotoStatement c => c.calleesPresent
  | .ifStatement c => c.calleesPresent
  | .whileLoop c => c.calleesPresent
  | .forOfLoop c => c.calleesPresent
  | .forLoop c => c.calleesPresent
  | .tryCatch c => c.calleesPresent
/-- Every helper call inside the statements of the list has a callee. -/
def StatementContext.calleesPresentList : List StatementContext → Bool
  | [] => true
  | c :: cs => c.calleesPresent && StatementContext.calleesPresentList cs
/-- Every helper call inside the statement scope has a callee. -/
def StatementScopeContext.calleesPresent : StatementScopeContext → Bool
  | .mk _ _ (.mk statement) => StatementContext.calleesPresentList statement
/-- Every helper call inside the statement block has a callee. -/
def StatementBlockContext.calleesPresent : StatementBlockContext → Bool
  | .statement _ c => c.calleesPresent
  | .statementScope _ c => c.calleesPresent
/-- Every helper call inside the `if` statement has a callee. -/
def IfStatementContext.calleesPresent : IfStatementContext → Bool
  | .mk _ e b0 none => e.calleesPresent && b0.calleesPresent
  | .mk _ e b0 (some b1) => e.calleesPresent && b0.calleesPresent && b1.calleesPresent
/-- Every helper call inside the `while` loop has a callee. -/
def WhileLoopContext.calleesPresent : WhileLoopContext → Bool
  | .mk _ e b => e.calleesPresent && b.calleesPresent
/-- Every helper call inside the `for` loop has a callee. -/
def ForLoopContext.calleesPresent : ForLoopContext → Bool
  | .mk _ i e s b =>
    i.calleesPresent && e.calleesPresent && s.calleesPresent && b.calleesPresent
/-- Every helper call inside the `for`-`of` loop has a callee. -/
def ForOfLoopContext.calleesPresent : ForOfLoopContext → Bool
  | .mk _ _ e r b => e.calleesPresent && r.calleesPresent && b.calleesPresent
/-- Every helper call inside the try statement has a callee. -/
def TryCatchContext.calleesPresent : TryCatchContext → Bool
  | .mk _ b hs => b.calleesPresent && HandlerWithStatementContext.calleesPresentList hs
/-- Every helper call inside the handlers of the list has a callee. -/
def HandlerWithStatementContext.calleesPresentList :
    List HandlerWithStatementContext → Bool
  | [] => true
  | .catchHandler _ b :: hs =>
    b.calleesPresent && HandlerWithStatementContext.calleesPresentList hs
  | .labelHandler _ b :: hs =>
    b.calleesPresent && HandlerWithStatementContext.calleesPresentList hs
end

/-- The literal can be decoded: it is delimited by quote characters and every
backslash of its payload starts a recognised escape. -/
def decodable (s : String) : Bool :=
  decide (quoteDelimited s) && wellEscaped (payload s)

/-- The declaration is well formed: the string literal it decodes, if it has
one, is decodable, and every helper call in its body has a callee. -/
def DeclarationContext.wellFormed : DeclarationContext → Bool
  | .typeDeclaration c =>
    match c.generatesDeclaration with
    | some generatesDeclaration => decodable generatesDeclaration.STRING_LITERAL
    | none => true
  | .builtinDeclaration c => c.helperBody.statementScope.calleesPresent
  | .macroDeclaration c => c.helperBody.statementScope.calleesPresent
  | .externalMacro c =>
    match c.STRING_LITERAL with
    | some op => decodable op
    | none => true
  | .externalBuiltin _ => true
  | .externalRuntime _ => true
  | .constDeclaration c => decodable c.STRING_LITERAL

/-- The child of the file is well formed: every declaration in it is. -/
def FileChildContext.wellFormed : FileChildContext → Bool
  | .moduleDeclaration c => c.declaration.all (·.wellFormed)
  | .declaration c => c.wellFormed

/-- The parse tree of the file is well formed: every string literal that is
decoded is decodable and every helper call has a callee. -/
def FileContext.wellFormed (c : FileContext) : Bool :=
  c.children.all (·.wellFormed)

/-- Every span start of the parse tree of the file is the index of a token of
its token stream.  This ties the tree to the stream it was parsed from:
`getSourceInterval().a` is the index, in that stream, of the first token of the
node. -/
def SourceFileContext.spansInTokens (c : SourceFileContext) : Prop :=
  ∀ a ∈ c.file.spans, a < c.tokens.length

instance (c : SourceFileContext) : Decidable c.spansInTokens := by
  unfold SourceFileContext.spansInTokens
  infer_instance

/-! ## Positions of the produced AST -/

mutual
/-- The position of every node of the expression satisfies `Q`. -/
def Expression.positionsAll (Q : SourcePosition → Bool) : Expression → Bool
  | .NumberLiteralExpression pos _ => Q pos
  | .StringLiteralExpression pos _ => Q pos
  | .CallExpression pos _ _ arguments _ => Q pos && Expression.positionsAllList Q arguments
  | .ConvertExpression pos _ value => Q pos && value.positionsAll Q
  | .CastExpression pos _ _ value => Q pos && value.positionsAll Q
  | .IdentifierExpression pos _ => Q pos
  | .FieldAccessExpression pos object _ => Q pos && object.positionsAll Q
  | .ElementAccessExpression pos array index =>
    Q pos && array.positionsAll Q && index.positionsAll Q
  | .AssignmentExpression pos location _ value =>
    Q pos && location.positionsAll Q && value.positionsAll Q
  | .IncrementDecrementExpression pos location _ _ => Q pos && location.positionsAll Q
  | .LogicalAndExpression pos left right =>
    Q pos && left.positionsAll Q && right.positionsAll Q
  | .LogicalOrExpression pos left right =>
    Q pos && left.positionsAll Q && right.positionsAll Q
  | .ConditionalExpression pos condition if_true if_false =>
    Q pos && condition.positionsAll Q && if_true.positionsAll Q && if_false.positionsAll Q
/-- The position of every node of every expression of the list satisfies `Q`. -/
def Expression.positionsAllList (Q : SourcePosition → Bool) : List Expression → Bool
  | [] => true
  | e :: es => e.positionsAll Q && Expression.positionsAllList Q es
end

/-- The position of every node of the optional expression satisfies `Q`. -/
def Expression.positionsAllOption (Q : SourcePosition → Bool) : Option Expression → Bool
  | none => true
  | some e => e.positionsAll Q

/-- The position of the declaration and of every node of its initializer
satisfies `Q`. -/
def VarDeclarationStatement.positionsAll (Q : SourcePosition → Bool)
    (s : VarDeclarationStatement) : Bool :=
  Q s.pos && Expression.positionsAllOption Q s.initializer

mutual
/-- The position of every node of the statement (statements, expressions, catch
blocks and label blocks) satisfies `Q`. -/
def Statement.positionsAll (Q : SourcePosition → Bool) : Statement → Bool
  | .BlockStatement pos _ statements => Q pos && Statement.positionsAllList Q statements
  | .ExpressionStatement pos expression => Q pos && expression.positionsAll Q
  | .VarDeclarationStatement s => s.positionsAll Q
  | .ReturnStatement pos value => Q pos && value.positionsAll Q
  | .BreakStatement pos => Q pos
  | .ContinueStatement pos => Q pos
  | .GotoStatement pos _ arguments => Q pos && Expression.positionsAllList Q arguments
  | .IfStatement pos condition if_true none =>
    Q pos && condition.positionsAll Q && if_true.positionsAll Q
  | .IfStatement pos condition if_true (some if_false) =>
    Q pos && condition.positionsAll Q && if_true.positionsAll Q && if_false.positionsAll Q
  | .WhileStatement pos condition body =>
    Q pos && condition.positionsAll Q && body.positionsAll Q
  | .ForLoopStatement pos none test action body =>
    Q pos && test.positionsAll Q && action.positionsAll Q && body.positionsAll Q
  | .ForLoopStatement pos (some var_declaration) test action body =>
    Q pos && var_declaration.positionsAll Q && test.positionsAll Q &&
      action.positionsAll Q && body.positionsAll Q
  | .ForOfLoopStatement pos var_declaration iterable begin_ end_ body =>
    Q pos && var_declaration.positionsAll Q && iterable.positionsAll Q &&
      Expression.positionsAllOption Q begin_ && Expression.positionsAllOption Q end_ &&
      body.positionsAll Q
  | .TryCatchStatement pos try_block catch_blocks label_blocks =>
    Q pos && try_block.positionsAll Q && CatchBlock.positionsAllList Q catch_blocks &&
      LabelBlock.positionsAllList Q label_blocks
  | .TailCallStatement pos call => Q pos && call.positionsAll Q
/-- The position of every node of every statement of the list satisfies `Q`. -/
def Statement.positionsAllList (Q : SourcePosition → Bool) : List Statement → Bool
  | [] => true
  | s :: ss => s.positionsAll Q && Statement.positionsAllList Q ss
/-- The position of every catch block of the list and of every node of its body
satisfies `Q`. -/
def CatchBlock.positionsAllList (Q : SourcePosition → Bool) : List CatchBlock → Bool
  | [] => true
  | .mk pos _ block :: bs =>
    Q pos && block.positionsAll Q && CatchBlock.positionsAllList Q bs
/-- The position of every label block of the list and of every node of its body
satisfies `Q`. -/
def LabelBlock.positionsAllList (Q : SourcePosition → Bool) : List LabelBlock → Bool
  | [] => true
  | .mk pos _ _ block :: bs =>
    Q pos && block.positionsAll Q && LabelBlock.positionsAllList Q bs
end

mutual
/-- The position of every node of the declaration, at any depth, satisfies `Q`. -/
def Declaration.positionsAll (Q : SourcePosition → Bool) : Declaration → Bool
  | .ExplicitModuleDeclaration pos _ declarations =>
    Q pos && Declaration.positionsAllList Q declarations
  | .MacroDeclaration pos _ _ _ _ body => Q pos && body.positionsAll Q
  | .BuiltinDeclaration pos _ _ _ _ body => Q pos && body.positionsAll Q
  | .ExternalMacroDeclaration pos _ _ _ _ _ _ => Q pos
  | .ExternalBuiltinDeclaration pos _ _ _ _ => Q pos
  | .ExternalRuntimeDeclaration pos _ _ _ => Q pos
  | .ConstDeclaration pos _ _ _ => Q pos
  | .TypeDeclaration pos _ _ _ => Q pos
/-- The position of every node of every declaration of the list satisfies `Q`. -/
def Declaration.positionsAllList (Q : SourcePosition → Bool) : List Declaration → Bool
  | [] => true
  | d :: ds => d.positionsAll Q && Declaration.positionsAllList Q ds
end

/-- The position `p` is the one of file `f` read off the token at one of the
span starts: its line and column are the `int` values of the token's. -/
def resolvedFrom (f : SourceId) (tokens : List Token) (spans : List Nat)
    (p : SourcePosition) : Bool :=
  spans.any fun a =>
    match tokens[a]? with
    | some token =>
      decide (p = { source := f
                    line := static_cast_int token.getLine
                    column := static_cast_int token.getCharPositionInLine })
    | none => false

/-- The position `p` is the one of file `f` with exactly the line and the column
of the token at one of the span starts. -/
def resolvedExactlyFrom (f : SourceId) (tokens : List Token) (spans : List Nat)
    (p : SourcePosition) : Bool :=
  spans.any fun a =>
    match tokens[a]? with
    | some token =>
      decide (p = { source := f
                    line := Int.ofNat token.getLine
                    column := Int.ofNat token.getCharPositionInLine })
    | none => false

/-- The position of a declaration. -/
def Declaration.pos : Declaration → SourcePosition
  | .ExplicitModuleDeclaration pos _ _ => pos
  | .MacroDeclaration pos _ _ _ _ _ => pos
  | .BuiltinDeclaration pos _ _ _ _ _ => pos
  | .ExternalMacroDeclaration pos _ _ _ _ _ _ => pos
  | .ExternalBuiltinDeclaration pos _ _ _ _ => pos
  | .ExternalRuntimeDeclaration pos _ _ _ => pos
  | .ConstDeclaration pos _ _ _ => pos
  | .TypeDeclaration pos _ _ _ => pos

/-- The return-type name of a declaration that has one. -/
def Declaration.return_type? : Declaration → Option String
  | .MacroDeclaration _ _ _ return_type _ _ => some return_type
  | .BuiltinDeclaration _ _ _ _ return_type _ => some return_type
  | .ExternalMacroDeclaration _ _ _ _ _ return_type _ => some return_type
  | .ExternalBuiltinDeclaration _ _ _ _ return_type => some return_type
  | .ExternalRuntimeDeclaration _ _ _ return_type => some return_type
  | _ => none

/-- The declaration `d` has the return type written in `c`: the identifier of the
type when one is written, and `void` when it is omitted. -/
def hasReturnTypeOf (c : OptionalTypeContext) (d : Declaration) : Prop :=
  (∀ t, c.type = some t → d.return_type? = some t.IDENTIFIER) ∧
  (c.type = none → d.return_type? = some "void")

/-- The state of the visitor inside `visitSourceFile`, after lines 587-588: the
context of the file is the active one and the file is registered. -/
def enterSourceFile (g : AstGenerator) (context : SourceFileContext) : AstGenerator :=
  { ast_ := (g.ast_.AddSource context.name).1
    current_source_file_ := (g.ast_.AddSource context.name).2
    source_file_context_ := some context }

/-! ## Faults of a run -/

/-- The computation ends in no fault other than a token index outside the token
stream: it returns, or it stops at a token lookup. -/
def onlyTokenFault {α : Type} (r : Except Fault α) : Prop :=
  ∀ fault, r = .error fault → fault = .indexOutOfBounds

/-! ## Sample files -/

/-- A visitor before any file: nothing registered, no active context. -/
def initialGenerator : AstGenerator :=
  { ast_ := { declarations_ := [], sources_ := [] }
    current_source_file_ := 0
    source_file_context_ := none }

/-- The tokens of the sample file
```
const K: T = 'k';
macro F(x: T): T {
  return min(x, 1);
}
```
with their lines and columns. -/
def sampleTokens : List Token :=
  [ ⟨1, 0⟩, ⟨1, 6⟩, ⟨1, 7⟩, ⟨1, 9⟩, ⟨1, 11⟩, ⟨1, 13⟩, ⟨1, 16⟩,
    ⟨2, 0⟩, ⟨2, 6⟩, ⟨2, 7⟩, ⟨2, 8⟩, ⟨2, 9⟩, ⟨2, 11⟩, ⟨2, 12⟩, ⟨2, 13⟩, ⟨2, 15⟩, ⟨2, 17⟩,
    ⟨3, 2⟩, ⟨3, 9⟩, ⟨3, 12⟩, ⟨3, 13⟩, ⟨3, 14⟩, ⟨3, 16⟩, ⟨3, 17⟩, ⟨3, 18⟩,
    ⟨4, 0⟩ ]

/-- The helper call `min(x, 1)` of the sample file. -/
def sampleCall : HelperCallContext :=
  .mk 18 (some "min") none none
    (.mk [ .mk (.ofAdditive (.single (.single (identifierOperand 20 "x")))),
           .mk (numberExpression 22 "1") ])
    { IDENTIFIER := [] }

/-- The body `{ return min(x, 1); }` of the macro of the sample file. -/
def sampleBody : StatementScopeContext :=
  .mk 16 false (.mk
    [ .returnStatement
        { a := 17
          expression := .ofAdditive (.single (.single (.assignmentExpression
            (.primaryExpression (.helperCall sampleCall))))) } ])

/-- The macro declaration of the sample file. -/
def sampleMacro : MacroDeclarationContext :=
  { a := 7, IDENTIFIER := "F"
    parameterList := .plain [{ IDENTIFIER := "x", type := { IDENTIFIER := "T" } }]
    optionalType := { type := some { IDENTIFIER := "T" } }
    optionalLabelList := { labelParameter := [] }
    helperBody := { statementScope := sampleBody } }

/-- The parse tree of the sample file. -/
def sampleTree : FileContext :=
  { children :=
      [ .declaration (.constDeclaration
          { a := 0, IDENTIFIER := "K", type := { IDENTIFIER := "T" }
            STRING_LITERAL := String.mk [squote, 'k', squote] }),
        .declaration (.macroDeclaration sampleMacro) ] }

/-- The sample file. -/
def sampleFile : SourceFileContext :=
  { name := "sample.tq", file := sampleTree, tokens := sampleTokens }

/-- The position in file 0 at the given line and column. -/
def inFileZero (line column : Int) : SourcePosition :=
  { source := 0, line := line, column := column }

/-- The AST of the call `min(x, 1)` of the sample file. -/
def sampleCallAst : Expression :=
  .CallExpression (inFileZero 3 9) "min" true
    [ .IdentifierExpression (inFileZero 3 13) "x",
      .NumberLiteralExpression (inFileZero 3 16) "1" ] []

/-- The AST of the sample file. -/
def sampleAst : List Declaration :=
  [ .ConstDeclaration (inFileZero 1 0) "K" "T" "k",
    .MacroDeclaration (inFileZero 2 0) "F"
      { names := ["x"], types := ["T"], has_varargs := false, arguments_variable := none }
      "T" []
      (.BlockStatement (inFileZero 2 17) false
        [ .ReturnStatement (inFileZero 3 2) sampleCallAst ]) ]

/-- A unary expression as a bitwise expression, through the tiers between. -/
def bitwiseOperand (u : UnaryExpressionContext) : BitwiseExpressionContext :=
  .single (.single (.single (.single (.single (.single u)))))

/-- The state of the visitor after the sample file, from the initial state. -/
def sampleOutcome : AstGenerator :=
  { ast_ := { declarations_ := sampleAst, sources_ := ["sample.tq"] }
    current_source_file_ := 0
    source_file_context_ := none }

/-- A file made of the declaration `type T;` whose first token is on line
2147483648, the first line number that does not fit an `int`. -/
def longFile : SourceFileContext :=
  { name := "long.tq"
    file := { children := [ .declaration (.typeDeclaration
      { a := 0, IDENTIFIER := "T", extendsDeclaration := none,
        generatesDeclaration := none }) ] }
    tokens := [ ⟨2147483648, 0⟩, ⟨2147483648, 5⟩, ⟨2147483648, 6⟩ ] }

/-! ## Degenerate chains of expression tiers -/

/-- The primary expression of an assignment expression that is one. -/
def AssignmentExpressionContext.primary? :
    AssignmentExpressionContext → Option PrimaryExpressionContext
  | .primaryExpression p => some p
  | .assignment _ => none

/-- The primary expression under a unary expression without a prefix operator. -/
def UnaryExpressionContext.primary? : UnaryExpressionContext → Option PrimaryExpressionContext
  | .assignmentExpression c => c.primary?
  | .unary _ _ _ => none

/-- The primary expression under a multiplicative expression without a left
operand, when the tiers below are degenerate too. -/
def MultiplicativeExpressionContext.primary? :
    MultiplicativeExpressionContext → Option PrimaryExpressionContext
  | .single c => c.primary?
  | .binary _ _ _ _ => none

/-- The primary expression under an additive expression without a left operand,
when the tiers below are degenerate too. -/
def AdditiveExpressionContext.primary? :
    AdditiveExpressionContext → Option PrimaryExpressionContext
  | .single c => c.primary?
  | .binary _ _ _ _ => none

/-- The primary expression under a shift expression without a left operand, when
the tiers below are degenerate too. -/
def ShiftExpressionContext.primary? : ShiftExpressionContext → Option PrimaryExpressionContext
  | .single c => c.primary?
  | .binary _ _ _ _ => none

/-- The primary expression under a relational expression without a left operand,
when the tiers below are degenerate too. -/
def RelationalExpressionContext.primary? :
    RelationalExpressionContext → Option PrimaryExpressionContext
  | .single c => c.primary?
  | .binary _ _ _ _ => none

/-- The primary expression under an equality expression without a left operand,
when the tiers below are degenerate too. -/
def EqualityExpressionContext.primary? :
    EqualityExpressionContext → Option PrimaryExpressionContext
  | .single c => c.primary?
  | .binary _ _ _ _ => none

/-- The primary expression under a bitwise expression without a left operand,
when the tiers below are degenerate too. -/
def BitwiseExpressionContext.primary? :
    BitwiseExpressionContext → Option PrimaryExpressionContext
  | .single c => c.primary?
  | .binary _ _ _ _ => none

/-- The primary expression under a logical-and expression without a left
operand, when the tiers below are degenerate too. -/
def LogicalANDExpressionContext.primary? :
    LogicalANDExpressionContext → Option PrimaryExpressionContext
  | .single c => c.primary?
  | .binary _ _ _ => none

/-- The primary expression under a logical-or expression without a left operand,
when the tiers below are degenerate too. -/
def LogicalORExpressionContext.primary? :
    LogicalORExpressionContext → Option PrimaryExpressionContext
  | .single c => c.primary?
  | .binary _ _ _ => none

/-- The primary expression under a conditional expression without a condition,
when the tiers below are degenerate too. -/
def ConditionalExpressionContext.primary? :
    ConditionalExpressionContext → Option PrimaryExpressionContext
  | .single c => c.primary?
  | .ternary _ _ _ _ => none

/-- The primary expression an expression is a degenerate chain down to: present
when no tier from the conditional one down to the unary one has a condition, a
left operand or a prefix operator, and the assignment expression is a primary. -/
def ExpressionContext.primary? : ExpressionContext → Option PrimaryExpressionContext
  | .mk c => c.primary?

/-- A primary expression as an expression, through the degenerate tiers. -/
def ExpressionContext.ofPrimary (p : PrimaryExpressionContext) : ExpressionContext :=
  .ofAdditive (.single (.single (.assignmentExpression (.primaryExpression p))))

/-- The root of the expression is a call, a logical or a conditional node. -/
def Expression.isWrapper : Expression → Bool
  | .CallExpression _ _ _ _ _ => true
  | .LogicalOrExpression _ _ _ => true
  | .LogicalAndExpression _ _ _ => true
  | .ConditionalExpression _ _ _ _ => true
  | _ => false

/-- The text without its last character. -/
def withoutLast (t : String) : String := String.mk t.data.dropLast

/-! ## Sample expressions -/

/-- The parse tree of `( 5 )`, with the tokens `(`, `5`, `)`. -/
def parenthesizedFive : ExpressionContext :=
  .ofPrimary (.parenthesized (.ofPrimary (.decimalLiteral 1 "5")))

/-- The parse tree of `x >>= 1`, with the tokens `x`, `>>=`, `1`. -/
def xShiftAssignOne : AssignmentContext :=
  .location 0 (.identifier 0 "x") (some ">>=") (some (numberExpression 2 "1"))

/-- The token text of a string literal with an escape that the decoder does not
know: a double quote, a backslash, an `x`, a double quote. -/
def unknownEscapeLiteral : String := String.mk [dquote, backslash, 'x', dquote]

/-- The const declaration `const K: T = 'k';` of the sample file. -/
def sampleConst : ConstDeclarationContext :=
  { a := 0, IDENTIFIER := "K", type := { IDENTIFIER := "T" }
    STRING_LITERAL := String.mk [squote, 'k', squote] }
/-! ## Facts about the literal decoder -/

theorem charAt_append_length (pre : List Char) (c : Char) (rest : List Char) :
    charAt (pre ++ c :: rest) pre.length = c := by
  induction pre with
  | nil => rfl
  | cons x pre ih => simpa [charAt] using ih

theorem charAt_append_length_succ (pre : List Char) (c d : Char) (rest : List Char) :
    charAt (pre ++ c :: d :: rest) (pre.length + 1) = d := by
  have h := charAt_append_length (pre ++ [c]) d rest
  simpa using h

theorem Except.map_map_cons {ε : Type} (acc : List Char) (x : Char)
    (r : Except ε (List Char)) :
    (r.map (x :: ·)).map (acc ++ ·) = r.map ((acc ++ [x]) ++ ·) := by
  cases r <;> simp [Except.map]

/-- The loop started at position `pre.length` with stream contents `acc` computes
what the suffix view computes on the remaining characters. -/
theorem loop_eq_unquoteSuffix (fuel : Nat) :
    ∀ (rest pre acc : List Char), rest.length ≤ fuel →
      StringLiteralUnquote.loop (pre ++ rest) fuel pre.length acc
        = (unquoteSuffix rest).map (acc ++ ·) := by
  induction fuel with
  | zero =>
    intro rest pre acc h
    have : rest = [] := List.length_eq_zero.mp (Nat.le_zero.mp h)
    subst this
    simp [StringLiteralUnquote.loop, unquoteSuffix, Except.map]
  | succ fuel ih =>
    intro rest pre acc h
    match rest, h with
    | [], _ => simp [StringLiteralUnquote.loop, unquoteSuffix, Except.map]
    | [x], _ => simp [StringLiteralUnquote.loop, unquoteSuffix, Except.map]
    | c :: d :: r, h =>
      have hlt : pre.length < (pre ++ c :: d :: r).length - 1 := by
        simp only [List.length_append, List.length_cons]; omega
      have hr : r.length ≤ fuel := by simp only [List.length_cons] at h; omega
      have hdr : (d :: r).length ≤ fuel := by simp only [List.length_cons] at h ⊢; omega
      have h2 : ∀ acc2, StringLiteralUnquote.loop (pre ++ c :: d :: r) fuel
          (pre.length + 2) acc2 = (unquoteSuffix r).map (acc2 ++ ·) := by
        intro acc2
        simpa using ih r (pre ++ [c, d]) acc2 hr
      have h1 : ∀ acc1, StringLiteralUnquote.loop (pre ++ c :: d :: r) fuel
          (pre.length + 1) acc1 = (unquoteSuffix (d :: r)).map (acc1 ++ ·) := by
        intro acc1
        simpa using ih (d :: r) (pre ++ [c]) acc1 hdr
      rw [StringLiteralUnquote.loop, if_pos hlt, charAt_append_length,
        charAt_append_length_succ, unquoteSuffix]
      by_cases hc : c = backslash
      · subst hc
        simp only [if_true]
        split_ifs <;> first | rfl | simp only [h2, Except.map_map_cons]
      · simp only [hc, if_false, h1, Except.map_map_cons]

/-- On a string `f :: body` delimited by quote characters the decoder returns
what the suffix view returns on `body`. -/
theorem StringLiteralUnquote_cons (f : Char) (body : List Char) (l : Char)
    (hf : f = dquote ∨ f = squote) (hl : l = dquote ∨ l = squote) :
    StringLiteralUnquote (String.mk (f :: (body ++ [l])))
      = (unquoteSuffix (body ++ [l])).map String.mk := by
  have hlast : (f :: (body ++ [l])).getLast? = some l := by
    rw [← List.cons_append, List.getLast?_append]; simp
  have hloop := loop_eq_unquoteSuffix (f :: (body ++ [l])).length (body ++ [l]) [f] []
    (by simp)
  simp only [List.singleton_append, List.length_singleton, List.nil_append] at hloop
  simp only [StringLiteralUnquote, List.head?_cons, hlast, hf, hl, and_self, if_true, hloop]
  cases unquoteSuffix (body ++ [l]) <;> simp [Except.map]

/-- Decoding the escaped form of `p` followed by any closing character gives `p`. -/
theorem unquoteSuffix_esc (p : List Char) (l : Char) :
    unquoteSuffix (esc p ++ [l]) = .ok p := by
  induction p with
  | nil => simp [esc, unquoteSuffix]
  | cons c p ih =>
    have hcons : esc (c :: p) ++ [l] = escChar c ++ (esc p ++ [l]) := by
      simp [esc, List.flatMap_cons]
    rw [hcons]
    obtain ⟨d, t, ht⟩ : ∃ d t, esc p ++ [l] = d :: t := by
      cases h : esc p ++ [l] with
      | nil => simp at h
      | cons d t => exact ⟨d, t, rfl⟩
    unfold escChar
    split_ifs with h1 h2 h3 h4 h5 h6
    · subst h1; simp [unquoteSuffix, ih, Except.map, backslash, newline]
    · subst h2; simp [unquoteSuffix, ih, Except.map, backslash, carriageReturn]
    · subst h3; simp [unquoteSuffix, ih, Except.map, backslash, tab]
    · subst h4; simp [unquoteSuffix, ih, Except.map, backslash, squote]
    · subst h5; simp [unquoteSuffix, ih, Except.map, backslash, dquote, squote]
    · subst h6; simp [unquoteSuffix, ih, Except.map, backslash, dquote, squote]
    · rw [List.singleton_append, ht, unquoteSuffix, if_neg h6, ← ht, ih]; rfl

theorem Except.map_eq_error_iff {ε α β : Type} (f : α → β) (r : Except ε α) (e : ε) :
    r.map f = .error e ↔ r = .error e := by
  cases r <;> simp [Except.map]

theorem recognised_iff (d : Char) :
    recognised d = true ↔
      (d = 'n' ∨ d = 'r' ∨ d = 't' ∨ d = squote ∨ d = dquote ∨ d = backslash) := by
  simp [recognised, or_assoc]

/-- A text without backslash followed by one more character decodes to itself. -/
theorem unquoteSuffix_plain (body : List Char) (l : Char) (h : backslash ∉ body) :
    unquoteSuffix (body ++ [l]) = .ok body := by
  induction body with
  | nil => rfl
  | cons c body ih =>
    have hc : c ≠ backslash := fun hc => h (by simp [hc])
    have hb : backslash ∉ body := fun hb => h (List.mem_cons_of_mem _ hb)
    obtain ⟨d, t, ht⟩ : ∃ d t, body ++ [l] = d :: t := by
      cases h : body ++ [l] with
      | nil => simp at h
      | cons d t => exact ⟨d, t, rfl⟩
    rw [List.cons_append, ht, unquoteSuffix, if_neg hc, ← ht, ih hb]; rfl

/-- A quote-delimited string of length at least two is its opening quote, its
payload and its closing quote. -/
theorem quoteDelimited_split (s : String) (hq : quoteDelimited s) (hlen : 2 ≤ s.length) :
    ∃ f l, (f = dquote ∨ f = squote) ∧ (l = dquote ∨ l = squote) ∧
      s = String.mk (f :: (payload s ++ [l])) := by
  obtain ⟨cs⟩ := s
  obtain ⟨hf, hl⟩ := hq
  simp only [String.length] at hlen
  match cs, hlen, hf, hl with
  | f :: t, hlen, hf, hl =>
    have ht : t ≠ [] := by
      intro h; subst h; simp at hlen
    have hlast : (f :: t).getLast? = some (t.getLast ht) := by
      rw [List.getLast?_eq_getLast _ (List.cons_ne_nil f t), List.getLast_cons ht]
    refine ⟨f, t.getLast ht, ?_, ?_, ?_⟩
    · simp only [List.head?_cons, Option.some.injEq] at hf
      tauto
    · rw [hlast] at hl
      simp only [Option.some.injEq] at hl
      tauto
    · simp [payload, List.dropLast_append_getLast ht]

/-! ## Facts about the transformation -/

open AstGenerator

theorem bind_eq_ok {α β : Type} (x : Except Fault α) (f : α → Except Fault β) (b : β) :
    (x >>= f) = .ok b ↔ ∃ a, x = .ok a ∧ f a = .ok b := by
  cases x with
  | error e => simp [bind, Except.bind]
  | ok a => simp [bind, Except.bind]

theorem pure_eq_ok {α : Type} (a b : α) : (pure a : Except Fault α) = .ok b ↔ a = b := by
  simp [pure, Except.pure]

theorem LocationExpression_cast_eq_ok (e l : Expression) :
    LocationExpression.cast e = .ok l ↔ e = l ∧ e.isLocation = true := by
  unfold LocationExpression.cast
  split_ifs with h <;> simp [h]

theorem CallExpression_cast_eq_ok (e l : Expression) :
    CallExpression.cast e = .ok l ↔ e = l ∧ e.isCall = true := by
  unfold CallExpression.cast
  split_ifs with h <;> simp [h]

mutual
theorem visitExpression_locationsOK (g : AstGenerator) :
    ∀ (c : ExpressionContext) (e : Expression),
      g.visitExpression c = .ok e → e.locationsOK = true
  | .mk c, e, h => by
    simp only [visitExpression] at h
    exact visitConditionalExpression_locationsOK g c e h
theorem visitConditionalExpression_locationsOK (g : AstGenerator) :
    ∀ (c : ConditionalExpressionContext) (e : Expression),
      g.visitConditionalExpression c = .ok e → e.locationsOK = true
  | .single c, e, h => by
    simp only [visitConditionalExpression] at h
    exact visitLogicalORExpression_locationsOK g c e h
  | .ternary a c e0 e1, e, h => by
    simp only [visitConditionalExpression, bind_eq_ok, pure_eq_ok] at h
    obtain ⟨pos, _, x, hx, y, hy, z, hz, rfl⟩ := h
    simp [Expression.locationsOK, visitConditionalExpression_locationsOK g c x hx,
      visitLogicalORExpression_locationsOK g e0 y hy,
      visitLogicalORExpression_locationsOK g e1 z hz]
theorem visitLogicalORExpression_locationsOK (g : AstGenerator) :
    ∀ (c : LogicalORExpressionContext) (e : Expression),
      g.visitLogicalORExpression c = .ok e → e.locationsOK = true
  | .single c, e, h => by
    simp only [visitLogicalORExpression] at h
    exact visitLogicalANDExpression_locationsOK g c e h
  | .binary a l r, e, h => by
    simp only [visitLogicalORExpression, bind_eq_ok, pure_eq_ok] at h
    obtain ⟨pos, _, x, hx, y, hy, rfl⟩ := h
    simp [Expression.locationsOK, visitLogicalORExpression_locationsOK g l x hx,
      visitLogicalANDExpression_locationsOK g r y hy]
theorem visitLogicalANDExpression_locationsOK (g : AstGenerator) :
    ∀ (c : LogicalANDExpressionContext) (e : Expression),
      g.visitLogicalANDExpression c = .ok e → e.locationsOK = true
  | .single c, e, h => by
    simp only [visitLogicalANDExpression] at h
    exact visitBitwiseExpression_locationsOK g c e h
  | .binary a l r, e, h => by
    simp only [visitLogicalANDExpression, bind_eq_ok, pure_eq_ok] at h
    obtain ⟨pos, _, x, hx, y, hy, rfl⟩ := h
    simp [Expression.locationsOK, visitLogicalANDExpression_locationsOK g l x hx,
      visitBitwiseExpression_locationsOK g r y hy]
theorem visitBitwiseExpression_locationsOK (g : AstGenerator) :
    ∀ (c : BitwiseExpressionContext) (e : Expression),
      g.visitBitwiseExpression c = .ok e → e.locationsOK = true
  | .single c, e, h => by
    simp only [visitBitwiseExpression] at h
    exact visitEqualityExpression_locationsOK g c e h
  | .binary a l op r, e, h => by
    simp only [visitBitwiseExpression, bind_eq_ok, pure_eq_ok] at h
    obtain ⟨pos, _, x, hx, y, hy, rfl⟩ := h
    simp [Expression.locationsOK, Expression.locationsOKList,
      visitBitwiseExpression_locationsOK g l x hx,
      visitEqualityExpression_locationsOK g r y hy]
theorem visitEqualityExpression_locationsOK (g : AstGenerator) :
    ∀ (c : EqualityExpressionContext) (e : Expression),
      g.visitEqualityExpression c = .ok e → e.locationsOK = true
  | .single c, e, h => by
    simp only [visitEqualityExpression] at h
    exact visitRelationalExpression_locationsOK g c e h
  | .binary a l op r, e, h => by
    simp only [visitEqualityExpression, bind_eq_ok, pure_eq_ok] at h
    obtain ⟨pos, _, x, hx, y, hy, rfl⟩ := h
    simp [Expression.locationsOK, Expression.locationsOKList,
      visitEqualityExpression_locationsOK g l x hx,
      visitRelationalExpression_locationsOK g r y hy]
theorem visitRelationalExpression_locationsOK (g : AstGenerator) :
    ∀ (c : RelationalExpressionContext) (e : Expression),
      g.visitRelationalExpression c = .ok e → e.locationsOK = true
  | .single c, e, h => by
    simp only [visitRelationalExpression] at h
    exact visitShiftExpression_locationsOK g c e h
  | .binary a l op r, e, h => by
    simp only [visitRelationalExpression, bind_eq_ok, pure_eq_ok] at h
    obtain ⟨pos, _, x, hx, y, hy, rfl⟩ := h
    simp [Expression.locationsOK, Expression.locationsOKList,
      visitRelationalExpression_locationsOK g l x hx,
      visitShiftExpression_locationsOK g r y hy]
theorem visitShiftExpression_locationsOK (g : AstGenerator) :
    ∀ (c : ShiftExpressionContext) (e : Expression),
      g.visitShiftExpression c = .ok e → e.locationsOK = true
  | .single c, e, h => by
    simp only [visitShiftExpression] at h
    exact visitAdditiveExpression_locationsOK g c e h
  | .binary a l op r, e, h => by
    simp only [visitShiftExpression, bind_eq_ok, pure_eq_ok] at h
    obtain ⟨pos, _, x, hx, y, hy, rfl⟩ := h
    simp [Expression.locationsOK, Expression.locationsOKList,
      visitShiftExpression_locationsOK g l x hx,
      visitAdditiveExpression_locationsOK g r y hy]
theorem visitAdditiveExpression_locationsOK (g : AstGenerator) :
    ∀ (c : AdditiveExpressionContext) (e : Expression),
      g.visitAdditiveExpression c = .ok e → e.locationsOK = true
  | .single c, e, h => by
    simp only [visitAdditiveExpression] at h
    exact visitMultiplicativeExpression_locationsOK g c e h
  | .binary a l op r, e, h => by
    simp only [visitAdditiveExpression, bind_eq_ok, pure_eq_ok] at h
    obtain ⟨pos, _, x, hx, y, hy, rfl⟩ := h
    simp [Expression.locationsOK, Expression.locationsOKList,
      visitAdditiveExpression_locationsOK g l x hx,
      visitMultiplicativeExpression_locationsOK g r y hy]
theorem visitMultiplicativeExpression_locationsOK (g : AstGenerator) :
    ∀ (c : MultiplicativeExpressionContext) (e : Expression),
      g.visitMultiplicativeExpression c = .ok e → e.locationsOK = true
  | .single c, e, h => by
    simp only [visitMultiplicativeExpression] at h
    exact visitUnaryExpression_locationsOK g c e h
  | .binary a l op r, e, h => by
    simp only [visitMultiplicativeExpression, bind_eq_ok, pure_eq_ok] at h
    obtain ⟨pos, _, x, hx, y, hy, rfl⟩ := h
    simp [Expression.locationsOK, Expression.locationsOKList,
      visitMultiplicativeExpression_locationsOK g l x hx,
      visitUnaryExpression_locationsOK g r y hy]
theorem visitUnaryExpression_locationsOK (g : AstGenerator) :
    ∀ (c : UnaryExpressionContext) (e : Expression),
      g.visitUnaryExpression c = .ok e → e.locationsOK = true
  | .assignmentExpression c, e, h => by
    simp only [visitUnaryExpression] at h
    exact visitAssignmentExpression_locationsOK g c e h
  | .unary a op c, e, h => by
    simp only [visitUnaryExpression, bind_eq_ok, pure_eq_ok] at h
    obtain ⟨x, hx, pos, _, rfl⟩ := h
    simp [Expression.locationsOK, Expression.locationsOKList,
      visitUnaryExpression_locationsOK g c x hx]
theorem visitAssignmentExpression_locationsOK (g : AstGenerator) :
    ∀ (c : AssignmentExpressionContext) (e : Expression),
      g.visitAssignmentExpression c = .ok e → e.locationsOK = true
  | .primaryExpression c, e, h => by
    simp only [visitAssignmentExpression] at h
    exact visitPrimaryExpression_locationsOK g c e h
  | .assignment c, e, h => by
    simp only [visitAssignmentExpression] at h
    exact visitAssignment_locationsOK g c e h
theorem visitAssignment_locationsOK (g : AstGenerator) :
    ∀ (c : AssignmentContext) (e : Expression),
      g.visitAssignment c = .ok e → e.locationsOK = true
  | .incrementDecrement c, e, h => by
    simp only [visitAssignment] at h
    exact visitIncrementDecrement_locationsOK g c e h
  | .location a l op none, e, h => by
    simp only [visitAssignment, bind_eq_ok, pure_eq_ok,
      LocationExpression_cast_eq_ok] at h
    obtain ⟨x, hx, y, ⟨rfl, _⟩, rfl⟩ := h
    exact visitLocationExpression_locationsOK g l x hx
  | .location a l op (some v), e, h => by
    simp only [visitAssignment, bind_eq_ok, pure_eq_ok,
      LocationExpression_cast_eq_ok] at h
    obtain ⟨x, hx, y, ⟨rfl, hloc⟩, pos, _, z, hz, rfl⟩ := h
    simp [Expression.locationsOK, hloc, visitLocationExpression_locationsOK g l x hx,
      visitExpression_locationsOK g v z hz]
theorem visitIncrementDecrement_locationsOK (g : AstGenerator) :
    ∀ (c : IncrementDecrementContext) (e : Expression),
      g.visitIncrementDecrement c = .ok e → e.locationsOK = true
  | .mk a op inc l, e, h => by
    simp only [visitIncrementDecrement, bind_eq_ok, pure_eq_ok,
      LocationExpression_cast_eq_ok] at h
    obtain ⟨pos, _, x, hx, y, ⟨rfl, hloc⟩, rfl⟩ := h
    simp [Expression.locationsOK, hloc, visitLocationExpression_locationsOK g l x hx]
theorem visitLocationExpression_locationsOK (g : AstGenerator) :
    ∀ (c : LocationExpressionContext) (e : Expression),
      g.visitLocationExpression c = .ok e → e.locationsOK = true
  | .elementAccess a l i, e, h => by
    simp only [visitLocationExpression, bind_eq_ok, pure_eq_ok] at h
    obtain ⟨x, hx, pos, _, y, hy, rfl⟩ := h
    simp [Expression.locationsOK, visitLocationExpression_locationsOK g l x hx,
      visitExpression_locationsOK g i y hy]
  | .fieldAccess a l f, e, h => by
    simp only [visitLocationExpression, bind_eq_ok, pure_eq_ok] at h
    obtain ⟨x, hx, pos, _, rfl⟩ := h
    simp [Expression.locationsOK, visitLocationExpression_locationsOK g l x hx]
  | .identifier a n, e, h => by
    simp only [visitLocationExpression, bind_eq_ok, pure_eq_ok] at h
    obtain ⟨pos, _, rfl⟩ := h
    simp [Expression.locationsOK]
theorem visitPrimaryExpression_locationsOK (g : AstGenerator) :
    ∀ (c : PrimaryExpressionContext) (e : Expression),
      g.visitPrimaryExpression c = .ok e → e.locationsOK = true
  | .helperCall c, e, h => by
    simp only [visitPrimaryExpression] at h
    exact visitHelperCall_locationsOK g c e h
  | .decimalLiteral a t, e, h => by
    simp only [visitPrimaryExpression, bind_eq_ok, pure_eq_ok] at h
    obtain ⟨pos, _, rfl⟩ := h
    simp [Expression.locationsOK]
  | .stringLiteral a t, e, h => by
    simp only [visitPrimaryExpression, bind_eq_ok, pure_eq_ok] at h
    obtain ⟨pos, _, rfl⟩ := h
    simp [Expression.locationsOK]
  | .convert a t c, e, h => by
    simp only [visitPrimaryExpression, bind_eq_ok, pure_eq_ok] at h
    obtain ⟨pos, _, x, hx, rfl⟩ := h
    simp [Expression.locationsOK, visitExpression_locationsOK g c x hx]
  | .cast a t i c, e, h => by
    simp only [visitPrimaryExpression, bind_eq_ok, pure_eq_ok] at h
    obtain ⟨pos, _, x, hx, rfl⟩ := h
    simp [Expression.locationsOK, visitExpression_locationsOK g c x hx]
  | .parenthesized c, e, h => by
    simp only [visitPrimaryExpression] at h
    exact visitExpression_locationsOK g c e h
theorem visitHelperCall_locationsOK (g : AstGenerator) :
    ∀ (c : HelperCallContext) (e : Expression),
      g.visitHelperCall c = .ok e → e.locationsOK = true
  | .mk a mn mx i (.mk args) oo, e, h => by
    simp only [visitHelperCall, bind_eq_ok, pure_eq_ok] at h
    obtain ⟨pos, _, callee, _, xs, hxs, rfl⟩ := h
    simp [Expression.locationsOK, visitArguments_locationsOK g args xs hxs]
theorem visitArguments_locationsOK (g : AstGenerator) :
    ∀ (c : List ArgumentContext) (es : List Expression),
      g.visitArguments c = .ok es → Expression.locationsOKList es = true
  | [], es, h => by
    simp only [visitArguments, pure_eq_ok] at h
    subst h
    rfl
  | c :: cs, es, h => by
    simp only [visitArguments, bind_eq_ok, pure_eq_ok] at h
    obtain ⟨x, hx, xs, hxs, rfl⟩ := h
    simp [Expression.locationsOKList, visitArgument_locationsOK g c x hx,
      visitArguments_locationsOK g cs xs hxs]
theorem visitArgument_locationsOK (g : AstGenerator) :
    ∀ (c : ArgumentContext) (e : Expression),
      g.visitArgument c = .ok e → e.locationsOK = true
  | .mk c, e, h => by
    simp only [visitArgument] at h
    exact visitExpression_locationsOK g c e h
end

theorem VarDeclarationStatement_cast_eq_ok (s : Statement) (d : VarDeclarationStatement) :
    VarDeclarationStatement.cast s = .ok d ↔ s = .VarDeclarationStatement d := by
  cases s <;> simp [VarDeclarationStatement.cast]

theorem visitVariableDeclaration_eq_ok (g : AstGenerator) (c : VariableDeclarationContext)
    (d : VarDeclarationStatement) :
    g.visitVariableDeclaration c = .ok d ↔
      ∃ pos, g.Pos c.a = .ok pos ∧
        d = { pos := pos, name := c.IDENTIFIER, type := c.type.IDENTIFIER,
              initializer := none } := by
  simp only [visitVariableDeclaration, bind_eq_ok, pure_eq_ok]
  constructor
  · rintro ⟨pos, h, rfl⟩; exact ⟨pos, h, rfl⟩
  · rintro ⟨pos, h, rfl⟩; exact ⟨pos, h, rfl⟩

/-- What `visitVariableDeclarationWithInitialization` returns when it returns. -/
theorem visitVariableDeclarationWithInitialization_eq_ok (g : AstGenerator)
    (w : VariableDeclarationWithInitializationContext) (s : Statement) :
    g.visitVariableDeclarationWithInitialization w = .ok s ↔
      ∃ inner pos init, g.Pos w.variableDeclaration.a = .ok inner ∧ g.Pos w.a = .ok pos ∧
        g.visitRangeBound w.expression = .ok init ∧
        s = .VarDeclarationStatement
          { pos := pos, name := w.variableDeclaration.IDENTIFIER,
            type := w.variableDeclaration.type.IDENTIFIER, initializer := init } := by
  unfold visitVariableDeclarationWithInitialization
  cases hw : w.expression with
  | none =>
    simp only [bind_eq_ok, pure_eq_ok, visitVariableDeclaration_eq_ok,
      VarDeclarationStatement_cast_eq_ok, visitRangeBound]
    constructor
    · rintro ⟨d, ⟨inner, hi, rfl⟩, r, hr, pos, hp, rfl⟩
      cases hr
      exact ⟨inner, pos, none, hi, hp, rfl, rfl⟩
    · rintro ⟨inner, pos, init, hi, hp, rfl, rfl⟩
      exact ⟨_, ⟨inner, hi, rfl⟩, _, rfl, pos, hp, rfl⟩
  | some e =>
    simp only [bind_eq_ok, pure_eq_ok, visitVariableDeclaration_eq_ok,
      VarDeclarationStatement_cast_eq_ok, visitRangeBound]
    constructor
    · rintro ⟨d, ⟨inner, hi, rfl⟩, r, hr, pos, hp, x, hx, rfl⟩
      cases hr
      exact ⟨inner, pos, some x, hi, hp, ⟨x, hx, rfl⟩, rfl⟩
    · rintro ⟨inner, pos, init, hi, hp, ⟨x, hx, rfl⟩, rfl⟩
      exact ⟨_, ⟨inner, hi, rfl⟩, _, rfl, pos, hp, x, hx, rfl⟩

theorem visitRangeBound_locationsOK (g : AstGenerator) (c : Option ExpressionContext)
    (b : Option Expression) (h : g.visitRangeBound c = .ok b) :
    Expression.locationsOKOption b = true := by
  cases c with
  | none =>
    simp only [visitRangeBound, pure_eq_ok] at h
    subst h; rfl
  | some e =>
    simp only [visitRangeBound, bind_eq_ok, pure_eq_ok] at h
    obtain ⟨x, hx, rfl⟩ := h
    exact visitExpression_locationsOK g e x hx

theorem visitVariableDeclarationWithInitialization_locationsOK (g : AstGenerator)
    (w : VariableDeclarationWithInitializationContext) (s : Statement)
    (h : g.visitVariableDeclarationWithInitialization w = .ok s) :
    s.locationsOK = true := by
  obtain ⟨inner, pos, init, _, _, hinit, rfl⟩ :=
    (visitVariableDeclarationWithInitialization_eq_ok g w s).mp h
  simpa [Statement.locationsOK, VarDeclarationStatement.locationsOK] using
    visitRangeBound_locationsOK g _ _ hinit

theorem visitHelperCallStatement_locationsOK (g : AstGenerator)
    (c : HelperCallStatementContext) (s : Statement)
    (h : g.visitHelperCallStatement c = .ok s) : s.locationsOK = true := by
  unfold visitHelperCallStatement at h
  split_ifs at h
  · simp only [bind_eq_ok, pure_eq_ok, CallExpression_cast_eq_ok] at h
    obtain ⟨pos, _, e, he, call, ⟨rfl, _⟩, rfl⟩ := h
    simpa [Statement.locationsOK] using visitHelperCall_locationsOK g _ e he
  · simp only [bind_eq_ok, pure_eq_ok] at h
    obtain ⟨pos, _, e, he, rfl⟩ := h
    simpa [Statement.locationsOK] using visitHelperCall_locationsOK g _ e he

theorem visitExpressionStatement_locationsOK (g : AstGenerator)
    (c : ExpressionStatementContext) (s : Statement)
    (h : g.visitExpressionStatement c = .ok s) : s.locationsOK = true := by
  simp only [visitExpressionStatement, bind_eq_ok, pure_eq_ok] at h
  obtain ⟨pos, _, e, he, rfl⟩ := h
  simpa [Statement.locationsOK] using visitAssignment_locationsOK g _ e he

theorem visitReturnStatement_locationsOK (g : AstGenerator)
    (c : ReturnStatementContext) (s : Statement)
    (h : g.visitReturnStatement c = .ok s) : s.locationsOK = true := by
  simp only [visitReturnStatement, bind_eq_ok, pure_eq_ok] at h
  obtain ⟨pos, _, e, he, rfl⟩ := h
  simpa [Statement.locationsOK] using visitExpression_locationsOK g _ e he

theorem visitGotoStatement_locationsOK (g : AstGenerator)
    (c : GotoStatementContext) (s : Statement)
    (h : g.visitGotoStatement c = .ok s) : s.locationsOK = true := by
  unfold visitGotoStatement at h
  cases hc : c.argumentList with
  | none =>
    simp only [hc, bind_eq_ok, pure_eq_ok] at h
    obtain ⟨pos, _, rfl⟩ := h
    simp [Statement.locationsOK, Expression.locationsOKList]
  | some l =>
    simp only [hc, bind_eq_ok, pure_eq_ok] at h
    obtain ⟨pos, _, es, hes, rfl⟩ := h
    simpa [Statement.locationsOK] using visitArguments_locationsOK g _ es hes

theorem visitForInitialization_locationsOK (g : AstGenerator)
    (c : ForInitializationContext) (d : VarDeclarationStatement)
    (h : g.visitForInitialization c = .ok (some d)) : d.locationsOK = true := by
  unfold visitForInitialization at h
  cases hc : c.variableDeclarationWithInitialization with
  | none =>
    simp only [hc, pure_eq_ok] at h
    cases h
  | some w =>
    simp only [hc, bind_eq_ok, pure_eq_ok, VarDeclarationStatement_cast_eq_ok] at h
    obtain ⟨s, hs, d', rfl, hd⟩ := h
    cases hd
    simpa [Statement.locationsOK] using
      visitVariableDeclarationWithInitialization_locationsOK g w _ hs

theorem visitForOfRange_locationsOK (g : AstGenerator) (c : ForOfRangeContext)
    (r : Option Expression × Option Expression) (h : g.visitForOfRange c = .ok r) :
    Expression.locationsOKOption r.1 = true ∧ Expression.locationsOKOption r.2 = true := by
  unfold visitForOfRange at h
  cases hc : c.rangeSpecifier with
  | none =>
    simp only [hc, pure_eq_ok] at h
    subst h
    exact ⟨rfl, rfl⟩
  | some range =>
    simp only [hc, bind_eq_ok, pure_eq_ok] at h
    obtain ⟨b, hb, e, he, rfl⟩ := h
    exact ⟨visitRangeBound_locationsOK g _ b hb, visitRangeBound_locationsOK g _ e he⟩

mutual
theorem visitStatement_locationsOK (g : AstGenerator) :
    ∀ (c : StatementContext) (s : Statement),
      g.visitStatement c = .ok s → s.locationsOK = true
  | .variableDeclarationWithInitialization c, s, h => by
    simp only [visitStatement] at h
    exact visitVariableDeclarationWithInitialization_locationsOK g c s h
  | .helperCallStatement c, s, h => by
    simp only [visitStatement] at h
    exact visitHelperCallStatement_locationsOK g c s h
  | .expressionStatement c, s, h => by
    simp only [visitStatement] at h
    exact visitExpressionStatement_locationsOK g c s h
  | .returnStatement c, s, h => by
    simp only [visitStatement] at h
    exact visitReturnStatement_locationsOK g c s h
  | .breakStatement c, s, h => by
    simp only [visitStatement, visitBreakStatement, bind_eq_ok, pure_eq_ok] at h
    obtain ⟨pos, _, rfl⟩ := h
    rfl
  | .continueStatement c, s, h => by
    simp only [visitStatement, visitContinueStatement, bind_eq_ok, pure_eq_ok] at h
    obtain ⟨pos, _, rfl⟩ := h
    rfl
  | .gotoStatement c, s, h => by
    simp only [visitStatement] at h
    exact visitGotoStatement_locationsOK g c s h
  | .ifStatement c, s, h => by
    simp only [visitStatement] at h
    exact visitIfStatement_locationsOK g c s h
  | .whileLoop c, s, h => by
    simp only [visitStatement] at h
    exact visitWhileLoop_locationsOK g c s h
  | .forOfLoop c, s, h => by
    simp only [visitStatement] at h
    exact visitForOfLoop_locationsOK g c s h
  | .forLoop c, s, h => by
    simp only [visitStatement] at h
    exact visitForLoop_locationsOK g c s h
  | .tryCatch c, s, h => by
    simp only [visitStatement] at h
    exact visitTryCatch_locationsOK g c s h
theorem visitStatements_locationsOK (g : AstGenerator) :
    ∀ (c : List StatementContext) (ss : List Statement),
      g.visitStatements c = .ok ss → Statement.locationsOKList ss = true
  | [], ss, h => by
    simp only [visitStatements, pure_eq_ok] at h
    subst h
    rfl
  | c :: cs, ss, h => by
    simp only [visitStatements, bind_eq_ok, pure_eq_ok] at h
    obtain ⟨x, hx, xs, hxs, rfl⟩ := h
    simp [Statement.locationsOKList, visitStatement_locationsOK g c x hx,
      visitStatements_locationsOK g cs xs hxs]
theorem visitStatementScope_locationsOK (g : AstGenerator) :
    ∀ (c : StatementScopeContext) (s : Statement),
      g.visitStatementScope c = .ok s → s.locationsOK = true
  | .mk a d (.mk cs), s, h => by
    simp only [visitStatementScope, bind_eq_ok, pure_eq_ok] at h
    obtain ⟨pos, _, xs, hxs, rfl⟩ := h
    simp [Statement.locationsOK, visitStatements_locationsOK g cs xs hxs]
theorem visitStatementBlock_locationsOK (g : AstGenerator) :
    ∀ (c : StatementBlockContext) (s : Statement),
      g.visitStatementBlock c = .ok s → s.locationsOK = true
  | .statement a c, s, h => by
    simp only [visitStatementBlock] at h
    exact visitStatement_locationsOK g c s h
  | .statementScope a c, s, h => by
    simp only [visitStatementBlock] at h
    exact visitStatementScope_locationsOK g c s h
theorem visitIfStatement_locationsOK (g : AstGenerator) :
    ∀ (c : IfStatementContext) (s : Statement),
      g.visitIfStatement c = .ok s → s.locationsOK = true
  | .mk a e b0 none, s, h => by
    simp only [visitIfStatement, bind_eq_ok, pure_eq_ok] at h
    obtain ⟨pos, _, x, hx, y, hy, rfl⟩ := h
    simp [Statement.locationsOK, visitExpression_locationsOK g e x hx,
      visitStatementBlock_locationsOK g b0 y hy]
  | .mk a e b0 (some b1), s, h => by
    simp only [visitIfStatement, bind_eq_ok, pure_eq_ok] at h
    obtain ⟨pos, _, x, hx, y, hy, z, hz, rfl⟩ := h
    simp [Statement.locationsOK, visitExpression_locationsOK g e x hx,
      visitStatementBlock_locationsOK g b0 y hy, visitStatementBlock_locationsOK g b1 z hz]
theorem visitWhileLoop_locationsOK (g : AstGenerator) :
    ∀ (c : WhileLoopContext) (s : Statement),
      g.visitWhileLoop c = .ok s → s.locationsOK = true
  | .mk a e b, s, h => by
    simp only [visitWhileLoop, bind_eq_ok, pure_eq_ok] at h
    obtain ⟨pos, _, x, hx, y, hy, rfl⟩ := h
    simp [Statement.locationsOK, visitExpression_locationsOK g e x hx,
      visitStatementBlock_locationsOK g b y hy]
theorem visitForLoop_locationsOK (g : AstGenerator) :
    ∀ (c : ForLoopContext) (s : Statement),
      g.visitForLoop c = .ok s → s.locationsOK = true
  | .mk a i e as b, s, h => by
    simp only [visitForLoop, bind_eq_ok, pure_eq_ok] at h
    obtain ⟨pos, _, x, hx, y, hy, z, hz, d, hd, rfl⟩ := h
    have h1 := visitExpression_locationsOK g e x hx
    have h2 := visitAssignment_locationsOK g as y hy
    have h3 := visitStatementBlock_locationsOK g b z hz
    cases d with
    | none => simp [Statement.locationsOK, h1, h2, h3]
    | some d =>
      simp [Statement.locationsOK, h1, h2, h3, visitForInitialization_locationsOK g i d hd]
theorem visitForOfLoop_locationsOK (g : AstGenerator) :
    ∀ (c : ForOfLoopContext) (s : Statement),
      g.visitForOfLoop c = .ok s → s.locationsOK = true
  | .mk a v e r b, s, h => by
    simp only [visitForOfLoop, bind_eq_ok, pure_eq_ok, visitVariableDeclaration_eq_ok] at h
    obtain ⟨pos, _, d, ⟨p, _, rfl⟩, x, hx, y, hy, rg, hrg, rfl⟩ := h
    have hr := visitForOfRange_locationsOK g r rg hrg
    have hv : Expression.locationsOKOption none = true := rfl
    simp [Statement.locationsOK, VarDeclarationStatement.locationsOK, hv,
      visitExpression_locationsOK g e x hx,
      visitStatementBlock_locationsOK g b y hy, hr.1, hr.2]
theorem visitTryCatch_locationsOK (g : AstGenerator) :
    ∀ (c : TryCatchContext) (s : Statement),
      g.visitTryCatch c = .ok s → s.locationsOK = true
  | .mk a b hs, s, h => by
    simp only [visitTryCatch, bind_eq_ok, pure_eq_ok] at h
    obtain ⟨pos, _, x, hx, bs, hbs, rfl⟩ := h
    have hh := visitHandlers_locationsOK g hs bs hbs
    simp [Statement.locationsOK, visitStatementBlock_locationsOK g b x hx, hh.1, hh.2]
theorem visitHandlers_locationsOK (g : AstGenerator) :
    ∀ (c : List HandlerWithStatementContext) (bs : List CatchBlock × List LabelBlock),
      g.visitHandlers c = .ok bs →
        CatchBlock.locationsOKList bs.1 = true ∧ LabelBlock.locationsOKList bs.2 = true
  | [], bs, h => by
    simp only [visitHandlers, pure_eq_ok] at h
    subst h
    exact ⟨rfl, rfl⟩
  | .catchHandler i b :: rest, bs, h => by
    simp only [visitHandlers, bind_eq_ok, pure_eq_ok] at h
    obtain ⟨pos, _, x, hx, r, hr, rfl⟩ := h
    have hh := visitHandlers_locationsOK g rest r hr
    simp [CatchBlock.locationsOKList, visitStatementBlock_locationsOK g b x hx, hh.1, hh.2]
  | .labelHandler l b :: rest, bs, h => by
    simp only [visitHandlers, bind_eq_ok, pure_eq_ok] at h
    obtain ⟨pos, _, x, hx, r, hr, rfl⟩ := h
    have hh := visitHandlers_locationsOK g rest r hr
    simp [LabelBlock.locationsOKList, visitStatementBlock_locationsOK g b x hx, hh.1, hh.2]
end

theorem visitDeclaration_locationsOK (g : AstGenerator) (c : DeclarationContext)
    (d : Declaration) (h : g.visitDeclaration c = .ok d) : d.locationsOK = true := by
  cases c with
  | typeDeclaration c =>
    simp only [visitDeclaration, visitTypeDeclaration] at h
    cases hc : c.generatesDeclaration with
    | none =>
      simp only [hc, bind_eq_ok, pure_eq_ok] at h
      obtain ⟨pos, _, rfl⟩ := h
      rfl
    | some x =>
      simp only [hc, bind_eq_ok, pure_eq_ok] at h
      obtain ⟨pos, _, y, _, rfl⟩ := h
      rfl
  | builtinDeclaration c =>
    simp only [visitDeclaration, visitBuiltinDeclaration, visitHelperBody, bind_eq_ok,
      pure_eq_ok] at h
    obtain ⟨pos, _, b, hb, rfl⟩ := h
    simpa [Declaration.locationsOK] using visitStatementScope_locationsOK g _ b hb
  | macroDeclaration c =>
    simp only [visitDeclaration, visitMacroDeclaration, visitHelperBody, bind_eq_ok,
      pure_eq_ok] at h
    obtain ⟨pos, _, b, hb, rfl⟩ := h
    simpa [Declaration.locationsOK] using visitStatementScope_locationsOK g _ b hb
  | externalMacro c =>
    simp only [visitDeclaration, visitExternalMacro] at h
    cases hc : c.STRING_LITERAL with
    | none =>
      simp only [hc, bind_eq_ok, pure_eq_ok] at h
      obtain ⟨pos, _, rfl⟩ := h
      rfl
    | some x =>
      simp only [hc, bind_eq_ok, pure_eq_ok] at h
      obtain ⟨pos, _, y, _, rfl⟩ := h
      rfl
  | externalBuiltin c =>
    simp only [visitDeclaration, visitExternalBuiltin, bind_eq_ok, pure_eq_ok] at h
    obtain ⟨pos, _, rfl⟩ := h
    rfl
  | externalRuntime c =>
    simp only [visitDeclaration, visitExternalRuntime, bind_eq_ok, pure_eq_ok] at h
    obtain ⟨pos, _, rfl⟩ := h
    rfl
  | constDeclaration c =>
    simp only [visitDeclaration, visitConstDeclaration, bind_eq_ok, pure_eq_ok] at h
    obtain ⟨pos, _, y, _, rfl⟩ := h
    rfl

theorem visitDeclarations_locationsOK (g : AstGenerator) :
    ∀ (c : List DeclarationContext) (ds : List Declaration),
      g.visitDeclarations c = .ok ds → Declaration.locationsOKList ds = true
  | [], ds, h => by
    simp only [visitDeclarations, pure_eq_ok] at h
    subst h
    rfl
  | c :: cs, ds, h => by
    simp only [visitDeclarations, bind_eq_ok, pure_eq_ok] at h
    obtain ⟨x, hx, xs, hxs, rfl⟩ := h
    simp [Declaration.locationsOKList, visitDeclaration_locationsOK g c x hx,
      visitDeclarations_locationsOK g cs xs hxs]

theorem visitFileChild_locationsOK (g : AstGenerator) (c : FileChildContext)
    (d : Declaration) (h : g.visitFileChild c = .ok d) : d.locationsOK = true := by
  cases c with
  | moduleDeclaration c =>
    simp only [visitFileChild, visitModuleDeclaration, bind_eq_ok, pure_eq_ok] at h
    obtain ⟨pos, _, ds, hds, rfl⟩ := h
    simpa [Declaration.locationsOK] using visitDeclarations_locationsOK g _ ds hds
  | declaration c => exact visitDeclaration_locationsOK g c d h

/-- The loop of the file driver only appends to the declarations, leaves the rest
of the state alone, and what it appends satisfies the location property. -/
theorem visitSourceFile_loop_spec :
    ∀ (cs : List FileChildContext) (g g' : AstGenerator),
      visitSourceFile.loop g cs = .ok g' →
        ∃ ds, g'.ast_.declarations_ = g.ast_.declarations_ ++ ds ∧
          Declaration.locationsOKList ds = true ∧ ds.length = cs.length ∧
          g'.ast_.sources_ = g.ast_.sources_ ∧
          g'.current_source_file_ = g.current_source_file_ ∧
          g'.source_file_context_ = g.source_file_context_
  | [], g, g', h => by
    simp only [visitSourceFile.loop, pure_eq_ok] at h
    subst h
    exact ⟨[], by simp, rfl, rfl, rfl, rfl, rfl⟩
  | c :: cs, g, g', h => by
    simp only [visitSourceFile.loop, bind_eq_ok] at h
    obtain ⟨d, hd, h⟩ := h
    obtain ⟨ds, h1, h2, h3, h4, h5, h6⟩ := visitSourceFile_loop_spec cs _ g' h
    refine ⟨d :: ds, ?_, ?_, ?_, h4, h5, h6⟩
    · simpa using h1
    · simp [Declaration.locationsOKList, h2, visitFileChild_locationsOK g c d hd]
    · simp [h3]

/-- The shared algorithm of the binary tiers on a left-recursive chain: the
transform of the chain is the left fold of operator calls. -/
theorem chain_leftFold {T N : Type} (g : AstGenerator) (single : N → T)
    (binary : Nat → T → String → N → T) (visitT : T → Except Fault Expression)
    (visitN : N → Except Fault Expression)
    (hsingle : ∀ r, visitT (single r) = visitN r)
    (hbinary : ∀ a l op r, visitT (binary a l op r) =
      (do
        let pos ← g.Pos a
        let l ← visitT l
        let r ← visitN r
        pure (.CallExpression pos op true [l, r] [])))
    (first : N) (t1 : Expression) (h1 : visitN first = .ok t1) :
    ∀ steps : List (ChainStep N), (∀ s ∈ steps, s.resolved g visitN) →
      visitT (steps.foldl (fun left s => binary s.a left s.op s.right) (single first))
        = .ok (leftFold t1 steps) := by
  intro steps
  induction steps using List.reverseRecOn with
  | nil =>
    intro _
    simpa [leftFold, hsingle] using h1
  | append_singleton steps s ih =>
    intro h
    have hs : s.resolved g visitN := h s (by simp)
    have ih' := ih (fun x hx => h x (by simp [hx]))
    simp only [List.foldl_append, List.foldl_cons, List.foldl_nil, leftFold] at ih' ⊢
    rw [hbinary, hs.1, ih', hs.2]
    rfl

/-- What the loop over the handlers returns when it returns. -/
theorem visitHandlers_spec (g : AstGenerator) :
    ∀ (hs : List HandlerWithStatementContext) (bs : List CatchBlock × List LabelBlock),
      g.visitHandlers hs = .ok bs →
        List.Forall₂ (catchBlockOf g) (hs.filter (·.isCatch)) bs.1 ∧
        List.Forall₂ (labelBlockOf g) (hs.filter (fun h => !h.isCatch)) bs.2 ∧
        bs.1.map (·.caught) = hs.filterMap (·.caught?) ∧
        bs.2.map (·.label) = hs.filterMap (fun h => h.labelDeclaration?.map (·.IDENTIFIER)) ∧
        bs.1.length + bs.2.length = hs.length
  | [], bs, h => by
    simp only [visitHandlers, pure_eq_ok] at h
    subst h
    simp
  | .catchHandler i b :: rest, bs, h => by
    simp only [visitHandlers, bind_eq_ok, pure_eq_ok] at h
    obtain ⟨pos, hpos, x, hx, r, hr, rfl⟩ := h
    obtain ⟨h1, h2, h3, h4, h5⟩ := visitHandlers_spec g rest r hr
    refine ⟨?_, ?_, ?_, ?_, ?_⟩
    · simp only [List.filter_cons, HandlerWithStatementContext.isCatch, if_true]
      exact List.Forall₂.cons ⟨rfl, hpos, hx⟩ h1
    · simpa [List.filter_cons, HandlerWithStatementContext.isCatch] using h2
    · have hcons : List.filterMap (·.caught?) (HandlerWithStatementContext.catchHandler i b :: rest)
          = i :: List.filterMap (·.caught?) rest := rfl
      rw [hcons, List.map_cons, h3]
      rfl
    · exact h4
    · simp only [List.length_cons]; omega
  | .labelHandler l b :: rest, bs, h => by
    simp only [visitHandlers, bind_eq_ok, pure_eq_ok] at h
    obtain ⟨pos, hpos, x, hx, r, hr, rfl⟩ := h
    obtain ⟨h1, h2, h3, h4, h5⟩ := visitHandlers_spec g rest r hr
    refine ⟨?_, ?_, ?_, ?_, ?_⟩
    · simpa [List.filter_cons, HandlerWithStatementContext.isCatch] using h1
    · simp only [List.filter_cons, HandlerWithStatementContext.isCatch, Bool.not_false,
        if_true]
      exact List.Forall₂.cons ⟨⟨l, rfl, rfl, rfl⟩, hpos, hx⟩ h2
    · exact h3
    · have hcons : List.filterMap (fun h => h.labelDeclaration?.map (·.IDENTIFIER))
            (HandlerWithStatementContext.labelHandler l b :: rest)
          = l.IDENTIFIER ::
              List.filterMap (fun h => h.labelDeclaration?.map (·.IDENTIFIER)) rest := rfl
      rw [hcons, List.map_cons, h4]
      rfl
    · simp only [List.length_cons]; omega

/-- What `visitRangeBound` returns when it returns: absence for an absent
expression, and the transform of a present one. -/
theorem visitRangeBound_eq_ok (g : AstGenerator) (c : Option ExpressionContext)
    (b : Option Expression) :
    g.visitRangeBound c = .ok b ↔
      (c = none ∧ b = none) ∨
      (∃ e x, c = some e ∧ g.visitExpression e = .ok x ∧ b = some x) := by
  cases c with
  | none =>
    constructor
    · intro h
      simp only [visitRangeBound, pure_eq_ok] at h
      subst h
      exact Or.inl ⟨rfl, rfl⟩
    · rintro (⟨_, rfl⟩ | ⟨e, x, h, _⟩)
      · rfl
      · cases h
  | some e =>
    constructor
    · intro h
      simp only [visitRangeBound, bind_eq_ok, pure_eq_ok] at h
      obtain ⟨x, hx, rfl⟩ := h
      exact Or.inr ⟨e, x, rfl, hx, rfl⟩
    · rintro (⟨h, _⟩ | ⟨e', x, h, hx, rfl⟩)
      · cases h
      · cases h
        simp only [visitRangeBound, hx]
        rfl

/-- What the range of a `for`-`of` loop yields when it yields. -/
theorem visitForOfRange_eq_ok (g : AstGenerator) (c : ForOfRangeContext)
    (r : Option Expression × Option Expression) (h : g.visitForOfRange c = .ok r) :
    g.visitRangeBound c.beginExpression = .ok r.1 ∧
    g.visitRangeBound c.endExpression = .ok r.2 := by
  unfold visitForOfRange at h
  unfold ForOfRangeContext.beginExpression ForOfRangeContext.endExpression
  cases hc : c.rangeSpecifier with
  | none =>
    simp only [hc, pure_eq_ok] at h
    subst h
    exact ⟨rfl, rfl⟩
  | some range =>
    simp only [hc, bind_eq_ok, pure_eq_ok] at h
    obtain ⟨b, hb, e, he, rfl⟩ := h
    exact ⟨hb, he⟩

/-! ## Order of the child collections -/

theorem ok_bind {α β : Type} (a : α) (f : α → Except Fault β) :
    ((Except.ok a : Except Fault α) >>= f) = f a := rfl

/-- The loop over the arguments returns the transforms of the arguments, in
order. -/
theorem visitArguments_eq_ok (g : AstGenerator) :
    ∀ (cs : List ArgumentContext) (es : List Expression),
      g.visitArguments cs = .ok es ↔
        List.Forall₂ (fun c e => g.visitArgument c = .ok e) cs es
  | [], es => by
    simp only [visitArguments, pure_eq_ok]
    constructor
    · rintro rfl; exact .nil
    · intro h; cases h; rfl
  | c :: cs, es => by
    simp only [visitArguments, bind_eq_ok, pure_eq_ok]
    constructor
    · rintro ⟨x, hx, xs, hxs, rfl⟩
      exact .cons hx ((visitArguments_eq_ok g cs xs).mp hxs)
    · intro h
      cases h with
      | cons hx hxs => exact ⟨_, hx, _, (visitArguments_eq_ok g cs _).mpr hxs, rfl⟩

/-- The loop over the statements returns the transforms of the statements, in
order. -/
theorem visitStatements_eq_ok (g : AstGenerator) :
    ∀ (cs : List StatementContext) (ss : List Statement),
      g.visitStatements cs = .ok ss ↔
        List.Forall₂ (fun c s => g.visitStatement c = .ok s) cs ss
  | [], ss => by
    simp only [visitStatements, pure_eq_ok]
    constructor
    · rintro rfl; exact .nil
    · intro h; cases h; rfl
  | c :: cs, ss => by
    simp only [visitStatements, bind_eq_ok, pure_eq_ok]
    constructor
    · rintro ⟨x, hx, xs, hxs, rfl⟩
      exact .cons hx ((visitStatements_eq_ok g cs xs).mp hxs)
    · intro h
      cases h with
      | cons hx hxs => exact ⟨_, hx, _, (visitStatements_eq_ok g cs _).mpr hxs, rfl⟩

/-- The loop over the declarations of a module returns the transforms of the
declarations, in order. -/
theorem visitDeclarations_eq_ok (g : AstGenerator) :
    ∀ (cs : List DeclarationContext) (ds : List Declaration),
      g.visitDeclarations cs = .ok ds ↔
        List.Forall₂ (fun c d => g.visitDeclaration c = .ok d) cs ds
  | [], ds => by
    simp only [visitDeclarations, pure_eq_ok]
    constructor
    · rintro rfl; exact .nil
    · intro h; cases h; rfl
  | c :: cs, ds => by
    simp only [visitDeclarations, bind_eq_ok, pure_eq_ok]
    constructor
    · rintro ⟨x, hx, xs, hxs, rfl⟩
      exact .cons hx ((visitDeclarations_eq_ok g cs xs).mp hxs)
    · intro h
      cases h with
      | cons hx hxs => exact ⟨_, hx, _, (visitDeclarations_eq_ok g cs _).mpr hxs, rfl⟩

/-- What `visitHelperCall` returns when it returns: a call at the position of the
node, with the callee the code selected, the operator flag of `MIN` and `MAX`,
the transforms of the arguments and the labels of the otherwise clause. -/
theorem visitHelperCall_eq_ok (g : AstGenerator) (a : Nat) (MIN MAX IDENTIFIER : Option String)
    (argument : List ArgumentContext) (optionalOtherwise : OptionalOtherwiseContext)
    (e : Expression) :
    g.visitHelperCall (.mk a MIN MAX IDENTIFIER (.mk argument) optionalOtherwise) = .ok e ↔
      ∃ pos callee arguments, g.Pos a = .ok pos ∧
        helperCallCallee MIN MAX IDENTIFIER = some callee ∧
        List.Forall₂ (fun c x => g.visitArgument c = .ok x) argument arguments ∧
        e = .CallExpression pos callee (MIN.isSome || MAX.isSome) arguments
          optionalOtherwise.IDENTIFIER := by
  simp only [visitHelperCall, bind_eq_ok, pure_eq_ok, visitArguments_eq_ok]
  constructor
  · rintro ⟨pos, hpos, callee, hc, es, hes, rfl⟩
    refine ⟨pos, callee, es, hpos, ?_, hes, rfl⟩
    cases h : helperCallCallee MIN MAX IDENTIFIER with
    | none => rw [h] at hc; cases hc
    | some t => rw [h] at hc; cases hc; rfl
  · rintro ⟨pos, callee, es, hpos, hc, hes, rfl⟩
    exact ⟨pos, hpos, callee, by rw [hc], es, hes, rfl⟩

/-- A helper call transforms to a call node. -/
theorem visitHelperCall_isCall (g : AstGenerator) (c : HelperCallContext) (e : Expression)
    (h : g.visitHelperCall c = .ok e) : e.isCall = true := by
  obtain ⟨a, mn, mx, i, ⟨args⟩, oo⟩ := c
  obtain ⟨pos, callee, es, _, _, _, rfl⟩ := (visitHelperCall_eq_ok g a mn mx i args oo e).mp h
  rfl

/-! ## The transform reads the visitor state only through the positions -/

mutual
theorem visitExpression_congr (g g' : AstGenerator) (hP : ∀ a, g.Pos a = g'.Pos a) :
    ∀ c : ExpressionContext, g.visitExpression c = g'.visitExpression c
  | .mk c => by
    simp only [visitExpression]
    exact visitConditionalExpression_congr g g' hP c
theorem visitConditionalExpression_congr (g g' : AstGenerator)
    (hP : ∀ a, g.Pos a = g'.Pos a) :
    ∀ c : ConditionalExpressionContext,
      g.visitConditionalExpression c = g'.visitConditionalExpression c
  | .single c => by
    simp only [visitConditionalExpression]
    exact visitLogicalORExpression_congr g g' hP c
  | .ternary a c e0 e1 => by
    simp only [visitConditionalExpression, hP, visitConditionalExpression_congr g g' hP c,
      visitLogicalORExpression_congr g g' hP e0, visitLogicalORExpression_congr g g' hP e1]
theorem visitLogicalORExpression_congr (g g' : AstGenerator)
    (hP : ∀ a, g.Pos a = g'.Pos a) :
    ∀ c : LogicalORExpressionContext,
      g.visitLogicalORExpression c = g'.visitLogicalORExpression c
  | .single c => by
    simp only [visitLogicalORExpression]
    exact visitLogicalANDExpression_congr g g' hP c
  | .binary a l r => by
    simp only [visitLogicalORExpression, hP, visitLogicalORExpression_congr g g' hP l,
      visitLogicalANDExpression_congr g g' hP r]
theorem visitLogicalANDExpression_congr (g g' : AstGenerator)
    (hP : ∀ a, g.Pos a = g'.Pos a) :
    ∀ c : LogicalANDExpressionContext,
      g.visitLogicalANDExpression c = g'.visitLogicalANDExpression c
  | .single c => by
    simp only [visitLogicalANDExpression]
    exact visitBitwiseExpression_congr g g' hP c
  | .binary a l r => by
    simp only [visitLogicalANDExpression, hP, visitLogicalANDExpression_congr g g' hP l,
      visitBitwiseExpression_congr g g' hP r]
theorem visitBitwiseExpression_congr (g g' : AstGenerator)
    (hP : ∀ a, g.Pos a = g'.Pos a) :
    ∀ c : BitwiseExpressionContext, g.visitBitwiseExpression c = g'.visitBitwiseExpression c
  | .single c => by
    simp only [visitBitwiseExpression]
    exact visitEqualityExpression_congr g g' hP c
  | .binary a l op r => by
    simp only [visitBitwiseExpression, hP, visitBitwiseExpression_congr g g' hP l,
      visitEqualityExpression_congr g g' hP r]
theorem visitEqualityExpression_congr (g g' : AstGenerator)
    (hP : ∀ a, g.Pos a = g'.Pos a) :
    ∀ c : EqualityExpressionContext, g.visitEqualityExpression c = g'.visitEqualityExpression c
  | .single c => by
    simp only [visitEqualityExpression]
    exact visitRelationalExpression_congr g g' hP c
  | .binary a l op r => by
    simp only [visitEqualityExpression, hP, visitEqualityExpression_congr g g' hP l,
      visitRelationalExpression_congr g g' hP r]
theorem visitRelationalExpression_congr (g g' : AstGenerator)
    (hP : ∀ a, g.Pos a = g'.Pos a) :
    ∀ c : RelationalExpressionContext, g.visitRelationalExpression c = g'.visitRelationalExpression c
  | .single c => by
    simp only [visitRelationalExpression]
    exact visitShiftExpression_congr g g' hP c
  | .binary a l op r => by
    simp only [visitRelationalExpression, hP, visitRelationalExpression_congr g g' hP l,
      visitShiftExpression_congr g g' hP r]
theorem visitShiftExpression_congr (g g' : AstGenerator)
    (hP : ∀ a, g.Pos a = g'.Pos a) :
    ∀ c : ShiftExpressionContext, g.visitShiftExpression c = g'.visitShiftExpression c
  | .single c => by
    simp only [visitShiftExpression]
    exact visitAdditiveExpression_congr g g' hP c
  | .binary a l op r => by
    simp only [visitShiftExpression, hP, visitShiftExpression_congr g g' hP l,
      visitAdditiveExpression_congr g g' hP r]
theorem visitAdditiveExpression_congr (g g' : AstGenerator)
    (hP : ∀ a, g.Pos a = g'.Pos a) :
    ∀ c : AdditiveExpressionContext, g.visitAdditiveExpression c = g'.visitAdditiveExpression c
  | .single c => by
    simp only [visitAdditiveExpression]
    exact visitMultiplicativeExpression_congr g g' hP c
  | .binary a l op r => by
    simp only [visitAdditiveExpression, hP, visitAdditiveExpression_congr g g' hP l,
      visitMultiplicativeExpression_congr g g' hP r]
theorem visitMultiplicativeExpression_congr (g g' : AstGenerator)
    (hP : ∀ a, g.Pos a = g'.Pos a) :
    ∀ c : MultiplicativeExpressionContext, g.visitMultiplicativeExpression c = g'.visitMultiplicativeExpression c
  | .single c => by
    simp only [visitMultiplicativeExpression]
    exact visitUnaryExpression_congr g g' hP c
  | .binary a l op r => by
    simp only [visitMultiplicativeExpression, hP, visitMultiplicativeExpression_congr g g' hP l,
      visitUnaryExpression_congr g g' hP r]
theorem visitUnaryExpression_congr (g g' : AstGenerator)
    (hP : ∀ a, g.Pos a = g'.Pos a) :
    ∀ c : UnaryExpressionContext, g.visitUnaryExpression c = g'.visitUnaryExpression c
  | .assignmentExpression c => by
    simp only [visitUnaryExpression]
    exact visitAssignmentExpression_congr g g' hP c
  | .unary a op c => by
    simp only [visitUnaryExpression, hP, visitUnaryExpression_congr g g' hP c]
theorem visitAssignmentExpression_congr (g g' : AstGenerator)
    (hP : ∀ a, g.Pos a = g'.Pos a) :
    ∀ c : AssignmentExpressionContext,
      g.visitAssignmentExpression c = g'.visitAssignmentExpression c
  | .primaryExpression c => by
    simp only [visitAssignmentExpression]
    exact visitPrimaryExpression_congr g g' hP c
  | .assignment c => by
    simp only [visitAssignmentExpression]
    exact visitAssignment_congr g g' hP c
theorem visitAssignment_congr (g g' : AstGenerator) (hP : ∀ a, g.Pos a = g'.Pos a) :
    ∀ c : AssignmentContext, g.visitAssignment c = g'.visitAssignment c
  | .incrementDecrement c => by
    simp only [visitAssignment]
    exact visitIncrementDecrement_congr g g' hP c
  | .location a l op none => by
    simp only [visitAssignment, visitLocationExpression_congr g g' hP l]
  | .location a l op (some v) => by
    simp only [visitAssignment, hP, visitLocationExpression_congr g g' hP l,
      visitExpression_congr g g' hP v]
theorem visitIncrementDecrement_congr (g g' : AstGenerator)
    (hP : ∀ a, g.Pos a = g'.Pos a) :
    ∀ c : IncrementDecrementContext,
      g.visitIncrementDecrement c = g'.visitIncrementDecrement c
  | .mk a op inc l => by
    simp only [visitIncrementDecrement, hP, visitLocationExpression_congr g g' hP l]
theorem visitLocationExpression_congr (g g' : AstGenerator)
    (hP : ∀ a, g.Pos a = g'.Pos a) :
    ∀ c : LocationExpressionContext,
      g.visitLocationExpression c = g'.visitLocationExpression c
  | .elementAccess a l i => by
    simp only [visitLocationExpression, hP, visitLocationExpression_congr g g' hP l,
      visitExpression_congr g g' hP i]
  | .fieldAccess a l f => by
    simp only [visitLocationExpression, hP, visitLocationExpression_congr g g' hP l]
  | .identifier a n => by
    simp only [visitLocationExpression, hP]
theorem visitPrimaryExpression_congr (g g' : AstGenerator)
    (hP : ∀ a, g.Pos a = g'.Pos a) :
    ∀ c : PrimaryExpressionContext,
      g.visitPrimaryExpression c = g'.visitPrimaryExpression c
  | .helperCall c => by
    simp only [visitPrimaryExpression]
    exact visitHelperCall_congr g g' hP c
  | .decimalLiteral a t => by
    simp only [visitPrimaryExpression, hP]
  | .stringLiteral a t => by
    simp only [visitPrimaryExpression, hP]
  | .convert a t c => by
    simp only [visitPrimaryExpression, hP, visitExpression_congr g g' hP c]
  | .cast a t i c => by
    simp only [visitPrimaryExpression, hP, visitExpression_congr g g' hP c]
  | .parenthesized c => by
    simp only [visitPrimaryExpression]
    exact visitExpression_congr g g' hP c
theorem visitHelperCall_congr (g g' : AstGenerator) (hP : ∀ a, g.Pos a = g'.Pos a) :
    ∀ c : HelperCallContext, g.visitHelperCall c = g'.visitHelperCall c
  | .mk a mn mx i (.mk args) oo => by
    simp only [visitHelperCall, hP, visitArguments_congr g g' hP args]
theorem visitArguments_congr (g g' : AstGenerator) (hP : ∀ a, g.Pos a = g'.Pos a) :
    ∀ c : List ArgumentContext, g.visitArguments c = g'.visitArguments c
  | [] => by
    simp only [visitArguments]
  | c :: cs => by
    simp only [visitArguments, visitArgument_congr g g' hP c,
      visitArguments_congr g g' hP cs]
theorem visitArgument_congr (g g' : AstGenerator) (hP : ∀ a, g.Pos a = g'.Pos a) :
    ∀ c : ArgumentContext, g.visitArgument c = g'.visitArgument c
  | .mk c => by
    simp only [visitArgument]
    exact visitExpression_congr g g' hP c
end

theorem visitRangeBound_congr (g g' : AstGenerator) (hP : ∀ a, g.Pos a = g'.Pos a)
    (c : Option ExpressionContext) : g.visitRangeBound c = g'.visitRangeBound c := by
  cases c with
  | none => rfl
  | some e => simp only [visitRangeBound, visitExpression_congr g g' hP e]

theorem visitVariableDeclaration_congr (g g' : AstGenerator) (hP : ∀ a, g.Pos a = g'.Pos a)
    (c : VariableDeclarationContext) :
    g.visitVariableDeclaration c = g'.visitVariableDeclaration c := by
  simp only [visitVariableDeclaration, hP]

theorem visitVariableDeclarationWithInitialization_congr (g g' : AstGenerator)
    (hP : ∀ a, g.Pos a = g'.Pos a) (c : VariableDeclarationWithInitializationContext) :
    g.visitVariableDeclarationWithInitialization c =
      g'.visitVariableDeclarationWithInitialization c := by
  unfold visitVariableDeclarationWithInitialization
  rw [visitVariableDeclaration_congr g g' hP]
  cases c.expression with
  | none => simp only [hP]
  | some e => simp only [hP, visitExpression_congr g g' hP e]

theorem visitHelperCallStatement_congr (g g' : AstGenerator) (hP : ∀ a, g.Pos a = g'.Pos a)
    (c : HelperCallStatementContext) :
    g.visitHelperCallStatement c = g'.visitHelperCallStatement c := by
  simp only [visitHelperCallStatement, hP, visitHelperCall_congr g g' hP c.helperCall]

theorem visitGotoStatement_congr (g g' : AstGenerator) (hP : ∀ a, g.Pos a = g'.Pos a)
    (c : GotoStatementContext) : g.visitGotoStatement c = g'.visitGotoStatement c := by
  unfold visitGotoStatement
  cases c.argumentList with
  | none => simp only [hP]
  | some l => simp only [hP, visitArguments_congr g g' hP l.argument]

theorem visitForInitialization_congr (g g' : AstGenerator) (hP : ∀ a, g.Pos a = g'.Pos a)
    (c : ForInitializationContext) :
    g.visitForInitialization c = g'.visitForInitialization c := by
  unfold visitForInitialization
  cases c.variableDeclarationWithInitialization with
  | none => rfl
  | some w => simp only [visitVariableDeclarationWithInitialization_congr g g' hP w]

theorem visitForOfRange_congr (g g' : AstGenerator) (hP : ∀ a, g.Pos a = g'.Pos a)
    (c : ForOfRangeContext) : g.visitForOfRange c = g'.visitForOfRange c := by
  unfold visitForOfRange
  cases c.rangeSpecifier with
  | none => rfl
  | some r =>
    simp only [visitRangeBound_congr g g' hP r.begin_, visitRangeBound_congr g g' hP r.end_]

mutual
theorem visitStatement_congr (g g' : AstGenerator) (hP : ∀ a, g.Pos a = g'.Pos a) :
    ∀ c : StatementContext, g.visitStatement c = g'.visitStatement c
  | .variableDeclarationWithInitialization c => by
    simp only [visitStatement]
    exact visitVariableDeclarationWithInitialization_congr g g' hP c
  | .helperCallStatement c => by
    simp only [visitStatement]
    exact visitHelperCallStatement_congr g g' hP c
  | .expressionStatement c => by
    simp only [visitStatement, visitExpressionStatement, hP,
      visitAssignment_congr g g' hP c.assignment]
  | .returnStatement c => by
    simp only [visitStatement, visitReturnStatement, hP,
      visitExpression_congr g g' hP c.expression]
  | .breakStatement c => by
    simp only [visitStatement, visitBreakStatement, hP]
  | .continueStatement c => by
    simp only [visitStatement, visitContinueStatement, hP]
  | .gotoStatement c => by
    simp only [visitStatement]
    exact visitGotoStatement_congr g g' hP c
  | .ifStatement c => by
    simp only [visitStatement]
    exact visitIfStatement_congr g g' hP c
  | .whileLoop c => by
    simp only [visitStatement]
    exact visitWhileLoop_congr g g' hP c
  | .forOfLoop c => by
    simp only [visitStatement]
    exact visitForOfLoop_congr g g' hP c
  | .forLoop c => by
    simp only [visitStatement]
    exact visitForLoop_congr g g' hP c
  | .tryCatch c => by
    simp only [visitStatement]
    exact visitTryCatch_congr g g' hP c
theorem visitStatements_congr (g g' : AstGenerator) (hP : ∀ a, g.Pos a = g'.Pos a) :
    ∀ c : List StatementContext, g.visitStatements c = g'.visitStatements c
  | [] => by
    simp only [visitStatements]
  | c :: cs => by
    simp only [visitStatements, visitStatement_congr g g' hP c,
      visitStatements_congr g g' hP cs]
theorem visitStatementScope_congr (g g' : AstGenerator) (hP : ∀ a, g.Pos a = g'.Pos a) :
    ∀ c : StatementScopeContext, g.visitStatementScope c = g'.visitStatementScope c
  | .mk a d (.mk cs) => by
    simp only [visitStatementScope, hP, visitStatements_congr g g' hP cs]
theorem visitStatementBlock_congr (g g' : AstGenerator) (hP : ∀ a, g.Pos a = g'.Pos a) :
    ∀ c : StatementBlockContext, g.visitStatementBlock c = g'.visitStatementBlock c
  | .statement a c => by
    simp only [visitStatementBlock]
    exact visitStatement_congr g g' hP c
  | .statementScope a c => by
    simp only [visitStatementBlock]
    exact visitStatementScope_congr g g' hP c
theorem visitIfStatement_congr (g g' : AstGenerator) (hP : ∀ a, g.Pos a = g'.Pos a) :
    ∀ c : IfStatementContext, g.visitIfStatement c = g'.visitIfStatement c
  | .mk a e b0 none => by
    simp only [visitIfStatement, hP, visitExpression_congr g g' hP e,
      visitStatementBlock_congr g g' hP b0]
  | .mk a e b0 (some b1) => by
    simp only [visitIfStatement, hP, visitExpression_congr g g' hP e,
      visitStatementBlock_congr g g' hP b0, visitStatementBlock_congr g g' hP b1]
theorem visitWhileLoop_congr (g g' : AstGenerator) (hP : ∀ a, g.Pos a = g'.Pos a) :
    ∀ c : WhileLoopContext, g.visitWhileLoop c = g'.visitWhileLoop c
  | .mk a e b => by
    simp only [visitWhileLoop, hP, visitExpression_congr g g' hP e,
      visitStatementBlock_congr g g' hP b]
theorem visitForLoop_congr (g g' : AstGenerator) (hP : ∀ a, g.Pos a = g'.Pos a) :
    ∀ c : ForLoopContext, g.visitForLoop c = g'.visitForLoop c
  | .mk a i e s b => by
    simp only [visitForLoop, hP, visitExpression_congr g g' hP e,
      visitAssignment_congr g g' hP s, visitStatementBlock_congr g g' hP b,
      visitForInitialization_congr g g' hP i]
theorem visitForOfLoop_congr (g g' : AstGenerator) (hP : ∀ a, g.Pos a = g'.Pos a) :
    ∀ c : ForOfLoopContext, g.visitForOfLoop c = g'.visitForOfLoop c
  | .mk a v e r b => by
    simp only [visitForOfLoop, hP, visitVariableDeclaration_congr g g' hP v,
      visitExpression_congr g g' hP e, visitStatementBlock_congr g g' hP b,
      visitForOfRange_congr g g' hP r]
theorem visitTryCatch_congr (g g' : AstGenerator) (hP : ∀ a, g.Pos a = g'.Pos a) :
    ∀ c : TryCatchContext, g.visitTryCatch c = g'.visitTryCatch c
  | .mk a b hs => by
    simp only [visitTryCatch, hP, visitStatementBlock_congr g g' hP b,
      visitHandlers_congr g g' hP hs]
theorem visitHandlers_congr (g g' : AstGenerator) (hP : ∀ a, g.Pos a = g'.Pos a) :
    ∀ c : List HandlerWithStatementContext, g.visitHandlers c = g'.visitHandlers c
  | [] => by
    simp only [visitHandlers]
  | .catchHandler i b :: rest => by
    simp only [visitHandlers, hP, visitStatementBlock_congr g g' hP b,
      visitHandlers_congr g g' hP rest]
  | .labelHandler l b :: rest => by
    simp only [visitHandlers, hP, visitStatementBlock_congr g g' hP b,
      visitHandlers_congr g g' hP rest]
end

theorem visitDeclaration_congr (g g' : AstGenerator) (hP : ∀ a, g.Pos a = g'.Pos a)
    (c : DeclarationContext) : g.visitDeclaration c = g'.visitDeclaration c := by
  cases c with
  | typeDeclaration c => simp only [visitDeclaration, visitTypeDeclaration, hP]
  | builtinDeclaration c =>
    simp only [visitDeclaration, visitBuiltinDeclaration, visitHelperBody, hP,
      visitStatementScope_congr g g' hP c.helperBody.statementScope]
  | macroDeclaration c =>
    simp only [visitDeclaration, visitMacroDeclaration, visitHelperBody, hP,
      visitStatementScope_congr g g' hP c.helperBody.statementScope]
  | externalMacro c => simp only [visitDeclaration, visitExternalMacro, hP]
  | externalBuiltin c => simp only [visitDeclaration, visitExternalBuiltin, hP]
  | externalRuntime c => simp only [visitDeclaration, visitExternalRuntime, hP]
  | constDeclaration c => simp only [visitDeclaration, visitConstDeclaration, hP]

theorem visitDeclarations_congr (g g' : AstGenerator) (hP : ∀ a, g.Pos a = g'.Pos a) :
    ∀ c : List DeclarationContext, g.visitDeclarations c = g'.visitDeclarations c
  | [] => by
    simp only [visitDeclarations]
  | c :: cs => by
    simp only [visitDeclarations, visitDeclaration_congr g g' hP c,
      visitDeclarations_congr g g' hP cs]

/-- Two visitor states that resolve every position alike transform every child
of a file alike. -/
theorem visitFileChild_congr (g g' : AstGenerator) (hP : ∀ a, g.Pos a = g'.Pos a)
    (c : FileChildContext) : g.visitFileChild c = g'.visitFileChild c := by
  cases c with
  | moduleDeclaration c =>
    simp only [visitFileChild, visitModuleDeclaration, hP,
      visitDeclarations_congr g g' hP c.declaration]
  | declaration c => exact visitDeclaration_congr g g' hP c

/-- The file driver, step by step: the children are transformed in the state in
which the file is active, their transforms are appended in order to the
declarations, the file is registered once, and the active context is cleared. -/
theorem visitSourceFile_loop_forall₂ (g₁ : AstGenerator) :
    ∀ (cs : List FileChildContext) (g g' : AstGenerator),
      (∀ a, g.Pos a = g₁.Pos a) →
      visitSourceFile.loop g cs = .ok g' →
        ∃ ds, g'.ast_.declarations_ = g.ast_.declarations_ ++ ds ∧
          List.Forall₂ (fun c d => g₁.visitFileChild c = .ok d) cs ds ∧
          g'.ast_.sources_ = g.ast_.sources_ ∧
          g'.current_source_file_ = g.current_source_file_ ∧
          g'.source_file_context_ = g.source_file_context_
  | [], g, g', _, h => by
    simp only [visitSourceFile.loop, pure_eq_ok] at h
    subst h
    exact ⟨[], by simp, .nil, rfl, rfl, rfl⟩
  | c :: cs, g, g', hP, h => by
    simp only [visitSourceFile.loop, bind_eq_ok] at h
    obtain ⟨d, hd, h⟩ := h
    obtain ⟨ds, h1, h2, h3, h4, h5⟩ :=
      visitSourceFile_loop_forall₂ g₁ cs
        { g with ast_ := { g.ast_ with declarations_ := g.ast_.declarations_ ++ [d] } } g'
        (fun a => hP a) h
    refine ⟨d :: ds, ?_, ?_, h3, h4, h5⟩
    · simpa using h1
    · rw [visitFileChild_congr g g₁ hP c] at hd
      exact .cons hd h2

/-- What `visitSourceFile` returns when it returns. -/
theorem visitSourceFile_eq_ok (g : AstGenerator) (c : SourceFileContext)
    (g' : AstGenerator) (h : g.visitSourceFile c = .ok g') :
    ∃ ds, g'.ast_.declarations_ = g.ast_.declarations_ ++ ds ∧
      List.Forall₂ (fun child d => (enterSourceFile g c).visitFileChild child = .ok d)
        c.file.children ds ∧
      g'.ast_.sources_ = g.ast_.sources_ ++ [c.name] ∧
      g'.current_source_file_ = g.ast_.sources_.length ∧
      g'.source_file_context_ = none := by
  simp only [visitSourceFile, bind_eq_ok, pure_eq_ok] at h
  obtain ⟨g1, h1, rfl⟩ := h
  obtain ⟨ds, hd, hf, hs, hc, _⟩ :=
    visitSourceFile_loop_forall₂ (enterSourceFile g c) c.file.children _ g1
      (fun a => rfl) h1
  exact ⟨ds, hd, hf, hs, hc, rfl⟩

/-! ## Where the positions of the AST come from -/

/-- What `Pos` returns when it returns: the position of the current file read
off the token at the given index of the active token stream. -/
theorem Pos_eq_ok (g : AstGenerator) (a : Nat) (p : SourcePosition) :
    g.Pos a = .ok p ↔
      ∃ context token, g.source_file_context_ = some context ∧
        context.tokens[a]? = some token ∧
        p = { source := g.current_source_file_
              line := static_cast_int token.getLine
              column := static_cast_int token.getCharPositionInLine } := by
  unfold Pos
  constructor
  · intro h
    cases hc : g.source_file_context_ with
    | none => rw [hc] at h; cases h
    | some context =>
      rw [hc] at h
      simp only at h
      cases ht : context.tokens[a]? with
      | none => rw [ht] at h; cases h
      | some token =>
        rw [ht] at h
        simp only [Except.ok.injEq] at h
        exact ⟨context, token, rfl, ht, h.symm⟩
  · rintro ⟨context, token, hc, ht, rfl⟩
    simp only [hc, ht]

mutual
theorem visitExpression_positions (g : AstGenerator) (Q : SourcePosition → Bool) :
    ∀ (c : ExpressionContext) (e : Expression),
      (∀ a ∈ c.spans, ∀ p, g.Pos a = .ok p → Q p = true) →
      g.visitExpression c = .ok e → e.positionsAll Q = true
  | .mk c, e, hQ, h => by
    simp only [visitExpression] at h
    exact visitConditionalExpression_positions g Q c e (fun a' ha' => hQ a' (by simpa [ExpressionContext.spans] using ha')) h
theorem visitConditionalExpression_positions (g : AstGenerator) (Q : SourcePosition → Bool) :
    ∀ (c : ConditionalExpressionContext) (e : Expression),
      (∀ a ∈ c.spans, ∀ p, g.Pos a = .ok p → Q p = true) →
      g.visitConditionalExpression c = .ok e → e.positionsAll Q = true
  | .single c, e, hQ, h => by
    simp only [visitConditionalExpression] at h
    exact visitLogicalORExpression_positions g Q c e (fun a' ha' => hQ a' (by simpa [ConditionalExpressionContext.spans] using ha')) h
  | .ternary a c e0 e1, e, hQ, h => by
    simp only [visitConditionalExpression, bind_eq_ok, pure_eq_ok, LocationExpression_cast_eq_ok] at h
    obtain ⟨pos, hpos, x1, hx1, x2, hx2, x3, hx3, rfl⟩ := h
    simp [Expression.positionsAll, Expression.positionsAllList,
      hQ a (by simp [ConditionalExpressionContext.spans]) pos hpos,
      visitConditionalExpression_positions g Q c x1
        (fun a' ha' => hQ a' (by simp [ConditionalExpressionContext.spans, ha'])) hx1,
      visitLogicalORExpression_positions g Q e0 x2
        (fun a' ha' => hQ a' (by simp [ConditionalExpressionContext.spans, ha'])) hx2,
      visitLogicalORExpression_positions g Q e1 x3
        (fun a' ha' => hQ a' (by simp [ConditionalExpressionContext.spans, ha'])) hx3]
theorem visitLogicalORExpression_positions (g : AstGenerator) (Q : SourcePosition → Bool) :
    ∀ (c : LogicalORExpressionContext) (e : Expression),
      (∀ a ∈ c.spans, ∀ p, g.Pos a = .ok p → Q p = true) →
      g.visitLogicalORExpression c = .ok e → e.positionsAll Q = true
  | .single c, e, hQ, h => by
    simp only [visitLogicalORExpression] at h
    exact visitLogicalANDExpression_positions g Q c e (fun a' ha' => hQ a' (by simpa [LogicalORExpressionContext.spans] using ha')) h
  | .binary a l r, e, hQ, h => by
    simp only [visitLogicalORExpression, bind_eq_ok, pure_eq_ok, LocationExpression_cast_eq_ok] at h
    obtain ⟨pos, hpos, x1, hx1, x2, hx2, rfl⟩ := h
    simp [Expression.positionsAll, Expression.positionsAllList,
      hQ a (by simp [LogicalORExpressionContext.spans]) pos hpos,
      visitLogicalORExpression_positions g Q l x1
        (fun a' ha' => hQ a' (by simp [LogicalORExpressionContext.spans, ha'])) hx1,
      visitLogicalANDExpression_positions g Q r x2
        (fun a' ha' => hQ a' (by simp [LogicalORExpressionContext.spans, ha'])) hx2]
theorem visitLogicalANDExpression_positions (g : AstGenerator) (Q : SourcePosition → Bool) :
    ∀ (c : LogicalANDExpressionContext) (e : Expression),
      (∀ a ∈ c.spans, ∀ p, g.Pos a = .ok p → Q p = true) →
      g.visitLogicalANDExpression c = .ok e → e.positionsAll Q = true
  | .single c, e, hQ, h => by
    simp only [visitLogicalANDExpression] at h
    exact visitBitwiseExpression_positions g Q c e (fun a' ha' => hQ a' (by simpa [LogicalANDExpressionContext.spans] using ha')) h
  | .binary a l r, e, hQ, h => by
    simp only [visitLogicalANDExpression, bind_eq_ok, pure_eq_ok, LocationExpression_cast_eq_ok] at h
    obtain ⟨pos, hpos, x1, hx1, x2, hx2, rfl⟩ := h
    simp [Expression.positionsAll, Expression.positionsAllList,
      hQ a (by simp [LogicalANDExpressionContext.spans]) pos hpos,
      visitLogicalANDExpression_positions g Q l x1
        (fun a' ha' => hQ a' (by simp [LogicalANDExpressionContext.spans, ha'])) hx1,
      visitBitwiseExpression_positions g Q r x2
        (fun a' ha' => hQ a' (by simp [LogicalANDExpressionContext.spans, ha'])) hx2]
theorem visitBitwiseExpression_positions (g : AstGenerator) (Q : SourcePosition → Bool) :
    ∀ (c : BitwiseExpressionContext) (e : Expression),
      (∀ a ∈ c.spans, ∀ p, g.Pos a = .ok p → Q p = true) →
      g.visitBitwiseExpression c = .ok e → e.positionsAll Q = true
  | .single c, e, hQ, h => by
    simp only [visitBitwiseExpression] at h
    exact visitEqualityExpression_positions g Q c e (fun a' ha' => hQ a' (by simpa [BitwiseExpressionContext.spans] using ha')) h
  | .binary a l op r, e, hQ, h => by
    simp only [visitBitwiseExpression, bind_eq_ok, pure_eq_ok, LocationExpression_cast_eq_ok] at h
    obtain ⟨pos, hpos, x1, hx1, x2, hx2, rfl⟩ := h
    simp [Expression.positionsAll, Expression.positionsAllList,
      hQ a (by simp [BitwiseExpressionContext.spans]) pos hpos,
      visitBitwiseExpression_positions g Q l x1
        (fun a' ha' => hQ a' (by simp [BitwiseExpressionContext.spans, ha'])) hx1,
      visitEqualityExpression_positions g Q r x2
        (fun a' ha' => hQ a' (by simp [BitwiseExpressionContext.spans, ha'])) hx2]
theorem visitEqualityExpression_positions (g : AstGenerator) (Q : SourcePosition → Bool) :
    ∀ (c : EqualityExpressionContext) (e : Expression),
      (∀ a ∈ c.spans, ∀ p, g.Pos a = .ok p → Q p = true) →
      g.visitEqualityExpression c = .ok e → e.positionsAll Q = true
  | .single c, e, hQ, h => by
    simp only [visitEqualityExpression] at h
    exact visitRelationalExpression_positions g Q c e (fun a' ha' => hQ a' (by simpa [EqualityExpressionContext.spans] using ha')) h
  | .binary a l op r, e, hQ, h => by
    simp only [visitEqualityExpression, bind_eq_ok, pure_eq_ok, LocationExpression_cast_eq_ok] at h
    obtain ⟨pos, hpos, x1, hx1, x2, hx2, rfl⟩ := h
    simp [Expression.positionsAll, Expression.positionsAllList,
      hQ a (by simp [EqualityExpressionContext.spans]) pos hpos,
      visitEqualityExpression_positions g Q l x1
        (fun a' ha' => hQ a' (by simp [EqualityExpressionContext.spans, ha'])) hx1,
      visitRelationalExpression_positions g Q r x2
        (fun a' ha' => hQ a' (by simp [EqualityExpressionContext.spans, ha'])) hx2]
theorem visitRelationalExpression_positions (g : AstGenerator) (Q : SourcePosition → Bool) :
    ∀ (c : RelationalExpressionContext) (e : Expression),
      (∀ a ∈ c.spans, ∀ p, g.Pos a = .ok p → Q p = true) →
      g.visitRelationalExpression c = .ok e → e.positionsAll Q = true
  | .single c, e, hQ, h => by
    simp only [visitRelationalExpression] at h
    exact visitShiftExpression_positions g Q c e (fun a' ha' => hQ a' (by simpa [RelationalExpressionContext.spans] using ha')) h
  | .binary a l op r, e, hQ, h => by
    simp only [visitRelationalExpression, bind_eq_ok, pure_eq_ok, LocationExpression_cast_eq_ok] at h
    obtain ⟨pos, hpos, x1, hx1, x2, hx2, rfl⟩ := h
    simp [Expression.positionsAll, Expression.positionsAllList,
      hQ a (by simp [RelationalExpressionContext.spans]) pos hpos,
      visitRelationalExpression_positions g Q l x1
        (fun a' ha' => hQ a' (by simp [RelationalExpressionContext.spans, ha'])) hx1,
      visitShiftExpression_positions g Q r x2
        (fun a' ha' => hQ a' (by simp [RelationalExpressionContext.spans, ha'])) hx2]
theorem visitShiftExpression_positions (g : AstGenerator) (Q : SourcePosition → Bool) :
    ∀ (c : ShiftExpressionContext) (e : Expression),
      (∀ a ∈ c.spans, ∀ p, g.Pos a = .ok p → Q p = true) →
      g.visitShiftExpression c = .ok e → e.positionsAll Q = true
  | .single c, e, hQ, h => by
    simp only [visitShiftExpression] at h
    exact visitAdditiveExpression_positions g Q c e (fun a' ha' => hQ a' (by simpa [ShiftExpressionContext.spans] using ha')) h
  | .binary a l op r, e, hQ, h => by
    simp only [visitShiftExpression, bind_eq_ok, pure_eq_ok, LocationExpression_cast_eq_ok] at h
    obtain ⟨pos, hpos, x1, hx1, x2, hx2, rfl⟩ := h
    simp [Expression.positionsAll, Expression.positionsAllList,
      hQ a (by simp [ShiftExpressionContext.spans]) pos hpos,
      visitShiftExpression_positions g Q l x1
        (fun a' ha' => hQ a' (by simp [ShiftExpressionContext.spans, ha'])) hx1,
      visitAdditiveExpression_positions g Q r x2
        (fun a' ha' => hQ a' (by simp [ShiftExpressionContext.spans, ha'])) hx2]
theorem visitAdditiveExpression_positions (g : AstGenerator) (Q : SourcePosition → Bool) :
    ∀ (c : AdditiveExpressionContext) (e : Expression),
      (∀ a ∈ c.spans, ∀ p, g.Pos a = .ok p → Q p = true) →
      g.visitAdditiveExpression c = .ok e → e.positionsAll Q = true
  | .single c, e, hQ, h => by
    simp only [visitAdditiveExpression] at h
    exact visitMultiplicativeExpression_positions g Q c e (fun a' ha' => hQ a' (by simpa [AdditiveExpressionContext.spans] using ha')) h
  | .binary a l op r, e, hQ, h => by
    simp only [visitAdditiveExpression, bind_eq_ok, pure_eq_ok, LocationExpression_cast_eq_ok] at h
    obtain ⟨pos, hpos, x1, hx1, x2, hx2, rfl⟩ := h
    simp [Expression.positionsAll, Expression.positionsAllList,
      hQ a (by simp [AdditiveExpressionContext.spans]) pos hpos,
      visitAdditiveExpression_positions g Q l x1
        (fun a' ha' => hQ a' (by simp [AdditiveExpressionContext.spans, ha'])) hx1,
      visitMultiplicativeExpression_positions g Q r x2
        (fun a' ha' => hQ a' (by simp [AdditiveExpressionContext.spans, ha'])) hx2]
theorem visitMultiplicativeExpression_positions (g : AstGenerator) (Q : SourcePosition → Bool) :
    ∀ (c : MultiplicativeExpressionContext) (e : Expression),
      (∀ a ∈ c.spans, ∀ p, g.Pos a = .ok p → Q p = true) →
      g.visitMultiplicativeExpression c = .ok e → e.positionsAll Q = true
  | .single c, e, hQ, h => by
    simp only [visitMultiplicativeExpression] at h
    exact visitUnaryExpression_positions g Q c e (fun a' ha' => hQ a' (by simpa [MultiplicativeExpressionContext.spans] using ha')) h
  | .binary a l op r, e, hQ, h => by
    simp only [visitMultiplicativeExpression, bind_eq_ok, pure_eq_ok, LocationExpression_cast_eq_ok] at h
    obtain ⟨pos, hpos, x1, hx1, x2, hx2, rfl⟩ := h
    simp [Expression.positionsAll, Expression.positionsAllList,
      hQ a (by simp [MultiplicativeExpressionContext.spans]) pos hpos,
      visitMultiplicativeExpression_positions g Q l x1
        (fun a' ha' => hQ a' (by simp [MultiplicativeExpressionContext.spans, ha'])) hx1,
      visitUnaryExpression_positions g Q r x2
        (fun a' ha' => hQ a' (by simp [MultiplicativeExpressionContext.spans, ha'])) hx2]
theorem visitUnaryExpression_positions (g : AstGenerator) (Q : SourcePosition → Bool) :
    ∀ (c : UnaryExpressionContext) (e : Expression),
      (∀ a ∈ c.spans, ∀ p, g.Pos a = .ok p → Q p = true) →
      g.visitUnaryExpression c = .ok e → e.positionsAll Q = true
  | .assignmentExpression c, e, hQ, h => by
    simp only [visitUnaryExpression] at h
    exact visitAssignmentExpression_positions g Q c e (fun a' ha' => hQ a' (by simpa [UnaryExpressionContext.spans] using ha')) h
  | .unary a op c, e, hQ, h => by
    simp only [visitUnaryExpression, bind_eq_ok, pure_eq_ok, LocationExpression_cast_eq_ok] at h
    obtain ⟨x1, hx1, pos, hpos, rfl⟩ := h
    simp [Expression.positionsAll, Expression.positionsAllList,
      visitUnaryExpression_positions g Q c x1
        (fun a' ha' => hQ a' (by simp [UnaryExpressionContext.spans, ha'])) hx1,
      hQ a (by simp [UnaryExpressionContext.spans]) pos hpos]
theorem visitAssignmentExpression_positions (g : AstGenerator) (Q : SourcePosition → Bool) :
    ∀ (c : AssignmentExpressionContext) (e : Expression),
      (∀ a ∈ c.spans, ∀ p, g.Pos a = .ok p → Q p = true) →
      g.visitAssignmentExpression c = .ok e → e.positionsAll Q = true
  | .primaryExpression c, e, hQ, h => by
    simp only [visitAssignmentExpression] at h
    exact visitPrimaryExpression_positions g Q c e (fun a' ha' => hQ a' (by simpa [AssignmentExpressionContext.spans] using ha')) h
  | .assignment c, e, hQ, h => by
    simp only [visitAssignmentExpression] at h
    exact visitAssignment_positions g Q c e (fun a' ha' => hQ a' (by simpa [AssignmentExpressionContext.spans] using ha')) h
theorem visitAssignment_positions (g : AstGenerator) (Q : SourcePosition → Bool) :
    ∀ (c : AssignmentContext) (e : Expression),
      (∀ a ∈ c.spans, ∀ p, g.Pos a = .ok p → Q p = true) →
      g.visitAssignment c = .ok e → e.positionsAll Q = true
  | .incrementDecrement c, e, hQ, h => by
    simp only [visitAssignment] at h
    exact visitIncrementDecrement_positions g Q c e (fun a' ha' => hQ a' (by simpa [AssignmentContext.spans] using ha')) h
  | .location a l op none, e, hQ, h => by
    simp only [visitAssignment, bind_eq_ok, pure_eq_ok, LocationExpression_cast_eq_ok] at h
    obtain ⟨x1, hx1, y, ⟨rfl, _⟩, rfl⟩ := h
    simp [Expression.positionsAll, Expression.positionsAllList,
      visitLocationExpression_positions g Q l x1
        (fun a' ha' => hQ a' (by simp [AssignmentContext.spans, ha'])) hx1]
  | .location a l op (some v), e, hQ, h => by
    simp only [visitAssignment, bind_eq_ok, pure_eq_ok, LocationExpression_cast_eq_ok] at h
    obtain ⟨x1, hx1, y, ⟨rfl, _⟩, pos, hpos, x2, hx2, rfl⟩ := h
    simp [Expression.positionsAll, Expression.positionsAllList,
      visitLocationExpression_positions g Q l x1
        (fun a' ha' => hQ a' (by simp [AssignmentContext.spans, ha'])) hx1,
      hQ a (by simp [AssignmentContext.spans]) pos hpos,
      visitExpression_positions g Q v x2
        (fun a' ha' => hQ a' (by simp [AssignmentContext.spans, ha'])) hx2]
theorem visitIncrementDecrement_positions (g : AstGenerator) (Q : SourcePosition → Bool) :
    ∀ (c : IncrementDecrementContext) (e : Expression),
      (∀ a ∈ c.spans, ∀ p, g.Pos a = .ok p → Q p = true) →
      g.visitIncrementDecrement c = .ok e → e.positionsAll Q = true
  | .mk a op inc l, e, hQ, h => by
    simp only [visitIncrementDecrement, bind_eq_ok, pure_eq_ok, LocationExpression_cast_eq_ok] at h
    obtain ⟨pos, hpos, x1, hx1, y, ⟨rfl, _⟩, rfl⟩ := h
    simp [Expression.positionsAll, Expression.positionsAllList,
      hQ a (by simp [IncrementDecrementContext.spans]) pos hpos,
      visitLocationExpression_positions g Q l x1
        (fun a' ha' => hQ a' (by simp [IncrementDecrementContext.spans, ha'])) hx1]
theorem visitLocationExpression_positions (g : AstGenerator) (Q : SourcePosition → Bool) :
    ∀ (c : LocationExpressionContext) (e : Expression),
      (∀ a ∈ c.spans, ∀ p, g.Pos a = .ok p → Q p = true) →
      g.visitLocationExpression c = .ok e → e.positionsAll Q = true
  | .elementAccess a l i, e, hQ, h => by
    simp only [visitLocationExpression, bind_eq_ok, pure_eq_ok, LocationExpression_cast_eq_ok] at h
    obtain ⟨x1, hx1, pos, hpos, x2, hx2, rfl⟩ := h
    simp [Expression.positionsAll, Expression.positionsAllList,
      visitLocationExpression_positions g Q l x1
        (fun a' ha' => hQ a' (by simp [LocationExpressionContext.spans, ha'])) hx1,
      hQ a (by simp [LocationExpressionContext.spans]) pos hpos,
      visitExpression_positions g Q i x2
        (fun a' ha' => hQ a' (by simp [LocationExpressionContext.spans, ha'])) hx2]
  | .fieldAccess a l f, e, hQ, h => by
    simp only [visitLocationExpression, bind_eq_ok, pure_eq_ok, LocationExpression_cast_eq_ok] at h
    obtain ⟨x1, hx1, pos, hpos, rfl⟩ := h
    simp [Expression.positionsAll, Expression.positionsAllList,
      visitLocationExpression_positions g Q l x1
        (fun a' ha' => hQ a' (by simp [LocationExpressionContext.spans, ha'])) hx1,
      hQ a (by simp [LocationExpressionContext.spans]) pos hpos]
  | .identifier a n, e, hQ, h => by
    simp only [visitLocationExpression, bind_eq_ok, pure_eq_ok, LocationExpression_cast_eq_ok] at h
    obtain ⟨pos, hpos, rfl⟩ := h
    simp [Expression.positionsAll, Expression.positionsAllList,
      hQ a (by simp [LocationExpressionContext.spans]) pos hpos]
theorem visitPrimaryExpression_positions (g : AstGenerator) (Q : SourcePosition → Bool) :
    ∀ (c : PrimaryExpressionContext) (e : Expression),
      (∀ a ∈ c.spans, ∀ p, g.Pos a = .ok p → Q p = true) →
      g.visitPrimaryExpression c = .ok e → e.positionsAll Q = true
  | .helperCall c, e, hQ, h => by
    simp only [visitPrimaryExpression] at h
    exact visitHelperCall_positions g Q c e (fun a' ha' => hQ a' (by simpa [PrimaryExpressionContext.spans] using ha')) h
  | .decimalLiteral a t, e, hQ, h => by
    simp only [visitPrimaryExpression, bind_eq_ok, pure_eq_ok, LocationExpression_cast_eq_ok] at h
    obtain ⟨pos, hpos, rfl⟩ := h
    simp [Expression.positionsAll, Expression.positionsAllList,
      hQ a (by simp [PrimaryExpressionContext.spans]) pos hpos]
  | .stringLiteral a t, e, hQ, h => by
    simp only [visitPrimaryExpression, bind_eq_ok, pure_eq_ok, LocationExpression_cast_eq_ok] at h
    obtain ⟨pos, hpos, rfl⟩ := h
    simp [Expression.positionsAll, Expression.positionsAllList,
      hQ a (by simp [PrimaryExpressionContext.spans]) pos hpos]
  | .convert a t c, e, hQ, h => by
    simp only [visitPrimaryExpression, bind_eq_ok, pure_eq_ok, LocationExpression_cast_eq_ok] at h
    obtain ⟨pos, hpos, x1, hx1, rfl⟩ := h
    simp [Expression.positionsAll, Expression.positionsAllList,
      hQ a (by simp [PrimaryExpressionContext.spans]) pos hpos,
      visitExpression_positions g Q c x1
        (fun a' ha' => hQ a' (by simp [PrimaryExpressionContext.spans, ha'])) hx1]
  | .cast a t i c, e, hQ, h => by
    simp only [visitPrimaryExpression, bind_eq_ok, pure_eq_ok, LocationExpression_cast_eq_ok] at h
    obtain ⟨pos, hpos, x1, hx1, rfl⟩ := h
    simp [Expression.positionsAll, Expression.positionsAllList,
      hQ a (by simp [PrimaryExpressionContext.spans]) pos hpos,
      visitExpression_positions g Q c x1
        (fun a' ha' => hQ a' (by simp [PrimaryExpressionContext.spans, ha'])) hx1]
  | .parenthesized c, e, hQ, h => by
    simp only [visitPrimaryExpression] at h
    exact visitExpression_positions g Q c e (fun a' ha' => hQ a' (by simpa [PrimaryExpressionContext.spans] using ha')) h
theorem visitHelperCall_positions (g : AstGenerator) (Q : SourcePosition → Bool) :
    ∀ (c : HelperCallContext) (e : Expression),
      (∀ a ∈ c.spans, ∀ p, g.Pos a = .ok p → Q p = true) →
      g.visitHelperCall c = .ok e → e.positionsAll Q = true
  | .mk a mn mx i (.mk args) oo, e, hQ, h => by
    simp only [visitHelperCall, bind_eq_ok, pure_eq_ok, LocationExpression_cast_eq_ok] at h
    obtain ⟨pos, hpos, callee, _, x1, hx1, rfl⟩ := h
    simp [Expression.positionsAll, Expression.positionsAllList,
      hQ a (by simp [HelperCallContext.spans]) pos hpos,
      visitArguments_positions g Q args x1
        (fun a' ha' => hQ a' (by simp [HelperCallContext.spans, ha'])) hx1]
theorem visitArguments_positions (g : AstGenerator) (Q : SourcePosition → Bool) :
    ∀ (c : List ArgumentContext) (e : List Expression),
      (∀ a ∈ ArgumentContext.spansList c, ∀ p, g.Pos a = .ok p → Q p = true) →
      g.visitArguments c = .ok e → Expression.positionsAllList Q e = true
  | [], e, hQ, h => by
    simp only [visitArguments, pure_eq_ok] at h
    subst h
    rfl
  | c :: cs, e, hQ, h => by
    simp only [visitArguments, bind_eq_ok, pure_eq_ok, LocationExpression_cast_eq_ok] at h
    obtain ⟨x1, hx1, x2, hx2, rfl⟩ := h
    simp [Expression.positionsAll, Expression.positionsAllList,
      visitArgument_positions g Q c x1
        (fun a' ha' => hQ a' (by simp [ArgumentContext.spansList, ha'])) hx1,
      visitArguments_positions g Q cs x2
        (fun a' ha' => hQ a' (by simp [ArgumentContext.spansList, ha'])) hx2]
theorem visitArgument_positions (g : AstGenerator) (Q : SourcePosition → Bool) :
    ∀ (c : ArgumentContext) (e : Expression),
      (∀ a ∈ c.spans, ∀ p, g.Pos a = .ok p → Q p = true) →
      g.visitArgument c = .ok e → e.positionsAll Q = true
  | .mk c, e, hQ, h => by
    simp only [visitArgument] at h
    exact visitExpression_positions g Q c e (fun a' ha' => hQ a' (by simpa [ArgumentContext.spans] using ha')) h
end

theorem visitRangeBound_positions (g : AstGenerator) (Q : SourcePosition → Bool)
    (c : Option ExpressionContext) (b : Option Expression)
    (hQ : ∀ a ∈ ExpressionContext.spansOption c, ∀ p, g.Pos a = .ok p → Q p = true)
    (h : g.visitRangeBound c = .ok b) : Expression.positionsAllOption Q b = true := by
  cases c with
  | none =>
    simp only [visitRangeBound, pure_eq_ok] at h
    subst h; rfl
  | some e =>
    simp only [visitRangeBound, bind_eq_ok, pure_eq_ok] at h
    obtain ⟨x, hx, rfl⟩ := h
    exact visitExpression_positions g Q e x hQ hx

theorem visitVariableDeclarationWithInitialization_positions (g : AstGenerator)
    (Q : SourcePosition → Bool) (w : VariableDeclarationWithInitializationContext)
    (s : Statement) (hQ : ∀ a ∈ w.spans, ∀ p, g.Pos a = .ok p → Q p = true)
    (h : g.visitVariableDeclarationWithInitialization w = .ok s) :
    s.positionsAll Q = true := by
  obtain ⟨inner, pos, init, _, hp, hinit, rfl⟩ :=
    (visitVariableDeclarationWithInitialization_eq_ok g w s).mp h
  have h1 := hQ w.a (by simp [VariableDeclarationWithInitializationContext.spans]) pos hp
  have h2 := visitRangeBound_positions g Q _ init
    (fun a' ha' => hQ a'
      (by simp [VariableDeclarationWithInitializationContext.spans, ha'])) hinit
  simp [Statement.positionsAll, VarDeclarationStatement.positionsAll, h1, h2]

theorem visitGotoStatement_positions (g : AstGenerator) (Q : SourcePosition → Bool)
    (c : GotoStatementContext) (s : Statement)
    (hQ : ∀ a ∈ c.spans, ∀ p, g.Pos a = .ok p → Q p = true)
    (h : g.visitGotoStatement c = .ok s) : s.positionsAll Q = true := by
  unfold visitGotoStatement at h
  unfold GotoStatementContext.spans at hQ
  cases hc : c.argumentList with
  | none =>
    simp only [hc, bind_eq_ok, pure_eq_ok] at h
    obtain ⟨pos, hpos, rfl⟩ := h
    simp [Statement.positionsAll, Expression.positionsAllList, hQ c.a (by simp) pos hpos]
  | some l =>
    simp only [hc, bind_eq_ok, pure_eq_ok] at h
    simp only [hc] at hQ
    obtain ⟨pos, hpos, es, hes, rfl⟩ := h
    simp [Statement.positionsAll, hQ c.a (by simp) pos hpos,
      visitArguments_positions g Q _ es (fun a' ha' => hQ a' (by simp [ha'])) hes]

theorem visitForInitialization_positions (g : AstGenerator) (Q : SourcePosition → Bool)
    (c : ForInitializationContext) (d : VarDeclarationStatement)
    (hQ : ∀ a ∈ c.spans, ∀ p, g.Pos a = .ok p → Q p = true)
    (h : g.visitForInitialization c = .ok (some d)) : d.positionsAll Q = true := by
  unfold visitForInitialization at h
  unfold ForInitializationContext.spans at hQ
  cases hc : c.variableDeclarationWithInitialization with
  | none =>
    simp only [hc, pure_eq_ok] at h
    cases h
  | some w =>
    simp only [hc, bind_eq_ok, pure_eq_ok, VarDeclarationStatement_cast_eq_ok] at h
    simp only [hc] at hQ
    obtain ⟨s, hs, d', rfl, hd⟩ := h
    cases hd
    simpa [Statement.positionsAll] using
      visitVariableDeclarationWithInitialization_positions g Q w _ hQ hs

theorem visitForOfRange_positions (g : AstGenerator) (Q : SourcePosition → Bool)
    (c : ForOfRangeContext) (r : Option Expression × Option Expression)
    (hQ : ∀ a ∈ c.spans, ∀ p, g.Pos a = .ok p → Q p = true)
    (h : g.visitForOfRange c = .ok r) :
    Expression.positionsAllOption Q r.1 = true ∧
      Expression.positionsAllOption Q r.2 = true := by
  unfold visitForOfRange at h
  unfold ForOfRangeContext.spans at hQ
  cases hc : c.rangeSpecifier with
  | none =>
    simp only [hc, pure_eq_ok] at h
    subst h
    exact ⟨rfl, rfl⟩
  | some range =>
    simp only [hc, bind_eq_ok, pure_eq_ok] at h
    simp only [hc] at hQ
    obtain ⟨b, hb, e, he, rfl⟩ := h
    exact ⟨visitRangeBound_positions g Q _ b (fun a' ha' => hQ a' (by simp [ha'])) hb,
      visitRangeBound_positions g Q _ e (fun a' ha' => hQ a' (by simp [ha'])) he⟩

mutual
theorem visitStatement_positions (g : AstGenerator) (Q : SourcePosition → Bool) :
    ∀ (c : StatementContext) (s : Statement),
      (∀ a ∈ c.spans, ∀ p, g.Pos a = .ok p → Q p = true) →
      g.visitStatement c = .ok s → s.positionsAll Q = true
  | .variableDeclarationWithInitialization c, s, hQ, h => by
    simp only [visitStatement] at h
    exact visitVariableDeclarationWithInitialization_positions g Q c s
      (fun a' ha' => hQ a' (by simpa [StatementContext.spans] using ha')) h
  | .helperCallStatement c, s, hQ, h => by
    simp only [visitStatement, visitHelperCallStatement] at h
    split_ifs at h
    · simp only [bind_eq_ok, pure_eq_ok, CallExpression_cast_eq_ok] at h
      obtain ⟨pos, hpos, e, he, call, ⟨rfl, _⟩, rfl⟩ := h
      simp [Statement.positionsAll, hQ c.a (by simp [StatementContext.spans]) pos hpos,
        visitHelperCall_positions g Q c.helperCall e
          (fun a' ha' => hQ a' (by simp [StatementContext.spans, ha'])) he]
    · simp only [bind_eq_ok, pure_eq_ok] at h
      obtain ⟨pos, hpos, e, he, rfl⟩ := h
      simp [Statement.positionsAll, hQ c.a (by simp [StatementContext.spans]) pos hpos,
        visitHelperCall_positions g Q c.helperCall e
          (fun a' ha' => hQ a' (by simp [StatementContext.spans, ha'])) he]
  | .expressionStatement c, s, hQ, h => by
    simp only [visitStatement, visitExpressionStatement, bind_eq_ok, pure_eq_ok] at h
    obtain ⟨pos, hpos, e, he, rfl⟩ := h
    simp [Statement.positionsAll, hQ c.a (by simp [StatementContext.spans]) pos hpos,
      visitAssignment_positions g Q c.assignment e
        (fun a' ha' => hQ a' (by simp [StatementContext.spans, ha'])) he]
  | .returnStatement c, s, hQ, h => by
    simp only [visitStatement, visitReturnStatement, bind_eq_ok, pure_eq_ok] at h
    obtain ⟨pos, hpos, e, he, rfl⟩ := h
    simp [Statement.positionsAll, hQ c.a (by simp [StatementContext.spans]) pos hpos,
      visitExpression_positions g Q c.expression e
        (fun a' ha' => hQ a' (by simp [StatementContext.spans, ha'])) he]
  | .breakStatement c, s, hQ, h => by
    simp only [visitStatement, visitBreakStatement, bind_eq_ok, pure_eq_ok] at h
    obtain ⟨pos, hpos, rfl⟩ := h
    simp [Statement.positionsAll, hQ c.a (by simp [StatementContext.spans]) pos hpos]
  | .continueStatement c, s, hQ, h => by
    simp only [visitStatement, visitContinueStatement, bind_eq_ok, pure_eq_ok] at h
    obtain ⟨pos, hpos, rfl⟩ := h
    simp [Statement.positionsAll, hQ c.a (by simp [StatementContext.spans]) pos hpos]
  | .gotoStatement c, s, hQ, h => by
    simp only [visitStatement] at h
    exact visitGotoStatement_positions g Q c s
      (fun a' ha' => hQ a' (by simpa [StatementContext.spans] using ha')) h
  | .ifStatement c, s, hQ, h => by
    simp only [visitStatement] at h
    exact visitIfStatement_positions g Q c s
      (fun a' ha' => hQ a' (by simpa [StatementContext.spans] using ha')) h
  | .whileLoop c, s, hQ, h => by
    simp only [visitStatement] at h
    exact visitWhileLoop_positions g Q c s
      (fun a' ha' => hQ a' (by simpa [StatementContext.spans] using ha')) h
  | .forOfLoop c, s, hQ, h => by
    simp only [visitStatement] at h
    exact visitForOfLoop_positions g Q c s
      (fun a' ha' => hQ a' (by simpa [StatementContext.spans] using ha')) h
  | .forLoop c, s, hQ, h => by
    simp only [visitStatement] at h
    exact visitForLoop_positions g Q c s
      (fun a' ha' => hQ a' (by simpa [StatementContext.spans] using ha')) h
  | .tryCatch c, s, hQ, h => by
    simp only [visitStatement] at h
    exact visitTryCatch_positions g Q c s
      (fun a' ha' => hQ a' (by simpa [StatementContext.spans] using ha')) h
theorem visitStatements_positions (g : AstGenerator) (Q : SourcePosition → Bool) :
    ∀ (c : List StatementContext) (ss : List Statement),
      (∀ a ∈ StatementContext.spansList c, ∀ p, g.Pos a = .ok p → Q p = true) →
      g.visitStatements c = .ok ss → Statement.positionsAllList Q ss = true
  | [], ss, _, h => by
    simp only [visitStatements, pure_eq_ok] at h
    subst h
    rfl
  | c :: cs, ss, hQ, h => by
    simp only [visitStatements, bind_eq_ok, pure_eq_ok] at h
    obtain ⟨x, hx, xs, hxs, rfl⟩ := h
    simp [Statement.positionsAllList,
      visitStatement_positions g Q c x
        (fun a' ha' => hQ a' (by simp [StatementContext.spansList, ha'])) hx,
      visitStatements_positions g Q cs xs
        (fun a' ha' => hQ a' (by simp [StatementContext.spansList, ha'])) hxs]
theorem visitStatementScope_positions (g : AstGenerator) (Q : SourcePosition → Bool) :
    ∀ (c : StatementScopeContext) (s : Statement),
      (∀ a ∈ c.spans, ∀ p, g.Pos a = .ok p → Q p = true) →
      g.visitStatementScope c = .ok s → s.positionsAll Q = true
  | .mk a d (.mk cs), s, hQ, h => by
    simp only [visitStatementScope, bind_eq_ok, pure_eq_ok] at h
    obtain ⟨pos, hpos, xs, hxs, rfl⟩ := h
    simp [Statement.positionsAll, hQ a (by simp [StatementScopeContext.spans]) pos hpos,
      visitStatements_positions g Q cs xs
        (fun a' ha' => hQ a' (by simp [StatementScopeContext.spans, ha'])) hxs]
theorem visitStatementBlock_positions (g : AstGenerator) (Q : SourcePosition → Bool) :
    ∀ (c : StatementBlockContext) (s : Statement),
      (∀ a ∈ c.spans, ∀ p, g.Pos a = .ok p → Q p = true) →
      g.visitStatementBlock c = .ok s → s.positionsAll Q = true
  | .statement a c, s, hQ, h => by
    simp only [visitStatementBlock] at h
    exact visitStatement_positions g Q c s
      (fun a' ha' => hQ a' (by simp [StatementBlockContext.spans, ha'])) h
  | .statementScope a c, s, hQ, h => by
    simp only [visitStatementBlock] at h
    exact visitStatementScope_positions g Q c s
      (fun a' ha' => hQ a' (by simp [StatementBlockContext.spans, ha'])) h
theorem visitIfStatement_positions (g : AstGenerator) (Q : SourcePosition → Bool) :
    ∀ (c : IfStatementContext) (s : Statement),
      (∀ a ∈ c.spans, ∀ p, g.Pos a = .ok p → Q p = true) →
      g.visitIfStatement c = .ok s → s.positionsAll Q = true
  | .mk a e b0 none, s, hQ, h => by
    simp only [visitIfStatement, bind_eq_ok, pure_eq_ok] at h
    obtain ⟨pos, hpos, x, hx, y, hy, rfl⟩ := h
    simp [Statement.positionsAll, hQ a (by simp [IfStatementContext.spans]) pos hpos,
      visitExpression_positions g Q e x
        (fun a' ha' => hQ a' (by simp [IfStatementContext.spans, ha'])) hx,
      visitStatementBlock_positions g Q b0 y
        (fun a' ha' => hQ a' (by simp [IfStatementContext.spans, ha'])) hy]
  | .mk a e b0 (some b1), s, hQ, h => by
    simp only [visitIfStatement, bind_eq_ok, pure_eq_ok] at h
    obtain ⟨pos, hpos, x, hx, y, hy, z, hz, rfl⟩ := h
    simp [Statement.positionsAll, hQ a (by simp [IfStatementContext.spans]) pos hpos,
      visitExpression_positions g Q e x
        (fun a' ha' => hQ a' (by simp [IfStatementContext.spans, ha'])) hx,
      visitStatementBlock_positions g Q b0 y
        (fun a' ha' => hQ a' (by simp [IfStatementContext.spans, ha'])) hy,
      visitStatementBlock_positions g Q b1 z
        (fun a' ha' => hQ a' (by simp [IfStatementContext.spans, ha'])) hz]
theorem visitWhileLoop_positions (g : AstGenerator) (Q : SourcePosition → Bool) :
    ∀ (c : WhileLoopContext) (s : Statement),
      (∀ a ∈ c.spans, ∀ p, g.Pos a = .ok p → Q p = true) →
      g.visitWhileLoop c = .ok s → s.positionsAll Q = true
  | .mk a e b, s, hQ, h => by
    simp only [visitWhileLoop, bind_eq_ok, pure_eq_ok] at h
    obtain ⟨pos, hpos, x, hx, y, hy, rfl⟩ := h
    simp [Statement.positionsAll, hQ a (by simp [WhileLoopContext.spans]) pos hpos,
      visitExpression_positions g Q e x
        (fun a' ha' => hQ a' (by simp [WhileLoopContext.spans, ha'])) hx,
      visitStatementBlock_positions g Q b y
        (fun a' ha' => hQ a' (by simp [WhileLoopContext.spans, ha'])) hy]
theorem visitForLoop_positions (g : AstGenerator) (Q : SourcePosition → Bool) :
    ∀ (c : ForLoopContext) (s : Statement),
      (∀ a ∈ c.spans, ∀ p, g.Pos a = .ok p → Q p = true) →
      g.visitForLoop c = .ok s → s.positionsAll Q = true
  | .mk a i e st b, s, hQ, h => by
    simp only [visitForLoop, bind_eq_ok, pure_eq_ok] at h
    obtain ⟨pos, hpos, x, hx, y, hy, z, hz, d, hd, rfl⟩ := h
    have h0 := hQ a (by simp [ForLoopContext.spans]) pos hpos
    have h1 := visitExpression_positions g Q e x
      (fun a' ha' => hQ a' (by simp [ForLoopContext.spans, ha'])) hx
    have h2 := visitAssignment_positions g Q st y
      (fun a' ha' => hQ a' (by simp [ForLoopContext.spans, ha'])) hy
    have h3 := visitStatementBlock_positions g Q b z
      (fun a' ha' => hQ a' (by simp [ForLoopContext.spans, ha'])) hz
    cases d with
    | none => simp [Statement.positionsAll, h0, h1, h2, h3]
    | some d =>
      simp [Statement.positionsAll, h0, h1, h2, h3,
        visitForInitialization_positions g Q i d
          (fun a' ha' => hQ a' (by simp [ForLoopContext.spans, ha'])) hd]
theorem visitForOfLoop_positions (g : AstGenerator) (Q : SourcePosition → Bool) :
    ∀ (c : ForOfLoopContext) (s : Statement),
      (∀ a ∈ c.spans, ∀ p, g.Pos a = .ok p → Q p = true) →
      g.visitForOfLoop c = .ok s → s.positionsAll Q = true
  | .mk a v e r b, s, hQ, h => by
    simp only [visitForOfLoop, bind_eq_ok, pure_eq_ok, visitVariableDeclaration_eq_ok] at h
    obtain ⟨pos, hpos, d, ⟨p, hp, rfl⟩, x, hx, y, hy, rg, hrg, rfl⟩ := h
    have hr := visitForOfRange_positions g Q r rg
      (fun a' ha' => hQ a' (by simp [ForOfLoopContext.spans, ha'])) hrg
    have hv : Expression.positionsAllOption Q none = true := rfl
    simp [Statement.positionsAll, VarDeclarationStatement.positionsAll, hv, hr.1, hr.2,
      hQ a (by simp [ForOfLoopContext.spans]) pos hpos,
      hQ v.a (by simp [ForOfLoopContext.spans]) p hp,
      visitExpression_positions g Q e x
        (fun a' ha' => hQ a' (by simp [ForOfLoopContext.spans, ha'])) hx,
      visitStatementBlock_positions g Q b y
        (fun a' ha' => hQ a' (by simp [ForOfLoopContext.spans, ha'])) hy]
theorem visitTryCatch_positions (g : AstGenerator) (Q : SourcePosition → Bool) :
    ∀ (c : TryCatchContext) (s : Statement),
      (∀ a ∈ c.spans, ∀ p, g.Pos a = .ok p → Q p = true) →
      g.visitTryCatch c = .ok s → s.positionsAll Q = true
  | .mk a b hs, s, hQ, h => by
    simp only [visitTryCatch, bind_eq_ok, pure_eq_ok] at h
    obtain ⟨pos, hpos, x, hx, bs, hbs, rfl⟩ := h
    have hh := visitHandlers_positions g Q hs bs
      (fun a' ha' => hQ a' (by simp [TryCatchContext.spans, ha'])) hbs
    simp [Statement.positionsAll, hh.1, hh.2,
      hQ a (by simp [TryCatchContext.spans]) pos hpos,
      visitStatementBlock_positions g Q b x
        (fun a' ha' => hQ a' (by simp [TryCatchContext.spans, ha'])) hx]
theorem visitHandlers_positions (g : AstGenerator) (Q : SourcePosition → Bool) :
    ∀ (c : List HandlerWithStatementContext) (bs : List CatchBlock × List LabelBlock),
      (∀ a ∈ HandlerWithStatementContext.spansList c, ∀ p, g.Pos a = .ok p → Q p = true) →
      g.visitHandlers c = .ok bs →
        CatchBlock.positionsAllList Q bs.1 = true ∧
          LabelBlock.positionsAllList Q bs.2 = true
  | [], bs, _, h => by
    simp only [visitHandlers, pure_eq_ok] at h
    subst h
    exact ⟨rfl, rfl⟩
  | .catchHandler i b :: rest, bs, hQ, h => by
    simp only [visitHandlers, bind_eq_ok, pure_eq_ok] at h
    obtain ⟨pos, hpos, x, hx, r, hr, rfl⟩ := h
    have hh := visitHandlers_positions g Q rest r
      (fun a' ha' => hQ a' (by simp [HandlerWithStatementContext.spansList, ha'])) hr
    have ha : b.a ∈ b.spans := by cases b <;> simp [StatementBlockContext.spans,
      StatementBlockContext.a]
    simp [CatchBlock.positionsAllList, hh.1, hh.2,
      hQ b.a (by simp [HandlerWithStatementContext.spansList, ha]) pos hpos,
      visitStatementBlock_positions g Q b x
        (fun a' ha' => hQ a' (by simp [HandlerWithStatementContext.spansList, ha'])) hx]
  | .labelHandler l b :: rest, bs, hQ, h => by
    simp only [visitHandlers, bind_eq_ok, pure_eq_ok] at h
    obtain ⟨pos, hpos, x, hx, r, hr, rfl⟩ := h
    have hh := visitHandlers_positions g Q rest r
      (fun a' ha' => hQ a' (by simp [HandlerWithStatementContext.spansList, ha'])) hr
    have ha : b.a ∈ b.spans := by cases b <;> simp [StatementBlockContext.spans,
      StatementBlockContext.a]
    simp [LabelBlock.positionsAllList, hh.1, hh.2,
      hQ b.a (by simp [HandlerWithStatementContext.spansList, ha]) pos hpos,
      visitStatementBlock_positions g Q b x
        (fun a' ha' => hQ a' (by simp [HandlerWithStatementContext.spansList, ha'])) hx]
end

theorem visitDeclaration_positions (g : AstGenerator) (Q : SourcePosition → Bool)
    (c : DeclarationContext) (d : Declaration)
    (hQ : ∀ a ∈ c.spans, ∀ p, g.Pos a = .ok p → Q p = true)
    (h : g.visitDeclaration c = .ok d) : d.positionsAll Q = true := by
  cases c with
  | typeDeclaration c =>
    simp only [visitDeclaration, visitTypeDeclaration] at h
    cases hc : c.generatesDeclaration with
    | none =>
      simp only [hc, bind_eq_ok, pure_eq_ok] at h
      obtain ⟨pos, hpos, rfl⟩ := h
      exact hQ c.a (by simp [DeclarationContext.spans]) pos hpos
    | some x =>
      simp only [hc, bind_eq_ok, pure_eq_ok] at h
      obtain ⟨pos, hpos, y, _, rfl⟩ := h
      exact hQ c.a (by simp [DeclarationContext.spans]) pos hpos
  | builtinDeclaration c =>
    simp only [visitDeclaration, visitBuiltinDeclaration, visitHelperBody, bind_eq_ok,
      pure_eq_ok] at h
    obtain ⟨pos, hpos, b, hb, rfl⟩ := h
    simp [Declaration.positionsAll, hQ c.a (by simp [DeclarationContext.spans]) pos hpos,
      visitStatementScope_positions g Q _ b
        (fun a' ha' => hQ a' (by simp [DeclarationContext.spans, ha'])) hb]
  | macroDeclaration c =>
    simp only [visitDeclaration, visitMacroDeclaration, visitHelperBody, bind_eq_ok,
      pure_eq_ok] at h
    obtain ⟨pos, hpos, b, hb, rfl⟩ := h
    simp [Declaration.positionsAll, hQ c.a (by simp [DeclarationContext.spans]) pos hpos,
      visitStatementScope_positions g Q _ b
        (fun a' ha' => hQ a' (by simp [DeclarationContext.spans, ha'])) hb]
  | externalMacro c =>
    simp only [visitDeclaration, visitExternalMacro] at h
    cases hc : c.STRING_LITERAL with
    | none =>
      simp only [hc, bind_eq_ok, pure_eq_ok] at h
      obtain ⟨pos, hpos, rfl⟩ := h
      exact hQ c.a (by simp [DeclarationContext.spans]) pos hpos
    | some x =>
      simp only [hc, bind_eq_ok, pure_eq_ok] at h
      obtain ⟨pos, hpos, y, _, rfl⟩ := h
      exact hQ c.a (by simp [DeclarationContext.spans]) pos hpos
  | externalBuiltin c =>
    simp only [visitDeclaration, visitExternalBuiltin, bind_eq_ok, pure_eq_ok] at h
    obtain ⟨pos, hpos, rfl⟩ := h
    exact hQ c.a (by simp [DeclarationContext.spans]) pos hpos
  | externalRuntime c =>
    simp only [visitDeclaration, visitExternalRuntime, bind_eq_ok, pure_eq_ok] at h
    obtain ⟨pos, hpos, rfl⟩ := h
    exact hQ c.a (by simp [DeclarationContext.spans]) pos hpos
  | constDeclaration c =>
    simp only [visitDeclaration, visitConstDeclaration, bind_eq_ok, pure_eq_ok] at h
    obtain ⟨pos, hpos, y, _, rfl⟩ := h
    exact hQ c.a (by simp [DeclarationContext.spans]) pos hpos

theorem visitDeclarations_positions (g : AstGenerator) (Q : SourcePosition → Bool) :
    ∀ (c : List DeclarationContext) (ds : List Declaration),
      (∀ a ∈ DeclarationContext.spansList c, ∀ p, g.Pos a = .ok p → Q p = true) →
      g.visitDeclarations c = .ok ds → Declaration.positionsAllList Q ds = true
  | [], ds, _, h => by
    simp only [visitDeclarations, pure_eq_ok] at h
    subst h
    rfl
  | c :: cs, ds, hQ, h => by
    simp only [visitDeclarations, bind_eq_ok, pure_eq_ok] at h
    obtain ⟨x, hx, xs, hxs, rfl⟩ := h
    simp [Declaration.positionsAllList,
      visitDeclaration_positions g Q c x
        (fun a' ha' => hQ a' (by simp [DeclarationContext.spansList, ha'])) hx,
      visitDeclarations_positions g Q cs xs
        (fun a' ha' => hQ a' (by simp [DeclarationContext.spansList, ha'])) hxs]

theorem visitFileChild_positions (g : AstGenerator) (Q : SourcePosition → Bool)
    (c : FileChildContext) (d : Declaration)
    (hQ : ∀ a ∈ c.spans, ∀ p, g.Pos a = .ok p → Q p = true)
    (h : g.visitFileChild c = .ok d) : d.positionsAll Q = true := by
  cases c with
  | moduleDeclaration c =>
    simp only [visitFileChild, visitModuleDeclaration, bind_eq_ok, pure_eq_ok] at h
    obtain ⟨pos, hpos, ds, hds, rfl⟩ := h
    simp [Declaration.positionsAll, hQ c.a (by simp [FileChildContext.spans]) pos hpos,
      visitDeclarations_positions g Q _ ds
        (fun a' ha' => hQ a' (by simp [FileChildContext.spans, ha'])) hds]
  | declaration c => exact visitDeclaration_positions g Q c d hQ h

/-- Every position in the transforms of the children of a file is resolved from
a span start of the tree. -/
theorem visitFileChildren_positions (g : AstGenerator) (Q : SourcePosition → Bool) :
    ∀ (cs : List FileChildContext) (ds : List Declaration),
      (∀ a ∈ FileChildContext.spansList cs, ∀ p, g.Pos a = .ok p → Q p = true) →
      List.Forall₂ (fun c d => g.visitFileChild c = .ok d) cs ds →
      Declaration.positionsAllList Q ds = true
  | [], ds, _, h => by
    cases h
    rfl
  | c :: cs, ds, hQ, h => by
    cases h with
    | cons hx hxs =>
      simp [Declaration.positionsAllList,
        visitFileChild_positions g Q c _
          (fun a' ha' => hQ a' (by simp [FileChildContext.spansList, ha'])) hx,
        visitFileChildren_positions g Q cs _
          (fun a' ha' => hQ a' (by simp [FileChildContext.spansList, ha'])) hxs]

/-- A position resolved at a span start of the list is `resolvedFrom` the token
stream of the active file. -/
theorem resolvedFrom_of_Pos (g : AstGenerator) (context : SourceFileContext)
    (hg : g.source_file_context_ = some context) (spans : List Nat) (a : Nat)
    (ha : a ∈ spans) (p : SourcePosition) (hp : g.Pos a = .ok p) :
    resolvedFrom g.current_source_file_ context.tokens spans p = true := by
  obtain ⟨context', token, hc, ht, rfl⟩ := (Pos_eq_ok g a p).mp hp
  rw [hg] at hc
  cases hc
  simp only [resolvedFrom, List.any_eq_true]
  exact ⟨a, ha, by simp [ht]⟩

theorem static_cast_int_of_lt (n : Nat) (h : n < 2 ^ 31) : static_cast_int n = Int.ofNat n := by
  have h1 : n % 2 ^ 32 = n := Nat.mod_eq_of_lt (by omega)
  simp only [static_cast_int, h1, h, if_true]

/-- When the lines and columns of the tokens fit an `int`, a position resolved
at a span start of the list has exactly the line and column of its token. -/
theorem resolvedExactlyFrom_of_Pos (g : AstGenerator) (context : SourceFileContext)
    (hg : g.source_file_context_ = some context)
    (hfit : ∀ t ∈ context.tokens, t.getLine < 2 ^ 31 ∧ t.getCharPositionInLine < 2 ^ 31)
    (spans : List Nat) (a : Nat) (ha : a ∈ spans) (p : SourcePosition)
    (hp : g.Pos a = .ok p) :
    resolvedExactlyFrom g.current_source_file_ context.tokens spans p = true := by
  obtain ⟨context', token, hc, ht, rfl⟩ := (Pos_eq_ok g a p).mp hp
  rw [hg] at hc
  cases hc
  have hmem : token ∈ context.tokens := List.getElem?_mem ht
  simp only [resolvedExactlyFrom, List.any_eq_true]
  refine ⟨a, ha, ?_⟩
  simp [ht, static_cast_int_of_lt _ (hfit token hmem).1,
    static_cast_int_of_lt _ (hfit token hmem).2]

/-! ## Success of the transformation on well-formed files -/

/-- A well-escaped text followed by one more character decodes. -/
theorem unquoteSuffix_wellEscaped (l : Char) :
    ∀ (n : Nat) (t : List Char), t.length ≤ n → wellEscaped t = true →
      ∃ r, unquoteSuffix (t ++ [l]) = .ok r := by
  intro n
  induction n with
  | zero =>
    intro t ht _
    have : t = [] := List.length_eq_zero.mp (Nat.le_zero.mp ht)
    subst this
    exact ⟨[], rfl⟩
  | succ n ih =>
    intro t ht hw
    match t, ht, hw with
    | [], _, _ => exact ⟨[], rfl⟩
    | [c], _, hw =>
      have hc : c ≠ backslash := by simpa [wellEscaped] using hw
      refine ⟨[c], ?_⟩
      simp only [List.singleton_append, unquoteSuffix, if_neg hc]
      rfl
    | c :: d :: r, ht, hw =>
      have hr : r.length ≤ n := by simp only [List.length_cons] at ht; omega
      have hdr : (d :: r).length ≤ n := by simp only [List.length_cons] at ht ⊢; omega
      rw [List.cons_append, List.cons_append, unquoteSuffix]
      by_cases hc : c = backslash
      · subst hc
        simp only [wellEscaped, if_true, Bool.and_eq_true] at hw
        obtain ⟨x, hx⟩ := ih r hr hw.2
        have hd := (recognised_iff d).mp hw.1
        rw [if_pos rfl, hx]
        split_ifs
        · exact ⟨_, rfl⟩
        · exact ⟨_, rfl⟩
        · exact ⟨_, rfl⟩
        · exact ⟨_, rfl⟩
        · exfalso; tauto
      · simp only [wellEscaped, if_neg hc] at hw
        obtain ⟨x, hx⟩ := ih (d :: r) hdr hw
        rw [if_neg hc, ← List.cons_append, hx]
        exact ⟨_, rfl⟩

/-- A decodable literal is decoded without a fault. -/
theorem StringLiteralUnquote_decodable (s : String) (h : decodable s = true) :
    ∃ r, StringLiteralUnquote s = .ok r := by
  simp only [decodable, Bool.and_eq_true, decide_eq_true_eq] at h
  obtain ⟨hq, hw⟩ := h
  by_cases hlen : 2 ≤ s.length
  · obtain ⟨f, l, hf, hl, hs⟩ := quoteDelimited_split s hq hlen
    have h1 := StringLiteralUnquote_cons f (payload s) l hf hl
    rw [← hs] at h1
    obtain ⟨r, hr⟩ := unquoteSuffix_wellEscaped l _ _ (Nat.le_refl _) hw
    rw [h1, hr]
    exact ⟨_, rfl⟩
  · obtain ⟨cs⟩ := s
    obtain ⟨hf, hl⟩ := hq
    simp only [String.length] at hlen
    match cs, hlen, hf, hl with
    | [], _, hf, _ => simp at hf
    | [f], _, hf, _ =>
      simp only [List.head?_cons, Option.some.injEq] at hf
      have hf' : f = dquote ∨ f = squote := by tauto
      refine ⟨String.mk [], ?_⟩
      simp [StringLiteralUnquote, hf', StringLiteralUnquote.loop, Except.map]
    | _ :: _ :: _, hlen, _, _ => simp at hlen

/-- While a file is active, the position of every index into its token stream
is resolved. -/
theorem Pos_succeeds (g : AstGenerator) (context : SourceFileContext)
    (hg : g.source_file_context_ = some context) (a : Nat) (ha : a < context.tokens.length) :
    ∃ p, g.Pos a = .ok p := by
  refine ⟨_, (Pos_eq_ok g a _).mpr ⟨context, context.tokens[a], hg, ?_, rfl⟩⟩
  exact List.getElem?_eq_getElem ha

mutual
theorem visitExpression_succeeds (g : AstGenerator) (n : Nat)
    (hP : ∀ a, a < n → ∃ p, g.Pos a = .ok p) :
    ∀ c : ExpressionContext, (∀ a ∈ c.spans, a < n) → c.calleesPresent = true →
      ∃ e : Expression, g.visitExpression c = .ok e
  | .mk c, hs, hc => by
    simp only [ExpressionContext.calleesPresent] at hc
    simp only [visitExpression]
    exact visitConditionalExpression_succeeds g n hP c (fun a' ha' => hs a' (by simpa [ExpressionContext.spans] using ha')) hc
theorem visitConditionalExpression_succeeds (g : AstGenerator) (n : Nat)
    (hP : ∀ a, a < n → ∃ p, g.Pos a = .ok p) :
    ∀ c : ConditionalExpressionContext, (∀ a ∈ c.spans, a < n) → c.calleesPresent = true →
      ∃ e : Expression, g.visitConditionalExpression c = .ok e
  | .single c, hs, hc => by
    simp only [ConditionalExpressionContext.calleesPresent] at hc
    simp only [visitConditionalExpression]
    exact visitLogicalORExpression_succeeds g n hP c (fun a' ha' => hs a' (by simpa [ConditionalExpressionContext.spans] using ha')) hc
  | .ternary a c e0 e1, hs, hc => by
    simp only [ConditionalExpressionContext.calleesPresent, Bool.and_eq_true, Bool.or_eq_true] at hc
    obtain ⟨pos, hpos⟩ := hP a (hs a (by simp [ConditionalExpressionContext.spans]))
    obtain ⟨x1, hx1⟩ := visitConditionalExpression_succeeds g n hP c
      (fun a' ha' => hs a' (by simp [ConditionalExpressionContext.spans, ha'])) (by tauto)
    obtain ⟨x2, hx2⟩ := visitLogicalORExpression_succeeds g n hP e0
      (fun a' ha' => hs a' (by simp [ConditionalExpressionContext.spans, ha'])) (by tauto)
    obtain ⟨x3, hx3⟩ := visitLogicalORExpression_succeeds g n hP e1
      (fun a' ha' => hs a' (by simp [ConditionalExpressionContext.spans, ha'])) (by tauto)
    simp only [visitConditionalExpression, hpos, hx1, hx2, hx3, ok_bind]
    exact ⟨_, rfl⟩
theorem visitLogicalORExpression_succeeds (g : AstGenerator) (n : Nat)
    (hP : ∀ a, a < n → ∃ p, g.Pos a = .ok p) :
    ∀ c : LogicalORExpressionContext, (∀ a ∈ c.spans, a < n) → c.calleesPresent = true →
      ∃ e : Expression, g.visitLogicalORExpression c = .ok e
  | .single c, hs, hc => by
    simp only [LogicalORExpressionContext.calleesPresent] at hc
    simp only [visitLogicalORExpression]
    exact visitLogicalANDExpression_succeeds g n hP c (fun a' ha' => hs a' (by simpa [LogicalORExpressionContext.spans] using ha')) hc
  | .binary a l r, hs, hc => by
    simp only [LogicalORExpressionContext.calleesPresent, Bool.and_eq_true, Bool.or_eq_true] at hc
    obtain ⟨pos, hpos⟩ := hP a (hs a (by simp [LogicalORExpressionContext.spans]))
    obtain ⟨x1, hx1⟩ := visitLogicalORExpression_succeeds g n hP l
      (fun a' ha' => hs a' (by simp [LogicalORExpressionContext.spans, ha'])) (by tauto)
    obtain ⟨x2, hx2⟩ := visitLogicalANDExpression_succeeds g n hP r
      (fun a' ha' => hs a' (by simp [LogicalORExpressionContext.spans, ha'])) (by tauto)
    simp only [visitLogicalORExpression, hpos, hx1, hx2, ok_bind]
    exact ⟨_, rfl⟩
theorem visitLogicalANDExpression_succeeds (g : AstGenerator) (n : Nat)
    (hP : ∀ a, a < n → ∃ p, g.Pos a = .ok p) :
    ∀ c : LogicalANDExpressionContext, (∀ a ∈ c.spans, a < n) → c.calleesPresent = true →
      ∃ e : Expression, g.visitLogicalANDExpression c = .ok e
  | .single c, hs, hc => by
    simp only [LogicalANDExpressionContext.calleesPresent] at hc
    simp only [visitLogicalANDExpression]
    exact visitBitwiseExpression_succeeds g n hP c (fun a' ha' => hs a' (by simpa [LogicalANDExpressionContext.spans] using ha')) hc
  | .binary a l r, hs, hc => by
    simp only [LogicalANDExpressionContext.calleesPresent, Bool.and_eq_true, Bool.or_eq_true] at hc
    obtain ⟨pos, hpos⟩ := hP a (hs a (by simp [LogicalANDExpressionContext.spans]))
    obtain ⟨x1, hx1⟩ := visitLogicalANDExpression_succeeds g n hP l
      (fun a' ha' => hs a' (by simp [LogicalANDExpressionContext.spans, ha'])) (by tauto)
    obtain ⟨x2, hx2⟩ := visitBitwiseExpression_succeeds g n hP r
      (fun a' ha' => hs a' (by simp [LogicalANDExpressionContext.spans, ha'])) (by tauto)
    simp only [visitLogicalANDExpression, hpos, hx1, hx2, ok_bind]
    exact ⟨_, rfl⟩
theorem visitBitwiseExpression_succeeds (g : AstGenerator) (n : Nat)
    (hP : ∀ a, a < n → ∃ p, g.Pos a = .ok p) :
    ∀ c : BitwiseExpressionContext, (∀ a ∈ c.spans, a < n) → c.calleesPresent = true →
      ∃ e : Expression, g.visitBitwiseExpression c = .ok e
  | .single c, hs, hc => by
    simp only [BitwiseExpressionContext.calleesPresent] at hc
    simp only [visitBitwiseExpression]
    exact visitEqualityExpression_succeeds g n hP c (fun a' ha' => hs a' (by simpa [BitwiseExpressionContext.spans] using ha')) hc
  | .binary a l op r, hs, hc => by
    simp only [BitwiseExpressionContext.calleesPresent, Bool.and_eq_true, Bool.or_eq_true] at hc
    obtain ⟨pos, hpos⟩ := hP a (hs a (by simp [BitwiseExpressionContext.spans]))
    obtain ⟨x1, hx1⟩ := visitBitwiseExpression_succeeds g n hP l
      (fun a' ha' => hs a' (by simp [BitwiseExpressionContext.spans, ha'])) (by tauto)
    obtain ⟨x2, hx2⟩ := visitEqualityExpression_succeeds g n hP r
      (fun a' ha' => hs a' (by simp [BitwiseExpressionContext.spans, ha'])) (by tauto)
    simp only [visitBitwiseExpression, hpos, hx1, hx2, ok_bind]
    exact ⟨_, rfl⟩
theorem visitEqualityExpression_succeeds (g : AstGenerator) (n : Nat)
    (hP : ∀ a, a < n → ∃ p, g.Pos a = .ok p) :
    ∀ c : EqualityExpressionContext, (∀ a ∈ c.spans, a < n) → c.calleesPresent = true →
      ∃ e : Expression, g.visitEqualityExpression c = .ok e
  | .single c, hs, hc => by
    simp only [EqualityExpressionContext.calleesPresent] at hc
    simp only [visitEqualityExpression]
    exact visitRelationalExpression_succeeds g n hP c (fun a' ha' => hs a' (by simpa [EqualityExpressionContext.spans] using ha')) hc
  | .binary a l op r, hs, hc => by
    simp only [EqualityExpressionContext.calleesPresent, Bool.and_eq_true, Bool.or_eq_true] at hc
    obtain ⟨pos, hpos⟩ := hP a (hs a (by simp [EqualityExpressionContext.spans]))
    obtain ⟨x1, hx1⟩ := visitEqualityExpression_succeeds g n hP l
      (fun a' ha' => hs a' (by simp [EqualityExpressionContext.spans, ha'])) (by tauto)
    obtain ⟨x2, hx2⟩ := visitRelationalExpression_succeeds g n hP r
      (fun a' ha' => hs a' (by simp [EqualityExpressionContext.spans, ha'])) (by tauto)
    simp only [visitEqualityExpression, hpos, hx1, hx2, ok_bind]
    exact ⟨_, rfl⟩
theorem visitRelationalExpression_succeeds (g : AstGenerator) (n : Nat)
    (hP : ∀ a, a < n → ∃ p, g.Pos a = .ok p) :
    ∀ c : RelationalExpressionContext, (∀ a ∈ c.spans, a < n) → c.calleesPresent = true →
      ∃ e : Expression, g.visitRelationalExpression c = .ok e
  | .single c, hs, hc => by
    simp only [RelationalExpressionContext.calleesPresent] at hc
    simp only [visitRelationalExpression]
    exact visitShiftExpression_succeeds g n hP c (fun a' ha' => hs a' (by simpa [RelationalExpressionContext.spans] using ha')) hc
  | .binary a l op r, hs, hc => by
    simp only [RelationalExpressionContext.calleesPresent, Bool.and_eq_true, Bool.or_eq_true] at hc
    obtain ⟨pos, hpos⟩ := hP a (hs a (by simp [RelationalExpressionContext.spans]))
    obtain ⟨x1, hx1⟩ := visitRelationalExpression_succeeds g n hP l
      (fun a' ha' => hs a' (by simp [RelationalExpressionContext.spans, ha'])) (by tauto)
    obtain ⟨x2, hx2⟩ := visitShiftExpression_succeeds g n hP r
      (fun a' ha' => hs a' (by simp [RelationalExpressionContext.spans, ha'])) (by tauto)
    simp only [visitRelationalExpression, hpos, hx1, hx2, ok_bind]
    exact ⟨_, rfl⟩
theorem visitShiftExpression_succeeds (g : AstGenerator) (n : Nat)
    (hP : ∀ a, a < n → ∃ p, g.Pos a = .ok p) :
    ∀ c : ShiftExpressionContext, (∀ a ∈ c.spans, a < n) → c.calleesPresent = true →
      ∃ e : Expression, g.visitShiftExpression c = .ok e
  | .single c, hs, hc => by
    simp only [ShiftExpressionContext.calleesPresent] at hc
    simp only [visitShiftExpression]
    exact visitAdditiveExpression_succeeds g n hP c (fun a' ha' => hs a' (by simpa [ShiftExpressionContext.spans] using ha')) hc
  | .binary a l op r, hs, hc => by
    simp only [ShiftExpressionContext.calleesPresent, Bool.and_eq_true, Bool.or_eq_true] at hc
    obtain ⟨pos, hpos⟩ := hP a (hs a (by simp [ShiftExpressionContext.spans]))
    obtain ⟨x1, hx1⟩ := visitShiftExpression_succeeds g n hP l
      (fun a' ha' => hs a' (by simp [ShiftExpressionContext.spans, ha'])) (by tauto)
    obtain ⟨x2, hx2⟩ := visitAdditiveExpression_succeeds g n hP r
      (fun a' ha' => hs a' (by simp [ShiftExpressionContext.spans, ha'])) (by tauto)
    simp only [visitShiftExpression, hpos, hx1, hx2, ok_bind]
    exact ⟨_, rfl⟩
theorem visitAdditiveExpression_succeeds (g : AstGenerator) (n : Nat)
    (hP : ∀ a, a < n → ∃ p, g.Pos a = .ok p) :
    ∀ c : AdditiveExpressionContext, (∀ a ∈ c.spans, a < n) → c.calleesPresent = true →
      ∃ e : Expression, g.visitAdditiveExpression c = .ok e
  | .single c, hs, hc => by
    simp only [AdditiveExpressionContext.calleesPresent] at hc
    simp only [visitAdditiveExpression]
    exact visitMultiplicativeExpression_succeeds g n hP c (fun a' ha' => hs a' (by simpa [AdditiveExpressionContext.spans] using ha')) hc
  | .binary a l op r, hs, hc => by
    simp only [AdditiveExpressionContext.calleesPresent, Bool.and_eq_true, Bool.or_eq_true] at hc
    obtain ⟨pos, hpos⟩ := hP a (hs a (by simp [AdditiveExpressionContext.spans]))
    obtain ⟨x1, hx1⟩ := visitAdditiveExpression_succeeds g n hP l
      (fun a' ha' => hs a' (by simp [AdditiveExpressionContext.spans, ha'])) (by tauto)
    obtain ⟨x2, hx2⟩ := visitMultiplicativeExpression_succeeds g n hP r
      (fun a' ha' => hs a' (by simp [AdditiveExpressionContext.spans, ha'])) (by tauto)
    simp only [visitAdditiveExpression, hpos, hx1, hx2, ok_bind]
    exact ⟨_, rfl⟩
theorem visitMultiplicativeExpression_succeeds (g : AstGenerator) (n : Nat)
    (hP : ∀ a, a < n → ∃ p, g.Pos a = .ok p) :
    ∀ c : MultiplicativeExpressionContext, (∀ a ∈ c.spans, a < n) → c.calleesPresent = true →
      ∃ e : Expression, g.visitMultiplicativeExpression c = .ok e
  | .single c, hs, hc => by
    simp only [MultiplicativeExpressionContext.calleesPresent] at hc
    simp only [visitMultiplicativeExpression]
    exact visitUnaryExpression_succeeds g n hP c (fun a' ha' => hs a' (by simpa [MultiplicativeExpressionContext.spans] using ha')) hc
  | .binary a l op r, hs, hc => by
    simp only [MultiplicativeExpressionContext.calleesPresent, Bool.and_eq_true, Bool.or_eq_true] at hc
    obtain ⟨pos, hpos⟩ := hP a (hs a (by simp [MultiplicativeExpressionContext.spans]))
    obtain ⟨x1, hx1⟩ := visitMultiplicativeExpression_succeeds g n hP l
      (fun a' ha' => hs a' (by simp [MultiplicativeExpressionContext.spans, ha'])) (by tauto)
    obtain ⟨x2, hx2⟩ := visitUnaryExpression_succeeds g n hP r
      (fun a' ha' => hs a' (by simp [MultiplicativeExpressionContext.spans, ha'])) (by tauto)
    simp only [visitMultiplicativeExpression, hpos, hx1, hx2, ok_bind]
    exact ⟨_, rfl⟩
theorem visitUnaryExpression_succeeds (g : AstGenerator) (n : Nat)
    (hP : ∀ a, a < n → ∃ p, g.Pos a = .ok p) :
    ∀ c : UnaryExpressionContext, (∀ a ∈ c.spans, a < n) → c.calleesPresent = true →
      ∃ e : Expression, g.visitUnaryExpression c = .ok e
  | .assignmentExpression c, hs, hc => by
    simp only [UnaryExpressionContext.calleesPresent] at hc
    simp only [visitUnaryExpression]
    exact visitAssignmentExpression_succeeds g n hP c (fun a' ha' => hs a' (by simpa [UnaryExpressionContext.spans] using ha')) hc
  | .unary a op c, hs, hc => by
    simp only [UnaryExpressionContext.calleesPresent, Bool.and_eq_true, Bool.or_eq_true] at hc
    obtain ⟨x1, hx1⟩ := visitUnaryExpression_succeeds g n hP c
      (fun a' ha' => hs a' (by simp [UnaryExpressionContext.spans, ha'])) (by tauto)
    obtain ⟨pos, hpos⟩ := hP a (hs a (by simp [UnaryExpressionContext.spans]))
    simp only [visitUnaryExpression, hx1, hpos, ok_bind]
    exact ⟨_, rfl⟩
theorem visitAssignmentExpression_succeeds (g : AstGenerator) (n : Nat)
    (hP : ∀ a, a < n → ∃ p, g.Pos a = .ok p) :
    ∀ c : AssignmentExpressionContext, (∀ a ∈ c.spans, a < n) → c.calleesPresent = true →
      ∃ e : Expression, g.visitAssignmentExpression c = .ok e
  | .primaryExpression c, hs, hc => by
    simp only [AssignmentExpressionContext.calleesPresent] at hc
    simp only [visitAssignmentExpression]
    exact visitPrimaryExpression_succeeds g n hP c (fun a' ha' => hs a' (by simpa [AssignmentExpressionContext.spans] using ha')) hc
  | .assignment c, hs, hc => by
    simp only [AssignmentExpressionContext.calleesPresent] at hc
    simp only [visitAssignmentExpression]
    exact visitAssignment_succeeds g n hP c (fun a' ha' => hs a' (by simpa [AssignmentExpressionContext.spans] using ha')) hc
theorem visitAssignment_succeeds (g : AstGenerator) (n : Nat)
    (hP : ∀ a, a < n → ∃ p, g.Pos a = .ok p) :
    ∀ c : AssignmentContext, (∀ a ∈ c.spans, a < n) → c.calleesPresent = true →
      ∃ e : Expression, g.visitAssignment c = .ok e
  | .incrementDecrement c, hs, hc => by
    simp only [AssignmentContext.calleesPresent] at hc
    simp only [visitAssignment]
    exact visitIncrementDecrement_succeeds g n hP c (fun a' ha' => hs a' (by simpa [AssignmentContext.spans] using ha')) hc
  | .location a l op none, hs, hc => by
    simp only [AssignmentContext.calleesPresent, Bool.and_eq_true, Bool.or_eq_true] at hc
    obtain ⟨x1, hx1, hl1⟩ := visitLocationExpression_succeeds g n hP l
      (fun a' ha' => hs a' (by simp [AssignmentContext.spans, ha'])) (by tauto)
    have hcast := (LocationExpression_cast_eq_ok x1 x1).mpr ⟨rfl, hl1⟩
    simp only [visitAssignment, hx1, hcast, ok_bind]
    exact ⟨_, rfl⟩
  | .location a l op (some v), hs, hc => by
    simp only [AssignmentContext.calleesPresent, Bool.and_eq_true, Bool.or_eq_true] at hc
    obtain ⟨x1, hx1, hl1⟩ := visitLocationExpression_succeeds g n hP l
      (fun a' ha' => hs a' (by simp [AssignmentContext.spans, ha'])) (by tauto)
    have hcast := (LocationExpression_cast_eq_ok x1 x1).mpr ⟨rfl, hl1⟩
    obtain ⟨pos, hpos⟩ := hP a (hs a (by simp [AssignmentContext.spans]))
    obtain ⟨x2, hx2⟩ := visitExpression_succeeds g n hP v
      (fun a' ha' => hs a' (by simp [AssignmentContext.spans, ha'])) (by tauto)
    simp only [visitAssignment, hx1, hcast, hpos, hx2, ok_bind]
    exact ⟨_, rfl⟩
theorem visitIncrementDecrement_succeeds (g : AstGenerator) (n : Nat)
    (hP : ∀ a, a < n → ∃ p, g.Pos a = .ok p) :
    ∀ c : IncrementDecrementContext, (∀ a ∈ c.spans, a < n) → c.calleesPresent = true →
      ∃ e : Expression, g.visitIncrementDecrement c = .ok e
  | .mk a op inc l, hs, hc => by
    simp only [IncrementDecrementContext.calleesPresent, Bool.and_eq_true, Bool.or_eq_true] at hc
    obtain ⟨pos, hpos⟩ := hP a (hs a (by simp [IncrementDecrementContext.spans]))
    obtain ⟨x1, hx1, hl1⟩ := visitLocationExpression_succeeds g n hP l
      (fun a' ha' => hs a' (by simp [IncrementDecrementContext.spans, ha'])) (by tauto)
    have hcast := (LocationExpression_cast_eq_ok x1 x1).mpr ⟨rfl, hl1⟩
    simp only [visitIncrementDecrement, hpos, hx1, hcast, ok_bind]
    exact ⟨_, rfl⟩
theorem visitLocationExpression_succeeds (g : AstGenerator) (n : Nat)
    (hP : ∀ a, a < n → ∃ p, g.Pos a = .ok p) :
    ∀ c : LocationExpressionContext, (∀ a ∈ c.spans, a < n) → c.calleesPresent = true →
      ∃ e : Expression, g.visitLocationExpression c = .ok e ∧ e.isLocation = true
  | .elementAccess a l i, hs, hc => by
    simp only [LocationExpressionContext.calleesPresent, Bool.and_eq_true, Bool.or_eq_true] at hc
    obtain ⟨x1, hx1, hl1⟩ := visitLocationExpression_succeeds g n hP l
      (fun a' ha' => hs a' (by simp [LocationExpressionContext.spans, ha'])) (by tauto)
    obtain ⟨pos, hpos⟩ := hP a (hs a (by simp [LocationExpressionContext.spans]))
    obtain ⟨x2, hx2⟩ := visitExpression_succeeds g n hP i
      (fun a' ha' => hs a' (by simp [LocationExpressionContext.spans, ha'])) (by tauto)
    simp only [visitLocationExpression, hx1, hpos, hx2, ok_bind]
    exact ⟨_, ⟨rfl, rfl⟩⟩
  | .fieldAccess a l f, hs, hc => by
    simp only [LocationExpressionContext.calleesPresent, Bool.and_eq_true, Bool.or_eq_true] at hc
    obtain ⟨x1, hx1, hl1⟩ := visitLocationExpression_succeeds g n hP l
      (fun a' ha' => hs a' (by simp [LocationExpressionContext.spans, ha'])) (by tauto)
    obtain ⟨pos, hpos⟩ := hP a (hs a (by simp [LocationExpressionContext.spans]))
    simp only [visitLocationExpression, hx1, hpos, ok_bind]
    exact ⟨_, ⟨rfl, rfl⟩⟩
  | .identifier a n, hs, hc => by
    simp only [LocationExpressionContext.calleesPresent, Bool.and_eq_true, Bool.or_eq_true] at hc
    obtain ⟨pos, hpos⟩ := hP a (hs a (by simp [LocationExpressionContext.spans]))
    simp only [visitLocationExpression, hpos, ok_bind]
    exact ⟨_, ⟨rfl, rfl⟩⟩
theorem visitPrimaryExpression_succeeds (g : AstGenerator) (n : Nat)
    (hP : ∀ a, a < n → ∃ p, g.Pos a = .ok p) :
    ∀ c : PrimaryExpressionContext, (∀ a ∈ c.spans, a < n) → c.calleesPresent = true →
      ∃ e : Expression, g.visitPrimaryExpression c = .ok e
  | .helperCall c, hs, hc => by
    simp only [PrimaryExpressionContext.calleesPresent] at hc
    simp only [visitPrimaryExpression]
    exact visitHelperCall_succeeds g n hP c (fun a' ha' => hs a' (by simpa [PrimaryExpressionContext.spans] using ha')) hc
  | .decimalLiteral a t, hs, hc => by
    simp only [PrimaryExpressionContext.calleesPresent, Bool.and_eq_true, Bool.or_eq_true] at hc
    obtain ⟨pos, hpos⟩ := hP a (hs a (by simp [PrimaryExpressionContext.spans]))
    simp only [visitPrimaryExpression, hpos, ok_bind]
    exact ⟨_, rfl⟩
  | .stringLiteral a t, hs, hc => by
    simp only [PrimaryExpressionContext.calleesPresent, Bool.and_eq_true, Bool.or_eq_true] at hc
    obtain ⟨pos, hpos⟩ := hP a (hs a (by simp [PrimaryExpressionContext.spans]))
    simp only [visitPrimaryExpression, hpos, ok_bind]
    exact ⟨_, rfl⟩
  | .convert a t c, hs, hc => by
    simp only [PrimaryExpressionContext.calleesPresent, Bool.and_eq_true, Bool.or_eq_true] at hc
    obtain ⟨pos, hpos⟩ := hP a (hs a (by simp [PrimaryExpressionContext.spans]))
    obtain ⟨x1, hx1⟩ := visitExpression_succeeds g n hP c
      (fun a' ha' => hs a' (by simp [PrimaryExpressionContext.spans, ha'])) (by tauto)
    simp only [visitPrimaryExpression, hpos, hx1, ok_bind]
    exact ⟨_, rfl⟩
  | .cast a t i c, hs, hc => by
    simp only [PrimaryExpressionContext.calleesPresent, Bool.and_eq_true, Bool.or_eq_true] at hc
    obtain ⟨pos, hpos⟩ := hP a (hs a (by simp [PrimaryExpressionContext.spans]))
    obtain ⟨x1, hx1⟩ := visitExpression_succeeds g n hP c
      (fun a' ha' => hs a' (by simp [PrimaryExpressionContext.spans, ha'])) (by tauto)
    simp only [visitPrimaryExpression, hpos, hx1, ok_bind]
    exact ⟨_, rfl⟩
  | .parenthesized c, hs, hc => by
    simp only [PrimaryExpressionContext.calleesPresent] at hc
    simp only [visitPrimaryExpression]
    exact visitExpression_succeeds g n hP c (fun a' ha' => hs a' (by simpa [PrimaryExpressionContext.spans] using ha')) hc
theorem visitHelperCall_succeeds (g : AstGenerator) (n : Nat)
    (hP : ∀ a, a < n → ∃ p, g.Pos a = .ok p) :
    ∀ c : HelperCallContext, (∀ a ∈ c.spans, a < n) → c.calleesPresent = true →
      ∃ e : Expression, g.visitHelperCall c = .ok e
  | .mk a mn mx i (.mk args) oo, hs, hc => by
    simp only [HelperCallContext.calleesPresent, Bool.and_eq_true, Bool.or_eq_true] at hc
    obtain ⟨pos, hpos⟩ := hP a (hs a (by simp [HelperCallContext.spans]))
    obtain ⟨callee, hcallee⟩ : ∃ t, helperCallCallee mn mx i = some t := by
      apply Option.isSome_iff_exists.mp
      unfold helperCallCallee
      rcases hc.1 with (h | h) | h <;> cases mn <;> cases mx <;> cases i <;> simp_all
    obtain ⟨x1, hx1⟩ := visitArguments_succeeds g n hP args
      (fun a' ha' => hs a' (by simp [HelperCallContext.spans, ha'])) (by tauto)
    simp only [visitHelperCall, hpos, hcallee, hx1, ok_bind]
    exact ⟨_, rfl⟩
theorem visitArguments_succeeds (g : AstGenerator) (n : Nat)
    (hP : ∀ a, a < n → ∃ p, g.Pos a = .ok p) :
    ∀ c : List ArgumentContext, (∀ a ∈ ArgumentContext.spansList c, a < n) → ArgumentContext.calleesPresentList c = true →
      ∃ e : List Expression, g.visitArguments c = .ok e
  | [], hs, hc => by
    exact ⟨[], rfl⟩
  | c :: cs, hs, hc => by
    simp only [ArgumentContext.calleesPresentList, Bool.and_eq_true, Bool.or_eq_true] at hc
    obtain ⟨x1, hx1⟩ := visitArgument_succeeds g n hP c
      (fun a' ha' => hs a' (by simp [ArgumentContext.spansList, ha'])) (by tauto)
    obtain ⟨x2, hx2⟩ := visitArguments_succeeds g n hP cs
      (fun a' ha' => hs a' (by simp [ArgumentContext.spansList, ha'])) (by tauto)
    simp only [visitArguments, hx1, hx2, ok_bind]
    exact ⟨_, rfl⟩
theorem visitArgument_succeeds (g : AstGenerator) (n : Nat)
    (hP : ∀ a, a < n → ∃ p, g.Pos a = .ok p) :
    ∀ c : ArgumentContext, (∀ a ∈ c.spans, a < n) → c.calleesPresent = true →
      ∃ e : Expression, g.visitArgument c = .ok e
  | .mk c, hs, hc => by
    simp only [ArgumentContext.calleesPresent] at hc
    simp only [visitArgument]
    exact visitExpression_succeeds g n hP c (fun a' ha' => hs a' (by simpa [ArgumentContext.spans] using ha')) hc
end

theorem visitRangeBound_succeeds (g : AstGenerator) (n : Nat)
    (hP : ∀ a, a < n → ∃ p, g.Pos a = .ok p) (c : Option ExpressionContext)
    (hs : ∀ a ∈ ExpressionContext.spansOption c, a < n)
    (hc : ExpressionContext.calleesPresentOption c = true) :
    ∃ b, g.visitRangeBound c = .ok b := by
  cases c with
  | none => exact ⟨none, rfl⟩
  | some e =>
    obtain ⟨x, hx⟩ := visitExpression_succeeds g n hP e hs hc
    simp only [visitRangeBound, hx, ok_bind]
    exact ⟨_, rfl⟩

theorem visitVariableDeclarationWithInitialization_succeeds (g : AstGenerator) (n : Nat)
    (hP : ∀ a, a < n → ∃ p, g.Pos a = .ok p)
    (w : VariableDeclarationWithInitializationContext)
    (hs : ∀ a ∈ w.spans, a < n)
    (hc : ExpressionContext.calleesPresentOption w.expression = true) :
    ∃ d, g.visitVariableDeclarationWithInitialization w = .ok (.VarDeclarationStatement d) := by
  obtain ⟨pos, hpos⟩ := hP w.a
    (hs w.a (by simp [VariableDeclarationWithInitializationContext.spans]))
  obtain ⟨inner, hinner⟩ := hP w.variableDeclaration.a
    (hs _ (by simp [VariableDeclarationWithInitializationContext.spans]))
  obtain ⟨init, hinit⟩ := visitRangeBound_succeeds g n hP w.expression
    (fun a' ha' => hs a'
      (by simp [VariableDeclarationWithInitializationContext.spans, ha'])) hc
  exact ⟨_, (visitVariableDeclarationWithInitialization_eq_ok g w _).mpr
    ⟨inner, pos, init, hinner, hpos, hinit, rfl⟩⟩

theorem visitHelperCallStatement_succeeds (g : AstGenerator) (n : Nat)
    (hP : ∀ a, a < n → ∃ p, g.Pos a = .ok p) (c : HelperCallStatementContext)
    (ha : c.a < n) (hs : ∀ a ∈ c.helperCall.spans, a < n)
    (hc : c.helperCall.calleesPresent = true) :
    ∃ s, g.visitHelperCallStatement c = .ok s := by
  obtain ⟨pos, hpos⟩ := hP c.a ha
  obtain ⟨e, he⟩ := visitHelperCall_succeeds g n hP c.helperCall hs hc
  have hcast := (CallExpression_cast_eq_ok e e).mpr ⟨rfl, visitHelperCall_isCall g _ e he⟩
  unfold visitHelperCallStatement
  split_ifs
  · simp only [hpos, he, hcast, ok_bind]
    exact ⟨_, rfl⟩
  · simp only [hpos, he, ok_bind]
    exact ⟨_, rfl⟩

theorem visitGotoStatement_succeeds (g : AstGenerator) (n : Nat)
    (hP : ∀ a, a < n → ∃ p, g.Pos a = .ok p) (c : GotoStatementContext)
    (hs : ∀ a ∈ c.spans, a < n) (hc : c.calleesPresent = true) :
    ∃ s, g.visitGotoStatement c = .ok s := by
  unfold GotoStatementContext.spans at hs
  unfold GotoStatementContext.calleesPresent at hc
  obtain ⟨pos, hpos⟩ := hP c.a (hs c.a (by simp))
  unfold visitGotoStatement
  cases hl : c.argumentList with
  | none =>
    simp only [hpos, ok_bind]
    exact ⟨_, rfl⟩
  | some l =>
    simp only [hl] at hs hc
    obtain ⟨es, hes⟩ := visitArguments_succeeds g n hP l.argument
      (fun a' ha' => hs a' (by simp [ha'])) hc
    simp only [hpos, hes, ok_bind]
    exact ⟨_, rfl⟩

theorem visitForInitialization_succeeds (g : AstGenerator) (n : Nat)
    (hP : ∀ a, a < n → ∃ p, g.Pos a = .ok p) (c : ForInitializationContext)
    (hs : ∀ a ∈ c.spans, a < n) (hc : c.calleesPresent = true) :
    ∃ d, g.visitForInitialization c = .ok d := by
  unfold ForInitializationContext.spans at hs
  unfold ForInitializationContext.calleesPresent at hc
  unfold visitForInitialization
  cases hw : c.variableDeclarationWithInitialization with
  | none => exact ⟨none, rfl⟩
  | some w =>
    simp only [hw] at hs hc
    obtain ⟨d, hd⟩ := visitVariableDeclarationWithInitialization_succeeds g n hP w hs hc
    simp only [hd, ok_bind, VarDeclarationStatement.cast]
    exact ⟨_, rfl⟩

theorem visitForOfRange_succeeds (g : AstGenerator) (n : Nat)
    (hP : ∀ a, a < n → ∃ p, g.Pos a = .ok p) (c : ForOfRangeContext)
    (hs : ∀ a ∈ c.spans, a < n) (hc : c.calleesPresent = true) :
    ∃ r, g.visitForOfRange c = .ok r := by
  unfold ForOfRangeContext.spans at hs
  unfold ForOfRangeContext.calleesPresent at hc
  unfold visitForOfRange
  cases hr : c.rangeSpecifier with
  | none => exact ⟨(none, none), rfl⟩
  | some range =>
    simp only [hr, Bool.and_eq_true] at hs hc
    obtain ⟨b, hb⟩ := visitRangeBound_succeeds g n hP range.begin_
      (fun a' ha' => hs a' (by simp [ha'])) hc.1
    obtain ⟨e, he⟩ := visitRangeBound_succeeds g n hP range.end_
      (fun a' ha' => hs a' (by simp [ha'])) hc.2
    simp only [hb, he, ok_bind]
    exact ⟨_, rfl⟩

mutual
theorem visitStatement_succeeds (g : AstGenerator) (n : Nat)
    (hP : ∀ a, a < n → ∃ p, g.Pos a = .ok p) :
    ∀ c : StatementContext, (∀ a ∈ c.spans, a < n) → c.calleesPresent = true →
      ∃ s, g.visitStatement c = .ok s
  | .variableDeclarationWithInitialization c, hs, hc => by
    simp only [StatementContext.calleesPresent] at hc
    obtain ⟨d, hd⟩ := visitVariableDeclarationWithInitialization_succeeds g n hP c
      (fun a' ha' => hs a' (by simpa [StatementContext.spans] using ha')) hc
    exact ⟨_, by simp only [visitStatement]; exact hd⟩
  | .helperCallStatement c, hs, hc => by
    simp only [StatementContext.calleesPresent] at hc
    simp only [visitStatement]
    exact visitHelperCallStatement_succeeds g n hP c
      (hs c.a (by simp [StatementContext.spans]))
      (fun a' ha' => hs a' (by simp [StatementContext.spans, ha'])) hc
  | .expressionStatement c, hs, hc => by
    simp only [StatementContext.calleesPresent] at hc
    obtain ⟨pos, hpos⟩ := hP c.a (hs c.a (by simp [StatementContext.spans]))
    obtain ⟨e, he⟩ := visitAssignment_succeeds g n hP c.assignment
      (fun a' ha' => hs a' (by simp [StatementContext.spans, ha'])) hc
    simp only [visitStatement, visitExpressionStatement, hpos, he, ok_bind]
    exact ⟨_, rfl⟩
  | .returnStatement c, hs, hc => by
    simp only [StatementContext.calleesPresent] at hc
    obtain ⟨pos, hpos⟩ := hP c.a (hs c.a (by simp [StatementContext.spans]))
    obtain ⟨e, he⟩ := visitExpression_succeeds g n hP c.expression
      (fun a' ha' => hs a' (by simp [StatementContext.spans, ha'])) hc
    simp only [visitStatement, visitReturnStatement, hpos, he, ok_bind]
    exact ⟨_, rfl⟩
  | .breakStatement c, hs, _ => by
    obtain ⟨pos, hpos⟩ := hP c.a (hs c.a (by simp [StatementContext.spans]))
    simp only [visitStatement, visitBreakStatement, hpos, ok_bind]
    exact ⟨_, rfl⟩
  | .continueStatement c, hs, _ => by
    obtain ⟨pos, hpos⟩ := hP c.a (hs c.a (by simp [StatementContext.spans]))
    simp only [visitStatement, visitContinueStatement, hpos, ok_bind]
    exact ⟨_, rfl⟩
  | .gotoStatement c, hs, hc => by
    simp only [StatementContext.calleesPresent] at hc
    simp only [visitStatement]
    exact visitGotoStatement_succeeds g n hP c
      (fun a' ha' => hs a' (by simpa [StatementContext.spans] using ha')) hc
  | .ifStatement c, hs, hc => by
    simp only [StatementContext.calleesPresent] at hc
    simp only [visitStatement]
    exact visitIfStatement_succeeds g n hP c
      (fun a' ha' => hs a' (by simpa [StatementContext.spans] using ha')) hc
  | .whileLoop c, hs, hc => by
    simp only [StatementContext.calleesPresent] at hc
    simp only [visitStatement]
    exact visitWhileLoop_succeeds g n hP c
      (fun a' ha' => hs a' (by simpa [StatementContext.spans] using ha')) hc
  | .forOfLoop c, hs, hc => by
    simp only [StatementContext.calleesPresent] at hc
    simp only [visitStatement]
    exact visitForOfLoop_succeeds g n hP c
      (fun a' ha' => hs a' (by simpa [StatementContext.spans] using ha')) hc
  | .forLoop c, hs, hc => by
    simp only [StatementContext.calleesPresent] at hc
    simp only [visitStatement]
    exact visitForLoop_succeeds g n hP c
      (fun a' ha' => hs a' (by simpa [StatementContext.spans] using ha')) hc
  | .tryCatch c, hs, hc => by
    simp only [StatementContext.calleesPresent] at hc
    simp only [visitStatement]
    exact visitTryCatch_succeeds g n hP c
      (fun a' ha' => hs a' (by simpa [StatementContext.spans] using ha')) hc
theorem visitStatements_succeeds (g : AstGenerator) (n : Nat)
    (hP : ∀ a, a < n → ∃ p, g.Pos a = .ok p) :
    ∀ c : List StatementContext, (∀ a ∈ StatementContext.spansList c, a < n) →
      StatementContext.calleesPresentList c = true →
      ∃ ss, g.visitStatements c = .ok ss
  | [], _, _ => ⟨[], rfl⟩
  | c :: cs, hs, hc => by
    simp only [StatementContext.calleesPresentList, Bool.and_eq_true] at hc
    obtain ⟨x, hx⟩ := visitStatement_succeeds g n hP c
      (fun a' ha' => hs a' (by simp [StatementContext.spansList, ha'])) hc.1
    obtain ⟨xs, hxs⟩ := visitStatements_succeeds g n hP cs
      (fun a' ha' => hs a' (by simp [StatementContext.spansList, ha'])) hc.2
    simp only [visitStatements, hx, hxs, ok_bind]
    exact ⟨_, rfl⟩
theorem visitStatementScope_succeeds (g : AstGenerator) (n : Nat)
    (hP : ∀ a, a < n → ∃ p, g.Pos a = .ok p) :
    ∀ c : StatementScopeContext, (∀ a ∈ c.spans, a < n) → c.calleesPresent = true →
      ∃ s, g.visitStatementScope c = .ok s
  | .mk a d (.mk cs), hs, hc => by
    simp only [StatementScopeContext.calleesPresent] at hc
    obtain ⟨pos, hpos⟩ := hP a (hs a (by simp [StatementScopeContext.spans]))
    obtain ⟨xs, hxs⟩ := visitStatements_succeeds g n hP cs
      (fun a' ha' => hs a' (by simp [StatementScopeContext.spans, ha'])) hc
    simp only [visitStatementScope, hpos, hxs, ok_bind]
    exact ⟨_, rfl⟩
theorem visitStatementBlock_succeeds (g : AstGenerator) (n : Nat)
    (hP : ∀ a, a < n → ∃ p, g.Pos a = .ok p) :
    ∀ c : StatementBlockContext, (∀ a ∈ c.spans, a < n) → c.calleesPresent = true →
      ∃ s, g.visitStatementBlock c = .ok s
  | .statement a c, hs, hc => by
    simp only [StatementBlockContext.calleesPresent] at hc
    simp only [visitStatementBlock]
    exact visitStatement_succeeds g n hP c
      (fun a' ha' => hs a' (by simp [StatementBlockContext.spans, ha'])) hc
  | .statementScope a c, hs, hc => by
    simp only [StatementBlockContext.calleesPresent] at hc
    simp only [visitStatementBlock]
    exact visitStatementScope_succeeds g n hP c
      (fun a' ha' => hs a' (by simp [StatementBlockContext.spans, ha'])) hc
theorem visitIfStatement_succeeds (g : AstGenerator) (n : Nat)
    (hP : ∀ a, a < n → ∃ p, g.Pos a = .ok p) :
    ∀ c : IfStatementContext, (∀ a ∈ c.spans, a < n) → c.calleesPresent = true →
      ∃ s, g.visitIfStatement c = .ok s
  | .mk a e b0 none, hs, hc => by
    simp only [IfStatementContext.calleesPresent, Bool.and_eq_true] at hc
    obtain ⟨pos, hpos⟩ := hP a (hs a (by simp [IfStatementContext.spans]))
    obtain ⟨x, hx⟩ := visitExpression_succeeds g n hP e
      (fun a' ha' => hs a' (by simp [IfStatementContext.spans, ha'])) hc.1
    obtain ⟨y, hy⟩ := visitStatementBlock_succeeds g n hP b0
      (fun a' ha' => hs a' (by simp [IfStatementContext.spans, ha'])) hc.2
    simp only [visitIfStatement, hpos, hx, hy, ok_bind]
    exact ⟨_, rfl⟩
  | .mk a e b0 (some b1), hs, hc => by
    simp only [IfStatementContext.calleesPresent, Bool.and_eq_true] at hc
    obtain ⟨pos, hpos⟩ := hP a (hs a (by simp [IfStatementContext.spans]))
    obtain ⟨x, hx⟩ := visitExpression_succeeds g n hP e
      (fun a' ha' => hs a' (by simp [IfStatementContext.spans, ha'])) hc.1.1
    obtain ⟨y, hy⟩ := visitStatementBlock_succeeds g n hP b0
      (fun a' ha' => hs a' (by simp [IfStatementContext.spans, ha'])) hc.1.2
    obtain ⟨z, hz⟩ := visitStatementBlock_succeeds g n hP b1
      (fun a' ha' => hs a' (by simp [IfStatementContext.spans, ha'])) hc.2
    simp only [visitIfStatement, hpos, hx, hy, hz, ok_bind]
    exact ⟨_, rfl⟩
theorem visitWhileLoop_succeeds (g : AstGenerator) (n : Nat)
    (hP : ∀ a, a < n → ∃ p, g.Pos a = .ok p) :
    ∀ c : WhileLoopContext, (∀ a ∈ c.spans, a < n) → c.calleesPresent = true →
      ∃ s, g.visitWhileLoop c = .ok s
  | .mk a e b, hs, hc => by
    simp only [WhileLoopContext.calleesPresent, Bool.and_eq_true] at hc
    obtain ⟨pos, hpos⟩ := hP a (hs a (by simp [WhileLoopContext.spans]))
    obtain ⟨x, hx⟩ := visitExpression_succeeds g n hP e
      (fun a' ha' => hs a' (by simp [WhileLoopContext.spans, ha'])) hc.1
    obtain ⟨y, hy⟩ := visitStatementBlock_succeeds g n hP b
      (fun a' ha' => hs a' (by simp [WhileLoopContext.spans, ha'])) hc.2
    simp only [visitWhileLoop, hpos, hx, hy, ok_bind]
    exact ⟨_, rfl⟩
theorem visitForLoop_succeeds (g : AstGenerator) (n : Nat)
    (hP : ∀ a, a < n → ∃ p, g.Pos a = .ok p) :
    ∀ c : ForLoopContext, (∀ a ∈ c.spans, a < n) → c.calleesPresent = true →
      ∃ s, g.visitForLoop c = .ok s
  | .mk a i e st b, hs, hc => by
    simp only [ForLoopContext.calleesPresent, Bool.and_eq_true] at hc
    obtain ⟨pos, hpos⟩ := hP a (hs a (by simp [ForLoopContext.spans]))
    obtain ⟨x, hx⟩ := visitExpression_succeeds g n hP e
      (fun a' ha' => hs a' (by simp [ForLoopContext.spans, ha'])) hc.1.1.2
    obtain ⟨y, hy⟩ := visitAssignment_succeeds g n hP st
      (fun a' ha' => hs a' (by simp [ForLoopContext.spans, ha'])) hc.1.2
    obtain ⟨z, hz⟩ := visitStatementBlock_succeeds g n hP b
      (fun a' ha' => hs a' (by simp [ForLoopContext.spans, ha'])) hc.2
    obtain ⟨d, hd⟩ := visitForInitialization_succeeds g n hP i
      (fun a' ha' => hs a' (by simp [ForLoopContext.spans, ha'])) hc.1.1.1
    simp only [visitForLoop, hpos, hx, hy, hz, hd, ok_bind]
    exact ⟨_, rfl⟩
theorem visitForOfLoop_succeeds (g : AstGenerator) (n : Nat)
    (hP : ∀ a, a < n → ∃ p, g.Pos a = .ok p) :
    ∀ c : ForOfLoopContext, (∀ a ∈ c.spans, a < n) → c.calleesPresent = true →
      ∃ s, g.visitForOfLoop c = .ok s
  | .mk a v e r b, hs, hc => by
    simp only [ForOfLoopContext.calleesPresent, Bool.and_eq_true] at hc
    obtain ⟨pos, hpos⟩ := hP a (hs a (by simp [ForOfLoopContext.spans]))
    obtain ⟨pv, hpv⟩ := hP v.a (hs v.a (by simp [ForOfLoopContext.spans]))
    obtain ⟨x, hx⟩ := visitExpression_succeeds g n hP e
      (fun a' ha' => hs a' (by simp [ForOfLoopContext.spans, ha'])) hc.1.1
    obtain ⟨y, hy⟩ := visitStatementBlock_succeeds g n hP b
      (fun a' ha' => hs a' (by simp [ForOfLoopContext.spans, ha'])) hc.2
    obtain ⟨rg, hrg⟩ := visitForOfRange_succeeds g n hP r
      (fun a' ha' => hs a' (by simp [ForOfLoopContext.spans, ha'])) hc.1.2
    simp only [visitForOfLoop, visitVariableDeclaration, hpos, hpv, hx, hy, hrg, ok_bind]
    exact ⟨_, rfl⟩
theorem visitTryCatch_succeeds (g : AstGenerator) (n : Nat)
    (hP : ∀ a, a < n → ∃ p, g.Pos a = .ok p) :
    ∀ c : TryCatchContext, (∀ a ∈ c.spans, a < n) → c.calleesPresent = true →
      ∃ s, g.visitTryCatch c = .ok s
  | .mk a b hs', hs, hc => by
    simp only [TryCatchContext.calleesPresent, Bool.and_eq_true] at hc
    obtain ⟨pos, hpos⟩ := hP a (hs a (by simp [TryCatchContext.spans]))
    obtain ⟨x, hx⟩ := visitStatementBlock_succeeds g n hP b
      (fun a' ha' => hs a' (by simp [TryCatchContext.spans, ha'])) hc.1
    obtain ⟨bs, hbs⟩ := visitHandlers_succeeds g n hP hs'
      (fun a' ha' => hs a' (by simp [TryCatchContext.spans, ha'])) hc.2
    simp only [visitTryCatch, hpos, hx, hbs, ok_bind]
    exact ⟨_, rfl⟩
theorem visitHandlers_succeeds (g : AstGenerator) (n : Nat)
    (hP : ∀ a, a < n → ∃ p, g.Pos a = .ok p) :
    ∀ c : List HandlerWithStatementContext,
      (∀ a ∈ HandlerWithStatementContext.spansList c, a < n) →
      HandlerWithStatementContext.calleesPresentList c = true →
      ∃ bs, g.visitHandlers c = .ok bs
  | [], _, _ => ⟨([], []), rfl⟩
  | .catchHandler i b :: rest, hs, hc => by
    simp only [HandlerWithStatementContext.calleesPresentList, Bool.and_eq_true] at hc
    have ha : b.a ∈ b.spans := by cases b <;> simp [StatementBlockContext.spans,
      StatementBlockContext.a]
    obtain ⟨pos, hpos⟩ := hP b.a
      (hs b.a (by simp [HandlerWithStatementContext.spansList, ha]))
    obtain ⟨x, hx⟩ := visitStatementBlock_succeeds g n hP b
      (fun a' ha' => hs a' (by simp [HandlerWithStatementContext.spansList, ha'])) hc.1
    obtain ⟨r, hr⟩ := visitHandlers_succeeds g n hP rest
      (fun a' ha' => hs a' (by simp [HandlerWithStatementContext.spansList, ha'])) hc.2
    simp only [visitHandlers, hpos, hx, hr, ok_bind]
    exact ⟨_, rfl⟩
  | .labelHandler l b :: rest, hs, hc => by
    simp only [HandlerWithStatementContext.calleesPresentList, Bool.and_eq_true] at hc
    have ha : b.a ∈ b.spans := by cases b <;> simp [StatementBlockContext.spans,
      StatementBlockContext.a]
    obtain ⟨pos, hpos⟩ := hP b.a
      (hs b.a (by simp [HandlerWithStatementContext.spansList, ha]))
    obtain ⟨x, hx⟩ := visitStatementBlock_succeeds g n hP b
      (fun a' ha' => hs a' (by simp [HandlerWithStatementContext.spansList, ha'])) hc.1
    obtain ⟨r, hr⟩ := visitHandlers_succeeds g n hP rest
      (fun a' ha' => hs a' (by simp [HandlerWithStatementContext.spansList, ha'])) hc.2
    simp only [visitHandlers, hpos, hx, hr, ok_bind]
    exact ⟨_, rfl⟩
end

theorem visitDeclaration_succeeds (g : AstGenerator) (n : Nat)
    (hP : ∀ a, a < n → ∃ p, g.Pos a = .ok p) (c : DeclarationContext)
    (hs : ∀ a ∈ c.spans, a < n) (hw : c.wellFormed = true) :
    ∃ d, g.visitDeclaration c = .ok d := by
  cases c with
  | typeDeclaration c =>
    obtain ⟨pos, hpos⟩ := hP c.a (hs c.a (by simp [DeclarationContext.spans]))
    simp only [visitDeclaration, visitTypeDeclaration, hpos, ok_bind]
    simp only [DeclarationContext.wellFormed] at hw
    cases hg : c.generatesDeclaration with
    | none => exact ⟨_, rfl⟩
    | some generatesDeclaration =>
      simp only [hg] at hw
      obtain ⟨r, hr⟩ := StringLiteralUnquote_decodable _ hw
      simp only [hr, ok_bind]
      exact ⟨_, rfl⟩
  | builtinDeclaration c =>
    obtain ⟨pos, hpos⟩ := hP c.a (hs c.a (by simp [DeclarationContext.spans]))
    simp only [DeclarationContext.wellFormed] at hw
    obtain ⟨b, hb⟩ := visitStatementScope_succeeds g n hP c.helperBody.statementScope
      (fun a' ha' => hs a' (by simp [DeclarationContext.spans, ha'])) hw
    simp only [visitDeclaration, visitBuiltinDeclaration, visitHelperBody, hpos, hb, ok_bind]
    exact ⟨_, rfl⟩
  | macroDeclaration c =>
    obtain ⟨pos, hpos⟩ := hP c.a (hs c.a (by simp [DeclarationContext.spans]))
    simp only [DeclarationContext.wellFormed] at hw
    obtain ⟨b, hb⟩ := visitStatementScope_succeeds g n hP c.helperBody.statementScope
      (fun a' ha' => hs a' (by simp [DeclarationContext.spans, ha'])) hw
    simp only [visitDeclaration, visitMacroDeclaration, visitHelperBody, hpos, hb, ok_bind]
    exact ⟨_, rfl⟩
  | externalMacro c =>
    obtain ⟨pos, hpos⟩ := hP c.a (hs c.a (by simp [DeclarationContext.spans]))
    simp only [visitDeclaration, visitExternalMacro, hpos, ok_bind]
    simp only [DeclarationContext.wellFormed] at hw
    cases hg : c.STRING_LITERAL with
    | none => exact ⟨_, rfl⟩
    | some op =>
      simp only [hg] at hw
      obtain ⟨r, hr⟩ := StringLiteralUnquote_decodable _ hw
      simp only [hr, ok_bind]
      exact ⟨_, rfl⟩
  | externalBuiltin c =>
    obtain ⟨pos, hpos⟩ := hP c.a (hs c.a (by simp [DeclarationContext.spans]))
    simp only [visitDeclaration, visitExternalBuiltin, hpos, ok_bind]
    exact ⟨_, rfl⟩
  | externalRuntime c =>
    obtain ⟨pos, hpos⟩ := hP c.a (hs c.a (by simp [DeclarationContext.spans]))
    simp only [visitDeclaration, visitExternalRuntime, hpos, ok_bind]
    exact ⟨_, rfl⟩
  | constDeclaration c =>
    obtain ⟨pos, hpos⟩ := hP c.a (hs c.a (by simp [DeclarationContext.spans]))
    simp only [DeclarationContext.wellFormed] at hw
    obtain ⟨r, hr⟩ := StringLiteralUnquote_decodable _ hw
    simp only [visitDeclaration, visitConstDeclaration, hpos, hr, ok_bind]
    exact ⟨_, rfl⟩

theorem visitDeclarations_succeeds (g : AstGenerator) (n : Nat)
    (hP : ∀ a, a < n → ∃ p, g.Pos a = .ok p) :
    ∀ cs : List DeclarationContext, (∀ a ∈ DeclarationContext.spansList cs, a < n) →
      cs.all (·.wellFormed) = true → ∃ ds, g.visitDeclarations cs = .ok ds
  | [], _, _ => ⟨[], rfl⟩
  | c :: cs, hs, hw => by
    simp only [List.all_cons, Bool.and_eq_true] at hw
    obtain ⟨d, hd⟩ := visitDeclaration_succeeds g n hP c
      (fun a' ha' => hs a' (by simp [DeclarationContext.spansList, ha'])) hw.1
    obtain ⟨ds, hds⟩ := visitDeclarations_succeeds g n hP cs
      (fun a' ha' => hs a' (by simp [DeclarationContext.spansList, ha'])) hw.2
    simp only [visitDeclarations, hd, hds, ok_bind]
    exact ⟨_, rfl⟩

theorem visitFileChild_succeeds (g : AstGenerator) (n : Nat)
    (hP : ∀ a, a < n → ∃ p, g.Pos a = .ok p) (c : FileChildContext)
    (hs : ∀ a ∈ c.spans, a < n) (hw : c.wellFormed = true) :
    ∃ d, g.visitFileChild c = .ok d := by
  cases c with
  | moduleDeclaration c =>
    obtain ⟨pos, hpos⟩ := hP c.a (hs c.a (by simp [FileChildContext.spans]))
    simp only [FileChildContext.wellFormed] at hw
    obtain ⟨ds, hds⟩ := visitDeclarations_succeeds g n hP c.declaration
      (fun a' ha' => hs a' (by simp [FileChildContext.spans, ha'])) hw
    simp only [visitFileChild, visitModuleDeclaration, hpos, hds, ok_bind]
    exact ⟨_, rfl⟩
  | declaration c =>
    simp only [FileChildContext.wellFormed] at hw
    simp only [visitFileChild]
    exact visitDeclaration_succeeds g n hP c
      (fun a' ha' => hs a' (by simpa [FileChildContext.spans] using ha')) hw

theorem visitSourceFile_loop_succeeds (n : Nat) :
    ∀ (cs : List FileChildContext) (g : AstGenerator),
      (∀ a, a < n → ∃ p, g.Pos a = .ok p) →
      (∀ a ∈ FileChildContext.spansList cs, a < n) →
      cs.all (·.wellFormed) = true → ∃ g', visitSourceFile.loop g cs = .ok g'
  | [], g, _, _, _ => ⟨g, rfl⟩
  | c :: cs, g, hP, hs, hw => by
    simp only [List.all_cons, Bool.and_eq_true] at hw
    obtain ⟨d, hd⟩ := visitFileChild_succeeds g n hP c
      (fun a' ha' => hs a' (by simp [FileChildContext.spansList, ha'])) hw.1
    obtain ⟨g', hg'⟩ := visitSourceFile_loop_succeeds n cs
      { g with ast_ := { g.ast_ with declarations_ := g.ast_.declarations_ ++ [d] } }
      (fun a ha => hP a ha)
      (fun a' ha' => hs a' (by simp [FileChildContext.spansList, ha'])) hw.2
    simp only [visitSourceFile.loop, hd, ok_bind]
    exact ⟨g', hg'⟩

/-- On a well-formed parse tree whose span starts all index tokens of the file,
`visitSourceFile` returns. -/
theorem visitSourceFile_succeeds (g : AstGenerator) (c : SourceFileContext)
    (hw : c.file.wellFormed = true) (hs : c.spansInTokens) :
    ∃ g', g.visitSourceFile c = .ok g' := by
  obtain ⟨g₁, h₁⟩ := visitSourceFile_loop_succeeds c.tokens.length c.file.children
    (enterSourceFile g c) (fun a ha => Pos_succeeds _ c rfl a ha) hs hw
  refine ⟨{ g₁ with source_file_context_ := none }, ?_⟩
  have h₂ : visitSourceFile.loop
      { ast_ := (g.ast_.AddSource c.name).1
        current_source_file_ := (g.ast_.AddSource c.name).2
        source_file_context_ := some c } c.file.children = .ok g₁ := h₁
  simp only [visitSourceFile, h₂, ok_bind]
  rfl

theorem onlyTokenFault_ok {α : Type} (a : α) : onlyTokenFault (.ok a : Except Fault α) := by
  intro fault h
  cases h

theorem onlyTokenFault_pure {α : Type} (a : α) : onlyTokenFault (pure a : Except Fault α) :=
  onlyTokenFault_ok a

theorem onlyTokenFault_of_ok {α : Type} {r : Except Fault α} {a : α} (h : r = .ok a) :
    onlyTokenFault r := by
  rw [h]
  exact onlyTokenFault_ok a

theorem onlyTokenFault_bind {α β : Type} {x : Except Fault α} {k : α → Except Fault β}
    (hx : onlyTokenFault x) (hk : ∀ a, x = .ok a → onlyTokenFault (k a)) :
    onlyTokenFault (x >>= k) := by
  cases x with
  | error fault =>
    intro fault' h
    cases h
    exact hx fault rfl
  | ok a => exact hk a rfl

/-- While a file is active, a position resolution can only stop at the token
lookup. -/
theorem Pos_onlyTokenFault (g : AstGenerator) (context : SourceFileContext)
    (hg : g.source_file_context_ = some context) (a : Nat) : onlyTokenFault (g.Pos a) := by
  intro fault h
  unfold Pos at h
  rw [hg] at h
  simp only at h
  cases ht : context.tokens[a]? with
  | none =>
    rw [ht] at h
    simp only [Except.error.injEq] at h
    exact h.symm
  | some token =>
    rw [ht] at h
    simp only at h
    cases h

theorem visitLocationExpression_isLocation (g : AstGenerator) (c : LocationExpressionContext)
    (e : Expression) (h : g.visitLocationExpression c = .ok e) : e.isLocation = true := by
  cases c <;>
    (simp only [visitLocationExpression, bind_eq_ok, pure_eq_ok] at h
     obtain ⟨_, _, h⟩ := h
     first
       | (subst h; rfl)
       | (obtain ⟨_, _, h⟩ := h
          first
            | (subst h; rfl)
            | (obtain ⟨_, _, h⟩ := h
               subst h
               rfl)))

mutual
theorem visitExpression_onlyTokenFault (g : AstGenerator)
    (hP : ∀ a, onlyTokenFault (g.Pos a)) :
    ∀ c : ExpressionContext, c.calleesPresent = true → onlyTokenFault (g.visitExpression c)
  | .mk c, hc => by
    simp only [ExpressionContext.calleesPresent] at hc
    simp only [visitExpression]
    exact visitConditionalExpression_onlyTokenFault g hP c hc
theorem visitConditionalExpression_onlyTokenFault (g : AstGenerator)
    (hP : ∀ a, onlyTokenFault (g.Pos a)) :
    ∀ c : ConditionalExpressionContext, c.calleesPresent = true → onlyTokenFault (g.visitConditionalExpression c)
  | .single c, hc => by
    simp only [ConditionalExpressionContext.calleesPresent] at hc
    simp only [visitConditionalExpression]
    exact visitLogicalORExpression_onlyTokenFault g hP c hc
  | .ternary a c e0 e1, hc => by
    simp only [ConditionalExpressionContext.calleesPresent, Bool.and_eq_true, Bool.or_eq_true] at hc
    simp only [visitConditionalExpression]
    refine onlyTokenFault_bind (hP a) (fun pos _ => ?_)
    refine onlyTokenFault_bind (visitConditionalExpression_onlyTokenFault g hP c (by tauto))
      (fun x1 hx1 => ?_)
    refine onlyTokenFault_bind (visitLogicalORExpression_onlyTokenFault g hP e0 (by tauto))
      (fun x2 hx2 => ?_)
    refine onlyTokenFault_bind (visitLogicalORExpression_onlyTokenFault g hP e1 (by tauto))
      (fun x3 hx3 => ?_)
    exact onlyTokenFault_pure _
theorem visitLogicalORExpression_onlyTokenFault (g : AstGenerator)
    (hP : ∀ a, onlyTokenFault (g.Pos a)) :
    ∀ c : LogicalORExpressionContext, c.calleesPresent = true → onlyTokenFault (g.visitLogicalORExpression c)
  | .single c, hc => by
    simp only [LogicalORExpressionContext.calleesPresent] at hc
    simp only [visitLogicalORExpression]
    exact visitLogicalANDExpression_onlyTokenFault g hP c hc
  | .binary a l r, hc => by
    simp only [LogicalORExpressionContext.calleesPresent, Bool.and_eq_true, Bool.or_eq_true] at hc
    simp only [visitLogicalORExpression]
    refine onlyTokenFault_bind (hP a) (fun pos _ => ?_)
    refine onlyTokenFault_bind (visitLogicalORExpression_onlyTokenFault g hP l (by tauto))
      (fun x1 hx1 => ?_)
    refine onlyTokenFault_bind (visitLogicalANDExpression_onlyTokenFault g hP r (by tauto))
      (fun x2 hx2 => ?_)
    exact onlyTokenFault_pure _
theorem visitLogicalANDExpression_onlyTokenFault (g : AstGenerator)
    (hP : ∀ a, onlyTokenFault (g.Pos a)) :
    ∀ c : LogicalANDExpressionContext, c.calleesPresent = true → onlyTokenFault (g.visitLogicalANDExpression c)
  | .single c, hc => by
    simp only [LogicalANDExpressionContext.calleesPresent] at hc
    simp only [visitLogicalANDExpression]
    exact visitBitwiseExpression_onlyTokenFault g hP c hc
  | .binary a l r, hc => by
    simp only [LogicalANDExpressionContext.calleesPresent, Bool.and_eq_true, Bool.or_eq_true] at hc
    simp only [visitLogicalANDExpression]
    refine onlyTokenFault_bind (hP a) (fun pos _ => ?_)
    refine onlyTokenFault_bind (visitLogicalANDExpression_onlyTokenFault g hP l (by tauto))
      (fun x1 hx1 => ?_)
    refine onlyTokenFault_bind (visitBitwiseExpression_onlyTokenFault g hP r (by tauto))
      (fun x2 hx2 => ?_)
    exact onlyTokenFault_pure _
theorem visitBitwiseExpression_onlyTokenFault (g : AstGenerator)
    (hP : ∀ a, onlyTokenFault (g.Pos a)) :
    ∀ c : BitwiseExpressionContext, c.calleesPresent = true → onlyTokenFault (g.visitBitwiseExpression c)
  | .single c, hc => by
    simp only [BitwiseExpressionContext.calleesPresent] at hc
    simp only [visitBitwiseExpression]
    exact visitEqualityExpression_onlyTokenFault g hP c hc
  | .binary a l op r, hc => by
    simp only [BitwiseExpressionContext.calleesPresent, Bool.and_eq_true, Bool.or_eq_true] at hc
    simp only [visitBitwiseExpression]
    refine onlyTokenFault_bind (hP a) (fun pos _ => ?_)
    refine onlyTokenFault_bind (visitBitwiseExpression_onlyTokenFault g hP l (by tauto))
      (fun x1 hx1 => ?_)
    refine onlyTokenFault_bind (visitEqualityExpression_onlyTokenFault g hP r (by tauto))
      (fun x2 hx2 => ?_)
    exact onlyTokenFault_pure _
theorem visitEqualityExpression_onlyTokenFault (g : AstGenerator)
    (hP : ∀ a, onlyTokenFault (g.Pos a)) :
    ∀ c : EqualityExpressionContext, c.calleesPresent = true → onlyTokenFault (g.visitEqualityExpression c)
  | .single c, hc => by
    simp only [EqualityExpressionContext.calleesPresent] at hc
    simp only [visitEqualityExpression]
    exact visitRelationalExpression_onlyTokenFault g hP c hc
  | .binary a l op r, hc => by
    simp only [EqualityExpressionContext.calleesPresent, Bool.and_eq_true, Bool.or_eq_true] at hc
    simp only [visitEqualityExpression]
    refine onlyTokenFault_bind (hP a) (fun pos _ => ?_)
    refine onlyTokenFault_bind (visitEqualityExpression_onlyTokenFault g hP l (by tauto))
      (fun x1 hx1 => ?_)
    refine onlyTokenFault_bind (visitRelationalExpression_onlyTokenFault g hP r (by tauto))
      (fun x2 hx2 => ?_)
    exact onlyTokenFault_pure _
theorem visitRelationalExpression_onlyTokenFault (g : AstGenerator)
    (hP : ∀ a, onlyTokenFault (g.Pos a)) :
    ∀ c : RelationalExpressionContext, c.calleesPresent = true → onlyTokenFault (g.visitRelationalExpression c)
  | .single c, hc => by
    simp only [RelationalExpressionContext.calleesPresent] at hc
    simp only [visitRelationalExpression]
    exact visitShiftExpression_onlyTokenFault g hP c hc
  | .binary a l op r, hc => by
    simp only [RelationalExpressionContext.calleesPresent, Bool.and_eq_true, Bool.or_eq_true] at hc
    simp only [visitRelationalExpression]
    refine onlyTokenFault_bind (hP a) (fun pos _ => ?_)
    refine onlyTokenFault_bind (visitRelationalExpression_onlyTokenFault g hP l (by tauto))
      (fun x1 hx1 => ?_)
    refine onlyTokenFault_bind (visitShiftExpression_onlyTokenFault g hP r (by tauto))
      (fun x2 hx2 => ?_)
    exact onlyTokenFault_pure _
theorem visitShiftExpression_onlyTokenFault (g : AstGenerator)
    (hP : ∀ a, onlyTokenFault (g.Pos a)) :
    ∀ c : ShiftExpressionContext, c.calleesPresent = true → onlyTokenFault (g.visitShiftExpression c)
  | .single c, hc => by
    simp only [ShiftExpressionContext.calleesPresent] at hc
    simp only [visitShiftExpression]
    exact visitAdditiveExpression_onlyTokenFault g hP c hc
  | .binary a l op r, hc => by
    simp only [ShiftExpressionContext.calleesPresent, Bool.and_eq_true, Bool.or_eq_true] at hc
    simp only [visitShiftExpression]
    refine onlyTokenFault_bind (hP a) (fun pos _ => ?_)
    refine onlyTokenFault_bind (visitShiftExpression_onlyTokenFault g hP l (by tauto))
      (fun x1 hx1 => ?_)
    refine onlyTokenFault_bind (visitAdditiveExpression_onlyTokenFault g hP r (by tauto))
      (fun x2 hx2 => ?_)
    exact onlyTokenFault_pure _
theorem visitAdditiveExpression_onlyTokenFault (g : AstGenerator)
    (hP : ∀ a, onlyTokenFault (g.Pos a)) :
    ∀ c : AdditiveExpressionContext, c.calleesPresent = true → onlyTokenFault (g.visitAdditiveExpression c)
  | .single c, hc => by
    simp only [AdditiveExpressionContext.calleesPresent] at hc
    simp only [visitAdditiveExpression]
    exact visitMultiplicativeExpression_onlyTokenFault g hP c hc
  | .binary a l op r, hc => by
    simp only [AdditiveExpressionContext.calleesPresent, Bool.and_eq_true, Bool.or_eq_true] at hc
    simp only [visitAdditiveExpression]
    refine onlyTokenFault_bind (hP a) (fun pos _ => ?_)
    refine onlyTokenFault_bind (visitAdditiveExpression_onlyTokenFault g hP l (by tauto))
      (fun x1 hx1 => ?_)
    refine onlyTokenFault_bind (visitMultiplicativeExpression_onlyTokenFault g hP r (by tauto))
      (fun x2 hx2 => ?_)
    exact onlyTokenFault_pure _
theorem visitMultiplicativeExpression_onlyTokenFault (g : AstGenerator)
    (hP : ∀ a, onlyTokenFault (g.Pos a)) :
    ∀ c : MultiplicativeExpressionContext, c.calleesPresent = true → onlyTokenFault (g.visitMultiplicativeExpression c)
  | .single c, hc => by
    simp only [MultiplicativeExpressionContext.calleesPresent] at hc
    simp only [visitMultiplicativeExpression]
    exact visitUnaryExpression_onlyTokenFault g hP c hc
  | .binary a l op r, hc => by
    simp only [MultiplicativeExpressionContext.calleesPresent, Bool.and_eq_true, Bool.or_eq_true] at hc
    simp only [visitMultiplicativeExpression]
    refine onlyTokenFault_bind (hP a) (fun pos _ => ?_)
    refine onlyTokenFault_bind (visitMultiplicativeExpression_onlyTokenFault g hP l (by tauto))
      (fun x1 hx1 => ?_)
    refine onlyTokenFault_bind (visitUnaryExpression_onlyTokenFault g hP r (by tauto))
      (fun x2 hx2 => ?_)
    exact onlyTokenFault_pure _
theorem visitUnaryExpression_onlyTokenFault (g : AstGenerator)
    (hP : ∀ a, onlyTokenFault (g.Pos a)) :
    ∀ c : UnaryExpressionContext, c.calleesPresent = true → onlyTokenFault (g.visitUnaryExpression c)
  | .assignmentExpression c, hc => by
    simp only [UnaryExpressionContext.calleesPresent] at hc
    simp only [visitUnaryExpression]
    exact visitAssignmentExpression_onlyTokenFault g hP c hc
  | .unary a op c, hc => by
    simp only [UnaryExpressionContext.calleesPresent, Bool.and_eq_true, Bool.or_eq_true] at hc
    simp only [visitUnaryExpression]
    refine onlyTokenFault_bind (visitUnaryExpression_onlyTokenFault g hP c (by tauto))
      (fun x1 hx1 => ?_)
    refine onlyTokenFault_bind (hP a) (fun pos _ => ?_)
    exact onlyTokenFault_pure _
theorem visitAssignmentExpression_onlyTokenFault (g : AstGenerator)
    (hP : ∀ a, onlyTokenFault (g.Pos a)) :
    ∀ c : AssignmentExpressionContext, c.calleesPresent = true → onlyTokenFault (g.visitAssignmentExpression c)
  | .primaryExpression c, hc => by
    simp only [AssignmentExpressionContext.calleesPresent] at hc
    simp only [visitAssignmentExpression]
    exact visitPrimaryExpression_onlyTokenFault g hP c hc
  | .assignment c, hc => by
    simp only [AssignmentExpressionContext.calleesPresent] at hc
    simp only [visitAssignmentExpression]
    exact visitAssignment_onlyTokenFault g hP c hc
theorem visitAssignment_onlyTokenFault (g : AstGenerator)
    (hP : ∀ a, onlyTokenFault (g.Pos a)) :
    ∀ c : AssignmentContext, c.calleesPresent = true → onlyTokenFault (g.visitAssignment c)
  | .incrementDecrement c, hc => by
    simp only [AssignmentContext.calleesPresent] at hc
    simp only [visitAssignment]
    exact visitIncrementDecrement_onlyTokenFault g hP c hc
  | .location a l op none, hc => by
    simp only [AssignmentContext.calleesPresent, Bool.and_eq_true, Bool.or_eq_true] at hc
    simp only [visitAssignment]
    refine onlyTokenFault_bind (visitLocationExpression_onlyTokenFault g hP l (by tauto))
      (fun x1 hx1 => ?_)
    refine onlyTokenFault_bind (onlyTokenFault_of_ok
      ((LocationExpression_cast_eq_ok x1 x1).mpr
        ⟨rfl, visitLocationExpression_isLocation g _ x1 hx1⟩)) (fun y _ => ?_)
    exact onlyTokenFault_pure _
  | .location a l op (some v), hc => by
    simp only [AssignmentContext.calleesPresent, Bool.and_eq_true, Bool.or_eq_true] at hc
    simp only [visitAssignment]
    refine onlyTokenFault_bind (visitLocationExpression_onlyTokenFault g hP l (by tauto))
      (fun x1 hx1 => ?_)
    refine onlyTokenFault_bind (onlyTokenFault_of_ok
      ((LocationExpression_cast_eq_ok x1 x1).mpr
        ⟨rfl, visitLocationExpression_isLocation g _ x1 hx1⟩)) (fun y _ => ?_)
    refine onlyTokenFault_bind (hP a) (fun pos _ => ?_)
    refine onlyTokenFault_bind (visitExpression_onlyTokenFault g hP v (by tauto))
      (fun x2 hx2 => ?_)
    exact onlyTokenFault_pure _
theorem visitIncrementDecrement_onlyTokenFault (g : AstGenerator)
    (hP : ∀ a, onlyTokenFault (g.Pos a)) :
    ∀ c : IncrementDecrementContext, c.calleesPresent = true → onlyTokenFault (g.visitIncrementDecrement c)
  | .mk a op inc l, hc => by
    simp only [IncrementDecrementContext.calleesPresent, Bool.and_eq_true, Bool.or_eq_true] at hc
    simp only [visitIncrementDecrement]
    refine onlyTokenFault_bind (hP a) (fun pos _ => ?_)
    refine onlyTokenFault_bind (visitLocationExpression_onlyTokenFault g hP l (by tauto))
      (fun x1 hx1 => ?_)
    refine onlyTokenFault_bind (onlyTokenFault_of_ok
      ((LocationExpression_cast_eq_ok x1 x1).mpr
        ⟨rfl, visitLocationExpression_isLocation g _ x1 hx1⟩)) (fun y _ => ?_)
    exact onlyTokenFault_pure _
theorem visitLocationExpression_onlyTokenFault (g : AstGenerator)
    (hP : ∀ a, onlyTokenFault (g.Pos a)) :
    ∀ c : LocationExpressionContext, c.calleesPresent = true → onlyTokenFault (g.visitLocationExpression c)
  | .elementAccess a l i, hc => by
    simp only [LocationExpressionContext.calleesPresent, Bool.and_eq_true, Bool.or_eq_true] at hc
    simp only [visitLocationExpression]
    refine onlyTokenFault_bind (visitLocationExpression_onlyTokenFault g hP l (by tauto))
      (fun x1 hx1 => ?_)
    refine onlyTokenFault_bind (hP a) (fun pos _ => ?_)
    refine onlyTokenFault_bind (visitExpression_onlyTokenFault g hP i (by tauto))
      (fun x2 hx2 => ?_)
    exact onlyTokenFault_pure _
  | .fieldAccess a l f, hc => by
    simp only [LocationExpressionContext.calleesPresent, Bool.and_eq_true, Bool.or_eq_true] at hc
    simp only [visitLocationExpression]
    refine onlyTokenFault_bind (visitLocationExpression_onlyTokenFault g hP l (by tauto))
      (fun x1 hx1 => ?_)
    refine onlyTokenFault_bind (hP a) (fun pos _ => ?_)
    exact onlyTokenFault_pure _
  | .identifier a n, hc => by
    simp only [LocationExpressionContext.calleesPresent, Bool.and_eq_true, Bool.or_eq_true] at hc
    simp only [visitLocationExpression]
    refine onlyTokenFault_bind (hP a) (fun pos _ => ?_)
    exact onlyTokenFault_pure _
theorem visitPrimaryExpression_onlyTokenFault (g : AstGenerator)
    (hP : ∀ a, onlyTokenFault (g.Pos a)) :
    ∀ c : PrimaryExpressionContext, c.calleesPresent = true → onlyTokenFault (g.visitPrimaryExpression c)
  | .helperCall c, hc => by
    simp only [PrimaryExpressionContext.calleesPresent] at hc
    simp only [visitPrimaryExpression]
    exact visitHelperCall_onlyTokenFault g hP c hc
  | .decimalLiteral a t, hc => by
    simp only [PrimaryExpressionContext.calleesPresent, Bool.and_eq_true, Bool.or_eq_true] at hc
    simp only [visitPrimaryExpression]
    refine onlyTokenFault_bind (hP a) (fun pos _ => ?_)
    exact onlyTokenFault_pure _
  | .stringLiteral a t, hc => by
    simp only [PrimaryExpressionContext.calleesPresent, Bool.and_eq_true, Bool.or_eq_true] at hc
    simp only [visitPrimaryExpression]
    refine onlyTokenFault_bind (hP a) (fun pos _ => ?_)
    exact onlyTokenFault_pure _
  | .convert a t c, hc => by
    simp only [PrimaryExpressionContext.calleesPresent, Bool.and_eq_true, Bool.or_eq_true] at hc
    simp only [visitPrimaryExpression]
    refine onlyTokenFault_bind (hP a) (fun pos _ => ?_)
    refine onlyTokenFault_bind (visitExpression_onlyTokenFault g hP c (by tauto))
      (fun x1 hx1 => ?_)
    exact onlyTokenFault_pure _
  | .cast a t i c, hc => by
    simp only [PrimaryExpressionContext.calleesPresent, Bool.and_eq_true, Bool.or_eq_true] at hc
    simp only [visitPrimaryExpression]
    refine onlyTokenFault_bind (hP a) (fun pos _ => ?_)
    refine onlyTokenFault_bind (visitExpression_onlyTokenFault g hP c (by tauto))
      (fun x1 hx1 => ?_)
    exact onlyTokenFault_pure _
  | .parenthesized c, hc => by
    simp only [PrimaryExpressionContext.calleesPresent] at hc
    simp only [visitPrimaryExpression]
    exact visitExpression_onlyTokenFault g hP c hc
theorem visitHelperCall_onlyTokenFault (g : AstGenerator)
    (hP : ∀ a, onlyTokenFault (g.Pos a)) :
    ∀ c : HelperCallContext, c.calleesPresent = true → onlyTokenFault (g.visitHelperCall c)
  | .mk a mn mx i (.mk args) oo, hc => by
    simp only [HelperCallContext.calleesPresent, Bool.and_eq_true, Bool.or_eq_true] at hc
    obtain ⟨callee, hcallee⟩ : ∃ t, helperCallCallee mn mx i = some t := by
      apply Option.isSome_iff_exists.mp
      unfold helperCallCallee
      rcases hc.1 with (h | h) | h <;> cases mn <;> cases mx <;> cases i <;> simp_all
    simp only [visitHelperCall]
    refine onlyTokenFault_bind (hP a) (fun pos _ => ?_)
    simp only [hcallee]
    refine onlyTokenFault_bind (onlyTokenFault_ok _) (fun callee' _ => ?_)
    refine onlyTokenFault_bind (visitArguments_onlyTokenFault g hP args (by tauto))
      (fun x1 hx1 => ?_)
    exact onlyTokenFault_pure _
theorem visitArguments_onlyTokenFault (g : AstGenerator)
    (hP : ∀ a, onlyTokenFault (g.Pos a)) :
    ∀ c : List ArgumentContext, ArgumentContext.calleesPresentList c = true → onlyTokenFault (g.visitArguments c)
  | [], hc => by
    exact onlyTokenFault_pure _
  | c :: cs, hc => by
    simp only [ArgumentContext.calleesPresentList, Bool.and_eq_true, Bool.or_eq_true] at hc
    simp only [visitArguments]
    refine onlyTokenFault_bind (visitArgument_onlyTokenFault g hP c (by tauto))
      (fun x1 hx1 => ?_)
    refine onlyTokenFault_bind (visitArguments_onlyTokenFault g hP cs (by tauto))
      (fun x2 hx2 => ?_)
    exact onlyTokenFault_pure _
theorem visitArgument_onlyTokenFault (g : AstGenerator)
    (hP : ∀ a, onlyTokenFault (g.Pos a)) :
    ∀ c : ArgumentContext, c.calleesPresent = true → onlyTokenFault (g.visitArgument c)
  | .mk c, hc => by
    simp only [ArgumentContext.calleesPresent] at hc
    simp only [visitArgument]
    exact visitExpression_onlyTokenFault g hP c hc
end

theorem visitRangeBound_onlyTokenFault (g : AstGenerator)
    (hP : ∀ a, onlyTokenFault (g.Pos a)) (c : Option ExpressionContext)
    (hc : ExpressionContext.calleesPresentOption c = true) :
    onlyTokenFault (g.visitRangeBound c) := by
  cases c with
  | none => exact onlyTokenFault_pure _
  | some e =>
    simp only [visitRangeBound]
    refine onlyTokenFault_bind (visitExpression_onlyTokenFault g hP e hc) (fun x _ => ?_)
    exact onlyTokenFault_pure _

theorem visitVariableDeclaration_onlyTokenFault (g : AstGenerator)
    (hP : ∀ a, onlyTokenFault (g.Pos a)) (c : VariableDeclarationContext) :
    onlyTokenFault (g.visitVariableDeclaration c) := by
  unfold visitVariableDeclaration
  refine onlyTokenFault_bind (hP _) (fun pos _ => ?_)
  exact onlyTokenFault_pure _

theorem visitVariableDeclarationWithInitialization_onlyTokenFault (g : AstGenerator)
    (hP : ∀ a, onlyTokenFault (g.Pos a))
    (w : VariableDeclarationWithInitializationContext)
    (hc : ExpressionContext.calleesPresentOption w.expression = true) :
    onlyTokenFault (g.visitVariableDeclarationWithInitialization w) := by
  unfold visitVariableDeclarationWithInitialization
  refine onlyTokenFault_bind (visitVariableDeclaration_onlyTokenFault g hP _) (fun d _ => ?_)
  refine onlyTokenFault_bind (onlyTokenFault_ok _) (fun result _ => ?_)
  refine onlyTokenFault_bind (hP _) (fun pos _ => ?_)
  cases he : w.expression with
  | none => exact onlyTokenFault_pure _
  | some e =>
    rw [he] at hc
    refine onlyTokenFault_bind (visitExpression_onlyTokenFault g hP e hc) (fun x _ => ?_)
    exact onlyTokenFault_pure _

theorem visitVariableDeclarationWithInitialization_isVar (g : AstGenerator)
    (w : VariableDeclarationWithInitializationContext) (s : Statement)
    (h : g.visitVariableDeclarationWithInitialization w = .ok s) :
    ∃ d, s = .VarDeclarationStatement d := by
  obtain ⟨inner, pos, init, _, _, _, rfl⟩ :=
    (visitVariableDeclarationWithInitialization_eq_ok g w s).mp h
  exact ⟨_, rfl⟩

theorem visitHelperCallStatement_onlyTokenFault (g : AstGenerator)
    (hP : ∀ a, onlyTokenFault (g.Pos a)) (c : HelperCallStatementContext)
    (hc : c.helperCall.calleesPresent = true) :
    onlyTokenFault (g.visitHelperCallStatement c) := by
  unfold visitHelperCallStatement
  split_ifs
  · refine onlyTokenFault_bind (hP _) (fun pos _ => ?_)
    refine onlyTokenFault_bind (visitHelperCall_onlyTokenFault g hP _ hc) (fun e he => ?_)
    refine onlyTokenFault_bind (onlyTokenFault_of_ok
      ((CallExpression_cast_eq_ok e e).mpr ⟨rfl, visitHelperCall_isCall g _ e he⟩))
      (fun call _ => ?_)
    exact onlyTokenFault_pure _
  · refine onlyTokenFault_bind (hP _) (fun pos _ => ?_)
    refine onlyTokenFault_bind (visitHelperCall_onlyTokenFault g hP _ hc) (fun e _ => ?_)
    exact onlyTokenFault_pure _

theorem visitGotoStatement_onlyTokenFault (g : AstGenerator)
    (hP : ∀ a, onlyTokenFault (g.Pos a)) (c : GotoStatementContext)
    (hc : c.calleesPresent = true) : onlyTokenFault (g.visitGotoStatement c) := by
  unfold GotoStatementContext.calleesPresent at hc
  unfold visitGotoStatement
  refine onlyTokenFault_bind (hP _) (fun pos _ => ?_)
  cases hl : c.argumentList with
  | none => exact onlyTokenFault_pure _
  | some l =>
    simp only [hl] at hc
    refine onlyTokenFault_bind (visitArguments_onlyTokenFault g hP _ hc) (fun es _ => ?_)
    exact onlyTokenFault_pure _

theorem visitForInitialization_onlyTokenFault (g : AstGenerator)
    (hP : ∀ a, onlyTokenFault (g.Pos a)) (c : ForInitializationContext)
    (hc : c.calleesPresent = true) : onlyTokenFault (g.visitForInitialization c) := by
  unfold ForInitializationContext.calleesPresent at hc
  unfold visitForInitialization
  cases hw : c.variableDeclarationWithInitialization with
  | none => exact onlyTokenFault_pure _
  | some w =>
    simp only [hw] at hc
    refine onlyTokenFault_bind
      (visitVariableDeclarationWithInitialization_onlyTokenFault g hP w hc) (fun s hs => ?_)
    obtain ⟨d, rfl⟩ := visitVariableDeclarationWithInitialization_isVar g w s hs
    refine onlyTokenFault_bind (onlyTokenFault_ok _) (fun d' _ => ?_)
    exact onlyTokenFault_pure _

theorem visitForOfRange_onlyTokenFault (g : AstGenerator)
    (hP : ∀ a, onlyTokenFault (g.Pos a)) (c : ForOfRangeContext)
    (hc : c.calleesPresent = true) : onlyTokenFault (g.visitForOfRange c) := by
  unfold ForOfRangeContext.calleesPresent at hc
  unfold visitForOfRange
  cases hr : c.rangeSpecifier with
  | none => exact onlyTokenFault_pure _
  | some range =>
    simp only [hr, Bool.and_eq_true] at hc
    refine onlyTokenFault_bind (visitRangeBound_onlyTokenFault g hP _ hc.1) (fun b _ => ?_)
    refine onlyTokenFault_bind (visitRangeBound_onlyTokenFault g hP _ hc.2) (fun e _ => ?_)
    exact onlyTokenFault_pure _

mutual
theorem visitStatement_onlyTokenFault (g : AstGenerator)
    (hP : ∀ a, onlyTokenFault (g.Pos a)) :
    ∀ c : StatementContext, c.calleesPresent = true → onlyTokenFault (g.visitStatement c)
  | .variableDeclarationWithInitialization c, hc => by
    simp only [StatementContext.calleesPresent] at hc
    simp only [visitStatement]
    exact visitVariableDeclarationWithInitialization_onlyTokenFault g hP c hc
  | .helperCallStatement c, hc => by
    simp only [StatementContext.calleesPresent] at hc
    simp only [visitStatement]
    exact visitHelperCallStatement_onlyTokenFault g hP c hc
  | .expressionStatement c, hc => by
    simp only [StatementContext.calleesPresent] at hc
    simp only [visitStatement, visitExpressionStatement]
    refine onlyTokenFault_bind (hP _) (fun pos _ => ?_)
    refine onlyTokenFault_bind (visitAssignment_onlyTokenFault g hP _ hc) (fun e _ => ?_)
    exact onlyTokenFault_pure _
  | .returnStatement c, hc => by
    simp only [StatementContext.calleesPresent] at hc
    simp only [visitStatement, visitReturnStatement]
    refine onlyTokenFault_bind (hP _) (fun pos _ => ?_)
    refine onlyTokenFault_bind (visitExpression_onlyTokenFault g hP _ hc) (fun e _ => ?_)
    exact onlyTokenFault_pure _
  | .breakStatement c, _ => by
    simp only [visitStatement, visitBreakStatement]
    refine onlyTokenFault_bind (hP _) (fun pos _ => ?_)
    exact onlyTokenFault_pure _
  | .continueStatement c, _ => by
    simp only [visitStatement, visitContinueStatement]
    refine onlyTokenFault_bind (hP _) (fun pos _ => ?_)
    exact onlyTokenFault_pure _
  | .gotoStatement c, hc => by
    simp only [StatementContext.calleesPresent] at hc
    simp only [visitStatement]
    exact visitGotoStatement_onlyTokenFault g hP c hc
  | .ifStatement c, hc => by
    simp only [StatementContext.calleesPresent] at hc
    simp only [visitStatement]
    exact visitIfStatement_onlyTokenFault g hP c hc
  | .whileLoop c, hc => by
    simp only [StatementContext.calleesPresent] at hc
    simp only [visitStatement]
    exact visitWhileLoop_onlyTokenFault g hP c hc
  | .forOfLoop c, hc => by
    simp only [StatementContext.calleesPresent] at hc
    simp only [visitStatement]
    exact visitForOfLoop_onlyTokenFault g hP c hc
  | .forLoop c, hc => by
    simp only [StatementContext.calleesPresent] at hc
    simp only [visitStatement]
    exact visitForLoop_onlyTokenFault g hP c hc
  | .tryCatch c, hc => by
    simp only [StatementContext.calleesPresent] at hc
    simp only [visitStatement]
    exact visitTryCatch_onlyTokenFault g hP c hc
theorem visitStatements_onlyTokenFault (g : AstGenerator)
    (hP : ∀ a, onlyTokenFault (g.Pos a)) :
    ∀ c : List StatementContext, StatementContext.calleesPresentList c = true →
      onlyTokenFault (g.visitStatements c)
  | [], _ => onlyTokenFault_pure _
  | c :: cs, hc => by
    simp only [StatementContext.calleesPresentList, Bool.and_eq_true] at hc
    simp only [visitStatements]
    refine onlyTokenFault_bind (visitStatement_onlyTokenFault g hP c hc.1) (fun s _ => ?_)
    refine onlyTokenFault_bind (visitStatements_onlyTokenFault g hP cs hc.2) (fun ss _ => ?_)
    exact onlyTokenFault_pure _
theorem visitStatementScope_onlyTokenFault (g : AstGenerator)
    (hP : ∀ a, onlyTokenFault (g.Pos a)) :
    ∀ c : StatementScopeContext, c.calleesPresent = true →
      onlyTokenFault (g.visitStatementScope c)
  | .mk a d (.mk cs), hc => by
    simp only [StatementScopeContext.calleesPresent] at hc
    simp only [visitStatementScope]
    refine onlyTokenFault_bind (hP _) (fun pos _ => ?_)
    refine onlyTokenFault_bind (visitStatements_onlyTokenFault g hP cs hc) (fun ss _ => ?_)
    exact onlyTokenFault_pure _
theorem visitStatementBlock_onlyTokenFault (g : AstGenerator)
    (hP : ∀ a, onlyTokenFault (g.Pos a)) :
    ∀ c : StatementBlockContext, c.calleesPresent = true →
      onlyTokenFault (g.visitStatementBlock c)
  | .statement a c, hc => by
    simp only [StatementBlockContext.calleesPresent] at hc
    simp only [visitStatementBlock]
    exact visitStatement_onlyTokenFault g hP c hc
  | .statementScope a c, hc => by
    simp only [StatementBlockContext.calleesPresent] at hc
    simp only [visitStatementBlock]
    exact visitStatementScope_onlyTokenFault g hP c hc
theorem visitIfStatement_onlyTokenFault (g : AstGenerator)
    (hP : ∀ a, onlyTokenFault (g.Pos a)) :
    ∀ c : IfStatementContext, c.calleesPresent = true →
      onlyTokenFault (g.visitIfStatement c)
  | .mk a e b0 none, hc => by
    simp only [IfStatementContext.calleesPresent, Bool.and_eq_true] at hc
    simp only [visitIfStatement]
    refine onlyTokenFault_bind (hP _) (fun pos _ => ?_)
    refine onlyTokenFault_bind (visitExpression_onlyTokenFault g hP e hc.1) (fun x _ => ?_)
    refine onlyTokenFault_bind (visitStatementBlock_onlyTokenFault g hP b0 hc.2) (fun y _ => ?_)
    exact onlyTokenFault_pure _
  | .mk a e b0 (some b1), hc => by
    simp only [IfStatementContext.calleesPresent, Bool.and_eq_true] at hc
    simp only [visitIfStatement]
    refine onlyTokenFault_bind (hP _) (fun pos _ => ?_)
    refine onlyTokenFault_bind (visitExpression_onlyTokenFault g hP e hc.1.1) (fun x _ => ?_)
    refine onlyTokenFault_bind (visitStatementBlock_onlyTokenFault g hP b0 hc.1.2)
      (fun y _ => ?_)
    refine onlyTokenFault_bind (visitStatementBlock_onlyTokenFault g hP b1 hc.2) (fun z _ => ?_)
    exact onlyTokenFault_pure _
theorem visitWhileLoop_onlyTokenFault (g : AstGenerator)
    (hP : ∀ a, onlyTokenFault (g.Pos a)) :
    ∀ c : WhileLoopContext, c.calleesPresent = true → onlyTokenFault (g.visitWhileLoop c)
  | .mk a e b, hc => by
    simp only [WhileLoopContext.calleesPresent, Bool.and_eq_true] at hc
    simp only [visitWhileLoop]
    refine onlyTokenFault_bind (hP _) (fun pos _ => ?_)
    refine onlyTokenFault_bind (visitExpression_onlyTokenFault g hP e hc.1) (fun x _ => ?_)
    refine onlyTokenFault_bind (visitStatementBlock_onlyTokenFault g hP b hc.2) (fun y _ => ?_)
    exact onlyTokenFault_pure _
theorem visitForLoop_onlyTokenFault (g : AstGenerator)
    (hP : ∀ a, onlyTokenFault (g.Pos a)) :
    ∀ c : ForLoopContext, c.calleesPresent = true → onlyTokenFault (g.visitForLoop c)
  | .mk a i e st b, hc => by
    simp only [ForLoopContext.calleesPresent, Bool.and_eq_true] at hc
    simp only [visitForLoop]
    refine onlyTokenFault_bind (hP _) (fun pos _ => ?_)
    refine onlyTokenFault_bind (visitExpression_onlyTokenFault g hP e hc.1.1.2) (fun x _ => ?_)
    refine onlyTokenFault_bind (visitAssignment_onlyTokenFault g hP st hc.1.2) (fun y _ => ?_)
    refine onlyTokenFault_bind (visitStatementBlock_onlyTokenFault g hP b hc.2) (fun z _ => ?_)
    refine onlyTokenFault_bind (visitForInitialization_onlyTokenFault g hP i hc.1.1.1)
      (fun d _ => ?_)
    exact onlyTokenFault_pure _
theorem visitForOfLoop_onlyTokenFault (g : AstGenerator)
    (hP : ∀ a, onlyTokenFault (g.Pos a)) :
    ∀ c : ForOfLoopContext, c.calleesPresent = true → onlyTokenFault (g.visitForOfLoop c)
  | .mk a v e r b, hc => by
    simp only [ForOfLoopContext.calleesPresent, Bool.and_eq_true] at hc
    simp only [visitForOfLoop]
    refine onlyTokenFault_bind (hP _) (fun pos _ => ?_)
    refine onlyTokenFault_bind (visitVariableDeclaration_onlyTokenFault g hP v) (fun d _ => ?_)
    refine onlyTokenFault_bind (visitExpression_onlyTokenFault g hP e hc.1.1) (fun x _ => ?_)
    refine onlyTokenFault_bind (visitStatementBlock_onlyTokenFault g hP b hc.2) (fun y _ => ?_)
    refine onlyTokenFault_bind (visitForOfRange_onlyTokenFault g hP r hc.1.2) (fun rg _ => ?_)
    exact onlyTokenFault_pure _
theorem visitTryCatch_onlyTokenFault (g : AstGenerator)
    (hP : ∀ a, onlyTokenFault (g.Pos a)) :
    ∀ c : TryCatchContext, c.calleesPresent = true → onlyTokenFault (g.visitTryCatch c)
  | .mk a b hs, hc => by
    simp only [TryCatchContext.calleesPresent, Bool.and_eq_true] at hc
    simp only [visitTryCatch]
    refine onlyTokenFault_bind (hP _) (fun pos _ => ?_)
    refine onlyTokenFault_bind (visitStatementBlock_onlyTokenFault g hP b hc.1) (fun x _ => ?_)
    refine onlyTokenFault_bind (visitHandlers_onlyTokenFault g hP hs hc.2) (fun bs _ => ?_)
    exact onlyTokenFault_pure _
theorem visitHandlers_onlyTokenFault (g : AstGenerator)
    (hP : ∀ a, onlyTokenFault (g.Pos a)) :
    ∀ c : List HandlerWithStatementContext,
      HandlerWithStatementContext.calleesPresentList c = true →
      onlyTokenFault (g.visitHandlers c)
  | [], _ => onlyTokenFault_pure _
  | .catchHandler i b :: rest, hc => by
    simp only [HandlerWithStatementContext.calleesPresentList, Bool.and_eq_true] at hc
    simp only [visitHandlers]
    refine onlyTokenFault_bind (hP _) (fun pos _ => ?_)
    refine onlyTokenFault_bind (visitStatementBlock_onlyTokenFault g hP b hc.1) (fun x _ => ?_)
    refine onlyTokenFault_bind (visitHandlers_onlyTokenFault g hP rest hc.2) (fun bs _ => ?_)
    exact onlyTokenFault_pure _
  | .labelHandler l b :: rest, hc => by
    simp only [HandlerWithStatementContext.calleesPresentList, Bool.and_eq_true] at hc
    simp only [visitHandlers]
    refine onlyTokenFault_bind (hP _) (fun pos _ => ?_)
    refine onlyTokenFault_bind (visitStatementBlock_onlyTokenFault g hP b hc.1) (fun x _ => ?_)
    refine onlyTokenFault_bind (visitHandlers_onlyTokenFault g hP rest hc.2) (fun bs _ => ?_)
    exact onlyTokenFault_pure _
end

theorem StringLiteralUnquote_onlyTokenFault (s : String) (h : decodable s = true) :
    onlyTokenFault (StringLiteralUnquote s) := by
  obtain ⟨r, hr⟩ := StringLiteralUnquote_decodable s h
  exact onlyTokenFault_of_ok hr

theorem visitDeclaration_onlyTokenFault (g : AstGenerator)
    (hP : ∀ a, onlyTokenFault (g.Pos a)) (c : DeclarationContext)
    (hw : c.wellFormed = true) : onlyTokenFault (g.visitDeclaration c) := by
  cases c with
  | typeDeclaration c =>
    simp only [DeclarationContext.wellFormed] at hw
    simp only [visitDeclaration, visitTypeDeclaration]
    refine onlyTokenFault_bind (hP _) (fun pos _ => ?_)
    cases hg : c.generatesDeclaration with
    | none => exact onlyTokenFault_pure _
    | some generatesDeclaration =>
      simp only [hg] at hw
      refine onlyTokenFault_bind (StringLiteralUnquote_onlyTokenFault _ hw) (fun r _ => ?_)
      exact onlyTokenFault_pure _
  | builtinDeclaration c =>
    simp only [DeclarationContext.wellFormed] at hw
    simp only [visitDeclaration, visitBuiltinDeclaration, visitHelperBody]
    refine onlyTokenFault_bind (hP _) (fun pos _ => ?_)
    refine onlyTokenFault_bind (visitStatementScope_onlyTokenFault g hP _ hw) (fun b _ => ?_)
    exact onlyTokenFault_pure _
  | macroDeclaration c =>
    simp only [DeclarationContext.wellFormed] at hw
    simp only [visitDeclaration, visitMacroDeclaration, visitHelperBody]
    refine onlyTokenFault_bind (hP _) (fun pos _ => ?_)
    refine onlyTokenFault_bind (visitStatementScope_onlyTokenFault g hP _ hw) (fun b _ => ?_)
    exact onlyTokenFault_pure _
  | externalMacro c =>
    simp only [DeclarationContext.wellFormed] at hw
    simp only [visitDeclaration, visitExternalMacro]
    refine onlyTokenFault_bind (hP _) (fun pos _ => ?_)
    cases hg : c.STRING_LITERAL with
    | none => exact onlyTokenFault_pure _
    | some op =>
      simp only [hg] at hw
      refine onlyTokenFault_bind (StringLiteralUnquote_onlyTokenFault _ hw) (fun r _ => ?_)
      exact onlyTokenFault_pure _
  | externalBuiltin c =>
    simp only [visitDeclaration, visitExternalBuiltin]
    refine onlyTokenFault_bind (hP _) (fun pos _ => ?_)
    exact onlyTokenFault_pure _
  | externalRuntime c =>
    simp only [visitDeclaration, visitExternalRuntime]
    refine onlyTokenFault_bind (hP _) (fun pos _ => ?_)
    exact onlyTokenFault_pure _
  | constDeclaration c =>
    simp only [DeclarationContext.wellFormed] at hw
    simp only [visitDeclaration, visitConstDeclaration]
    refine onlyTokenFault_bind (hP _) (fun pos _ => ?_)
    refine onlyTokenFault_bind (StringLiteralUnquote_onlyTokenFault _ hw) (fun r _ => ?_)
    exact onlyTokenFault_pure _

theorem visitDeclarations_onlyTokenFault (g : AstGenerator)
    (hP : ∀ a, onlyTokenFault (g.Pos a)) :
    ∀ cs : List DeclarationContext, cs.all (·.wellFormed) = true →
      onlyTokenFault (g.visitDeclarations cs)
  | [], _ => onlyTokenFault_pure _
  | c :: cs, hw => by
    simp only [List.all_cons, Bool.and_eq_true] at hw
    simp only [visitDeclarations]
    refine onlyTokenFault_bind (visitDeclaration_onlyTokenFault g hP c hw.1) (fun d _ => ?_)
    refine onlyTokenFault_bind (visitDeclarations_onlyTokenFault g hP cs hw.2) (fun ds _ => ?_)
    exact onlyTokenFault_pure _

theorem visitFileChild_onlyTokenFault (g : AstGenerator)
    (hP : ∀ a, onlyTokenFault (g.Pos a)) (c : FileChildContext)
    (hw : c.wellFormed = true) : onlyTokenFault (g.visitFileChild c) := by
  cases c with
  | moduleDeclaration c =>
    simp only [FileChildContext.wellFormed] at hw
    simp only [visitFileChild, visitModuleDeclaration]
    refine onlyTokenFault_bind (hP _) (fun pos _ => ?_)
    refine onlyTokenFault_bind (visitDeclarations_onlyTokenFault g hP _ hw) (fun ds _ => ?_)
    exact onlyTokenFault_pure _
  | declaration c =>
    simp only [FileChildContext.wellFormed] at hw
    simp only [visitFileChild]
    exact visitDeclaration_onlyTokenFault g hP c hw

theorem visitSourceFile_loop_onlyTokenFault :
    ∀ (cs : List FileChildContext) (g : AstGenerator),
      (∀ a, onlyTokenFault (g.Pos a)) → cs.all (·.wellFormed) = true →
      onlyTokenFault (visitSourceFile.loop g cs)
  | [], g, _, _ => onlyTokenFault_pure g
  | c :: cs, g, hP, hw => by
    simp only [List.all_cons, Bool.and_eq_true] at hw
    simp only [visitSourceFile.loop]
    refine onlyTokenFault_bind (visitFileChild_onlyTokenFault g hP c hw.1) (fun d _ => ?_)
    exact visitSourceFile_loop_onlyTokenFault cs _ (fun a => hP a) hw.2

/-- On a well-formed parse tree, `visitSourceFile` can only stop at a token
lookup: no downcast fails, no absent callee is read, no escape is unknown and
every position is resolved while the file is the active one. -/
theorem visitSourceFile_onlyTokenFault (g : AstGenerator) (c : SourceFileContext)
    (hw : c.file.wellFormed = true) : onlyTokenFault (g.visitSourceFile c) := by
  have h := visitSourceFile_loop_onlyTokenFault c.file.children (enterSourceFile g c)
    (fun a => Pos_onlyTokenFault _ c rfl a) hw
  have h₂ : onlyTokenFault (visitSourceFile.loop
      { ast_ := (g.ast_.AddSource c.name).1
        current_source_file_ := (g.ast_.AddSource c.name).2
        source_file_context_ := some c } c.file.children) := h
  simp only [visitSourceFile]
  refine onlyTokenFault_bind h₂ (fun g₁ _ => ?_)
  exact onlyTokenFault_pure _

/-- A degenerate assignment expression is transformed as its primary expression. -/
theorem visitAssignmentExpression_of_primary (g : AstGenerator)
    (c : AssignmentExpressionContext) (p : PrimaryExpressionContext)
    (h : c.primary? = some p) : g.visitAssignmentExpression c = g.visitPrimaryExpression p := by
  cases c with
  | primaryExpression q =>
    simp only [AssignmentExpressionContext.primary?, Option.some.injEq] at h
    subst h
    simp only [visitAssignmentExpression]
  | assignment _ => simp [AssignmentExpressionContext.primary?] at h

theorem visitUnaryExpression_of_primary (g : AstGenerator)
    (c : UnaryExpressionContext) (p : PrimaryExpressionContext)
    (h : c.primary? = some p) : g.visitUnaryExpression c = g.visitPrimaryExpression p := by
  cases c with
  | assignmentExpression d =>
    simp only [UnaryExpressionContext.primary?] at h
    simp only [visitUnaryExpression]
    exact visitAssignmentExpression_of_primary g d p h
  | unary => simp [UnaryExpressionContext.primary?] at h

theorem visitMultiplicativeExpression_of_primary (g : AstGenerator)
    (c : MultiplicativeExpressionContext) (p : PrimaryExpressionContext)
    (h : c.primary? = some p) : g.visitMultiplicativeExpression c = g.visitPrimaryExpression p := by
  cases c with
  | single d =>
    simp only [MultiplicativeExpressionContext.primary?] at h
    simp only [visitMultiplicativeExpression]
    exact visitUnaryExpression_of_primary g d p h
  | binary => simp [MultiplicativeExpressionContext.primary?] at h

theorem visitAdditiveExpression_of_primary (g : AstGenerator)
    (c : AdditiveExpressionContext) (p : PrimaryExpressionContext)
    (h : c.primary? = some p) : g.visitAdditiveExpression c = g.visitPrimaryExpression p := by
  cases c with
  | single d =>
    simp only [AdditiveExpressionContext.primary?] at h
    simp only [visitAdditiveExpression]
    exact visitMultiplicativeExpression_of_primary g d p h
  | binary => simp [AdditiveExpressionContext.primary?] at h

theorem visitShiftExpression_of_primary (g : AstGenerator)
    (c : ShiftExpressionContext) (p : PrimaryExpressionContext)
    (h : c.primary? = some p) : g.visitShiftExpression c = g.visitPrimaryExpression p := by
  cases c with
  | single d =>
    simp only [ShiftExpressionContext.primary?] at h
    simp only [visitShiftExpression]
    exact visitAdditiveExpression_of_primary g d p h
  | binary => simp [ShiftExpressionContext.primary?] at h

theorem visitRelationalExpression_of_primary (g : AstGenerator)
    (c : RelationalExpressionContext) (p : PrimaryExpressionContext)
    (h : c.primary? = some p) : g.visitRelationalExpression c = g.visitPrimaryExpression p := by
  cases c with
  | single d =>
    simp only [RelationalExpressionContext.primary?] at h
    simp only [visitRelationalExpression]
    exact visitShiftExpression_of_primary g d p h
  | binary => simp [RelationalExpressionContext.primary?] at h

theorem visitEqualityExpression_of_primary (g : AstGenerator)
    (c : EqualityExpressionContext) (p : PrimaryExpressionContext)
    (h : c.primary? = some p) : g.visitEqualityExpression c = g.visitPrimaryExpression p := by
  cases c with
  | single d =>
    simp only [EqualityExpressionContext.primary?] at h
    simp only [visitEqualityExpression]
    exact visitRelationalExpression_of_primary g d p h
  | binary => simp [EqualityExpressionContext.primary?] at h

theorem visitBitwiseExpression_of_primary (g : AstGenerator)
    (c : BitwiseExpressionContext) (p : PrimaryExpressionContext)
    (h : c.primary? = some p) : g.visitBitwiseExpression c = g.visitPrimaryExpression p := by
  cases c with
  | single d =>
    simp only [BitwiseExpressionContext.primary?] at h
    simp only [visitBitwiseExpression]
    exact visitEqualityExpression_of_primary g d p h
  | binary => simp [BitwiseExpressionContext.primary?] at h

theorem visitLogicalANDExpression_of_primary (g : AstGenerator)
    (c : LogicalANDExpressionContext) (p : PrimaryExpressionContext)
    (h : c.primary? = some p) : g.visitLogicalANDExpression c = g.visitPrimaryExpression p := by
  cases c with
  | single d =>
    simp only [LogicalANDExpressionContext.primary?] at h
    simp only [visitLogicalANDExpression]
    exact visitBitwiseExpression_of_primary g d p h
  | binary => simp [LogicalANDExpressionContext.primary?] at h

theorem visitLogicalORExpression_of_primary (g : AstGenerator)
    (c : LogicalORExpressionContext) (p : PrimaryExpressionContext)
    (h : c.primary? = some p) : g.visitLogicalORExpression c = g.visitPrimaryExpression p := by
  cases c with
  | single d =>
    simp only [LogicalORExpressionContext.primary?] at h
    simp only [visitLogicalORExpression]
    exact visitLogicalANDExpression_of_primary g d p h
  | binary => simp [LogicalORExpressionContext.primary?] at h

theorem visitConditionalExpression_of_primary (g : AstGenerator)
    (c : ConditionalExpressionContext) (p : PrimaryExpressionContext)
    (h : c.primary? = some p) : g.visitConditionalExpression c = g.visitPrimaryExpression p := by
  cases c with
  | single d =>
    simp only [ConditionalExpressionContext.primary?] at h
    simp only [visitConditionalExpression]
    exact visitLogicalORExpression_of_primary g d p h
  | ternary => simp [ConditionalExpressionContext.primary?] at h

/-- An expression that is a degenerate chain down to a primary expression is
transformed as that primary expression. -/
theorem visitExpression_of_primary (g : AstGenerator) (e : ExpressionContext)
    (p : PrimaryExpressionContext) (h : e.primary? = some p) :
    g.visitExpression e = g.visitPrimaryExpression p := by
  cases e with
  | mk c =>
    simp only [ExpressionContext.primary?] at h
    simp only [visitExpression]
    exact visitConditionalExpression_of_primary g c p h

theorem visitExpression_ofPrimary (g : AstGenerator) (p : PrimaryExpressionContext) :
    g.visitExpression (.ofPrimary p) = g.visitPrimaryExpression p :=
  visitExpression_of_primary g (.ofPrimary p) p rfl

theorem size_t_pred_of_pos (n : Nat) (h : n < 2 ^ 64) (hn : 0 < n) : size_t_pred n = n - 1 := by
  unfold size_t_pred
  omega

theorem substr_withoutLast (t : String) (h : t.length < 2 ^ 64) :
    substr t 0 (size_t_pred t.length) = withoutLast t := by
  have key : (t.data.drop 0).take (size_t_pred t.length) = t.data.dropLast := by
    rw [List.drop_zero, List.dropLast_eq_take]
    by_cases hn : 0 < t.length
    · rw [size_t_pred_of_pos _ h hn]
      rfl
    · have h0 : t.data.length = 0 := by
        have hl : t.length = t.data.length := rfl
        omega
      have hnil : t.data = [] := List.length_eq_zero.mp h0
      simp [hnil]
  unfold substr withoutLast
  rw [key]

theorem withoutLast_append_last (t : String) (c : Char) (h : t.data.getLast? = some c) :
    withoutLast t ++ String.mk [c] = t := by
  unfold withoutLast
  have hd : t.data.dropLast ++ [c] = t.data := by
    have hne : t.data ≠ [] := by
      intro hn
      rw [hn] at h
      simp at h
    rw [List.getLast?_eq_getLast _ hne] at h
    simp only [Option.some.injEq] at h
    rw [← h]
    exact List.dropLast_append_getLast hne
  apply String.ext
  simp only [String.data_append]
  exact hd

/-- A position resolution never ends in the fault of an unknown escape. -/
theorem Pos_ne_unreachable (g : AstGenerator) (a : Nat) : g.Pos a ≠ .error .unreachable := by
  unfold Pos
  cases g.source_file_context_ with
  | none => simp
  | some context =>
    simp only
    cases context.tokens[a]? with
    | none => simp
    | some token => simp

/-! ## The literal decoder: claims -/

/-- C1. Round trip of `StringLiteralUnquote`: for every payload `p` and each of the
two quote characters `q`, decoding `q ++ esc p ++ q` returns exactly `p` (an
`Except.ok`, so the fatal path is not taken). -/
theorem StringLiteralUnquote_esc_roundtrip (p : String) :
    StringLiteralUnquote (String.mk (squote :: (esc p.data ++ [squote]))) = .ok p ∧
    StringLiteralUnquote (String.mk (dquote :: (esc p.data ++ [dquote]))) = .ok p := by
  constructor
  · rw [StringLiteralUnquote_cons _ _ _ (Or.inr rfl) (Or.inr rfl), unquoteSuffix_esc]; rfl
  · rw [StringLiteralUnquote_cons _ _ _ (Or.inl rfl) (Or.inl rfl), unquoteSuffix_esc]; rfl

/-- C2. For every string of length at least two whose first and last characters
are quote characters and which contains no backslash, `StringLiteralUnquote`
returns the string with exactly its first and last character removed. -/
theorem StringLiteralUnquote_no_backslash (s : String) (hlen : 2 ≤ s.length)
    (hq : quoteDelimited s) (hbs : backslash ∉ s.data) :
    StringLiteralUnquote s = .ok (String.mk ((s.data.drop 1).dropLast)) := by
  obtain ⟨f, l, hf, hl, hs⟩ := quoteDelimited_split s hq hlen
  have hp : backslash ∉ payload s := by
    intro h
    exact hbs (List.mem_of_mem_drop (List.mem_of_mem_dropLast h))
  have h1 := StringLiteralUnquote_cons f (payload s) l hf hl
  rw [← hs, unquoteSuffix_plain _ _ hp] at h1
  exact h1

theorem StringLiteralUnquote_no_backslash_witness :
    StringLiteralUnquote (String.mk [dquote, 'a', 'b', dquote])
      = .ok (String.mk (((String.mk [dquote, 'a', 'b', dquote]).data.drop 1).dropLast)) :=
  StringLiteralUnquote_no_backslash (String.mk [dquote, 'a', 'b', dquote])
    (by decide) (by decide) (by decide)

/-- C3, as stated, fails: the literal `"\\x"` is quote-delimited, has length five,
its payload contains a backslash followed by `x`, and yet `StringLiteralUnquote`
returns the two characters backslash, `x` instead of taking the fatal path. -/
theorem StringLiteralUnquote_escaped_backslash_not_fatal :
    quoteDelimited escapedBackslashLiteral ∧ 2 ≤ escapedBackslashLiteral.length ∧
    backslashBeforeUnrecognised (payload escapedBackslashLiteral) = true ∧
    StringLiteralUnquote escapedBackslashLiteral = .ok (String.mk [backslash, 'x']) := by
  exact ⟨by decide, by decide, by decide, rfl⟩

/-- The suffix view fails exactly when a well-escaped prefix of the payload is
followed by a backslash and an unrecognised character. -/
theorem unquoteSuffix_unreachable_iff (l : Char) (hl : recognised l = true) :
    ∀ (n : Nat) (t : List Char), t.length ≤ n →
      (unquoteSuffix (t ++ [l]) = .error .unreachable ↔
        ∃ pre c post, t = pre ++ backslash :: c :: post ∧ wellEscaped pre = true ∧
          recognised c = false) := by
  intro n
  induction n with
  | zero =>
    intro t ht
    have : t = [] := List.length_eq_zero.mp (Nat.le_zero.mp ht)
    subst this
    simp [unquoteSuffix]
  | succ n ih =>
    intro t ht
    match t, ht with
    | [], _ => simp [unquoteSuffix]
    | [c], _ =>
      have hne : ∀ (pre : List Char) (c' : Char) (post : List Char),
          [c] ≠ pre ++ backslash :: c' :: post := by
        intro pre c' post h
        have := congrArg List.length h
        simp at this
        omega
      have hl2 := (recognised_iff l).mp hl
      constructor
      · intro h
        exfalso
        simp only [List.singleton_append, unquoteSuffix] at h
        split_ifs at h <;> (exfalso; tauto)
      · rintro ⟨pre, c', post, h, _⟩
        exact absurd h (hne pre c' post)
    | c :: d :: r, ht =>
      have hr : r.length ≤ n := by simp only [List.length_cons] at ht; omega
      have hdr : (d :: r).length ≤ n := by simp only [List.length_cons] at ht ⊢; omega
      rw [List.cons_append, List.cons_append, unquoteSuffix]
      by_cases hc : c = backslash
      · subst hc
        rw [if_pos rfl]
        by_cases hd : recognised d = true
        · have hd2 := (recognised_iff d).mp hd
          have key : (unquoteSuffix (r ++ [l]) = .error .unreachable) ↔
              ∃ pre c post, backslash :: d :: r = pre ++ backslash :: c :: post ∧
                wellEscaped pre = true ∧ recognised c = false := by
            rw [ih r hr]
            constructor
            · rintro ⟨pre, c', post, h, hw, hc'⟩
              exact ⟨backslash :: d :: pre, c', post, by simp [h], by
                simp [wellEscaped, hd, hw], hc'⟩
            · rintro ⟨pre, c', post, h, hw, hc'⟩
              match pre, h, hw with
              | [], h, _ =>
                simp only [List.nil_append, List.cons.injEq, true_and] at h
                rw [← h.1, hd] at hc'
                cases hc'
              | [x], h, hw =>
                simp only [List.singleton_append, List.cons.injEq] at h
                rw [← h.1] at hw
                simp [wellEscaped] at hw
              | x :: y :: pre', h, hw =>
                simp only [List.cons_append, List.cons.injEq] at h
                obtain ⟨hx, hy, hrest⟩ := h
                subst hx hy
                simp only [wellEscaped, if_true, Bool.and_eq_true] at hw
                exact ⟨pre', c', post, hrest, hw.2, hc'⟩
          split_ifs with h1 h2 h3 h4
          · rw [Except.map_eq_error_iff]; exact key
          · rw [Except.map_eq_error_iff]; exact key
          · rw [Except.map_eq_error_iff]; exact key
          · rw [Except.map_eq_error_iff]; exact key
          · exfalso; tauto
        · have hd2 : ¬(d = 'n' ∨ d = 'r' ∨ d = 't' ∨ d = squote ∨ d = dquote ∨
              d = backslash) := fun h => hd ((recognised_iff d).mpr h)
          have hd3 : recognised d = false := by simpa using hd
          split_ifs with h1 h2 h3 h4
          · exfalso; tauto
          · exfalso; tauto
          · exfalso; tauto
          · exfalso; tauto
          · simp only [true_iff]
            exact ⟨[], d, r, rfl, rfl, hd3⟩
      · rw [if_neg hc, Except.map_eq_error_iff, ← List.cons_append, ih (d :: r) hdr]
        have hw : ∀ p : List Char, wellEscaped (c :: p) = wellEscaped p := by
          intro p
          cases p with
          | nil => simp [wellEscaped, hc]
          | cons y p => simp [wellEscaped, hc]
        constructor
        · rintro ⟨pre, c', post, h, hw', hc'⟩
          exact ⟨c :: pre, c', post, by simp [h], by rw [hw]; exact hw', hc'⟩
        · rintro ⟨pre, c', post, h, hw', hc'⟩
          match pre, h, hw' with
          | [], h, _ =>
            simp only [List.nil_append, List.cons.injEq] at h
            exact absurd h.1 hc
          | x :: pre', h, hw' =>
            simp only [List.cons_append, List.cons.injEq] at h
            obtain ⟨hx, hrest⟩ := h
            subst hx
            rw [hw] at hw'
            exact ⟨pre', c', post, hrest, hw', hc'⟩

/-- C3, amended. For every quote-delimited string of length at least two,
`StringLiteralUnquote` takes the fatal path (`UNREACHABLE`) if and only if the
payload is a well-escaped text (every backslash in it starting a recognised
two-character escape), then a backslash, then a character other than `n`, `r`,
`t`, the two quotes and the backslash, then anything. -/
theorem StringLiteralUnquote_unreachable_iff (s : String) (hlen : 2 ≤ s.length)
    (hq : quoteDelimited s) :
    StringLiteralUnquote s = .error .unreachable ↔
      ∃ pre c post, payload s = pre ++ backslash :: c :: post ∧
        wellEscaped pre = true ∧ recognised c = false := by
  obtain ⟨f, l, hf, hl, hs⟩ := quoteDelimited_split s hq hlen
  have h1 := StringLiteralUnquote_cons f (payload s) l hf hl
  rw [← hs] at h1
  have hl2 : recognised l = true := by
    rcases hl with h | h <;> subst h <;> decide
  rw [h1, Except.map_eq_error_iff]
  exact unquoteSuffix_unreachable_iff l hl2 _ _ (Nat.le_refl _)

theorem StringLiteralUnquote_unreachable_iff_witness :
    StringLiteralUnquote (String.mk [dquote, backslash, 'x', dquote])
        = .error .unreachable ↔
      ∃ pre c post, payload (String.mk [dquote, backslash, 'x', dquote])
          = pre ++ backslash :: c :: post ∧
        wellEscaped pre = true ∧ recognised c = false :=
  StringLiteralUnquote_unreachable_iff (String.mk [dquote, backslash, 'x', dquote])
    (by decide) (by decide)

/-! ## The expression transform: claims -/

/-- C4. Binary-operator tier rule: in each of the six tiers (multiplicative,
additive, shift, relational, equality, bitwise) the transform of a node with a
left operand is the call whose callee is the text of the operator token, whose
`is_operator` flag is true, whose arguments are the transform of the left operand
and then that of the right operand, and whose label list is empty; and the parse
tree of `1 + 2 * 3` yields the call of `+` on the literal `1` and the call of `*`
on the literals `2` and `3`. -/
theorem binary_tier_rule :
    (∀ (g : AstGenerator) a left op right,
      isOperatorCall (g.Pos a) op (g.visitMultiplicativeExpression left)
        (g.visitUnaryExpression right)
        (g.visitMultiplicativeExpression (.binary a left op right))) ∧
    (∀ (g : AstGenerator) a left op right,
      isOperatorCall (g.Pos a) op (g.visitAdditiveExpression left)
        (g.visitMultiplicativeExpression right)
        (g.visitAdditiveExpression (.binary a left op right))) ∧
    (∀ (g : AstGenerator) a left op right,
      isOperatorCall (g.Pos a) op (g.visitShiftExpression left)
        (g.visitAdditiveExpression right)
        (g.visitShiftExpression (.binary a left op right))) ∧
    (∀ (g : AstGenerator) a left op right,
      isOperatorCall (g.Pos a) op (g.visitRelationalExpression left)
        (g.visitShiftExpression right)
        (g.visitRelationalExpression (.binary a left op right))) ∧
    (∀ (g : AstGenerator) a left op right,
      isOperatorCall (g.Pos a) op (g.visitEqualityExpression left)
        (g.visitRelationalExpression right)
        (g.visitEqualityExpression (.binary a left op right))) ∧
    (∀ (g : AstGenerator) a left op right,
      isOperatorCall (g.Pos a) op (g.visitBitwiseExpression left)
        (g.visitEqualityExpression right)
        (g.visitBitwiseExpression (.binary a left op right))) ∧
    (generatorWithTokens (tokensOnLineOne 5)).visitExpression onePlusTwoTimesThree =
      .ok (.CallExpression (lineOne 0) "+" true
        [ .NumberLiteralExpression (lineOne 0) "1",
          .CallExpression (lineOne 4) "*" true
            [ .NumberLiteralExpression (lineOne 4) "2",
              .NumberLiteralExpression (lineOne 8) "3" ] [] ] []) := by
  refine ⟨?_, ?_, ?_, ?_, ?_, ?_, rfl⟩
  · intro g a left op right e
    simp only [visitMultiplicativeExpression, bind_eq_ok, pure_eq_ok]
    constructor
    · rintro ⟨p, hp, l, hl, r, hr, rfl⟩; exact ⟨p, l, r, hp, hl, hr, rfl⟩
    · rintro ⟨p, l, r, hp, hl, hr, rfl⟩; exact ⟨p, hp, l, hl, r, hr, rfl⟩
  · intro g a left op right e
    simp only [visitAdditiveExpression, bind_eq_ok, pure_eq_ok]
    constructor
    · rintro ⟨p, hp, l, hl, r, hr, rfl⟩; exact ⟨p, l, r, hp, hl, hr, rfl⟩
    · rintro ⟨p, l, r, hp, hl, hr, rfl⟩; exact ⟨p, hp, l, hl, r, hr, rfl⟩
  · intro g a left op right e
    simp only [visitShiftExpression, bind_eq_ok, pure_eq_ok]
    constructor
    · rintro ⟨p, hp, l, hl, r, hr, rfl⟩; exact ⟨p, l, r, hp, hl, hr, rfl⟩
    · rintro ⟨p, l, r, hp, hl, hr, rfl⟩; exact ⟨p, hp, l, hl, r, hr, rfl⟩
  · intro g a left op right e
    simp only [visitRelationalExpression, bind_eq_ok, pure_eq_ok]
    constructor
    · rintro ⟨p, hp, l, hl, r, hr, rfl⟩; exact ⟨p, l, r, hp, hl, hr, rfl⟩
    · rintro ⟨p, l, r, hp, hl, hr, rfl⟩; exact ⟨p, hp, l, hl, r, hr, rfl⟩
  · intro g a left op right e
    simp only [visitEqualityExpression, bind_eq_ok, pure_eq_ok]
    constructor
    · rintro ⟨p, hp, l, hl, r, hr, rfl⟩; exact ⟨p, l, r, hp, hl, hr, rfl⟩
    · rintro ⟨p, l, r, hp, hl, hr, rfl⟩; exact ⟨p, hp, l, hl, r, hr, rfl⟩
  · intro g a left op right e
    simp only [visitBitwiseExpression, bind_eq_ok, pure_eq_ok]
    constructor
    · rintro ⟨p, hp, l, hl, r, hr, rfl⟩; exact ⟨p, l, r, hp, hl, hr, rfl⟩
    · rintro ⟨p, l, r, hp, hl, hr, rfl⟩; exact ⟨p, hp, l, hl, r, hr, rfl⟩

/-- C5. Left-associativity: in each tier, the transform of the left-recursive
parse of a chain `e1 op1 e2 ... en`, whose operands transform to `t1 ... tn`, is
the left fold `Call(op_{n-1}, [... Call(op1, [t1, t2]) ..., tn])`; and the parse
tree of `a - b - c` yields the call of `-` on the call of `-` on `a` and `b`, and
on `c`. -/
theorem chain_left_associative :
    (∀ (g : AstGenerator) first t1 steps, g.visitUnaryExpression first = .ok t1 →
      (∀ s ∈ steps, ChainStep.resolved g g.visitUnaryExpression s) →
      g.visitMultiplicativeExpression (.chain first steps) = .ok (leftFold t1 steps)) ∧
    (∀ (g : AstGenerator) first t1 steps, g.visitMultiplicativeExpression first = .ok t1 →
      (∀ s ∈ steps, ChainStep.resolved g g.visitMultiplicativeExpression s) →
      g.visitAdditiveExpression (.chain first steps) = .ok (leftFold t1 steps)) ∧
    (∀ (g : AstGenerator) first t1 steps, g.visitAdditiveExpression first = .ok t1 →
      (∀ s ∈ steps, ChainStep.resolved g g.visitAdditiveExpression s) →
      g.visitShiftExpression (.chain first steps) = .ok (leftFold t1 steps)) ∧
    (∀ (g : AstGenerator) first t1 steps, g.visitShiftExpression first = .ok t1 →
      (∀ s ∈ steps, ChainStep.resolved g g.visitShiftExpression s) →
      g.visitRelationalExpression (.chain first steps) = .ok (leftFold t1 steps)) ∧
    (∀ (g : AstGenerator) first t1 steps, g.visitRelationalExpression first = .ok t1 →
      (∀ s ∈ steps, ChainStep.resolved g g.visitRelationalExpression s) →
      g.visitEqualityExpression (.chain first steps) = .ok (leftFold t1 steps)) ∧
    (∀ (g : AstGenerator) first t1 steps, g.visitEqualityExpression first = .ok t1 →
      (∀ s ∈ steps, ChainStep.resolved g g.visitEqualityExpression s) →
      g.visitBitwiseExpression (.chain first steps) = .ok (leftFold t1 steps)) ∧
    (generatorWithTokens (tokensOnLineOne 5)).visitExpression aMinusBMinusC =
      .ok (.CallExpression (lineOne 0) "-" true
        [ .CallExpression (lineOne 0) "-" true
            [ .IdentifierExpression (lineOne 0) "a",
              .IdentifierExpression (lineOne 4) "b" ] [],
          .IdentifierExpression (lineOne 8) "c" ] []) := by
  refine ⟨?_, ?_, ?_, ?_, ?_, ?_, rfl⟩
  · intro g first t1 steps h1 hs
    exact chain_leftFold g .single .binary g.visitMultiplicativeExpression
      g.visitUnaryExpression (fun r => by simp only [visitMultiplicativeExpression])
      (fun a l op r => by simp only [visitMultiplicativeExpression]) first t1 h1 steps hs
  · intro g first t1 steps h1 hs
    exact chain_leftFold g .single .binary g.visitAdditiveExpression
      g.visitMultiplicativeExpression (fun r => by simp only [visitAdditiveExpression])
      (fun a l op r => by simp only [visitAdditiveExpression]) first t1 h1 steps hs
  · intro g first t1 steps h1 hs
    exact chain_leftFold g .single .binary g.visitShiftExpression
      g.visitAdditiveExpression (fun r => by simp only [visitShiftExpression])
      (fun a l op r => by simp only [visitShiftExpression]) first t1 h1 steps hs
  · intro g first t1 steps h1 hs
    exact chain_leftFold g .single .binary g.visitRelationalExpression
      g.visitShiftExpression (fun r => by simp only [visitRelationalExpression])
      (fun a l op r => by simp only [visitRelationalExpression]) first t1 h1 steps hs
  · intro g first t1 steps h1 hs
    exact chain_leftFold g .single .binary g.visitEqualityExpression
      g.visitRelationalExpression (fun r => by simp only [visitEqualityExpression])
      (fun a l op r => by simp only [visitEqualityExpression]) first t1 h1 steps hs
  · intro g first t1 steps h1 hs
    exact chain_leftFold g .single .binary g.visitBitwiseExpression
      g.visitEqualityExpression (fun r => by simp only [visitBitwiseExpression])
      (fun a l op r => by simp only [visitBitwiseExpression]) first t1 h1 steps hs

theorem chain_left_associative_witness :
    (generatorWithTokens (tokensOnLineOne 5)).visitAdditiveExpression
        (.chain (.single (identifierOperand 0 "a"))
          [ { a := 0, op := "-", right := .single (identifierOperand 2 "b"),
              pos := lineOne 0, result := .IdentifierExpression (lineOne 4) "b" },
            { a := 0, op := "-", right := .single (identifierOperand 4 "c"),
              pos := lineOne 0, result := .IdentifierExpression (lineOne 8) "c" } ])
      = .ok (.CallExpression (lineOne 0) "-" true
          [ .CallExpression (lineOne 0) "-" true
              [ .IdentifierExpression (lineOne 0) "a",
                .IdentifierExpression (lineOne 4) "b" ] [],
            .IdentifierExpression (lineOne 8) "c" ] []) :=
  chain_left_associative.2.1 (generatorWithTokens (tokensOnLineOne 5))
    (.single (identifierOperand 0 "a")) (.IdentifierExpression (lineOne 0) "a") _ rfl
    (by
      intro s hs
      simp only [List.mem_cons, List.mem_singleton, List.not_mem_nil, or_false] at hs
      rcases hs with rfl | rfl <;> exact ⟨rfl, rfl⟩)

/-- C6. Location invariant: whenever the transform of an expression, of a
statement, of a declaration or of a whole file returns (does not abort on the
fatal path), every assignment and every increment or decrement anywhere in what
it produced has a target whose kind is identifier, field access or element
access. -/
theorem location_invariant :
    (∀ (g : AstGenerator) (c : ExpressionContext) (e : Expression),
      g.visitExpression c = .ok e → e.locationsOK = true) ∧
    (∀ (g : AstGenerator) (c : StatementContext) (s : Statement),
      g.visitStatement c = .ok s → s.locationsOK = true) ∧
    (∀ (g : AstGenerator) (c : FileChildContext) (d : Declaration),
      g.visitFileChild c = .ok d → d.locationsOK = true) ∧
    (∀ (g : AstGenerator) (c : SourceFileContext) (g' : AstGenerator),
      g.visitSourceFile c = .ok g' →
        ∃ ds, g'.ast_.declarations_ = g.ast_.declarations_ ++ ds ∧
          Declaration.locationsOKList ds = true) := by
  refine ⟨visitExpression_locationsOK, visitStatement_locationsOK,
    visitFileChild_locationsOK, ?_⟩
  intro g c g' h
  simp only [visitSourceFile, bind_eq_ok, pure_eq_ok] at h
  obtain ⟨g1, h1, rfl⟩ := h
  obtain ⟨ds, hd, hok, _⟩ := visitSourceFile_loop_spec _ _ _ h1
  exact ⟨ds, by simpa [Ast.AddSource] using hd, hok⟩

theorem location_invariant_witness :
    (generatorWithTokens (tokensOnLineOne 3)).visitExpression xAssignOne =
      .ok (.AssignmentExpression (lineOne 0) (.IdentifierExpression (lineOne 0) "x") none
        (.NumberLiteralExpression (lineOne 4) "1")) ∧
    (Expression.AssignmentExpression (lineOne 0) (.IdentifierExpression (lineOne 0) "x")
        none (.NumberLiteralExpression (lineOne 4) "1")).locationsOK = true :=
  ⟨rfl, location_invariant.1 (generatorWithTokens (tokensOnLineOne 3)) xAssignOne _ rfl⟩

/-! ## The statement transform: claims -/

/-- C7. Try/catch handler ordering: when the transform of a try statement with
handler list `hs` returns, the catch blocks are the transforms of the `catch`
handlers of `hs` in source order, each with the handler's caught identifier, the
label blocks are the transforms of the remaining handlers in source order, each
with the label's name, and the two lengths add up to the length of `hs`; and
`try { } catch (e) { } label L() { } catch (f) { }` gives the catch list `e`, `f`
and the label list `L`. -/
theorem try_catch_handler_order :
    (∀ (g : AstGenerator) a sb hs s, g.visitTryCatch (.mk a sb hs) = .ok s →
      ∃ pos try_block cs ls, s = .TryCatchStatement pos try_block cs ls ∧
        List.Forall₂ (catchBlockOf g) (hs.filter (·.isCatch)) cs ∧
        List.Forall₂ (labelBlockOf g) (hs.filter (fun h => !h.isCatch)) ls ∧
        cs.map (·.caught) = hs.filterMap (·.caught?) ∧
        ls.map (·.label) = hs.filterMap (fun h => h.labelDeclaration?.map (·.IDENTIFIER)) ∧
        cs.length + ls.length = hs.length) ∧
    (∃ pos try_block cs ls,
      (generatorWithTokens (tokensOnLineOne 21)).visitTryCatch tryCatchLabelCatch =
        .ok (.TryCatchStatement pos try_block cs ls) ∧
      cs.map (·.caught) = ["e", "f"] ∧ ls.map (·.label) = ["L"]) := by
  constructor
  · intro g a sb hs s h
    simp only [visitTryCatch, bind_eq_ok, pure_eq_ok] at h
    obtain ⟨pos, _, t, _, bs, hbs, rfl⟩ := h
    exact ⟨pos, t, bs.1, bs.2, rfl, visitHandlers_spec g hs bs hbs⟩
  · exact ⟨_, _, _, _, rfl, rfl, rfl⟩

theorem try_catch_handler_order_witness :
    ∃ pos try_block cs ls,
      Statement.TryCatchStatement (lineOne 0) (.BlockStatement (lineOne 2) false [])
          [ .mk (lineOne 14) "e" (.BlockStatement (lineOne 14) false []),
            .mk (lineOne 38) "f" (.BlockStatement (lineOne 38) false []) ]
          [ .mk (lineOne 26) "L" ⟨[], [], false, none⟩
              (.BlockStatement (lineOne 26) false []) ]
        = .TryCatchStatement pos try_block cs ls ∧
      List.Forall₂ (catchBlockOf (generatorWithTokens (tokensOnLineOne 21)))
        ([ .catchHandler "e" (emptyBlock 7),
           .labelHandler { IDENTIFIER := "L", parameterList := some (.plain []) }
             (emptyBlock 13),
           .catchHandler "f" (emptyBlock 19) ].filter (·.isCatch)) cs ∧
      List.Forall₂ (labelBlockOf (generatorWithTokens (tokensOnLineOne 21)))
        ([ .catchHandler "e" (emptyBlock 7),
           .labelHandler { IDENTIFIER := "L", parameterList := some (.plain []) }
             (emptyBlock 13),
           .catchHandler "f" (emptyBlock 19) ].filter (fun h => !h.isCatch)) ls ∧
      cs.map (·.caught) =
        [ HandlerWithStatementContext.catchHandler "e" (emptyBlock 7),
          .labelHandler { IDENTIFIER := "L", parameterList := some (.plain []) }
            (emptyBlock 13),
          .catchHandler "f" (emptyBlock 19) ].filterMap (·.caught?) ∧
      ls.map (·.label) =
        [ HandlerWithStatementContext.catchHandler "e" (emptyBlock 7),
          .labelHandler { IDENTIFIER := "L", parameterList := some (.plain []) }
            (emptyBlock 13),
          .catchHandler "f" (emptyBlock 19) ].filterMap
            (fun h => h.labelDeclaration?.map (·.IDENTIFIER)) ∧
      cs.length + ls.length =
        [ HandlerWithStatementContext.catchHandler "e" (emptyBlock 7),
          .labelHandler { IDENTIFIER := "L", parameterList := some (.plain []) }
            (emptyBlock 13),
          .catchHandler "f" (emptyBlock 19) ].length :=
  try_catch_handler_order.1 (generatorWithTokens (tokensOnLineOne 21)) 0 (emptyBlock 1)
    _ _ rfl

/-- C8. For-of range bounds: when the transform of a `for`-`of` loop returns, the
begin of the produced loop is absent if the node has no range specifier with a
begin expression and is the transform of that expression otherwise, and the same
holds, independently, for the end; with the begin omitted and the end `5` the
loop has no begin and the end `NumberLiteral("5")`. -/
theorem for_of_range_bounds :
    (∀ (g : AstGenerator) a vd e range sb s,
      g.visitForOfLoop (.mk a vd e range sb) = .ok s →
      ∃ pos d iterable b en body, s = .ForOfLoopStatement pos d iterable b en body ∧
        ((range.beginExpression = none ∧ b = none) ∨
          (∃ c x, range.beginExpression = some c ∧ g.visitExpression c = .ok x ∧
            b = some x)) ∧
        ((range.endExpression = none ∧ en = none) ∨
          (∃ c x, range.endExpression = some c ∧ g.visitExpression c = .ok x ∧
            en = some x))) ∧
    (generatorWithTokens (tokensOnLineOne 15)).visitForOfLoop forOfEndOnly =
      .ok (.ForOfLoopStatement (lineOne 0)
        { pos := lineOne 4, name := "x", type := "T", initializer := none }
        (.IdentifierExpression (lineOne 14) "xs") none
        (some (.NumberLiteralExpression (lineOne 20) "5"))
        (.BlockStatement (lineOne 26) false [])) := by
  constructor
  · intro g a vd e range sb s h
    simp only [visitForOfLoop, bind_eq_ok, pure_eq_ok] at h
    obtain ⟨pos, _, d, _, x, _, y, _, rg, hrg, rfl⟩ := h
    obtain ⟨hb, he⟩ := visitForOfRange_eq_ok g range rg hrg
    exact ⟨pos, d, x, rg.1, rg.2, y, rfl, (visitRangeBound_eq_ok g _ _).mp hb,
      (visitRangeBound_eq_ok g _ _).mp he⟩
  · rfl

theorem for_of_range_bounds_witness :
    ∃ pos d iterable b en body,
      Statement.ForOfLoopStatement (lineOne 0)
          { pos := lineOne 4, name := "x", type := "T", initializer := none }
          (.IdentifierExpression (lineOne 14) "xs") none
          (some (.NumberLiteralExpression (lineOne 20) "5"))
          (.BlockStatement (lineOne 26) false [])
        = .ForOfLoopStatement pos d iterable b en body ∧
      ((ForOfRangeContext.beginExpression
            { rangeSpecifier := some { begin_ := none,
                                       end_ := some (numberExpression 10 "5") } } = none ∧
          b = none) ∨
        (∃ c x, ForOfRangeContext.beginExpression
            { rangeSpecifier := some { begin_ := none,
                                       end_ := some (numberExpression 10 "5") } } = some c ∧
          (generatorWithTokens (tokensOnLineOne 15)).visitExpression c = .ok x ∧
          b = some x)) ∧
      ((ForOfRangeContext.endExpression
            { rangeSpecifier := some { begin_ := none,
                                       end_ := some (numberExpression 10 "5") } } = none ∧
          en = none) ∨
        (∃ c x, ForOfRangeContext.endExpression
            { rangeSpecifier := some { begin_ := none,
                                       end_ := some (numberExpression 10 "5") } } = some c ∧
          (generatorWithTokens (tokensOnLineOne 15)).visitExpression c = .ok x ∧
          en = some x)) :=
  for_of_range_bounds.1 (generatorWithTokens (tokensOnLineOne 15)) 0
    { a := 2, IDENTIFIER := "x", type := { IDENTIFIER := "T" } }
    (.ofAdditive (.single (.single (identifierOperand 7 "xs"))))
    { rangeSpecifier := some { begin_ := none, end_ := some (numberExpression 10 "5") } }
    (emptyBlock 13) _ rfl

/-- C9. Variable-declaration position: when the transform of a declaration with
initialization `w` wrapping the bare declaration `d` returns, it is a
`VarDeclarationStatement` with the name and the type of `d`, with the position
resolved from `w`, and with an initializer that is absent if `w` has no
initializer expression and is the transform of that expression otherwise. -/
theorem var_declaration_position :
    (∀ (g : AstGenerator) (w : VariableDeclarationWithInitializationContext) s,
      g.visitVariableDeclarationWithInitialization w = .ok s →
      ∃ pos init, g.Pos w.a = .ok pos ∧
        s = .VarDeclarationStatement
          { pos := pos, name := w.variableDeclaration.IDENTIFIER,
            type := w.variableDeclaration.type.IDENTIFIER, initializer := init } ∧
        ((w.expression = none ∧ init = none) ∨
          (∃ e x, w.expression = some e ∧ g.visitExpression e = .ok x ∧
            init = some x))) ∧
    ((generatorWithTokens (tokensOnLineOne 6)).visitVariableDeclarationWithInitialization
        letWithInitializer =
      .ok (.VarDeclarationStatement
        { pos := lineOne 0, name := "x", type := "T",
          initializer := some (.NumberLiteralExpression (lineOne 10) "1") }) ∧
      (generatorWithTokens (tokensOnLineOne 6)).Pos letWithInitializer.a
        = .ok (lineOne 0) ∧
      (generatorWithTokens (tokensOnLineOne 6)).Pos letWithInitializer.variableDeclaration.a
        = .ok (lineOne 2)) := by
  constructor
  · intro g w s h
    obtain ⟨inner, pos, init, _, hp, hi, rfl⟩ :=
      (visitVariableDeclarationWithInitialization_eq_ok g w s).mp h
    exact ⟨pos, init, hp, rfl, (visitRangeBound_eq_ok g _ _).mp hi⟩
  · exact ⟨rfl, rfl, rfl⟩

theorem var_declaration_position_witness :
    ∃ pos init,
      (generatorWithTokens (tokensOnLineOne 6)).Pos letWithInitializer.a = .ok pos ∧
      Statement.VarDeclarationStatement
          { pos := lineOne 0, name := "x", type := "T",
            initializer := some (.NumberLiteralExpression (lineOne 10) "1") }
        = .VarDeclarationStatement
          { pos := pos, name := letWithInitializer.variableDeclaration.IDENTIFIER,
            type := letWithInitializer.variableDeclaration.type.IDENTIFIER,
            initializer := init } ∧
      ((letWithInitializer.expression = none ∧ init = none) ∨
        (∃ e x, letWithInitializer.expression = some e ∧
          (generatorWithTokens (tokensOnLineOne 6)).visitExpression e = .ok x ∧
          init = some x)) :=
  var_declaration_position.1 (generatorWithTokens (tokensOnLineOne 6)) letWithInitializer
    _ rfl

/-! ## The parameter list builders: claims -/

/-- C10, as stated, fails: the type list `(T)` yields a parameter list with no
name and one type, and a type list with the variadic marker yields one with
`has_varargs` set and no name for the variadic rest. -/
theorem type_list_breaks_invariant :
    ¬ (visitTypeList { type := [{ IDENTIFIER := "T" }] }).invariant ∧
    ¬ (visitTypeListMaybeVarArgs { type := [], VARARGS := true }).invariant := by
  constructor <;> decide

/-- C10, amended. Every parameter list produced by the builder for formal
parameter lists, and the default list used for a label handler without
parameters, has as many names as types and a name for the variadic rest exactly
when `has_varargs` is set.  The two builders for type lists leave the names empty
and never set that name, so what they produce satisfies the invariant exactly
when the type list is empty and the variadic marker is absent. -/
theorem parameter_list_invariant :
    (∀ c : ParameterListContext, (visitParameterList c).invariant) ∧
    ParameterList.default.invariant ∧
    (∀ d : LabelDeclarationContext, (labelParameters d).invariant) ∧
    (∀ c : TypeListContext,
      (visitTypeList c).names = [] ∧ (visitTypeList c).arguments_variable = none ∧
      ((visitTypeList c).invariant ↔ c.type = [])) ∧
    (∀ c : TypeListMaybeVarArgsContext,
      (visitTypeListMaybeVarArgs c).names = [] ∧
      (visitTypeListMaybeVarArgs c).arguments_variable = none ∧
      ((visitTypeListMaybeVarArgs c).invariant ↔ c.type = [] ∧ c.VARARGS = false)) := by
  have hp : ∀ c : ParameterListContext, (visitParameterList c).invariant := by
    intro c
    cases c <;> simp [visitParameterList, ParameterList.invariant]
  refine ⟨hp, by decide, ?_, ?_, ?_⟩
  · intro d
    unfold labelParameters
    cases d.parameterList with
    | none => decide
    | some l => exact hp l
  · intro c
    refine ⟨rfl, rfl, ?_⟩
    unfold ParameterList.invariant visitTypeList
    simp only [List.length_nil, List.length_map, Option.isSome_none]
    constructor
    · rintro ⟨h, _⟩
      exact List.length_eq_zero.mp h.symm
    · intro h
      simp [h]
  · intro c
    refine ⟨rfl, rfl, ?_⟩
    unfold ParameterList.invariant visitTypeListMaybeVarArgs
    simp only [List.length_nil, List.length_map, Option.isSome_none]
    constructor
    · rintro ⟨h, hv⟩
      refine ⟨List.length_eq_zero.mp h.symm, ?_⟩
      cases hc : c.VARARGS with
      | false => rfl
      | true => rw [hc] at hv; simp at hv
    · rintro ⟨h, hv⟩
      simp [h, hv]

/-! ## The list builders and the declarations: claims -/

/-- C11. Type-list variant: the parameter list produced for a type list has no
names, has the type names of the node in source order as its types (so as many
as the node has), and `has_varargs` false; the one produced for a type list with
optional varargs has the same names and types, and `has_varargs` true exactly
when the variadic marker is present. -/
theorem type_list_variant :
    (∀ c : TypeListContext,
      (visitTypeList c).names = [] ∧
      (visitTypeList c).types = c.type.map (·.IDENTIFIER) ∧
      (visitTypeList c).types.length = c.type.length ∧
      (visitTypeList c).has_varargs = false) ∧
    (∀ c : TypeListMaybeVarArgsContext,
      (visitTypeListMaybeVarArgs c).names = [] ∧
      (visitTypeListMaybeVarArgs c).types = c.type.map (·.IDENTIFIER) ∧
      (visitTypeListMaybeVarArgs c).types.length = c.type.length ∧
      ((visitTypeListMaybeVarArgs c).has_varargs = true ↔ c.VARARGS = true)) := by
  constructor
  · intro c
    exact ⟨rfl, rfl, by simp [visitTypeList], rfl⟩
  · intro c
    exact ⟨rfl, rfl, by simp [visitTypeListMaybeVarArgs], Iff.rfl⟩

/-- C12. Label-list builder: `GetOptionalLabelAndTypeList` returns as many records
as the label list has label parameters; the record at index `i` has the
identifier of the `i`-th label parameter as its name and the type names of its
type list, in order, as its types, and no types when it has no type list; an
empty label list yields an empty result.  (The function is total: it cannot
fail.) -/
theorem label_list_builder (c : OptionalLabelListContext) :
    (GetOptionalLabelAndTypeList c).length = c.labelParameter.length ∧
    (∀ (i : Nat) (l : LabelParameterContext), c.labelParameter[i]? = some l →
      ∃ r : LabelAndTypes,
        (GetOptionalLabelAndTypeList c)[i]? = some r ∧ r.name = l.IDENTIFIER ∧
        (l.typeList = none → r.types = []) ∧
        (∀ typeList, l.typeList = some typeList →
          r.types = typeList.type.map (·.IDENTIFIER))) ∧
    (c.labelParameter = [] → GetOptionalLabelAndTypeList c = []) := by
  refine ⟨by simp [GetOptionalLabelAndTypeList], ?_, ?_⟩
  · intro i l hl
    refine ⟨{ name := l.IDENTIFIER
              types := match l.typeList with
                | some typeList => typeList.type.map (·.IDENTIFIER)
                | none => [] }, ?_, rfl, ?_, ?_⟩
    · simp only [GetOptionalLabelAndTypeList, List.getElem?_map, hl, Option.map_some']
    · intro h; simp only [h]
    · intro t h; simp only [h]
  · intro h
    simp [GetOptionalLabelAndTypeList, h]

theorem label_list_builder_witness :
    ∃ r : LabelAndTypes, (GetOptionalLabelAndTypeList
        { labelParameter := [ { IDENTIFIER := "Bailout", typeList := none },
                              { IDENTIFIER := "Found",
                                typeList := some { type := [⟨"T"⟩, ⟨"U"⟩] } } ] })[1]?
        = some r ∧
      r.name = "Found" ∧
      ((some { type := [⟨"T"⟩, ⟨"U"⟩] } : Option TypeListContext) = none → r.types = []) ∧
      (∀ typeList, (some { type := [⟨"T"⟩, ⟨"U"⟩] } : Option TypeListContext) = some typeList →
        r.types = typeList.type.map (·.IDENTIFIER)) :=
  (label_list_builder
    { labelParameter := [ { IDENTIFIER := "Bailout", typeList := none },
                          { IDENTIFIER := "Found",
                            typeList := some { type := [⟨"T"⟩, ⟨"U"⟩] } } ] }).2.1 1
    { IDENTIFIER := "Found", typeList := some { type := [⟨"T"⟩, ⟨"U"⟩] } } rfl

/-- C13. Optional return type: the declaration produced for a macro, a builtin,
an external macro, an external builtin or an external runtime declaration has
as return-type name the identifier of the declared type when a return type is
written, and the string `void` when it is omitted. -/
theorem optional_return_type :
    (∀ (g : AstGenerator) (c : MacroDeclarationContext) d,
      g.visitMacroDeclaration c = .ok d → hasReturnTypeOf c.optionalType d) ∧
    (∀ (g : AstGenerator) (c : BuiltinDeclarationContext) d,
      g.visitBuiltinDeclaration c = .ok d → hasReturnTypeOf c.optionalType d) ∧
    (∀ (g : AstGenerator) (c : ExternalMacroContext) d,
      g.visitExternalMacro c = .ok d → hasReturnTypeOf c.optionalType d) ∧
    (∀ (g : AstGenerator) (c : ExternalBuiltinContext) d,
      g.visitExternalBuiltin c = .ok d → hasReturnTypeOf c.optionalType d) ∧
    (∀ (g : AstGenerator) (c : ExternalRuntimeContext) d,
      g.visitExternalRuntime c = .ok d → hasReturnTypeOf c.optionalType d) := by
  have key : ∀ (o : OptionalTypeContext) (d : Declaration),
      d.return_type? = some (GetOptionalType o) → hasReturnTypeOf o d := by
    intro o d h
    constructor
    · intro t ht
      rw [h, GetOptionalType, ht]
    · intro ht
      rw [h, GetOptionalType, ht]
  refine ⟨?_, ?_, ?_, ?_, ?_⟩
  · intro g c d h
    simp only [visitMacroDeclaration, bind_eq_ok, pure_eq_ok] at h
    obtain ⟨pos, _, b, _, rfl⟩ := h
    exact key _ _ rfl
  · intro g c d h
    simp only [visitBuiltinDeclaration, bind_eq_ok, pure_eq_ok] at h
    obtain ⟨pos, _, b, _, rfl⟩ := h
    exact key _ _ rfl
  · intro g c d h
    unfold visitExternalMacro at h
    cases hc : c.STRING_LITERAL with
    | none =>
      simp only [hc, bind_eq_ok, pure_eq_ok] at h
      obtain ⟨pos, _, rfl⟩ := h
      exact key _ _ rfl
    | some x =>
      simp only [hc, bind_eq_ok, pure_eq_ok] at h
      obtain ⟨pos, _, y, _, rfl⟩ := h
      exact key _ _ rfl
  · intro g c d h
    simp only [visitExternalBuiltin, bind_eq_ok, pure_eq_ok] at h
    obtain ⟨pos, _, rfl⟩ := h
    exact key _ _ rfl
  · intro g c d h
    simp only [visitExternalRuntime, bind_eq_ok, pure_eq_ok] at h
    obtain ⟨pos, _, rfl⟩ := h
    exact key _ _ rfl

theorem optional_return_type_witness :
    (enterSourceFile initialGenerator sampleFile).visitMacroDeclaration sampleMacro =
      .ok (.MacroDeclaration (inFileZero 2 0) "F"
        { names := ["x"], types := ["T"], has_varargs := false, arguments_variable := none }
        "T" []
        (.BlockStatement (inFileZero 2 17) false
          [ .ReturnStatement (inFileZero 3 2) sampleCallAst ])) ∧
    hasReturnTypeOf sampleMacro.optionalType
      (.MacroDeclaration (inFileZero 2 0) "F"
        { names := ["x"], types := ["T"], has_varargs := false, arguments_variable := none }
        "T" []
        (.BlockStatement (inFileZero 2 17) false
          [ .ReturnStatement (inFileZero 3 2) sampleCallAst ])) :=
  ⟨rfl, optional_return_type.1 (enterSourceFile initialGenerator sampleFile) sampleMacro _
    rfl⟩

/-- C14. Child collections keep source order: when the transform returns, the
statement list of the block of a statement scope is the list of the transforms
of its child statements, in order, with the deferred flag that of the `DEFERRED`
marker; the declaration list of a module is the list of the transforms of its
nested declarations, in order; and the argument list of a helper call and of a
`goto` is the list of the transforms of the arguments, in order (empty for a
`goto` without an argument list).  Each list is as long as the node has
children. -/
theorem child_collections_in_order :
    (∀ (g : AstGenerator) a DEFERRED statement s,
      g.visitStatementScope (.mk a DEFERRED (.mk statement)) = .ok s →
      ∃ pos ss, s = .BlockStatement pos DEFERRED ss ∧
        List.Forall₂ (fun c x => g.visitStatement c = .ok x) statement ss ∧
        ss.length = statement.length) ∧
    (∀ (g : AstGenerator) (c : ModuleDeclarationContext) d,
      g.visitModuleDeclaration c = .ok d →
      ∃ pos ds, d = .ExplicitModuleDeclaration pos c.IDENTIFIER ds ∧
        List.Forall₂ (fun c x => g.visitDeclaration c = .ok x) c.declaration ds ∧
        ds.length = c.declaration.length) ∧
    (∀ (g : AstGenerator) a MIN MAX IDENTIFIER argument optionalOtherwise e,
      g.visitHelperCall (.mk a MIN MAX IDENTIFIER (.mk argument) optionalOtherwise) = .ok e →
      ∃ pos callee is_operator es labels,
        e = .CallExpression pos callee is_operator es labels ∧
        List.Forall₂ (fun c x => g.visitArgument c = .ok x) argument es ∧
        es.length = argument.length) ∧
    (∀ (g : AstGenerator) (c : GotoStatementContext) s,
      g.visitGotoStatement c = .ok s →
      ∃ pos label es, s = .GotoStatement pos label es ∧
        ((c.argumentList = none ∧ es = []) ∨
          (∃ l, c.argumentList = some l ∧
            List.Forall₂ (fun c x => g.visitArgument c = .ok x) l.argument es ∧
            es.length = l.argument.length))) := by
  refine ⟨?_, ?_, ?_, ?_⟩
  · intro g a d cs s h
    simp only [visitStatementScope, bind_eq_ok, pure_eq_ok, visitStatements_eq_ok] at h
    obtain ⟨pos, _, ss, hss, rfl⟩ := h
    exact ⟨pos, ss, rfl, hss, hss.length_eq.symm⟩
  · intro g c d h
    simp only [visitModuleDeclaration, bind_eq_ok, pure_eq_ok, visitDeclarations_eq_ok] at h
    obtain ⟨pos, _, ds, hds, rfl⟩ := h
    exact ⟨pos, ds, rfl, hds, hds.length_eq.symm⟩
  · intro g a mn mx i args oo e h
    obtain ⟨pos, callee, es, _, _, hes, rfl⟩ :=
      (visitHelperCall_eq_ok g a mn mx i args oo e).mp h
    exact ⟨pos, callee, _, es, _, rfl, hes, hes.length_eq.symm⟩
  · intro g c s h
    unfold visitGotoStatement at h
    cases hc : c.argumentList with
    | none =>
      simp only [hc, bind_eq_ok, pure_eq_ok] at h
      obtain ⟨pos, _, rfl⟩ := h
      exact ⟨pos, _, [], rfl, Or.inl ⟨rfl, rfl⟩⟩
    | some l =>
      simp only [hc, bind_eq_ok, pure_eq_ok, visitArguments_eq_ok] at h
      obtain ⟨pos, _, es, hes, rfl⟩ := h
      exact ⟨pos, _, es, rfl, Or.inr ⟨l, rfl, hes, hes.length_eq.symm⟩⟩

theorem child_collections_in_order_witness :
    (enterSourceFile initialGenerator sampleFile).visitHelperCall sampleCall
      = .ok sampleCallAst ∧
    ∃ pos callee is_operator es labels,
      sampleCallAst = .CallExpression pos callee is_operator es labels ∧
      List.Forall₂
        (fun c x => (enterSourceFile initialGenerator sampleFile).visitArgument c = .ok x)
        [ .mk (.ofAdditive (.single (.single (identifierOperand 20 "x")))),
          .mk (numberExpression 22 "1") ] es ∧
      es.length =
        [ ArgumentContext.mk (.ofAdditive (.single (.single (identifierOperand 20 "x")))),
          .mk (numberExpression 22 "1") ].length :=
  ⟨rfl, child_collections_in_order.2.2.1 (enterSourceFile initialGenerator sampleFile) 18
    (some "min") none none _ { IDENTIFIER := [] } _ rfl⟩

/-- C15. The file driver is append-only on the output: when `visitSourceFile`
returns, the declarations of the AST are the prior ones followed by the
transforms of the children of the file, in source order (each transformed while
the file is the active one), the source registry is the prior one followed by
the name of the file, and the active source-file context is cleared. -/
theorem file_driver_appends (g : AstGenerator) (c : SourceFileContext) (g' : AstGenerator)
    (h : g.visitSourceFile c = .ok g') :
    ∃ ds, g'.ast_.declarations_ = g.ast_.declarations_ ++ ds ∧
      List.Forall₂ (fun child d => (enterSourceFile g c).visitFileChild child = .ok d)
        c.file.children ds ∧
      g'.ast_.sources_ = g.ast_.sources_ ++ [c.name] ∧
      g'.source_file_context_ = none := by
  obtain ⟨ds, h1, h2, h3, _, h5⟩ := visitSourceFile_eq_ok g c g' h
  exact ⟨ds, h1, h2, h3, h5⟩

theorem file_driver_appends_witness :
    initialGenerator.visitSourceFile sampleFile =
      .ok { ast_ := { declarations_ := sampleAst, sources_ := ["sample.tq"] }
            current_source_file_ := 0
            source_file_context_ := none } ∧
    ∃ ds, sampleAst = initialGenerator.ast_.declarations_ ++ ds ∧
      List.Forall₂
        (fun child d =>
          (enterSourceFile initialGenerator sampleFile).visitFileChild child = .ok d)
        sampleFile.file.children ds ∧
      ["sample.tq"] = initialGenerator.ast_.sources_ ++ [sampleFile.name] ∧
      (none : Option SourceFileContext) = none :=
  ⟨rfl, file_driver_appends initialGenerator sampleFile _ rfl⟩

/-! ## Positions and success of the file driver: claims -/

/-- C16, as stated, fails: the first token of the declaration of `longFile` is on
line 2147483648, and the position of the declaration produced for it has line
-2147483648, the `int` that line number converts to. -/
theorem position_line_wraps :
    longFile.file.spans = [0] ∧
    longFile.tokens[0]? = some { getLine := 2147483648, getCharPositionInLine := 0 } ∧
    initialGenerator.visitSourceFile longFile =
      .ok { ast_ :=
              { declarations_ :=
                  [.TypeDeclaration { source := 0, line := -2147483648, column := 0 }
                    "T" none none]
                sources_ := ["long.tq"] }
            current_source_file_ := 0
            source_file_context_ := none } ∧
    Declaration.positionsAllList (resolvedExactlyFrom 0 longFile.tokens longFile.file.spans)
      [.TypeDeclaration { source := 0, line := -2147483648, column := 0 } "T" none none]
      = false :=
  ⟨rfl, rfl, rfl, by decide⟩

/-- C16, amended. When `visitSourceFile` returns, the file is registered under
the identifier `current_source_file_`, and every node of the declaration
produced for a child of the file (declaration, statement, expression, catch
block and label block, at any depth) carries a position whose source is that
identifier and whose line and column are the `int` conversions of the line and
column of the token at the span start of a parse-tree node of that child.  When
the line and the column of every token of the file are below 2 ^ 31, they are
exactly the line and the column of that token. -/
theorem position_provenance (g : AstGenerator) (c : SourceFileContext) (g' : AstGenerator)
    (h : g.visitSourceFile c = .ok g') :
    ∃ ds, g'.ast_.declarations_ = g.ast_.declarations_ ++ ds ∧
      g'.ast_.sources_[g'.current_source_file_]? = some c.name ∧
      List.Forall₂
        (fun child d =>
          d.positionsAll (resolvedFrom g'.current_source_file_ c.tokens child.spans) = true)
        c.file.children ds ∧
      ((∀ t ∈ c.tokens, t.getLine < 2 ^ 31 ∧ t.getCharPositionInLine < 2 ^ 31) →
        List.Forall₂
          (fun child d =>
            d.positionsAll
              (resolvedExactlyFrom g'.current_source_file_ c.tokens child.spans) = true)
          c.file.children ds) := by
  obtain ⟨ds, h1, h2, h3, h4, _⟩ := visitSourceFile_eq_ok g c g' h
  refine ⟨ds, h1, ?_, ?_, ?_⟩
  · rw [h3, h4]
    simp
  · rw [h4]
    exact h2.imp fun child d hd =>
      visitFileChild_positions (enterSourceFile g c) _ child d
        (fun a ha p hp => resolvedFrom_of_Pos (enterSourceFile g c) c rfl child.spans a ha p hp)
        hd
  · intro hfit
    rw [h4]
    exact h2.imp fun child d hd =>
      visitFileChild_positions (enterSourceFile g c) _ child d
        (fun a ha p hp =>
          resolvedExactlyFrom_of_Pos (enterSourceFile g c) c rfl hfit child.spans a ha p hp)
        hd

theorem position_provenance_witness :
    initialGenerator.visitSourceFile sampleFile = .ok sampleOutcome ∧
    (∀ t ∈ sampleFile.tokens, t.getLine < 2 ^ 31 ∧ t.getCharPositionInLine < 2 ^ 31) ∧
    ∃ ds, sampleOutcome.ast_.declarations_ = initialGenerator.ast_.declarations_ ++ ds ∧
      sampleOutcome.ast_.sources_[sampleOutcome.current_source_file_]? =
        some sampleFile.name ∧
      List.Forall₂
        (fun child d =>
          d.positionsAll
            (resolvedFrom sampleOutcome.current_source_file_ sampleFile.tokens child.spans)
            = true)
        sampleFile.file.children ds ∧
      ((∀ t ∈ sampleFile.tokens, t.getLine < 2 ^ 31 ∧ t.getCharPositionInLine < 2 ^ 31) →
        List.Forall₂
          (fun child d =>
            d.positionsAll
              (resolvedExactlyFrom sampleOutcome.current_source_file_ sampleFile.tokens
                child.spans) = true)
          sampleFile.file.children ds) :=
  ⟨rfl, by decide, position_provenance initialGenerator sampleFile sampleOutcome rfl⟩

/-- C17. Every transformation of a well-formed tree succeeds.  For a file whose
parse tree has every string literal that the transform decodes (const value,
generates hint, external-macro operator name) quote-delimited with only
recognised escapes and every helper call with one of its three callee
alternatives, the spans of the tree being those of its own token stream, the
file driver completes and returns an AST, and it ends in no fault: no downcast
fails and every position is resolved while an active file context is set. -/
theorem well_formed_tree_succeeds (g : AstGenerator) (c : SourceFileContext)
    (hw : c.file.wellFormed = true) (hs : c.spansInTokens) :
    (∃ g', g.visitSourceFile c = .ok g') ∧
    (∀ fault, g.visitSourceFile c ≠ .error fault) := by
  obtain ⟨g', hg'⟩ := visitSourceFile_succeeds g c hw hs
  refine ⟨⟨g', hg'⟩, ?_⟩
  intro fault h
  rw [hg'] at h
  cases h

theorem well_formed_tree_succeeds_witness :
    sampleFile.file.wellFormed = true ∧ sampleFile.spansInTokens ∧
    initialGenerator.visitSourceFile sampleFile = .ok sampleOutcome ∧
    (∃ g', initialGenerator.visitSourceFile sampleFile = .ok g') ∧
    (∀ fault, initialGenerator.visitSourceFile sampleFile ≠ .error fault) :=
  ⟨by decide, by decide, rfl,
    well_formed_tree_succeeds initialGenerator sampleFile (by decide) (by decide)⟩

/-! ## Logical forms, helper calls and tail calls: claims -/

/-- C18. Logical and conditional forms are never desugared to calls: the
transform of a logical-and node with a left operand is the `LogicalAnd` node of
the transforms of its two operands, that of a logical-or node with a left
operand is the `LogicalOr` node of the transforms of its two operands, and that
of a conditional node with a condition is the `Conditional` node of the
transforms of the condition and of the two branches (each a success exactly when
the position and the operands are); in none of the three cases is the result a
call node. -/
theorem logical_forms_kept :
    (∀ (g : AstGenerator) a left right e,
      g.visitLogicalANDExpression (.binary a left right) = .ok e ↔
        ∃ p l r, g.Pos a = .ok p ∧ g.visitLogicalANDExpression left = .ok l ∧
          g.visitBitwiseExpression right = .ok r ∧ e = .LogicalAndExpression p l r) ∧
    (∀ (g : AstGenerator) a left right e,
      g.visitLogicalORExpression (.binary a left right) = .ok e ↔
        ∃ p l r, g.Pos a = .ok p ∧ g.visitLogicalORExpression left = .ok l ∧
          g.visitLogicalANDExpression right = .ok r ∧ e = .LogicalOrExpression p l r) ∧
    (∀ (g : AstGenerator) a condition first second e,
      g.visitConditionalExpression (.ternary a condition first second) = .ok e ↔
        ∃ p c t f, g.Pos a = .ok p ∧ g.visitConditionalExpression condition = .ok c ∧
          g.visitLogicalORExpression first = .ok t ∧
          g.visitLogicalORExpression second = .ok f ∧
          e = .ConditionalExpression p c t f) ∧
    (∀ (g : AstGenerator) a left right e,
      g.visitLogicalANDExpression (.binary a left right) = .ok e → e.isCall = false) ∧
    (∀ (g : AstGenerator) a left right e,
      g.visitLogicalORExpression (.binary a left right) = .ok e → e.isCall = false) ∧
    (∀ (g : AstGenerator) a condition first second e,
      g.visitConditionalExpression (.ternary a condition first second) = .ok e →
        e.isCall = false) := by
  have hand : ∀ (g : AstGenerator) a left right e,
      g.visitLogicalANDExpression (.binary a left right) = .ok e ↔
        ∃ p l r, g.Pos a = .ok p ∧ g.visitLogicalANDExpression left = .ok l ∧
          g.visitBitwiseExpression right = .ok r ∧ e = .LogicalAndExpression p l r := by
    intro g a left right e
    simp only [visitLogicalANDExpression, bind_eq_ok, pure_eq_ok]
    constructor
    · rintro ⟨p, hp, l, hl, r, hr, rfl⟩; exact ⟨p, l, r, hp, hl, hr, rfl⟩
    · rintro ⟨p, l, r, hp, hl, hr, rfl⟩; exact ⟨p, hp, l, hl, r, hr, rfl⟩
  have hor : ∀ (g : AstGenerator) a left right e,
      g.visitLogicalORExpression (.binary a left right) = .ok e ↔
        ∃ p l r, g.Pos a = .ok p ∧ g.visitLogicalORExpression left = .ok l ∧
          g.visitLogicalANDExpression right = .ok r ∧ e = .LogicalOrExpression p l r := by
    intro g a left right e
    simp only [visitLogicalORExpression, bind_eq_ok, pure_eq_ok]
    constructor
    · rintro ⟨p, hp, l, hl, r, hr, rfl⟩; exact ⟨p, l, r, hp, hl, hr, rfl⟩
    · rintro ⟨p, l, r, hp, hl, hr, rfl⟩; exact ⟨p, hp, l, hl, r, hr, rfl⟩
  have hcond : ∀ (g : AstGenerator) a condition first second e,
      g.visitConditionalExpression (.ternary a condition first second) = .ok e ↔
        ∃ p c t f, g.Pos a = .ok p ∧ g.visitConditionalExpression condition = .ok c ∧
          g.visitLogicalORExpression first = .ok t ∧
          g.visitLogicalORExpression second = .ok f ∧
          e = .ConditionalExpression p c t f := by
    intro g a condition first second e
    simp only [visitConditionalExpression, bind_eq_ok, pure_eq_ok]
    constructor
    · rintro ⟨p, hp, c, hc, t, ht, f, hf, rfl⟩; exact ⟨p, c, t, f, hp, hc, ht, hf, rfl⟩
    · rintro ⟨p, c, t, f, hp, hc, ht, hf, rfl⟩; exact ⟨p, hp, c, hc, t, ht, f, hf, rfl⟩
  refine ⟨hand, hor, hcond, ?_, ?_, ?_⟩
  · intro g a left right e h
    obtain ⟨p, l, r, _, _, _, rfl⟩ := (hand g a left right e).mp h
    rfl
  · intro g a left right e h
    obtain ⟨p, l, r, _, _, _, rfl⟩ := (hor g a left right e).mp h
    rfl
  · intro g a condition first second e h
    obtain ⟨p, c, t, f, _, _, _, _, rfl⟩ := (hcond g a condition first second e).mp h
    rfl

theorem logical_forms_kept_witness :
    (generatorWithTokens (tokensOnLineOne 3)).visitLogicalANDExpression
        (.binary 0 (.single (bitwiseOperand (identifierOperand 0 "a")))
          (bitwiseOperand (identifierOperand 2 "b"))) =
      .ok (.LogicalAndExpression (lineOne 0) (.IdentifierExpression (lineOne 0) "a")
        (.IdentifierExpression (lineOne 4) "b")) ∧
    (Expression.LogicalAndExpression (lineOne 0) (.IdentifierExpression (lineOne 0) "a")
        (.IdentifierExpression (lineOne 4) "b")).isCall = false :=
  ⟨rfl, logical_forms_kept.2.2.2.1 (generatorWithTokens (tokensOnLineOne 3)) 0
    (.single (bitwiseOperand (identifierOperand 0 "a")))
    (bitwiseOperand (identifierOperand 2 "b")) _ rfl⟩

/-- C19. Helper-call callee resolution: the transform of a helper call that has
exactly one of the alternatives `IDENTIFIER`, `MIN`, `MAX` is (a success exactly
when the position and the arguments are) the call whose callee is the text of
that token, whose `is_operator` flag is false for an identifier and true for
`MIN` and for `MAX`, whose arguments are the transforms of the arguments in
order, and whose labels are the identifiers of the otherwise clause in order. -/
theorem helper_call_callee :
    (∀ (g : AstGenerator) a t argument (optionalOtherwise : OptionalOtherwiseContext) e,
      g.visitHelperCall (.mk a none none (some t) (.mk argument) optionalOtherwise) = .ok e ↔
        ∃ pos es, g.Pos a = .ok pos ∧
          List.Forall₂ (fun c x => g.visitArgument c = .ok x) argument es ∧
          e = .CallExpression pos t false es optionalOtherwise.IDENTIFIER) ∧
    (∀ (g : AstGenerator) a t argument (optionalOtherwise : OptionalOtherwiseContext) e,
      g.visitHelperCall (.mk a (some t) none none (.mk argument) optionalOtherwise) = .ok e ↔
        ∃ pos es, g.Pos a = .ok pos ∧
          List.Forall₂ (fun c x => g.visitArgument c = .ok x) argument es ∧
          e = .CallExpression pos t true es optionalOtherwise.IDENTIFIER) ∧
    (∀ (g : AstGenerator) a t argument (optionalOtherwise : OptionalOtherwiseContext) e,
      g.visitHelperCall (.mk a none (some t) none (.mk argument) optionalOtherwise) = .ok e ↔
        ∃ pos es, g.Pos a = .ok pos ∧
          List.Forall₂ (fun c x => g.visitArgument c = .ok x) argument es ∧
          e = .CallExpression pos t true es optionalOtherwise.IDENTIFIER) := by
  refine ⟨?_, ?_, ?_⟩
  · intro g a t argument oo e
    rw [visitHelperCall_eq_ok]
    constructor
    · rintro ⟨pos, callee, es, hp, hc, hes, rfl⟩
      cases hc
      exact ⟨pos, es, hp, hes, rfl⟩
    · rintro ⟨pos, es, hp, hes, rfl⟩
      exact ⟨pos, t, es, hp, rfl, hes, rfl⟩
  · intro g a t argument oo e
    rw [visitHelperCall_eq_ok]
    constructor
    · rintro ⟨pos, callee, es, hp, hc, hes, rfl⟩
      cases hc
      exact ⟨pos, es, hp, hes, rfl⟩
    · rintro ⟨pos, es, hp, hes, rfl⟩
      exact ⟨pos, t, es, hp, rfl, hes, rfl⟩
  · intro g a t argument oo e
    rw [visitHelperCall_eq_ok]
    constructor
    · rintro ⟨pos, callee, es, hp, hc, hes, rfl⟩
      cases hc
      exact ⟨pos, es, hp, hes, rfl⟩
    · rintro ⟨pos, es, hp, hes, rfl⟩
      exact ⟨pos, t, es, hp, rfl, hes, rfl⟩

/-- C20. Tail-call promotion: with the `TAIL` marker the transform of a
helper-call statement is (exactly when the position and the helper call resolve)
the `TailCall` statement whose call is the expression the helper call transforms
to; without the marker it is the `ExpressionStatement` wrapping that same
expression; and the downcast of the transform of a helper call to a call
expression never fails. -/
theorem tail_call_promotion :
    (∀ (g : AstGenerator) a helperCall s,
      g.visitHelperCallStatement { a := a, TAIL := true, helperCall := helperCall } = .ok s ↔
        ∃ pos e, g.Pos a = .ok pos ∧ g.visitHelperCall helperCall = .ok e ∧
          s = .TailCallStatement pos e) ∧
    (∀ (g : AstGenerator) a helperCall s,
      g.visitHelperCallStatement { a := a, TAIL := false, helperCall := helperCall } = .ok s ↔
        ∃ pos e, g.Pos a = .ok pos ∧ g.visitHelperCall helperCall = .ok e ∧
          s = .ExpressionStatement pos e) ∧
    (∀ (g : AstGenerator) helperCall e,
      g.visitHelperCall helperCall = .ok e → CallExpression.cast e = .ok e) := by
  refine ⟨?_, ?_, ?_⟩
  · intro g a c s
    simp only [visitHelperCallStatement, if_true, bind_eq_ok, pure_eq_ok,
      CallExpression_cast_eq_ok]
    constructor
    · rintro ⟨pos, hp, e, he, call, ⟨rfl, _⟩, rfl⟩
      exact ⟨pos, e, hp, he, rfl⟩
    · rintro ⟨pos, e, hp, he, rfl⟩
      exact ⟨pos, hp, e, he, e, ⟨rfl, visitHelperCall_isCall g c e he⟩, rfl⟩
  · intro g a c s
    simp only [visitHelperCallStatement, Bool.false_eq_true, if_false, bind_eq_ok,
      pure_eq_ok]
    constructor
    · rintro ⟨pos, hp, e, he, rfl⟩
      exact ⟨pos, e, hp, he, rfl⟩
    · rintro ⟨pos, e, hp, he, rfl⟩
      exact ⟨pos, hp, e, he, rfl⟩
  · intro g c e h
    exact (CallExpression_cast_eq_ok e e).mpr ⟨rfl, visitHelperCall_isCall g c e h⟩

theorem tail_call_promotion_witness :
    (enterSourceFile initialGenerator sampleFile).visitHelperCall sampleCall
      = .ok sampleCallAst ∧
    CallExpression.cast sampleCallAst = .ok sampleCallAst :=
  ⟨rfl, tail_call_promotion.2.2 (enterSourceFile initialGenerator sampleFile) sampleCall _
    rfl⟩

/-! ## Pass-through, assignments and string literals: claims -/

/-- C21. Pass-through adds no nodes: the transform of an expression that is a
degenerate chain down to a primary expression (no condition, no left operand and
no prefix operator at any tier) is exactly the transform of that primary
expression, and the transform of a parenthesised primary is exactly the
transform of the inner expression.  So the expression `5` yields (exactly when
the position of its primary resolves) the number literal `5` at the position of
the primary, `(5)` yields that same node for the inner `5`, and neither result has
a call, logical or conditional node at its root. -/
theorem pass_through_adds_no_nodes :
    (∀ (g : AstGenerator) (e : ExpressionContext) (p : PrimaryExpressionContext),
      e.primary? = some p → g.visitExpression e = g.visitPrimaryExpression p) ∧
    (∀ (g : AstGenerator) (e : ExpressionContext),
      g.visitPrimaryExpression (.parenthesized e) = g.visitExpression e) ∧
    (∀ (g : AstGenerator) a t r,
      g.visitExpression (.ofPrimary (.decimalLiteral a t)) = .ok r ↔
        ∃ pos, g.Pos a = .ok pos ∧ r = .NumberLiteralExpression pos t) ∧
    (∀ (g : AstGenerator) a t r,
      g.visitExpression (.ofPrimary (.parenthesized (.ofPrimary (.decimalLiteral a t))))
          = .ok r ↔
        ∃ pos, g.Pos a = .ok pos ∧ r = .NumberLiteralExpression pos t) ∧
    (∀ (g : AstGenerator) a t r,
      (g.visitExpression (.ofPrimary (.decimalLiteral a t)) = .ok r ∨
        g.visitExpression (.ofPrimary (.parenthesized (.ofPrimary (.decimalLiteral a t))))
          = .ok r) → r.isWrapper = false) := by
  have hnum : ∀ (g : AstGenerator) a t r,
      g.visitExpression (.ofPrimary (.decimalLiteral a t)) = .ok r ↔
        ∃ pos, g.Pos a = .ok pos ∧ r = .NumberLiteralExpression pos t := by
    intro g a t r
    rw [visitExpression_ofPrimary]
    simp only [visitPrimaryExpression, bind_eq_ok, pure_eq_ok]
    constructor
    · rintro ⟨pos, hp, rfl⟩
      exact ⟨pos, hp, rfl⟩
    · rintro ⟨pos, hp, rfl⟩
      exact ⟨pos, hp, rfl⟩
  have hpar : ∀ (g : AstGenerator) a t,
      g.visitExpression (.ofPrimary (.parenthesized (.ofPrimary (.decimalLiteral a t)))) =
        g.visitExpression (.ofPrimary (.decimalLiteral a t)) := by
    intro g a t
    rw [visitExpression_ofPrimary]
    simp only [visitPrimaryExpression]
  refine ⟨fun g e p h => visitExpression_of_primary g e p h, ?_, hnum, ?_, ?_⟩
  · intro g e
    simp only [visitPrimaryExpression]
  · intro g a t r
    rw [hpar]
    exact hnum g a t r
  · intro g a t r h
    rw [hpar, or_self] at h
    obtain ⟨pos, _, rfl⟩ := (hnum g a t r).mp h
    rfl

theorem pass_through_adds_no_nodes_witness :
    parenthesizedFive.primary? =
      some (.parenthesized (.ofPrimary (.decimalLiteral 1 "5"))) ∧
    (generatorWithTokens (tokensOnLineOne 3)).visitExpression parenthesizedFive =
      .ok (.NumberLiteralExpression (lineOne 2) "5") ∧
    (generatorWithTokens (tokensOnLineOne 3)).visitExpression parenthesizedFive =
      (generatorWithTokens (tokensOnLineOne 3)).visitPrimaryExpression
        (.parenthesized (.ofPrimary (.decimalLiteral 1 "5"))) :=
  ⟨rfl, rfl, pass_through_adds_no_nodes.1 _ _ _ rfl⟩

/-- C22. Assignment desugaring, for an assignment that is not an
increment/decrement.  Without a value expression the transform is the transform
of the location expression, unchanged, and so a location and no assignment node.
With a value expression and no compound-operator token (a plain `=`) it is,
exactly when the location, the position and the value resolve, the assignment
node of the location and the transform of the value, without operator.  With a
value expression and a compound-operator token `t` (whose length, that of a
`std::string`, is a `size_t`) it is that node with the operator `t` without its
last character: `+=` gives `+`, `>>=` gives `>>`, and the operator followed by
`=` is `t` whenever `t` ends in `=`. -/
theorem assignment_desugaring :
    (∀ (g : AstGenerator) a l op e,
      g.visitAssignment (.location a l op none) = .ok e ↔
        g.visitLocationExpression l = .ok e) ∧
    (∀ (g : AstGenerator) a l op e,
      g.visitAssignment (.location a l op none) = .ok e → e.isLocation = true) ∧
    (∀ (g : AstGenerator) a l v e,
      g.visitAssignment (.location a l none (some v)) = .ok e ↔
        ∃ location pos value, g.visitLocationExpression l = .ok location ∧
          g.Pos a = .ok pos ∧ g.visitExpression v = .ok value ∧
          e = .AssignmentExpression pos location none value) ∧
    (∀ (g : AstGenerator) a l (t : String) v e, t.length < 2 ^ 64 →
      (g.visitAssignment (.location a l (some t) (some v)) = .ok e ↔
        ∃ location pos value, g.visitLocationExpression l = .ok location ∧
          g.Pos a = .ok pos ∧ g.visitExpression v = .ok value ∧
          e = .AssignmentExpression pos location (some (withoutLast t)) value)) ∧
    withoutLast "+=" = "+" ∧ withoutLast ">>=" = ">>" ∧
    (∀ t : String, t.data.getLast? = some '=' → withoutLast t ++ "=" = t) := by
  have hbare : ∀ (g : AstGenerator) a l op e,
      g.visitAssignment (.location a l op none) = .ok e ↔
        g.visitLocationExpression l = .ok e := by
    intro g a l op e
    simp only [visitAssignment, bind_eq_ok, pure_eq_ok, LocationExpression_cast_eq_ok]
    constructor
    · rintro ⟨x, hx, y, ⟨rfl, _⟩, rfl⟩
      exact hx
    · intro h
      exact ⟨e, h, e, ⟨rfl, visitLocationExpression_isLocation g l e h⟩, rfl⟩
  refine ⟨hbare, ?_, ?_, ?_, by decide, by decide, ?_⟩
  · intro g a l op e h
    exact visitLocationExpression_isLocation g l e ((hbare g a l op e).mp h)
  · intro g a l v e
    simp only [visitAssignment, bind_eq_ok, pure_eq_ok, LocationExpression_cast_eq_ok,
      Option.map_none']
    constructor
    · rintro ⟨x, hx, y, ⟨rfl, _⟩, pos, hp, value, hv, rfl⟩
      exact ⟨x, pos, value, hx, hp, hv, rfl⟩
    · rintro ⟨x, pos, value, hx, hp, hv, rfl⟩
      exact ⟨x, hx, x, ⟨rfl, visitLocationExpression_isLocation g l x hx⟩, pos, hp, value,
        hv, rfl⟩
  · intro g a l t v e ht
    have hop : substr t 0 (size_t_pred t.data.length) = withoutLast t :=
      substr_withoutLast t ht
    simp only [visitAssignment, bind_eq_ok, pure_eq_ok, LocationExpression_cast_eq_ok,
      Option.map_some', hop]
    constructor
    · rintro ⟨x, hx, y, ⟨rfl, _⟩, pos, hp, value, hv, rfl⟩
      exact ⟨x, pos, value, hx, hp, hv, rfl⟩
    · rintro ⟨x, pos, value, hx, hp, hv, rfl⟩
      exact ⟨x, hx, x, ⟨rfl, visitLocationExpression_isLocation g l x hx⟩, pos, hp, value,
        hv, rfl⟩
  · intro t h
    exact withoutLast_append_last t '=' h

theorem assignment_desugaring_witness :
    (">>=" : String).length < 2 ^ 64 ∧
    (generatorWithTokens (tokensOnLineOne 3)).visitAssignment xShiftAssignOne =
      .ok (.AssignmentExpression (lineOne 0) (.IdentifierExpression (lineOne 0) "x")
        (some ">>") (.NumberLiteralExpression (lineOne 4) "1")) ∧
    ∃ location pos value,
      (generatorWithTokens (tokensOnLineOne 3)).visitLocationExpression (.identifier 0 "x")
        = .ok location ∧
      (generatorWithTokens (tokensOnLineOne 3)).Pos 0 = .ok pos ∧
      (generatorWithTokens (tokensOnLineOne 3)).visitExpression (numberExpression 2 "1")
        = .ok value ∧
      Expression.AssignmentExpression (lineOne 0) (.IdentifierExpression (lineOne 0) "x")
          (some ">>") (.NumberLiteralExpression (lineOne 4) "1") =
        .AssignmentExpression pos location (some (withoutLast ">>=")) value :=
  ⟨by decide, rfl,
    (assignment_desugaring.2.2.2.1 (generatorWithTokens (tokensOnLineOne 3)) 0
      (.identifier 0 "x") ">>=" (numberExpression 2 "1") _ (by decide)).mp rfl⟩

/-- C23. The literal decoder is applied to declaration literals only.  The
transform of a string-literal primary expression is (exactly when its position
resolves) the string-literal node holding the raw text of the token, quotes and
escapes included, and it never reaches the fault of an unknown escape; the value
of a const declaration, the generates hint of a type declaration and the
operator name of an external macro are `StringLiteralUnquote` of the text of
their token, and the declaration is produced exactly when the position resolves
and the literal decodes. -/
theorem decoder_on_declaration_literals_only :
    (∀ (g : AstGenerator) a t e,
      g.visitPrimaryExpression (.stringLiteral a t) = .ok e ↔
        ∃ pos, g.Pos a = .ok pos ∧ e = .StringLiteralExpression pos t) ∧
    (∀ (g : AstGenerator) a t,
      g.visitPrimaryExpression (.stringLiteral a t) ≠ .error .unreachable) ∧
    (∀ (g : AstGenerator) (c : ConstDeclarationContext) d,
      g.visitConstDeclaration c = .ok d ↔
        ∃ pos literal, g.Pos c.a = .ok pos ∧
          StringLiteralUnquote c.STRING_LITERAL = .ok literal ∧
          d = .ConstDeclaration pos c.IDENTIFIER c.type.IDENTIFIER literal) ∧
    (∀ (g : AstGenerator) (c : TypeDeclarationContext) hint d,
      c.generatesDeclaration = some hint →
      (g.visitTypeDeclaration c = .ok d ↔
        ∃ pos generates, g.Pos c.a = .ok pos ∧
          StringLiteralUnquote hint.STRING_LITERAL = .ok generates ∧
          d = .TypeDeclaration pos c.IDENTIFIER (c.extendsDeclaration.map (·.IDENTIFIER))
            (some generates))) ∧
    (∀ (g : AstGenerator) (c : ExternalMacroContext) t d,
      c.STRING_LITERAL = some t →
      (g.visitExternalMacro c = .ok d ↔
        ∃ pos op, g.Pos c.a = .ok pos ∧ StringLiteralUnquote t = .ok op ∧
          d = .ExternalMacroDeclaration pos c.IDENTIFIER c.IMPLICIT (some op)
            (visitTypeListMaybeVarArgs c.typeListMaybeVarArgs)
            (GetOptionalType c.optionalType)
            (GetOptionalLabelAndTypeList c.optionalLabelList))) := by
  refine ⟨?_, ?_, ?_, ?_, ?_⟩
  · intro g a t e
    simp only [visitPrimaryExpression, bind_eq_ok, pure_eq_ok]
    constructor
    · rintro ⟨pos, hp, rfl⟩
      exact ⟨pos, hp, rfl⟩
    · rintro ⟨pos, hp, rfl⟩
      exact ⟨pos, hp, rfl⟩
  · intro g a t h
    simp only [visitPrimaryExpression] at h
    cases hp : g.Pos a with
    | error fault =>
      rw [hp] at h
      have hf : fault = .unreachable := by
        cases h
        rfl
      rw [hf] at hp
      exact Pos_ne_unreachable g a hp
    | ok pos =>
      rw [hp] at h
      cases h
  · intro g c d
    simp only [visitConstDeclaration, bind_eq_ok, pure_eq_ok]
    constructor
    · rintro ⟨pos, hp, literal, hl, rfl⟩
      exact ⟨pos, literal, hp, hl, rfl⟩
    · rintro ⟨pos, literal, hp, hl, rfl⟩
      exact ⟨pos, hp, literal, hl, rfl⟩
  · intro g c hint d hc
    simp only [visitTypeDeclaration, hc, bind_eq_ok, pure_eq_ok]
    constructor
    · rintro ⟨pos, hp, generates, hl, rfl⟩
      exact ⟨pos, generates, hp, hl, rfl⟩
    · rintro ⟨pos, generates, hp, hl, rfl⟩
      exact ⟨pos, hp, generates, hl, rfl⟩
  · intro g c t d hc
    simp only [visitExternalMacro, hc, bind_eq_ok, pure_eq_ok]
    constructor
    · rintro ⟨pos, hp, op, hl, rfl⟩
      exact ⟨pos, op, hp, hl, rfl⟩
    · rintro ⟨pos, op, hp, hl, rfl⟩
      exact ⟨pos, hp, op, hl, rfl⟩

theorem decoder_on_declaration_literals_only_witness :
    (generatorWithTokens (tokensOnLineOne 1)).visitPrimaryExpression
        (.stringLiteral 0 unknownEscapeLiteral) =
      .ok (.StringLiteralExpression (lineOne 0) unknownEscapeLiteral) ∧
    StringLiteralUnquote unknownEscapeLiteral = .error .unreachable ∧
    (enterSourceFile initialGenerator sampleFile).visitConstDeclaration sampleConst =
      .ok (.ConstDeclaration (inFileZero 1 0) "K" "T" "k") ∧
    ∃ pos literal, (enterSourceFile initialGenerator sampleFile).Pos sampleConst.a = .ok pos ∧
      StringLiteralUnquote sampleConst.STRING_LITERAL = .ok literal ∧
      Declaration.ConstDeclaration (inFileZero 1 0) "K" "T" "k" =
        .ConstDeclaration pos sampleConst.IDENTIFIER sampleConst.type.IDENTIFIER literal :=
  ⟨rfl, rfl, rfl,
    (decoder_on_declaration_literals_only.2.2.1 (enterSourceFile initialGenerator sampleFile)
      sampleConst _).mp rfl⟩

end Torque
